import Mathlib

/-!
# TdMtFfMacScheduler: a shallow embedding and its verified properties

Source: `src/lte/model/tdmt-ff-mac-scheduler.cc`.

The scheduler object is a record of its member variables (`SchedState`), every
member function is a function on that record, and every way a call can end
without returning normally is a value of `Fault`:

* `NS_FATAL_ERROR` / `NS_ABORT_MSG_IF`  -> `Fault.fatal`
* `NS_ASSERT` / `NS_ASSERT_MSG`         -> `Fault.assertion`
* `std::vector::at` out of range         -> `Fault.outOfRange`
* `std::vector::resize` beyond max size  -> `Fault.lengthError`
* dereferencing or incrementing `end()`  -> `Fault.undefinedBehaviour`
* a loop that never leaves               -> `Fault.diverges`

`std::map<uint16_t, T>` is an association list kept in ascending key order,
`std::set<uint16_t>` an ascending list, `std::vector<T>` a list.  Machine
integers are natural numbers, reduced modulo `2^w` at the places where the
source stores into a `w`-bit variable that can overflow.

Collaborators whose code is not part of the scheduler source (the LteAmc
link-adaptation tables, `TransmissionModesLayers::TxMode2LayerNum`, the
constants of the scheduler header) are the fields of `Env`.
-/

namespace TdMt

/-! ## Faults and containers -/

/-- Abnormal ends of a member function call. -/
inductive Fault where
  | fatal
  | assertion
  | outOfRange
  | lengthError
  | undefinedBehaviour
  | diverges
deriving DecidableEq, Repr

/-- Result of a call that may end abnormally. -/
abbrev Res (α : Type) := Except Fault α

/-- Element access `v.at(i)` of a `std::vector`. -/
def vecAt {α : Type} (v : List α) (i : Nat) : Res α :=
  match v[i]? with
  | some x => .ok x
  | none => .error .outOfRange

/-- Assignment `v.at(i) = x` of a `std::vector`. -/
def vecSet {α : Type} (v : List α) (i : Nat) (x : α) : Res (List α) :=
  if i < v.length then .ok (v.set i x) else .error .outOfRange

/-- Call `v.resize(n, x)` of a `std::vector`. -/
def vecResize {α : Type} (v : List α) (n : Nat) (x : α) : List α :=
  v.take n ++ List.replicate (n - v.length) x

/-- A `std::map<uint16_t, T>`: association list in ascending key order. -/
abbrev RMap (α : Type) := List (Nat × α)

/-- Lookup `m.find(k)`; `none` stands for `end()`. -/
def RMap.find {α : Type} : RMap α → Nat → Option α
  | [], _ => none
  | (k, v) :: m, key => if k = key then some v else RMap.find m key

/-- Overwrite the value stored under an existing key (`(*it).second = v`);
an absent key leaves the map as it is. -/
def RMap.assign {α : Type} : RMap α → Nat → α → RMap α
  | [], _, _ => []
  | (k, v) :: m, key, x =>
      if k = key then (k, x) :: m else (k, v) :: RMap.assign m key x

/-- Adding a pair with a new key at its place in key order. -/
def RMap.insertNew {α : Type} : RMap α → Nat → α → RMap α
  | [], key, x => [(key, x)]
  | (k, v) :: m, key, x =>
      if key < k then (key, x) :: (k, v) :: m
      else (k, v) :: RMap.insertNew m key x

/-- The call `m.insert(pair(k, v))`: no effect when the key is present,
otherwise the pair is added at its place in key order. -/
def RMap.insert {α : Type} (m : RMap α) (key : Nat) (x : α) : RMap α :=
  match m.find key with
  | some _ => m
  | none => RMap.insertNew m key x

/-- The call `m.erase(k)`. -/
def RMap.erase {α : Type} : RMap α → Nat → RMap α
  | [], _ => []
  | (k, v) :: m, key => if k = key then RMap.erase m key else (k, v) :: RMap.erase m key

/-- Insertion into a `std::set<uint16_t>` (ascending list without repeats). -/
def setInsert : List Nat → Nat → List Nat
  | [], key => [key]
  | k :: m, key =>
      if k = key then k :: m
      else if key < k then key :: k :: m
      else k :: setInsert m key

/-- Removal from a `std::set<uint16_t>`. -/
def setErase (s : List Nat) (key : Nat) : List Nat :=
  s.filter (fun k => k != key)

/-! ## Records of the FemtoForum MAC scheduler interface used by the scheduler -/

/-- Downlink DCI (`DlDciListElement_s`), the fields the scheduler reads or writes. -/
structure DlDciListElement_s where
  m_rnti : Nat
  m_rbBitmap : Nat
  m_resAlloc : Nat
  m_harqProcess : Nat
  m_mcs : List Nat
  m_tbsSize : List Nat
  m_ndi : List Nat
  m_rv : List Nat
  m_tpc : Nat
deriving DecidableEq, Repr

/-- A default-constructed downlink DCI (a fresh slot of the DCI buffer). -/
def DlDciListElement_s.empty : DlDciListElement_s :=
  { m_rnti := 0, m_rbBitmap := 0, m_resAlloc := 0, m_harqProcess := 0,
    m_mcs := [], m_tbsSize := [], m_ndi := [], m_rv := [], m_tpc := 0 }

/-- One RLC PDU of a transport block (`RlcPduListElement_s`). -/
structure RlcPduListElement_s where
  m_logicalChannelIdentity : Nat
  m_size : Nat
deriving DecidableEq, Repr

/-- One downlink data descriptor (`BuildDataListElement_s`). -/
structure BuildDataListElement_s where
  m_rnti : Nat
  m_dci : DlDciListElement_s
  m_rlcPduList : List (List RlcPduListElement_s)
deriving DecidableEq, Repr

/-- HARQ feedback value of one transport block. -/
inductive HarqStatus_e where
  | ACK
  | NACK
  | DTX
deriving DecidableEq, Repr

/-- One downlink HARQ feedback entry (`DlInfoListElement_s`). -/
structure DlInfoListElement_s where
  m_rnti : Nat
  m_harqProcessId : Nat
  m_harqStatus : List HarqStatus_e
deriving DecidableEq, Repr

/-- Uplink DCI (`UlDciListElement_s`), the fields the scheduler reads or writes. -/
structure UlDciListElement_s where
  m_rnti : Nat
  m_rbStart : Nat
  m_rbLen : Nat
  m_tbSize : Nat
  m_mcs : Nat
  m_ndi : Nat
deriving DecidableEq, Repr

/-- A default-constructed uplink DCI. -/
def UlDciListElement_s.empty : UlDciListElement_s :=
  { m_rnti := 0, m_rbStart := 0, m_rbLen := 0, m_tbSize := 0, m_mcs := 0, m_ndi := 0 }

/-- Uplink grant of a random access response (`BuildRarListElement_s.m_grant`). -/
structure BuildRarListElement_s where
  m_rnti : Nat
  m_grant_rnti : Nat
  m_grant_mcs : Nat
  m_grant_rbStart : Nat
  m_grant_rbLen : Nat
  m_grant_tbSize : Nat
deriving DecidableEq, Repr

/-- A pending random access request (`RachListElement_s`). -/
structure RachListElement_s where
  m_rnti : Nat
  m_estimatedSize : Nat
deriving DecidableEq, Repr

/-- Reception outcome of an uplink transport block. -/
inductive ReceptionStatus_e where
  | Ok
  | NotOk
  | NotValid
deriving DecidableEq, Repr

/-- One uplink reception report (`UlInfoListElement_s`). -/
structure UlInfoListElement_s where
  m_rnti : Nat
  m_receptionStatus : ReceptionStatus_e
deriving DecidableEq, Repr

/-- Key of the RLC buffer ledger (`LteFlowId_t`), ordered by user then channel. -/
structure LteFlowId_t where
  m_rnti : Nat
  m_lcId : Nat
deriving DecidableEq, Repr

/-- Queue sizes of one logical channel (`SchedDlRlcBufferReqParameters`). -/
structure SchedDlRlcBufferReqParameters where
  m_rnti : Nat
  m_logicalChannelIdentity : Nat
  m_rlcTransmissionQueueSize : Nat
  m_rlcRetransmissionQueueSize : Nat
  m_rlcStatusPduSize : Nat
deriving DecidableEq, Repr

/-- Type tag of a downlink channel-quality report element. -/
inductive CqiType_e where
  | P10
  | P11
  | P20
  | P21
  | A12
  | A22
  | A20
  | A30
  | A31
deriving DecidableEq, Repr

/-- One downlink channel-quality report element (`CqiListElement_s`); the
subband measurement is kept as the list of its subband values. -/
structure CqiListElement_s where
  m_rnti : Nat
  m_cqiType : CqiType_e
  m_wbCqi : List Nat
  m_sbMeasResult : List Nat
deriving DecidableEq, Repr

/-- Type tag of an uplink channel-quality report. -/
inductive UlCqiType_e where
  | SRS
  | PUSCH
  | PUCCH_1
  | PUCCH_2
  | PRACH
deriving DecidableEq, Repr

/-- Setting of the `m_ulCqiFilter` attribute of the scheduler base class. -/
inductive UlCqiFilter_t where
  | SRS_UL_CQI
  | PUSCH_UL_CQI
  | other
deriving DecidableEq, Repr

/-- Type tag of a MAC control element. -/
inductive MacCeType_e where
  | BSR
  | PHR
  | CRNTI
deriving DecidableEq, Repr

/-- One MAC control element (`MacCeListElement_s`). -/
structure MacCeListElement_s where
  m_rnti : Nat
  m_macCeType : MacCeType_e
  m_bufferStatus : List Nat
deriving DecidableEq, Repr

/-! ## Collaborators and header constants -/

/-- Everything the scheduler source uses but does not define: the constants of
its header and the collaborator services.  Uplink SINR samples are doubles in
the source; here a sample is an integer (the source receives them in S11.3
fixed point), and the floating-point computations on them are the environment
functions `avgSinr` (the mean taken in `EstimateUlSinr`), `cqiFromSinr`
(the spectral-efficiency formula followed by
`LteAmc::GetCqiFromSpectralEfficiency`) and `fpS11dot3toDouble`. -/
structure Env where
  HARQ_DL_TIMEOUT : Nat
  HARQ_PERIOD : Nat
  NO_SINR : Int
  DBL_MAX : Int
  GetMcsFromCqi : Nat → Nat
  GetDlTbSizeFromMcs : Nat → Nat → Nat
  GetUlTbSizeFromMcs : Nat → Nat → Nat
  TxMode2LayerNum : Nat → Nat
  BsrId2BufferSize : Nat → Nat
  avgSinr : List Int → Int
  cqiFromSinr : Int → Nat
  fpS11dot3toDouble : Nat → Int
  SRS_CQI_RNTI_VSP : Nat

/-- Modelled from the spec: the constant `HARQ_PROC_NUM` of the scheduler
header, which is not part of the source file; the spec fixes the number of
HARQ process slots per user and direction at 8 (as do the `resize(8, 0)`
calls of `DoCschedUeConfigReq`). -/
def HARQ_PROC_NUM : Nat := 8

/-! ## Scheduler state -/

/-- The member variables of `TdMtFfMacScheduler`. -/
structure SchedState where
  m_harqOn : Bool
  m_cqiTimersThreshold : Nat
  m_ulGrantMcs : Nat
  m_ulCqiFilter : UlCqiFilter_t
  m_dlBandwidth : Nat
  m_ulBandwidth : Nat
  m_uesTxMode : RMap Nat
  m_dlHarqCurrentProcessId : RMap Nat
  m_dlHarqProcessesStatus : RMap (List Nat)
  m_dlHarqProcessesTimer : RMap (List Nat)
  m_dlHarqProcessesDciBuffer : RMap (List DlDciListElement_s)
  m_dlHarqProcessesRlcPduListBuffer : RMap (List (List (List RlcPduListElement_s)))
  m_dlInfoListBuffered : List DlInfoListElement_s
  m_ulHarqCurrentProcessId : RMap Nat
  m_ulHarqProcessesStatus : RMap (List Nat)
  m_ulHarqProcessesDciBuffer : RMap (List UlDciListElement_s)
  m_flowStatsDl : List Nat
  m_flowStatsUl : List Nat
  m_ceBsrRxed : RMap Nat
  m_rlcBufferReq : List (LteFlowId_t × SchedDlRlcBufferReqParameters)
  m_p10CqiRxed : RMap Nat
  m_p10CqiTimers : RMap Nat
  m_a30CqiRxed : RMap (List Nat)
  m_a30CqiTimers : RMap Nat
  m_ueCqi : RMap (List Int)
  m_ueCqiTimers : RMap Nat
  m_allocationMaps : RMap (List Nat)
  m_rachList : List RachListElement_s
  m_rachAllocationMap : List Nat
  m_nextRntiUl : Nat

/-- The scheduler right after construction with the given attribute values. -/
def SchedState.init (harqOn : Bool) (cqiTimersThreshold ulGrantMcs : Nat)
    (filter : UlCqiFilter_t) : SchedState :=
  { m_harqOn := harqOn, m_cqiTimersThreshold := cqiTimersThreshold,
    m_ulGrantMcs := ulGrantMcs, m_ulCqiFilter := filter,
    m_dlBandwidth := 0, m_ulBandwidth := 0,
    m_uesTxMode := [], m_dlHarqCurrentProcessId := [], m_dlHarqProcessesStatus := [],
    m_dlHarqProcessesTimer := [], m_dlHarqProcessesDciBuffer := [],
    m_dlHarqProcessesRlcPduListBuffer := [], m_dlInfoListBuffered := [],
    m_ulHarqCurrentProcessId := [], m_ulHarqProcessesStatus := [],
    m_ulHarqProcessesDciBuffer := [], m_flowStatsDl := [], m_flowStatsUl := [],
    m_ceBsrRxed := [], m_rlcBufferReq := [], m_p10CqiRxed := [], m_p10CqiTimers := [],
    m_a30CqiRxed := [], m_a30CqiTimers := [], m_ueCqi := [], m_ueCqiTimers := [],
    m_allocationMaps := [], m_rachList := [], m_rachAllocationMap := [],
    m_nextRntiUl := 0 }

/-! ## HARQ process store (downlink) -/

/-- The probing loop shared by `HarqProcessAvailability` and
`UpdateHarqProcessId`:
`do { i = (i + 1) % HARQ_PROC_NUM; } while (stat.at(i) != 0 && i != cur);`
run for at most `fuel` rounds. The value is the `i` at which the loop leaves. -/
def harqProbe (stat : List Nat) (cur : Nat) : Nat → Nat → Res Nat
  | 0, _ => .error .diverges
  | fuel + 1, i =>
      let i1 := (i + 1) % HARQ_PROC_NUM
      match vecAt stat i1 with
      | .error f => .error f
      | .ok st => if st ≠ 0 ∧ i1 ≠ cur then harqProbe stat cur fuel i1 else .ok i1

/-- Rounds granted to the probing loop. Round `k` looks at slot
`(cur + k) % HARQ_PROC_NUM`, so after `HARQ_PROC_NUM` rounds every slot has been
looked at: the loop has left by then, unless no slot is free and the last-used
slot is outside the table, in which case the source never leaves the loop. -/
def harqProbeFuel : Nat := HARQ_PROC_NUM

/-- Member function `HarqProcessAvailability(rnti)`. It reads the scheduler and
writes no member, so it is a function of the state alone. -/
def HarqProcessAvailability (s : SchedState) (rnti : Nat) : Res Bool :=
  match s.m_dlHarqCurrentProcessId.find rnti with
  | none => .error .fatal
  | some cur =>
    match s.m_dlHarqProcessesStatus.find rnti with
    | none => .error .fatal
    | some stat =>
      match harqProbe stat cur harqProbeFuel cur with
      | .error f => .error f
      | .ok i =>
        match vecAt stat i with
        | .error f => .error f
        | .ok st => .ok (st == 0)

/-- Member function `UpdateHarqProcessId(rnti)`: the returned process id and
the scheduler after the call. -/
def UpdateHarqProcessId (s : SchedState) (rnti : Nat) : Res (Nat × SchedState) :=
  if s.m_harqOn = false then .ok (0, s)
  else
    match s.m_dlHarqCurrentProcessId.find rnti with
    | none => .error .fatal
    | some cur =>
      match s.m_dlHarqProcessesStatus.find rnti with
      | none => .error .fatal
      | some stat =>
        match harqProbe stat cur harqProbeFuel cur with
        | .error f => .error f
        | .ok i =>
          match vecAt stat i with
          | .error f => .error f
          | .ok st =>
            if st = 0 then
              match vecSet stat i 1 with
              | .error f => .error f
              | .ok stat1 =>
                .ok (i, { s with
                  m_dlHarqCurrentProcessId := s.m_dlHarqCurrentProcessId.assign rnti i,
                  m_dlHarqProcessesStatus := s.m_dlHarqProcessesStatus.assign rnti stat1 })
            else .error .fatal

/-- Inner loop of `RefreshHarqProcesses` for one user: slots `i, i+1, ...`
(`n` of them) of the timer vector `tm`, with the status map `status`. -/
def refreshHarqSlots (env : Env) (rnti : Nat) :
    Nat → Nat → List Nat → RMap (List Nat) → Res (List Nat × RMap (List Nat))
  | 0, _, tm, status => .ok (tm, status)
  | n + 1, i, tm, status =>
      match vecAt tm i with
      | .error f => .error f
      | .ok t =>
        if t = env.HARQ_DL_TIMEOUT then
          match status.find rnti with
          | none => .error .fatal
          | some stat =>
            match vecSet stat i 0 with
            | .error f => .error f
            | .ok stat1 =>
              match vecSet tm i 0 with
              | .error f => .error f
              | .ok tm1 => refreshHarqSlots env rnti n (i + 1) tm1 (status.assign rnti stat1)
        else
          match vecSet tm i ((t + 1) % 256) with
          | .error f => .error f
          | .ok tm1 => refreshHarqSlots env rnti n (i + 1) tm1 status

/-- Outer loop of `RefreshHarqProcesses` over the entries of
`m_dlHarqProcessesTimer`. -/
def refreshHarqUsers (env : Env) :
    RMap (List Nat) → RMap (List Nat) → Res (RMap (List Nat) × RMap (List Nat))
  | [], status => .ok ([], status)
  | (rnti, tm) :: rest, status =>
      match refreshHarqSlots env rnti HARQ_PROC_NUM 0 tm status with
      | .error f => .error f
      | .ok (tm1, status1) =>
        match refreshHarqUsers env rest status1 with
        | .error f => .error f
        | .ok (rest1, status2) => .ok ((rnti, tm1) :: rest1, status2)

/-- Member function `RefreshHarqProcesses()`. -/
def RefreshHarqProcesses (env : Env) (s : SchedState) : Res SchedState :=
  match refreshHarqUsers env s.m_dlHarqProcessesTimer s.m_dlHarqProcessesStatus with
  | .error f => .error f
  | .ok (timers, status) =>
    .ok { s with m_dlHarqProcessesTimer := timers, m_dlHarqProcessesStatus := status }

/-! ## Channel-quality store -/

/-- The loop of `RefreshDlCqiMaps` / `RefreshUlCqiMaps` over one timer map and
its sample map: an entry whose timer is found at 0 is erased from both maps
(the assertion fails when the sample is missing), every other timer is
decremented. -/
def refreshCqiLoop {α : Type} : RMap Nat → RMap α → Res (RMap Nat × RMap α)
  | [], rxed => .ok ([], rxed)
  | (rnti, t) :: rest, rxed =>
      if t = 0 then
        match rxed.find rnti with
        | none => .error .assertion
        | some _ => refreshCqiLoop rest (rxed.erase rnti)
      else
        match refreshCqiLoop rest rxed with
        | .error f => .error f
        | .ok (rest1, rxed1) => .ok ((rnti, t - 1) :: rest1, rxed1)

/-- Member function `RefreshDlCqiMaps()`: the P10 (wideband) map, then the A30
(subband) map. -/
def RefreshDlCqiMaps (s : SchedState) : Res SchedState :=
  match refreshCqiLoop s.m_p10CqiTimers s.m_p10CqiRxed with
  | .error f => .error f
  | .ok (t10, r10) =>
    match refreshCqiLoop s.m_a30CqiTimers s.m_a30CqiRxed with
    | .error f => .error f
    | .ok (t30, r30) =>
      .ok { s with m_p10CqiTimers := t10, m_p10CqiRxed := r10,
                   m_a30CqiTimers := t30, m_a30CqiRxed := r30 }

/-- Member function `RefreshUlCqiMaps()`. -/
def RefreshUlCqiMaps (s : SchedState) : Res SchedState :=
  match refreshCqiLoop s.m_ueCqiTimers s.m_ueCqi with
  | .error f => .error f
  | .ok (t, r) => .ok { s with m_ueCqiTimers := t, m_ueCqi := r }

/-! ## RLC buffer ledger -/

/-- Member function `LcActivePerFlow(rnti)`: the loop over the ledger, which
counts the entries of the user with a non-empty queue and leaves at the first
entry of a larger user id. -/
def lcActiveLoop (rnti : Nat) :
    List (LteFlowId_t × SchedDlRlcBufferReqParameters) → Nat → Nat
  | [], lcActive => lcActive
  | (flow, req) :: rest, lcActive =>
      let lcActive1 :=
        if flow.m_rnti = rnti ∧ (req.m_rlcTransmissionQueueSize > 0 ∨
            req.m_rlcRetransmissionQueueSize > 0 ∨ req.m_rlcStatusPduSize > 0)
        then lcActive + 1 else lcActive
      if flow.m_rnti > rnti then lcActive1 else lcActiveLoop rnti rest lcActive1

/-- Member function `LcActivePerFlow(rnti)`. -/
def LcActivePerFlow (s : SchedState) (rnti : Nat) : Nat :=
  lcActiveLoop rnti s.m_rlcBufferReq 0

/-- The queue update of `UpdateDlRlcBufferInfo` on the entry found: status PDU,
then retransmission queue, then transmission queue. `size - rlcOverhead` is
computed in `uint32_t`. -/
def updateDlRlcQueues (lcid size : Nat) (req : SchedDlRlcBufferReqParameters) :
    SchedDlRlcBufferReqParameters :=
  if req.m_rlcStatusPduSize > 0 ∧ size ≥ req.m_rlcStatusPduSize then
    { req with m_rlcStatusPduSize := 0 }
  else if req.m_rlcRetransmissionQueueSize > 0 ∧ size ≥ req.m_rlcRetransmissionQueueSize then
    { req with m_rlcRetransmissionQueueSize := 0 }
  else if req.m_rlcTransmissionQueueSize > 0 then
    let rlcOverhead := if lcid = 1 then 4 else 2
    let granted := (size + 2 ^ 32 - rlcOverhead) % 2 ^ 32
    if req.m_rlcTransmissionQueueSize ≤ granted then
      { req with m_rlcTransmissionQueueSize := 0 }
    else
      { req with m_rlcTransmissionQueueSize := req.m_rlcTransmissionQueueSize - granted }
  else req

/-- Apply `f` to the value stored under the first entry with the given flow id
(the entry `m_rlcBufferReq.find(flow)` points at); no entry, no change. -/
def ledgerUpdate (flow : LteFlowId_t)
    (f : SchedDlRlcBufferReqParameters → SchedDlRlcBufferReqParameters) :
    List (LteFlowId_t × SchedDlRlcBufferReqParameters) →
    List (LteFlowId_t × SchedDlRlcBufferReqParameters)
  | [] => []
  | (k, v) :: rest =>
      if k = flow then (k, f v) :: rest else (k, v) :: ledgerUpdate flow f rest

/-- Member function `UpdateDlRlcBufferInfo(rnti, lcid, size)`. -/
def UpdateDlRlcBufferInfo (s : SchedState) (rnti lcid size : Nat) : SchedState :=
  let ledger := ledgerUpdate { m_rnti := rnti, m_lcId := lcid }
    (updateDlRlcQueues lcid size) s.m_rlcBufferReq
  { s with m_rlcBufferReq := ledger }

/-- Member function `UpdateUlRlcBufferInfo(rnti, size)`; `size - 2` is computed
in `uint16_t`. -/
def UpdateUlRlcBufferInfo (s : SchedState) (rnti size : Nat) : SchedState :=
  let size1 := (size + 65536 - 2) % 65536
  match s.m_ceBsrRxed.find rnti with
  | some b =>
    { s with m_ceBsrRxed := s.m_ceBsrRxed.assign rnti (if b ≥ size1 then b - size1 else 0) }
  | none => s

/-! ## Resource block groups -/

/-- The table `TdMtType0AllocationRbg`. -/
def TdMtType0AllocationRbg : List Int := [10, 26, 63, 110]

/-- The loop of `GetRbgSize` from table index `i` on. -/
def getRbgSizeLoop (dlbandwidth : Int) : List Int → Int → Int
  | [], _ => -1
  | t :: rest, i => if dlbandwidth < t then i + 1 else getRbgSizeLoop dlbandwidth rest (i + 1)

/-- Member function `GetRbgSize(dlbandwidth)`. -/
def GetRbgSize (dlbandwidth : Int) : Int :=
  getRbgSizeLoop dlbandwidth TdMtType0AllocationRbg 0

/-- Decoding loop of an RBG bitmap: the indices `j` in `from, from+1, ...`
(`n` of them) with `((bitmap & mask) >> j) == 1`, in ascending order. -/
def decodeRbgBitmapFrom (bitmap : Nat) : Nat → Nat → List Nat
  | 0, _ => []
  | n + 1, j =>
      if bitmap.testBit j then j :: decodeRbgBitmapFrom bitmap n (j + 1)
      else decodeRbgBitmapFrom bitmap n (j + 1)

/-- The RBG indices named by a 32-bit bitmap (`for (int j = 0; j < 32; j++)`). -/
def decodeRbgBitmap (bitmap : Nat) : List Nat :=
  decodeRbgBitmapFrom bitmap 32 0

/-- Encoding loop `rbgMask = rbgMask + (0x1 << rbg.at(k))` in `uint32_t`. -/
def encodeRbgMask : List Nat → Nat → Nat
  | [], mask => mask
  | r :: rest, mask => encodeRbgMask rest ((mask + 2 ^ r) % 2 ^ 32)

/-! ## Downlink pass: random access grants -/

/-- The search loop of the RACH allocation,
`while ((tbSizeBits < estimatedSize) && (rbStart + rbLen < ulBandwidth))`,
run for at most `fuel` rounds; `tbSizeBits` is a `uint16_t`. Every round
increments `rbLen`, so `ulBandwidth` rounds are always enough. -/
def rachGrantLen (env : Env) (mcs est rbStart ulBandwidth : Nat) : Nat → Nat → Nat → Nat × Nat
  | 0, rbLen, tbSizeBits => (rbLen, tbSizeBits)
  | fuel + 1, rbLen, tbSizeBits =>
      if tbSizeBits < est ∧ rbStart + rbLen < ulBandwidth then
        rachGrantLen env mcs est rbStart ulBandwidth fuel (rbLen + 1)
          (env.GetUlTbSizeFromMcs mcs (rbLen + 1) % 65536)
      else (rbLen, tbSizeBits)

/-- The loop `for (i = start; i < start + n; i++) v.at(i) = x`. -/
def vecFill {α : Type} (x : α) : Nat → Nat → List α → Res (List α)
  | 0, _, v => .ok v
  | n + 1, i, v =>
      match vecSet v i x with
      | .error f => .error f
      | .ok v1 => vecFill x n (i + 1) v1

/-- Storing the pre-staged uplink DCI of a RACH grant (`m_harqOn == true`). -/
def rachStoreDci (s : SchedState) (uldci : UlDciListElement_s) : Res SchedState :=
  match s.m_ulHarqCurrentProcessId.find uldci.m_rnti with
  | none => .error .fatal
  | some harqId =>
    match s.m_ulHarqProcessesDciBuffer.find uldci.m_rnti with
    | none => .error .fatal
    | some dcis =>
      match vecSet dcis harqId uldci with
      | .error f => .error f
      | .ok dcis1 =>
        .ok { s with m_ulHarqProcessesDciBuffer :=
                s.m_ulHarqProcessesDciBuffer.assign uldci.m_rnti dcis1 }

/-- The loop over `m_rachList` of `DoSchedDlTriggerReq`, from the request list
still to serve, the current `rbStart` and the RAR list built so far. -/
def rachLoop (env : Env) :
    List RachListElement_s → Nat → List BuildRarListElement_s → SchedState →
    Res (List BuildRarListElement_s × SchedState)
  | [], _, rar, s => .ok (rar, s)
  | r :: rest, rbStart, rar, s =>
      if env.GetUlTbSizeFromMcs s.m_ulGrantMcs s.m_ulBandwidth > r.m_estimatedSize then
        let found := rachGrantLen env s.m_ulGrantMcs r.m_estimatedSize rbStart
          s.m_ulBandwidth s.m_ulBandwidth 1 0
        let rbLen := found.1
        let tbSizeBits := found.2
        if tbSizeBits < r.m_estimatedSize then .ok (rar, s)
        else
          let newRar : BuildRarListElement_s :=
            { m_rnti := r.m_rnti, m_grant_rnti := r.m_rnti, m_grant_mcs := s.m_ulGrantMcs,
              m_grant_rbStart := rbStart, m_grant_rbLen := rbLen,
              m_grant_tbSize := tbSizeBits / 8 }
          match vecFill r.m_rnti rbLen rbStart s.m_rachAllocationMap with
          | .error f => .error f
          | .ok map1 =>
            let s1 := { s with m_rachAllocationMap := map1 }
            let uldci : UlDciListElement_s :=
              { m_rnti := r.m_rnti, m_rbStart := rbStart, m_rbLen := rbLen,
                m_tbSize := tbSizeBits / 8, m_mcs := s.m_ulGrantMcs, m_ndi := 1 }
            match (if s.m_harqOn then rachStoreDci s1 uldci else .ok s1) with
            | .error f => .error f
            | .ok s2 => rachLoop env rest (rbStart + rbLen) (rar ++ [newRar]) s2
      else .error .assertion

/-! ## Downlink pass: HARQ feedback -/

/-- Locals of `DoSchedDlTriggerReq` that live through the feedback loop. -/
structure DlLocals where
  rbgMap : List Bool
  rbgAllocatedNum : Nat
  rntiAllocated : List Nat
  buildDataList : List BuildDataListElement_s
  dlInfoListUntxed : List DlInfoListElement_s
deriving DecidableEq, Repr

/-- The vector `retx` built from the feedback of one entry. -/
def retxFlags (e : DlInfoListElement_s) : Res (List Bool) :=
  if e.m_harqStatus.length = 1 then
    match vecAt e.m_harqStatus 0 with
    | .error f => .error f
    | .ok a => .ok [decide (a = HarqStatus_e.NACK), false]
  else
    match vecAt e.m_harqStatus 0 with
    | .error f => .error f
    | .ok a =>
      match vecAt e.m_harqStatus 1 with
      | .error f => .error f
      | .ok b => .ok [decide (a = HarqStatus_e.NACK), decide (b = HarqStatus_e.NACK)]

/-- The value `rv` read from the stored DCI: the redundancy version of layer 0,
or the larger of layers 0 and 1. -/
def dciRv (dci : DlDciListElement_s) : Res Nat :=
  if dci.m_rv.length = 1 then vecAt dci.m_rv 0
  else
    match vecAt dci.m_rv 0 with
    | .error f => .error f
    | .ok a =>
      match vecAt dci.m_rv 1 with
      | .error f => .error f
      | .ok b => .ok (if a > b then a else b)

/-- The loop `for k: archive.at(k).at(harqId).clear()`. -/
def clearArchive (harqId : Nat) :
    List (List (List RlcPduListElement_s)) → Res (List (List (List RlcPduListElement_s)))
  | [] => .ok []
  | layer :: rest =>
      match vecSet layer harqId [] with
      | .error f => .error f
      | .ok layer1 =>
        match clearArchive harqId rest with
        | .error f => .error f
        | .ok rest1 => .ok (layer1 :: rest1)

/-- Freeing a process: status slot to 0 and archive cleared, as done both when
the maximum redundancy version is reached and on ACK. A missing status entry
is dereferenced after a logged error in the first case (`missing` is
`undefinedBehaviour`) and is a fatal error in the second. -/
def dlHarqRelease (missing : Fault) (s : SchedState) (rnti harqId : Nat) : Res SchedState :=
  match s.m_dlHarqProcessesStatus.find rnti with
  | none => .error missing
  | some stat =>
    match vecSet stat harqId 0 with
    | .error f => .error f
    | .ok stat1 =>
      match s.m_dlHarqProcessesRlcPduListBuffer.find rnti with
      | none => .error .fatal
      | some arch =>
        match clearArchive harqId arch with
        | .error f => .error f
        | .ok arch1 =>
          .ok { s with
            m_dlHarqProcessesStatus := s.m_dlHarqProcessesStatus.assign rnti stat1,
            m_dlHarqProcessesRlcPduListBuffer :=
              s.m_dlHarqProcessesRlcPduListBuffer.assign rnti arch1 }

/-- The feasibility loop: are the RBGs of `dciRbg` free in `rbgMap`? It leaves
at the first occupied one. -/
def rbgsFree (rbgMap : List Bool) : List Nat → Res Bool
  | [] => .ok true
  | r :: rest =>
      match vecAt rbgMap r with
      | .error f => .error f
      | .ok b => if b = true then .ok false else rbgsFree rbgMap rest

/-- The loop `rbgMap.at(dciRbg.at(j)) = true`. -/
def rbgsReserve : List Nat → List Bool → Res (List Bool)
  | [], m => .ok m
  | r :: rest, m =>
      match vecSet m r true with
      | .error f => .error f
      | .ok m1 => rbgsReserve rest m1

/-- The search loop for new RBGs,
`while ((j < dciRbg.size()) && (startRbg != rbgId))`, for at most `fuel` rounds.
The result is `(j, rbgMapCopy, dciRbg)` when the loop leaves. After `rbgNum`
rounds every RBG has been visited and marked in the copy, so a loop that has not
left by then never does. -/
def rbgSearchLoop (rbgNum startRbg : Nat) :
    Nat → Nat → Nat → List Bool → List Nat → Res (Nat × List Bool × List Nat)
  | 0, j, rbgId, copy, dciRbg =>
      if j < dciRbg.length ∧ startRbg ≠ rbgId then .error .diverges
      else .ok (j, copy, dciRbg)
  | fuel + 1, j, rbgId, copy, dciRbg =>
      if j < dciRbg.length ∧ startRbg ≠ rbgId then
        match vecAt copy rbgId with
        | .error f => .error f
        | .ok b =>
          if b = false then
            match vecSet copy rbgId true with
            | .error f => .error f
            | .ok copy1 =>
              match vecSet dciRbg j rbgId with
              | .error f => .error f
              | .ok dciRbg1 =>
                rbgSearchLoop rbgNum startRbg fuel (j + 1) ((rbgId + 1) % rbgNum) copy1 dciRbg1
          else rbgSearchLoop rbgNum startRbg fuel j ((rbgId + 1) % rbgNum) copy dciRbg
      else .ok (j, copy, dciRbg)

/-- Placement of a retransmission (the `if (free) ... else ...` statement):
on the RBGs of the stored DCI when all of them are free, otherwise on RBGs
found by the search, otherwise the entry `e` is stored in `dlInfoListUntxed`.
The result is the working copy of the DCI and the updated locals. -/
def dlRetxPlace (rbgNum : Nat) (e : DlInfoListElement_s) (dci : DlDciListElement_s)
    (l : DlLocals) : Res (DlDciListElement_s × DlLocals) :=
  let dciRbg := decodeRbgBitmap dci.m_rbBitmap
  match rbgsFree l.rbgMap dciRbg with
  | .error f => .error f
  | .ok free =>
    if free = true then
      match rbgsReserve dciRbg l.rbgMap with
      | .error f => .error f
      | .ok map1 =>
        .ok (dci, { l with rbgMap := map1,
                           rbgAllocatedNum := (l.rbgAllocatedNum + dciRbg.length) % 65536 })
    else
      match vecAt dciRbg (dciRbg.length - 1) with
      | .error f => .error f
      | .ok startRbg =>
        match rbgSearchLoop rbgNum startRbg rbgNum 0 ((startRbg + 1) % rbgNum)
            l.rbgMap dciRbg with
        | .error f => .error f
        | .ok (j, rbgMapCopy, dciRbg1) =>
          if j = dciRbg1.length then
            .ok ({ dci with m_rbBitmap := encodeRbgMask dciRbg1 0 },
                 { l with rbgMap := rbgMapCopy,
                          rbgAllocatedNum := (l.rbgAllocatedNum + dciRbg1.length) % 65536 })
          else
            .ok (dci, { l with dlInfoListUntxed := l.dlInfoListUntxed ++ [e] })

/-- One round of the per-layer update loop (`for j < nLayers`) on the working
copy `dci` and on the `m_rv` vector of the stored DCI. -/
def retxLayerStep (retx : List Bool) (j : Nat) (dci : DlDciListElement_s)
    (storedRv : List Nat) : Res (DlDciListElement_s × List Nat) :=
  match vecAt retx j with
  | .error f => .error f
  | .ok r =>
    if r = true then
      if j ≥ dci.m_ndi.length then
        .ok ({ dci with m_ndi := dci.m_ndi ++ [0], m_rv := dci.m_rv ++ [0],
                        m_mcs := dci.m_mcs ++ [0], m_tbsSize := dci.m_tbsSize ++ [0] },
             storedRv)
      else
        match vecSet dci.m_ndi j 0 with
        | .error f => .error f
        | .ok ndi1 =>
          match vecAt dci.m_rv j with
          | .error f => .error f
          | .ok rv =>
            match vecSet dci.m_rv j ((rv + 1) % 256) with
            | .error f => .error f
            | .ok rv1 =>
              match vecAt storedRv j with
              | .error f => .error f
              | .ok srv =>
                match vecSet storedRv j ((srv + 1) % 256) with
                | .error f => .error f
                | .ok storedRv1 => .ok ({ dci with m_ndi := ndi1, m_rv := rv1 }, storedRv1)
    else
      match vecSet dci.m_ndi j 0 with
      | .error f => .error f
      | .ok ndi1 =>
        match vecSet dci.m_rv j 0 with
        | .error f => .error f
        | .ok rv1 =>
          match vecSet dci.m_mcs j 0 with
          | .error f => .error f
          | .ok mcs1 =>
            match vecSet dci.m_tbsSize j 0 with
            | .error f => .error f
            | .ok tbs1 =>
              .ok ({ dci with m_ndi := ndi1, m_rv := rv1, m_mcs := mcs1, m_tbsSize := tbs1 },
                   storedRv)

/-- The per-layer update loop, layers `j, j+1, ...` (`n` of them). -/
def retxLayers (retx : List Bool) :
    Nat → Nat → DlDciListElement_s → List Nat → Res (DlDciListElement_s × List Nat)
  | 0, _, dci, storedRv => .ok (dci, storedRv)
  | n + 1, j, dci, storedRv =>
      match retxLayerStep retx j dci storedRv with
      | .error f => .error f
      | .ok (dci1, storedRv1) => retxLayers retx n (j + 1) dci1 storedRv1

/-- The inner loop building `rlcPduListPerLc` for PDU index `k`, layers
`j, j+1, ...` (`n` of them). -/
def retxPduPerLc (retx : List Bool) (arch : List (List (List RlcPduListElement_s)))
    (dci : DlDciListElement_s) (k : Nat) :
    Nat → Nat → List RlcPduListElement_s → Res (List RlcPduListElement_s)
  | 0, _, acc => .ok acc
  | n + 1, j, acc =>
      match vecAt retx j with
      | .error f => .error f
      | .ok r =>
        if r = true then
          if j < dci.m_ndi.length then
            match vecAt arch j with
            | .error f => .error f
            | .ok layer =>
              match vecAt layer dci.m_harqProcess with
              | .error f => .error f
              | .ok pdus =>
                match vecAt pdus k with
                | .error f => .error f
                | .ok el => retxPduPerLc retx arch dci k n (j + 1) (acc ++ [el])
          else retxPduPerLc retx arch dci k n (j + 1) acc
        else
          match vecAt arch j with
          | .error f => .error f
          | .ok layer =>
            match vecAt layer dci.m_harqProcess with
            | .error f => .error f
            | .ok pdus =>
              match vecAt pdus k with
              | .error f => .error f
              | .ok el =>
                retxPduPerLc retx arch dci k n (j + 1)
                  (acc ++ [{ m_logicalChannelIdentity := el.m_logicalChannelIdentity,
                             m_size := 0 }])

/-- The outer loop over the archived PDUs `k, k+1, ...` (`n` of them). -/
def retxPduList (retx : List Bool) (arch : List (List (List RlcPduListElement_s)))
    (dci : DlDciListElement_s) (nLayers : Nat) :
    Nat → Nat → List (List RlcPduListElement_s) → Res (List (List RlcPduListElement_s))
  | 0, _, acc => .ok acc
  | n + 1, k, acc =>
      match retxPduPerLc retx arch dci k nLayers 0 [] with
      | .error f => .error f
      | .ok perLc =>
        retxPduList retx arch dci nLayers n (k + 1)
          (if perLc.length > 0 then acc ++ [perLc] else acc)

/-- The statements after the placement: per-layer update of the DCI, PDU list
from the archive, write-back of `m_rv`, timer reset, descriptor pushed and user
recorded in `rntiAllocated`. `dcis` is the DCI buffer of the user and `dci` the
working copy after placement. -/
def dlRetxEmit (e : DlInfoListElement_s) (retx : List Bool) (dcis : List DlDciListElement_s)
    (dci : DlDciListElement_s) (s : SchedState) (l : DlLocals) : Res (SchedState × DlLocals) :=
  match s.m_dlHarqProcessesRlcPduListBuffer.find e.m_rnti with
  | none => .error .fatal
  | some arch =>
    match vecAt dcis e.m_harqProcessId with
    | .error f => .error f
    | .ok stored =>
      match retxLayers retx e.m_harqStatus.length 0 dci stored.m_rv with
      | .error f => .error f
      | .ok (dci1, _) =>
        match vecAt arch 0 with
        | .error f => .error f
        | .ok layer0 =>
          match vecAt layer0 dci1.m_harqProcess with
          | .error f => .error f
          | .ok pdus0 =>
            match retxPduList retx arch dci1 e.m_harqStatus.length pdus0.length 0 [] with
            | .error f => .error f
            | .ok rlcPduList =>
              let newEl : BuildDataListElement_s :=
                { m_rnti := e.m_rnti, m_dci := dci1, m_rlcPduList := rlcPduList }
              match vecSet dcis e.m_harqProcessId { stored with m_rv := dci1.m_rv } with
              | .error f => .error f
              | .ok dcis1 =>
                match s.m_dlHarqProcessesTimer.find e.m_rnti with
                | none => .error .fatal
                | some tm =>
                  match vecSet tm e.m_harqProcessId 0 with
                  | .error f => .error f
                  | .ok tm1 =>
                    .ok ({ s with
                            m_dlHarqProcessesDciBuffer :=
                              s.m_dlHarqProcessesDciBuffer.assign e.m_rnti dcis1,
                            m_dlHarqProcessesTimer :=
                              s.m_dlHarqProcessesTimer.assign e.m_rnti tm1 },
                         { l with buildDataList := l.buildDataList ++ [newEl],
                                  rntiAllocated := setInsert l.rntiAllocated e.m_rnti })

/-- The branch `if (retx.at(0) || retx.at(1))` for one feedback entry. -/
def dlHarqRetx (rbgNum : Nat) (e : DlInfoListElement_s) (retx : List Bool)
    (s : SchedState) (l : DlLocals) : Res (SchedState × DlLocals) :=
  match s.m_dlHarqProcessesDciBuffer.find e.m_rnti with
  | none => .error .fatal
  | some dcis =>
    match vecAt dcis e.m_harqProcessId with
    | .error f => .error f
    | .ok dci =>
      match dciRv dci with
      | .error f => .error f
      | .ok rv =>
        if rv = 3 then
          match dlHarqRelease .undefinedBehaviour s e.m_rnti e.m_harqProcessId with
          | .error f => .error f
          | .ok s1 => .ok (s1, l)
        else
          match dlRetxPlace rbgNum e dci l with
          | .error f => .error f
          | .ok (dci1, l1) => dlRetxEmit e retx dcis dci1 s l1

/-- The body of the loop over `m_dlInfoListBuffered` for one entry. -/
def dlHarqFeedbackEntry (rbgNum : Nat) (e : DlInfoListElement_s)
    (s : SchedState) (l : DlLocals) : Res (SchedState × DlLocals) :=
  if e.m_rnti ∈ l.rntiAllocated then .ok (s, l)
  else
    match retxFlags e with
    | .error f => .error f
    | .ok retx =>
      if retx[0]? = some true ∨ retx[1]? = some true then
        dlHarqRetx rbgNum e retx s l
      else
        match dlHarqRelease .fatal s e.m_rnti e.m_harqProcessId with
        | .error f => .error f
        | .ok s1 => .ok (s1, l)

/-- The loop over `m_dlInfoListBuffered`. -/
def dlHarqFeedbackLoop (rbgNum : Nat) :
    List DlInfoListElement_s → SchedState → DlLocals → Res (SchedState × DlLocals)
  | [], s, l => .ok (s, l)
  | e :: rest, s, l =>
      match dlHarqFeedbackEntry rbgNum e s l with
      | .error f => .error f
      | .ok (s1, l1) => dlHarqFeedbackLoop rbgNum rest s1 l1

/-! ## Downlink pass: new-data user selection -/

/-- The accumulation `achievableRate += (GetDlTbSizeFromMcs(mcs, rbgSize) / 8) / 0.001`
over `k` layers. The source accumulates in `double`; the embedding keeps the
exact value, `1000` times the byte count, which orders metrics as the doubles
do for the layer counts (1 and 2) of a transmission mode. -/
def dlAchievableRate (env : Env) (rbgSize wbCqi : Nat) : Nat → Nat
  | 0 => 0
  | k + 1 =>
      dlAchievableRate env rbgSize wbCqi k +
        env.GetDlTbSizeFromMcs (env.GetMcsFromCqi wbCqi % 256) rbgSize / 8 * 1000

/-- The wideband CQI used for a user: the stored sample, or 1 without one. -/
def dlWbCqi (s : SchedState) (rnti : Nat) : Nat :=
  match s.m_p10CqiRxed.find rnti with
  | some c => c
  | none => 1

/-- The body of the selection loop for the flow `rnti`; `itMax` and `metricMax`
are the best user and metric so far. For a user served by a retransmission the
test `itRnti != end || !HarqProcessAvailability(rnti)` is decided by its first
operand, and the branch it enters evaluates `HarqProcessAvailability(rnti)` for
its second log statement before it continues. -/
def dlSelectStep (env : Env) (s : SchedState) (rbgSize : Nat) (rntiAllocated : List Nat)
    (rnti : Nat) (itMax : Option Nat) (metricMax : Nat) : Res (Option Nat × Nat) :=
  if rnti ∈ rntiAllocated then
    match HarqProcessAvailability s rnti with
    | .error f => .error f
    | .ok _ => .ok (itMax, metricMax)
  else
    match HarqProcessAvailability s rnti with
    | .error f => .error f
    | .ok avail =>
      if avail = false then .ok (itMax, metricMax)
      else
        match s.m_uesTxMode.find rnti with
        | none => .error .fatal
        | some txMode =>
          if dlWbCqi s rnti ≠ 0 then
            if LcActivePerFlow s rnti > 0 then
              let metric :=
                dlAchievableRate env rbgSize (dlWbCqi s rnti) (env.TxMode2LayerNum txMode)
              if metric > metricMax then .ok (some rnti, metric) else .ok (itMax, metricMax)
            else .ok (itMax, metricMax)
          else .ok (itMax, metricMax)

/-- The selection loop over `m_flowStatsDl`. -/
def dlSelectLoop (env : Env) (s : SchedState) (rbgSize : Nat) (rntiAllocated : List Nat) :
    List Nat → Option Nat → Nat → Res (Option Nat × Nat)
  | [], itMax, metricMax => .ok (itMax, metricMax)
  | rnti :: rest, itMax, metricMax =>
      match dlSelectStep env s rbgSize rntiAllocated rnti itMax metricMax with
      | .error f => .error f
      | .ok (itMax1, metricMax1) =>
        dlSelectLoop env s rbgSize rntiAllocated rest itMax1 metricMax1

/-- The new-data user of a downlink pass: `itMax` after the selection loop
(`none` is `m_flowStatsDl.end()`). -/
def dlSelect (env : Env) (s : SchedState) (rbgSize : Nat) (rntiAllocated : List Nat) :
    Res (Option Nat) :=
  match dlSelectLoop env s rbgSize rntiAllocated s.m_flowStatsDl none 0 with
  | .error f => .error f
  | .ok (itMax, _) => .ok itMax

/-! ## Downlink pass: new-data grant -/

/-- The loop `for (i = 0; i < rbgNum; i++)` that hands every free RBG to the
selected user: indices `i, i+1, ...` (`n` of them); the result is the grid and
`tempMap`. -/
def takeFreeRbgs : Nat → Nat → List Bool → List Nat → Res (List Bool × List Nat)
  | 0, _, rbgMap, tempMap => .ok (rbgMap, tempMap)
  | n + 1, i, rbgMap, tempMap =>
      match vecAt rbgMap i with
      | .error f => .error f
      | .ok b =>
        if b = false then
          match vecSet rbgMap i true with
          | .error f => .error f
          | .ok rbgMap1 => takeFreeRbgs n (i + 1) rbgMap1 (tempMap ++ [i])
        else takeFreeRbgs n (i + 1) rbgMap tempMap

/-- The loop filling `m_mcs` and `m_tbsSize` of the new DCI over `n` layers;
`cqi` is the stored wideband CQI if there is one, `nPrb` is
`RgbPerRnti * rbgSize`. -/
def newDciLayers (env : Env) (cqi : Option Nat) (nPrb : Nat) :
    Nat → List Nat → List Nat → List Nat × List Nat
  | 0, mcs, tbs => (mcs, tbs)
  | n + 1, mcs, tbs =>
      let m := match cqi with
        | none => 0
        | some c => env.GetMcsFromCqi c % 256
      newDciLayers env cqi nPrb n (mcs ++ [m])
        (tbs ++ [env.GetDlTbSizeFromMcs m nPrb / 8 % 65536])

/-- Archiving one PDU: `archive.at(j).at(harqProcess).push_back(el)`. -/
def archivePush (s : SchedState) (rnti j harqProcess : Nat) (el : RlcPduListElement_s) :
    Res SchedState :=
  match s.m_dlHarqProcessesRlcPduListBuffer.find rnti with
  | none => .error .fatal
  | some arch =>
    match vecAt arch j with
    | .error f => .error f
    | .ok layer =>
      match vecAt layer harqProcess with
      | .error f => .error f
      | .ok pdus =>
        match vecSet layer harqProcess (pdus ++ [el]) with
        | .error f => .error f
        | .ok layer1 =>
          match vecSet arch j layer1 with
          | .error f => .error f
          | .ok arch1 =>
            .ok { s with m_dlHarqProcessesRlcPduListBuffer :=
                    s.m_dlHarqProcessesRlcPduListBuffer.assign rnti arch1 }

/-- The per-layer loop for one active logical channel: layers `j, j+1, ...`
(`n` of them); the result is the scheduler and `newRlcPduLe`. -/
def newDataLcLayers (rnti lcid lcActives harqProcess : Nat) (tbs : List Nat) :
    Nat → Nat → SchedState → List RlcPduListElement_s →
    Res (SchedState × List RlcPduListElement_s)
  | 0, _, s, acc => .ok (s, acc)
  | n + 1, j, s, acc =>
      match vecAt tbs j with
      | .error f => .error f
      | .ok tb =>
        let newRlcEl : RlcPduListElement_s :=
          { m_logicalChannelIdentity := lcid, m_size := tb / lcActives }
        let s1 := UpdateDlRlcBufferInfo s rnti lcid newRlcEl.m_size
        match (if s.m_harqOn then archivePush s1 rnti j harqProcess newRlcEl else .ok s1) with
        | .error f => .error f
        | .ok s2 => newDataLcLayers rnti lcid lcActives harqProcess tbs n (j + 1) s2 (acc ++ [newRlcEl])

/-- The loop over `m_rlcBufferReq` that creates the RLC PDUs, from the entry at
position `idx`, for at most `fuel` entries (the length of the ledger). -/
def newDataLedgerLoop (rnti lcActives harqProcess nLayer : Nat) (tbs : List Nat) :
    Nat → Nat → SchedState → List (List RlcPduListElement_s) →
    Res (SchedState × List (List RlcPduListElement_s))
  | 0, _, s, acc => .ok (s, acc)
  | fuel + 1, idx, s, acc =>
      match s.m_rlcBufferReq[idx]? with
      | none => .ok (s, acc)
      | some (flow, req) =>
        if flow.m_rnti = rnti ∧ (req.m_rlcTransmissionQueueSize > 0 ∨
            req.m_rlcRetransmissionQueueSize > 0 ∨ req.m_rlcStatusPduSize > 0) then
          match newDataLcLayers rnti flow.m_lcId lcActives harqProcess tbs nLayer 0 s [] with
          | .error f => .error f
          | .ok (s1, newRlcPduLe) =>
            if flow.m_rnti > rnti then .ok (s1, acc ++ [newRlcPduLe])
            else newDataLedgerLoop rnti lcActives harqProcess nLayer tbs fuel (idx + 1) s1
                   (acc ++ [newRlcPduLe])
        else if flow.m_rnti > rnti then .ok (s, acc)
        else newDataLedgerLoop rnti lcActives harqProcess nLayer tbs fuel (idx + 1) s acc

/-- Storing the new DCI and resetting the timer (`m_harqOn == true`). -/
def newDataStoreDci (s : SchedState) (newDci : DlDciListElement_s) : Res SchedState :=
  match s.m_dlHarqProcessesDciBuffer.find newDci.m_rnti with
  | none => .error .fatal
  | some dcis =>
    match vecSet dcis newDci.m_harqProcess newDci with
    | .error f => .error f
    | .ok dcis1 =>
      match s.m_dlHarqProcessesTimer.find newDci.m_rnti with
      | none => .error .fatal
      | some tm =>
        match vecSet tm newDci.m_harqProcess 0 with
        | .error f => .error f
        | .ok tm1 =>
          .ok { s with
            m_dlHarqProcessesDciBuffer := s.m_dlHarqProcessesDciBuffer.assign newDci.m_rnti dcis1,
            m_dlHarqProcessesTimer := s.m_dlHarqProcessesTimer.assign newDci.m_rnti tm1 }

/-- The body of the loop over `allocationMap` for its one entry
`(rnti, tempMap)`: the new-data descriptor and the scheduler after it. -/
def newDataGrant (env : Env) (rbgSize rnti : Nat) (tempMap : List Nat) (s : SchedState) :
    Res (SchedState × BuildDataListElement_s) :=
  match UpdateHarqProcessId s rnti with
  | .error f => .error f
  | .ok (harqProcess, s1) =>
    let lcActives0 := LcActivePerFlow s1 rnti % 65536
    let lcActives := if lcActives0 = 0 then 65535 else lcActives0
    let RgbPerRnti := tempMap.length
    match s1.m_uesTxMode.find rnti with
    | none => .error .fatal
    | some txMode =>
      let nLayer := env.TxMode2LayerNum txMode
      let layers := newDciLayers env (s1.m_p10CqiRxed.find rnti) (RgbPerRnti * rbgSize) nLayer [] []
      match newDataLedgerLoop rnti lcActives harqProcess nLayer layers.2
          s1.m_rlcBufferReq.length 0 s1 [] with
      | .error f => .error f
      | .ok (s2, rlcPduList) =>
        let newDci : DlDciListElement_s :=
          { m_rnti := rnti, m_rbBitmap := encodeRbgMask tempMap 0, m_resAlloc := 0,
            m_harqProcess := harqProcess, m_mcs := layers.1, m_tbsSize := layers.2,
            m_ndi := List.replicate nLayer 1, m_rv := List.replicate nLayer 0, m_tpc := 1 }
        match (if s2.m_harqOn then newDataStoreDci s2 newDci else .ok s2) with
        | .error f => .error f
        | .ok s3 => .ok (s3, { m_rnti := rnti, m_dci := newDci, m_rlcPduList := rlcPduList })

/-! ## Downlink pass -/

/-- The batch handed to `SchedDlConfigInd`. -/
structure SchedDlConfigIndParameters where
  m_buildDataList : List BuildDataListElement_s
  m_buildRarList : List BuildRarListElement_s
deriving DecidableEq, Repr

/-- The loop advancing the uplink HARQ process id of every user. -/
def advanceUlHarqProcessIds (m : RMap Nat) : RMap Nat :=
  m.map (fun kv => (kv.1, (kv.2 + 1) % HARQ_PROC_NUM))

/-- Merging the feedback of the trigger into `m_dlInfoListBuffered`, then
dropping all of it when HARQ is off. -/
def mergeDlInfo (s : SchedState) (dlInfoList : List DlInfoListElement_s) :
    List DlInfoListElement_s :=
  let merged :=
    if s.m_dlInfoListBuffered.length > 0 then
      if dlInfoList.length > 0 then s.m_dlInfoListBuffered ++ dlInfoList
      else s.m_dlInfoListBuffered
    else if dlInfoList.length > 0 then dlInfoList
    else s.m_dlInfoListBuffered
  if s.m_harqOn = false then [] else merged

/-- First part of `DoSchedDlTriggerReq`, up to the end of the HARQ feedback
loop: CQI refresh, grid set-up, uplink process ids, RACH grants, HARQ refresh
and feedback. The result is the scheduler (with the carry-over buffer
replaced), the locals, the RAR list, `rbgSize` and `rbgNum`. -/
def dlPassFeedback (env : Env) (s : SchedState) (dlInfoList : List DlInfoListElement_s) :
    Res (SchedState × DlLocals × List BuildRarListElement_s × Nat × Nat) :=
  match RefreshDlCqiMaps s with
  | .error f => .error f
  | .ok s1 =>
    let rbgSize := GetRbgSize s1.m_dlBandwidth
    if rbgSize < 0 then .error .lengthError
    else
      let rbgNum := s1.m_dlBandwidth / rbgSize.toNat
      let l0 : DlLocals :=
        { rbgMap := List.replicate rbgNum false, rbgAllocatedNum := 0, rntiAllocated := [],
          buildDataList := [], dlInfoListUntxed := [] }
      let s2 := { s1 with
        m_ulHarqCurrentProcessId := advanceUlHarqProcessIds s1.m_ulHarqCurrentProcessId,
        m_rachAllocationMap := vecResize s1.m_rachAllocationMap s1.m_ulBandwidth 0 }
      match rachLoop env s2.m_rachList 0 [] s2 with
      | .error f => .error f
      | .ok (rar, s3) =>
        match RefreshHarqProcesses env { s3 with m_rachList := [] } with
        | .error f => .error f
        | .ok s4 =>
          let s5 := { s4 with m_dlInfoListBuffered := mergeDlInfo s4 dlInfoList }
          match dlHarqFeedbackLoop rbgNum s5.m_dlInfoListBuffered s5 l0 with
          | .error f => .error f
          | .ok (s6, l1) =>
            .ok ({ s6 with m_dlInfoListBuffered := l1.dlInfoListUntxed }, l1, rar,
                 rbgSize.toNat, rbgNum)

/-- Second part of `DoSchedDlTriggerReq`: selection of the new-data user,
assignment of every free RBG to it and construction of its descriptor. The
result is the scheduler and the data descriptor list. -/
def dlPassNewData (env : Env) (s : SchedState) (l : DlLocals) (rbgSize rbgNum : Nat) :
    Res (SchedState × List BuildDataListElement_s) :=
  match dlSelect env s rbgSize l.rntiAllocated with
  | .error f => .error f
  | .ok none => .ok (s, l.buildDataList)
  | .ok (some rnti) =>
    match takeFreeRbgs rbgNum 0 l.rbgMap [] with
    | .error f => .error f
    | .ok (_, tempMap) =>
      if tempMap.length > 0 then
        match newDataGrant env rbgSize rnti tempMap s with
        | .error f => .error f
        | .ok (s1, newEl) => .ok (s1, l.buildDataList ++ [newEl])
      else .ok (s, l.buildDataList)

/-- Member function `DoSchedDlTriggerReq(params)` with `params.m_dlInfoList`
as argument: the scheduler after the pass and the batch handed to
`SchedDlConfigInd`, if the pass hands one over. -/
def DoSchedDlTriggerReq (env : Env) (s : SchedState) (dlInfoList : List DlInfoListElement_s) :
    Res (SchedState × Option SchedDlConfigIndParameters) :=
  match dlPassFeedback env s dlInfoList with
  | .error f => .error f
  | .ok (s1, l, rar, rbgSize, rbgNum) =>
    if l.rbgAllocatedNum = rbgNum then
      if l.buildDataList.length > 0 ∨ rar.length > 0 then
        .ok (s1, some { m_buildDataList := l.buildDataList, m_buildRarList := rar })
      else .ok (s1, none)
    else
      match dlPassNewData env s1 l rbgSize rbgNum with
      | .error f => .error f
      | .ok (s2, dataList) =>
        .ok (s2, some { m_buildDataList := dataList, m_buildRarList := rar })

/-! ## Configuration and report requests -/

/-- Member function `DoCschedCellConfigReq(params)` with the two bandwidths of
`params` (both `uint8_t` in the interface). -/
def DoCschedCellConfigReq (s : SchedState) (dlBandwidth ulBandwidth : Nat) : SchedState :=
  { s with m_dlBandwidth := dlBandwidth, m_ulBandwidth := ulBandwidth,
           m_rachAllocationMap := vecResize s.m_rachAllocationMap ulBandwidth 0 }

/-- Member function `DoCschedUeConfigReq(params)`. -/
def DoCschedUeConfigReq (s : SchedState) (rnti transmissionMode : Nat) : SchedState :=
  match s.m_uesTxMode.find rnti with
  | none =>
    { s with
      m_uesTxMode := s.m_uesTxMode.insert rnti transmissionMode,
      m_dlHarqCurrentProcessId := s.m_dlHarqCurrentProcessId.insert rnti 0,
      m_dlHarqProcessesStatus := s.m_dlHarqProcessesStatus.insert rnti (List.replicate 8 0),
      m_dlHarqProcessesTimer := s.m_dlHarqProcessesTimer.insert rnti (List.replicate 8 0),
      m_dlHarqProcessesDciBuffer :=
        s.m_dlHarqProcessesDciBuffer.insert rnti (List.replicate 8 DlDciListElement_s.empty),
      m_dlHarqProcessesRlcPduListBuffer :=
        s.m_dlHarqProcessesRlcPduListBuffer.insert rnti
          (List.replicate 2 (List.replicate 8 [])),
      m_ulHarqCurrentProcessId := s.m_ulHarqCurrentProcessId.insert rnti 0,
      m_ulHarqProcessesStatus := s.m_ulHarqProcessesStatus.insert rnti (List.replicate 8 0),
      m_ulHarqProcessesDciBuffer :=
        s.m_ulHarqProcessesDciBuffer.insert rnti (List.replicate 8 UlDciListElement_s.empty) }
  | some _ => { s with m_uesTxMode := s.m_uesTxMode.assign rnti transmissionMode }

/-- Member function `DoCschedLcConfigReq(params)` with the user and the number
of entries of `params.m_logicalChannelConfigList`. -/
def DoCschedLcConfigReq (s : SchedState) (rnti nLc : Nat) : SchedState :=
  if nLc = 0 then s
  else if rnti ∈ s.m_flowStatsDl then s
  else { s with m_flowStatsDl := setInsert s.m_flowStatsDl rnti,
                m_flowStatsUl := setInsert s.m_flowStatsUl rnti }

/-- Member function `DoCschedLcReleaseReq(params)`. -/
def DoCschedLcReleaseReq (s : SchedState) (rnti : Nat) (lcIds : List Nat) : SchedState :=
  let ledger := lcIds.foldl
    (fun ledger lc => ledger.filter (fun kv => !(kv.1.m_rnti == rnti && kv.1.m_lcId == lc)))
    s.m_rlcBufferReq
  { s with m_rlcBufferReq := ledger }

/-- Member function `DoCschedUeReleaseReq(params)`. -/
def DoCschedUeReleaseReq (s : SchedState) (rnti : Nat) : SchedState :=
  { s with
    m_uesTxMode := s.m_uesTxMode.erase rnti,
    m_dlHarqCurrentProcessId := s.m_dlHarqCurrentProcessId.erase rnti,
    m_dlHarqProcessesStatus := s.m_dlHarqProcessesStatus.erase rnti,
    m_dlHarqProcessesTimer := s.m_dlHarqProcessesTimer.erase rnti,
    m_dlHarqProcessesDciBuffer := s.m_dlHarqProcessesDciBuffer.erase rnti,
    m_dlHarqProcessesRlcPduListBuffer := s.m_dlHarqProcessesRlcPduListBuffer.erase rnti,
    m_ulHarqCurrentProcessId := s.m_ulHarqCurrentProcessId.erase rnti,
    m_ulHarqProcessesStatus := s.m_ulHarqProcessesStatus.erase rnti,
    m_ulHarqProcessesDciBuffer := s.m_ulHarqProcessesDciBuffer.erase rnti,
    m_flowStatsDl := setErase s.m_flowStatsDl rnti,
    m_flowStatsUl := setErase s.m_flowStatsUl rnti,
    m_ceBsrRxed := s.m_ceBsrRxed.erase rnti,
    m_rlcBufferReq := s.m_rlcBufferReq.filter (fun kv => !(kv.1.m_rnti == rnti)),
    m_nextRntiUl := if s.m_nextRntiUl = rnti then 0 else s.m_nextRntiUl }

/-- Order of `LteFlowId_t` keys: by user, then by logical channel. -/
def LteFlowId_t.lt (a b : LteFlowId_t) : Bool :=
  a.m_rnti < b.m_rnti || (a.m_rnti == b.m_rnti && a.m_lcId < b.m_lcId)

/-- Insert-or-overwrite of a ledger entry at its place in key order. -/
def ledgerUpsert (flow : LteFlowId_t) (req : SchedDlRlcBufferReqParameters) :
    List (LteFlowId_t × SchedDlRlcBufferReqParameters) →
    List (LteFlowId_t × SchedDlRlcBufferReqParameters)
  | [] => [(flow, req)]
  | (k, v) :: rest =>
      if k = flow then (k, req) :: rest
      else if flow.lt k then (flow, req) :: (k, v) :: rest
      else (k, v) :: ledgerUpsert flow req rest

/-- Member function `DoSchedDlRlcBufferReq(params)`. -/
def DoSchedDlRlcBufferReq (s : SchedState) (params : SchedDlRlcBufferReqParameters) :
    SchedState :=
  let flow : LteFlowId_t :=
    { m_rnti := params.m_rnti, m_lcId := params.m_logicalChannelIdentity }
  { s with m_rlcBufferReq := ledgerUpsert flow params s.m_rlcBufferReq }

/-- Member function `DoSchedDlRachInfoReq(params)`. -/
def DoSchedDlRachInfoReq (s : SchedState) (rachList : List RachListElement_s) : SchedState :=
  { s with m_rachList := rachList }

/-- Recording one sample in a sample map and its timer map: a new entry gets a
timer at the threshold, an existing one is overwritten and its timer (looked up
without a check) reset to the threshold. -/
def cqiRecord {α : Type} (threshold rnti : Nat) (sample : α) (rxed : RMap α)
    (timers : RMap Nat) : Res (RMap α × RMap Nat) :=
  match rxed.find rnti with
  | none => .ok (rxed.insert rnti sample, timers.insert rnti threshold)
  | some _ =>
    match timers.find rnti with
    | none => .error .undefinedBehaviour
    | some _ => .ok (rxed.assign rnti sample, timers.assign rnti threshold)

/-- The body of the loop of `DoSchedDlCqiInfoReq` for one report element. -/
def dlCqiInfoEntry (s : SchedState) (c : CqiListElement_s) : Res SchedState :=
  if c.m_cqiType = CqiType_e.P10 then
    match vecAt c.m_wbCqi 0 with
    | .error f => .error f
    | .ok wb =>
      match cqiRecord s.m_cqiTimersThreshold c.m_rnti wb s.m_p10CqiRxed s.m_p10CqiTimers with
      | .error f => .error f
      | .ok (rxed, timers) => .ok { s with m_p10CqiRxed := rxed, m_p10CqiTimers := timers }
  else if c.m_cqiType = CqiType_e.A30 then
    match cqiRecord s.m_cqiTimersThreshold c.m_rnti c.m_sbMeasResult
        s.m_a30CqiRxed s.m_a30CqiTimers with
    | .error f => .error f
    | .ok (rxed, timers) => .ok { s with m_a30CqiRxed := rxed, m_a30CqiTimers := timers }
  else .ok s

/-- Member function `DoSchedDlCqiInfoReq(params)` with `params.m_cqiList`. -/
def DoSchedDlCqiInfoReq : SchedState → List CqiListElement_s → Res SchedState
  | s, [] => .ok s
  | s, c :: rest =>
      match dlCqiInfoEntry s c with
      | .error f => .error f
      | .ok s1 => DoSchedDlCqiInfoReq s1 rest

/-- The sum of the four buffer sizes of a BSR, in `uint32_t`: logical channel
groups `lcg, lcg+1, ...` (`n` of them). -/
def bsrBuffer (env : Env) (bufferStatus : List Nat) : Nat → Nat → Nat → Res Nat
  | 0, _, buffer => .ok buffer
  | n + 1, lcg, buffer =>
      match vecAt bufferStatus lcg with
      | .error f => .error f
      | .ok bsrId =>
        bsrBuffer env bufferStatus n (lcg + 1) ((buffer + env.BsrId2BufferSize bsrId) % 2 ^ 32)

/-- Member function `DoSchedUlMacCtrlInfoReq(params)` with `params.m_macCeList`. -/
def DoSchedUlMacCtrlInfoReq (env : Env) : SchedState → List MacCeListElement_s → Res SchedState
  | s, [] => .ok s
  | s, ce :: rest =>
      if ce.m_macCeType = MacCeType_e.BSR then
        match bsrBuffer env ce.m_bufferStatus 4 0 0 with
        | .error f => .error f
        | .ok buffer =>
          let bsr := match s.m_ceBsrRxed.find ce.m_rnti with
            | none => s.m_ceBsrRxed.insert ce.m_rnti buffer
            | some _ => s.m_ceBsrRxed.assign ce.m_rnti buffer
          DoSchedUlMacCtrlInfoReq env { s with m_ceBsrRxed := bsr } rest
      else DoSchedUlMacCtrlInfoReq env s rest

/-- One vendor-specific parameter of an uplink CQI report: its type tag and,
for the SRS tag, the user id it carries. -/
structure VendorSpecificListElement_s where
  m_type : Nat
  m_rnti : Nat
deriving DecidableEq, Repr

/-- The parameters of `DoSchedUlCqiInfoReq`. -/
structure SchedUlCqiInfoReqParameters where
  m_sfnSf : Nat
  m_type : UlCqiType_e
  m_sinr : List Nat
  m_vendorSpecificList : List VendorSpecificListElement_s
deriving DecidableEq, Repr

/-- The PUSCH loop of `DoSchedUlCqiInfoReq` over the stored allocation `alloc`
of the subframe, positions `i, i+1, ...` (`n` of them). -/
def ulCqiPuschLoop (env : Env) (sinrs : List Nat) (alloc : List Nat) :
    Nat → Nat → SchedState → Res SchedState
  | 0, _, s => .ok s
  | n + 1, i, s =>
      match vecAt sinrs i with
      | .error f => .error f
      | .ok fp =>
        let sinr := env.fpS11dot3toDouble fp
        match vecAt alloc i with
        | .error f => .error f
        | .ok rnti =>
          match s.m_ueCqi.find rnti with
          | none =>
            let newCqi := (List.range s.m_ulBandwidth).map
              (fun j => if i = j then sinr else env.NO_SINR)
            ulCqiPuschLoop env sinrs alloc n (i + 1)
              { s with m_ueCqi := s.m_ueCqi.insert rnti newCqi,
                       m_ueCqiTimers := s.m_ueCqiTimers.insert rnti s.m_cqiTimersThreshold }
          | some v =>
            match vecSet v i sinr with
            | .error f => .error f
            | .ok v1 =>
              match s.m_ueCqiTimers.find rnti with
              | none => .error .undefinedBehaviour
              | some _ =>
                ulCqiPuschLoop env sinrs alloc n (i + 1)
                  { s with m_ueCqi := s.m_ueCqi.assign rnti v1,
                           m_ueCqiTimers :=
                             s.m_ueCqiTimers.assign rnti s.m_cqiTimersThreshold }

/-- The loop over the vendor-specific list that extracts the user id. -/
def srsRnti (env : Env) : List VendorSpecificListElement_s → Nat → Nat
  | [], rnti => rnti
  | v :: rest, rnti => srsRnti env rest (if v.m_type = env.SRS_CQI_RNTI_VSP then v.m_rnti else rnti)

/-- The conversion loop of the SRS case: samples of resource blocks
`j, j+1, ...` (`n` of them). -/
def srsSamples (env : Env) (sinrs : List Nat) : Nat → Nat → Res (List Int)
  | 0, _ => .ok []
  | n + 1, j =>
      match vecAt sinrs j with
      | .error f => .error f
      | .ok fp =>
        match srsSamples env sinrs n (j + 1) with
        | .error f => .error f
        | .ok rest => .ok (env.fpS11dot3toDouble fp :: rest)

/-- The update loop of the SRS case on an existing sample vector. -/
def srsUpdate (env : Env) (sinrs : List Nat) : Nat → Nat → List Int → Res (List Int)
  | 0, _, v => .ok v
  | n + 1, j, v =>
      match vecAt sinrs j with
      | .error f => .error f
      | .ok fp =>
        match vecSet v j (env.fpS11dot3toDouble fp) with
        | .error f => .error f
        | .ok v1 => srsUpdate env sinrs n (j + 1) v1

/-- The first `switch` of `DoSchedUlCqiInfoReq`: `true` when the report passes
the configured filter, `false` when the function returns at once. -/
def ulCqiFilterPass (s : SchedState) (params : SchedUlCqiInfoReqParameters) : Res Bool :=
  match s.m_ulCqiFilter with
  | .SRS_UL_CQI => .ok (decide (params.m_type = UlCqiType_e.SRS))
  | .PUSCH_UL_CQI => .ok (decide (params.m_type = UlCqiType_e.PUSCH))
  | .other => .error .fatal

/-- The SRS case of the second `switch` of `DoSchedUlCqiInfoReq`. -/
def ulCqiSrs (env : Env) (s : SchedState) (params : SchedUlCqiInfoReqParameters) :
    Res SchedState :=
  if params.m_vendorSpecificList.length > 0 then
    let rnti := srsRnti env params.m_vendorSpecificList 0
    match s.m_ueCqi.find rnti with
    | none =>
      match srsSamples env params.m_sinr s.m_ulBandwidth 0 with
      | .error f => .error f
      | .ok newCqi =>
        .ok { s with m_ueCqi := s.m_ueCqi.insert rnti newCqi,
                     m_ueCqiTimers := s.m_ueCqiTimers.insert rnti s.m_cqiTimersThreshold }
    | some v =>
      match srsUpdate env params.m_sinr s.m_ulBandwidth 0 v with
      | .error f => .error f
      | .ok v1 =>
        match s.m_ueCqiTimers.find rnti with
        | none => .error .undefinedBehaviour
        | some _ =>
          .ok { s with m_ueCqi := s.m_ueCqi.assign rnti v1,
                       m_ueCqiTimers := s.m_ueCqiTimers.assign rnti s.m_cqiTimersThreshold }
  else .error .assertion

/-- The PUSCH case of the second `switch` of `DoSchedUlCqiInfoReq`. -/
def ulCqiPusch (env : Env) (s : SchedState) (params : SchedUlCqiInfoReqParameters) :
    Res SchedState :=
  match s.m_allocationMaps.find params.m_sfnSf with
  | none => .ok s
  | some alloc =>
    match ulCqiPuschLoop env params.m_sinr alloc alloc.length 0 s with
    | .error f => .error f
    | .ok s1 => .ok { s1 with m_allocationMaps := s1.m_allocationMaps.erase params.m_sfnSf }

/-- Member function `DoSchedUlCqiInfoReq(params)`. -/
def DoSchedUlCqiInfoReq (env : Env) (s : SchedState) (params : SchedUlCqiInfoReqParameters) :
    Res SchedState :=
  match ulCqiFilterPass s params with
  | .error f => .error f
  | .ok false => .ok s
  | .ok true =>
    match params.m_type with
    | .PUSCH => ulCqiPusch env s params
    | .SRS => ulCqiSrs env s params
    | .PUCCH_1 => .error .fatal
    | .PUCCH_2 => .error .fatal
    | .PRACH => .error .fatal

/-- Member function `EstimateUlSinr(rnti, rb)`: the estimate and the scheduler
after the call (the estimate is stored in the sample vector). -/
def EstimateUlSinr (env : Env) (s : SchedState) (rnti rb : Nat) : Res (Int × SchedState) :=
  match s.m_ueCqi.find rnti with
  | none => .ok (env.NO_SINR, s)
  | some v =>
    if v.length < s.m_ulBandwidth then .error .outOfRange
    else
      let measured := (v.take s.m_ulBandwidth).filter (fun x => x != env.NO_SINR)
      let estimatedSinr := if measured.length > 0 then env.avgSinr measured else env.DBL_MAX
      match vecSet v rb estimatedSinr with
      | .error f => .error f
      | .ok v1 => .ok (estimatedSinr, { s with m_ueCqi := s.m_ueCqi.assign rnti v1 })

/-! ## Uplink pass: grid set-up and HARQ feedback -/

/-- Locals of `DoSchedUlTriggerReq` that live through its phases. -/
structure UlLocals where
  rbMap : List Bool
  rbgAllocationMap : List Nat
  rntiAllocated : List Nat
  dciList : List UlDciListElement_s
deriving DecidableEq, Repr

/-- The loop that marks in `rbMap` the blocks taken by RACH grants: blocks
`i, i+1, ...` (`n` of them). -/
def ulRachMark (rbgAllocationMap : List Nat) : Nat → Nat → List Bool → Res (List Bool)
  | 0, _, rbMap => .ok rbMap
  | n + 1, i, rbMap =>
      match vecAt rbgAllocationMap i with
      | .error f => .error f
      | .ok a =>
        if a ≠ 0 then
          match vecSet rbMap i true with
          | .error f => .error f
          | .ok rbMap1 => ulRachMark rbgAllocationMap n (i + 1) rbMap1
        else ulRachMark rbgAllocationMap n (i + 1) rbMap

/-- The loop that checks a stored range against `rbMap` (it does not leave at
the first occupied block): blocks `j, j+1, ...` (`n` of them). -/
def ulRangeFree (rbMap : List Bool) : Nat → Nat → Bool → Res Bool
  | 0, _, free => .ok free
  | n + 1, j, free =>
      match vecAt rbMap j with
      | .error f => .error f
      | .ok b => ulRangeFree rbMap n (j + 1) (if b = true then false else free)

/-- The loop that reserves a range for the user `rnti`. -/
def ulRangeReserve (rnti : Nat) : Nat → Nat → List Bool → List Nat → Res (List Bool × List Nat)
  | 0, _, rbMap, alloc => .ok (rbMap, alloc)
  | n + 1, j, rbMap, alloc =>
      match vecSet rbMap j true with
      | .error f => .error f
      | .ok rbMap1 =>
        match vecSet alloc j rnti with
        | .error f => .error f
        | .ok alloc1 => ulRangeReserve rnti n (j + 1) rbMap1 alloc1

/-- The slot addressed by a NACK:
`(uint8_t)((*itProcId).second - HARQ_PERIOD) % HARQ_PROC_NUM`. -/
def ulHarqId (env : Env) (procId : Nat) : Nat :=
  ((((procId : Int) - (env.HARQ_PERIOD : Int)) % 256).toNat) % HARQ_PROC_NUM

/-- The body of the uplink HARQ feedback loop for one reception report. -/
def ulHarqFeedbackEntry (env : Env) (e : UlInfoListElement_s) (s : SchedState) (l : UlLocals) :
    Res (SchedState × UlLocals) :=
  if e.m_receptionStatus = ReceptionStatus_e.NotOk then
    match s.m_ulHarqCurrentProcessId.find e.m_rnti with
    | none => .error .undefinedBehaviour
    | some procId =>
      let harqId := ulHarqId env procId
      match s.m_ulHarqProcessesDciBuffer.find e.m_rnti with
      | none => .ok (s, l)
      | some dcis =>
        match vecAt dcis harqId with
        | .error f => .error f
        | .ok dci =>
          match s.m_ulHarqProcessesStatus.find e.m_rnti with
          | none => .error .undefinedBehaviour
          | some stat =>
            match vecAt stat harqId with
            | .error f => .error f
            | .ok cnt =>
              if cnt ≥ 3 then .ok (s, l)
              else
                match ulRangeFree l.rbMap dci.m_rbLen dci.m_rbStart true with
                | .error f => .error f
                | .ok free =>
                  if free = true then
                    match ulRangeReserve dci.m_rnti dci.m_rbLen dci.m_rbStart l.rbMap
                        l.rbgAllocationMap with
                    | .error f => .error f
                    | .ok (rbMap1, alloc1) =>
                      let dci1 := { dci with m_ndi := 0 }
                      match vecSet stat procId ((cnt + 1) % 256) with
                      | .error f => .error f
                      | .ok stat1 =>
                        match vecSet stat1 harqId 0 with
                        | .error f => .error f
                        | .ok stat2 =>
                          match vecSet dcis procId dci1 with
                          | .error f => .error f
                          | .ok dcis1 =>
                            .ok ({ s with
                                    m_ulHarqProcessesStatus :=
                                      s.m_ulHarqProcessesStatus.assign e.m_rnti stat2,
                                    m_ulHarqProcessesDciBuffer :=
                                      s.m_ulHarqProcessesDciBuffer.assign e.m_rnti dcis1 },
                                 { l with rbMap := rbMap1, rbgAllocationMap := alloc1,
                                          dciList := l.dciList ++ [dci1],
                                          rntiAllocated := setInsert l.rntiAllocated dci.m_rnti })
                  else .ok (s, l)
  else .ok (s, l)

/-- The uplink HARQ feedback loop over `params.m_ulInfoList`. -/
def ulHarqFeedbackLoop (env : Env) :
    List UlInfoListElement_s → SchedState → UlLocals → Res (SchedState × UlLocals)
  | [], s, l => .ok (s, l)
  | e :: rest, s, l =>
      match ulHarqFeedbackEntry env e s l with
      | .error f => .error f
      | .ok (s1, l1) => ulHarqFeedbackLoop env rest s1 l1

/-! ## Uplink pass: new-data user selection -/

/-- A sample read with its replacement by an estimate when it is `NO_SINR`:
`sinr = v.at(i); if (sinr == NO_SINR) sinr = EstimateUlSinr(who, rb);` where
`v` is the sample vector of `rnti`. In the selection loop `who` is `*itMax`,
and `none` is the end iterator, which must not be dereferenced. -/
def ulSampleOrEstimate (env : Env) (s : SchedState) (rnti i : Nat) (who : Option Nat)
    (rb : Nat) : Res (Int × SchedState) :=
  match s.m_ueCqi.find rnti with
  | none => .error .undefinedBehaviour
  | some v =>
    match vecAt v i with
    | .error f => .error f
    | .ok sinr =>
      if sinr = env.NO_SINR then
        match who with
        | none => .error .undefinedBehaviour
        | some w => EstimateUlSinr env s w rb
      else .ok (sinr, s)

/-- The loop taking the lowest sample over blocks `i, i+1, ...` (`n` of them);
`who` is the user whose estimate replaces an unmeasured sample. -/
def ulMinSinrLoop (env : Env) (rnti : Nat) (who : Option Nat) :
    Nat → Nat → SchedState → Int → Res (Int × SchedState)
  | 0, _, s, minSinr => .ok (minSinr, s)
  | n + 1, i, s, minSinr =>
      match ulSampleOrEstimate env s rnti i who i with
      | .error f => .error f
      | .ok (sinr, s1) =>
        ulMinSinrLoop env rnti who n (i + 1) s1 (if sinr < minSinr then sinr else minSinr)

/-- The MCS for a user with stored samples, over the span that starts at
`rbStart` and has `rbLen` blocks: lowest sample, CQI from it, MCS from the CQI.
A CQI of 0 leads to `it++` on the iterator `it`, which is at
`m_ceBsrRxed.end()` since the counting loop over `m_ceBsrRxed`. -/
def ulMcsFromSamples (env : Env) (s : SchedState) (rnti : Nat) (who : Option Nat)
    (rbStart rbLen : Nat) : Res (Nat × SchedState) :=
  match s.m_ueCqi.find rnti with
  | none => .error .undefinedBehaviour
  | some v =>
    if v.length = 0 then .error .fatal
    else
      match ulSampleOrEstimate env s rnti rbStart who rbStart with
      | .error f => .error f
      | .ok (minSinr0, s1) =>
        match ulMinSinrLoop env rnti who rbLen rbStart s1 minSinr0 with
        | .error f => .error f
        | .ok (minSinr, s2) =>
          let cqi := env.cqiFromSinr minSinr
          if cqi = 0 then .error .undefinedBehaviour
          else .ok (env.GetMcsFromCqi cqi % 256, s2)

/-- The per-layer loop of the uplink selection for the flow `rnti` over `n`
layers, with the rate accumulated so far and the best user and metric so far.
The trial span is one block at position 0 (`rbLen = 1`). -/
def ulSelectLayers (env : Env) (rnti : Nat) :
    Nat → SchedState → Nat → Option Nat → Nat → Res (SchedState × Option Nat × Nat)
  | 0, s, _, itMax, metricMax => .ok (s, itMax, metricMax)
  | n + 1, s, rate, itMax, metricMax =>
      match (match s.m_ueCqi.find rnti with
             | none => (.ok (0, s) : Res (Nat × SchedState))
             | some _ => ulMcsFromSamples env s rnti itMax 0 1) with
      | .error f => .error f
      | .ok (mcs, s1) =>
        let rate1 := rate + env.GetUlTbSizeFromMcs mcs 1 / 8
        if rate1 > metricMax then ulSelectLayers env rnti n s1 rate1 (some rnti) rate1
        else ulSelectLayers env rnti n s1 rate1 itMax metricMax

/-- The body of the uplink selection loop for the flow `rnti`. A sample is an
integer standing for a double, 0 for 0.0. As in the downlink loop, the branch
that skips a user served by a retransmission evaluates
`HarqProcessAvailability(rnti)` for its second log statement. -/
def ulSelectStep (env : Env) (rntiAllocated : List Nat) (rnti : Nat) (s : SchedState)
    (itMax : Option Nat) (metricMax : Nat) : Res (SchedState × Option Nat × Nat) :=
  if rnti ∈ rntiAllocated then
    match HarqProcessAvailability s rnti with
    | .error f => .error f
    | .ok _ => .ok (s, itMax, metricMax)
  else
    match HarqProcessAvailability s rnti with
    | .error f => .error f
    | .ok avail =>
      if avail = false then .ok (s, itMax, metricMax)
      else
        match s.m_uesTxMode.find rnti with
        | none => .error .fatal
        | some txMode =>
          match (match s.m_ueCqi.find rnti with
                 | none => (.ok 1 : Res Int)
                 | some v => vecAt v 0) with
          | .error f => .error f
          | .ok wbCqi =>
            if wbCqi ≠ 0 then
              ulSelectLayers env rnti (env.TxMode2LayerNum txMode) s 0 itMax metricMax
            else .ok (s, itMax, metricMax)

/-- The uplink selection loop over `m_flowStatsUl`. -/
def ulSelectLoop (env : Env) (rntiAllocated : List Nat) :
    List Nat → SchedState → Option Nat → Nat → Res (SchedState × Option Nat × Nat)
  | [], s, itMax, metricMax => .ok (s, itMax, metricMax)
  | rnti :: rest, s, itMax, metricMax =>
      match ulSelectStep env rntiAllocated rnti s itMax metricMax with
      | .error f => .error f
      | .ok (s1, itMax1, metricMax1) => ulSelectLoop env rntiAllocated rest s1 itMax1 metricMax1

/-! ## Uplink pass: descriptors -/

/-- The per-layer loop of the descriptor of one flow over `n` layers; the
result carries `m_mcs` and `m_tbSize` once a layer has set them. -/
def ulDescLayers (env : Env) (rnti rbStart rbLen rbPerFlow : Nat) :
    Nat → SchedState → Option (Nat × Nat) → Res (SchedState × Option (Nat × Nat))
  | 0, s, acc => .ok (s, acc)
  | n + 1, s, _ =>
      match (match s.m_ueCqi.find rnti with
             | none => (.ok (0, s) : Res (Nat × SchedState))
             | some _ => ulMcsFromSamples env s rnti (some rnti) rbStart rbLen) with
      | .error f => .error f
      | .ok (mcs, s1) =>
        let tbSize :=
          if rbPerFlow = 0 then 0 else env.GetUlTbSizeFromMcs mcs rbPerFlow / 8 % 65536
        ulDescLayers env rnti rbStart rbLen rbPerFlow n s1 (some (mcs, tbSize))

/-- Archiving the descriptor under the current uplink process and resetting its
retransmission count (`m_harqOn == true`). -/
def ulStoreDci (s : SchedState) (uldci : UlDciListElement_s) : Res SchedState :=
  match s.m_ulHarqCurrentProcessId.find uldci.m_rnti with
  | none => .error .fatal
  | some harqId =>
    match s.m_ulHarqProcessesDciBuffer.find uldci.m_rnti with
    | none => .error .fatal
    | some dcis =>
      match vecSet dcis harqId uldci with
      | .error f => .error f
      | .ok dcis1 =>
        match s.m_ulHarqProcessesStatus.find uldci.m_rnti with
        | none => .error .undefinedBehaviour
        | some stat =>
          match vecSet stat harqId 0 with
          | .error f => .error f
          | .ok stat1 =>
            .ok { s with
              m_ulHarqProcessesDciBuffer :=
                s.m_ulHarqProcessesDciBuffer.assign uldci.m_rnti dcis1,
              m_ulHarqProcessesStatus :=
                s.m_ulHarqProcessesStatus.assign uldci.m_rnti stat1 }

/-- The body of the descriptor loop for the entry `(rnti, rbPerFlow)` of
`allocationMap`, with `rbAllocated` blocks handed out so far. Reading
`m_tbSize` of a descriptor no layer has written is undefined. -/
def ulDescEntry (env : Env) (rnti rbPerFlow rbAllocated : Nat) (s : SchedState) :
    Res (SchedState × UlDciListElement_s) :=
  let rbLen := rbPerFlow % 256
  let rbStart :=
    if rbAllocated ≥ s.m_ulBandwidth then (s.m_ulBandwidth + 256 - 1) % 256
    else rbAllocated % 256
  match s.m_uesTxMode.find rnti with
  | none => .error .fatal
  | some txMode =>
    match ulDescLayers env rnti rbStart rbLen rbPerFlow (env.TxMode2LayerNum txMode) s none with
    | .error f => .error f
    | .ok (_, none) => .error .undefinedBehaviour
    | .ok (s1, some (mcs, tbSize)) =>
      let uldci : UlDciListElement_s :=
        { m_rnti := rnti, m_rbStart := rbStart, m_rbLen := rbLen, m_tbSize := tbSize,
          m_mcs := mcs, m_ndi := 1 }
      let s2 := UpdateUlRlcBufferInfo s1 rnti tbSize
      match (if s2.m_harqOn then ulStoreDci s2 uldci else .ok s2) with
      | .error f => .error f
      | .ok s3 => .ok (s3, uldci)

/-- The descriptor loop over the entries of `allocationMap`. -/
def ulDescLoop (env : Env) :
    List (Nat × Nat) → Nat → SchedState → List UlDciListElement_s →
    Res (SchedState × List UlDciListElement_s)
  | [], _, s, dciList => .ok (s, dciList)
  | (rnti, rbPerFlow) :: rest, rbAllocated, s, dciList =>
      match ulDescEntry env rnti rbPerFlow rbAllocated s with
      | .error f => .error f
      | .ok (s1, uldci) => ulDescLoop env rest (rbAllocated + rbPerFlow) s1 (dciList ++ [uldci])

/-! ## Uplink pass -/

/-- The construction of `allocationMap`: for every flow of `m_flowStatsUl` the
number of blocks of `rbgAllocationMap` that carry its id. -/
def ulAllocationMap (flows : List Nat) (rbgAllocationMap : List Nat) : List (Nat × Nat) :=
  flows.map (fun flow => (flow, (rbgAllocationMap.filter (fun ue => ue == flow)).length))

/-- First part of `DoSchedUlTriggerReq`, up to the end of the selection loop:
CQI refresh, grid set-up from the RACH map, HARQ feedback and selection. The
result is the scheduler, the locals and `itMax`. -/
def ulPassSelect (env : Env) (s : SchedState) (ulInfoList : List UlInfoListElement_s) :
    Res (SchedState × UlLocals × Option Nat) :=
  match RefreshUlCqiMaps s with
  | .error f => .error f
  | .ok s1 =>
    let rbgAllocationMap := s1.m_rachAllocationMap
    let s2 := { s1 with m_rachAllocationMap := List.replicate s1.m_ulBandwidth 0 }
    match ulRachMark rbgAllocationMap s2.m_ulBandwidth 0
        (List.replicate s2.m_ulBandwidth false) with
    | .error f => .error f
    | .ok rbMap =>
      let l0 : UlLocals :=
        { rbMap := rbMap, rbgAllocationMap := rbgAllocationMap, rntiAllocated := [],
          dciList := [] }
      match (if s2.m_harqOn then ulHarqFeedbackLoop env ulInfoList s2 l0 else .ok (s2, l0)) with
      | .error f => .error f
      | .ok (s3, l1) =>
        match ulSelectLoop env l1.rntiAllocated s3.m_flowStatsUl s3 none 0 with
        | .error f => .error f
        | .ok (s4, itMax, _) =>
          .ok (s4, { l1 with rbgAllocationMap := vecResize l1.rbgAllocationMap s4.m_ulBandwidth 0 },
               itMax)

/-- The statement "assign all RBGs to this UE": every block of the grid is
marked and written with the id of the selected user. -/
def ulAssignAll (ulBandwidth rnti : Nat) (l : UlLocals) : Res UlLocals :=
  match vecFill true ulBandwidth 0 l.rbMap with
  | .error f => .error f
  | .ok rbMap1 =>
    match vecFill rnti ulBandwidth 0 l.rbgAllocationMap with
    | .error f => .error f
    | .ok alloc1 => .ok { l with rbMap := rbMap1, rbgAllocationMap := alloc1 }

/-- Member function `DoSchedUlTriggerReq(params)` with `params.m_ulInfoList`:
the scheduler after the pass and the descriptor list handed to
`SchedUlConfigInd`, if the pass hands one over. -/
def DoSchedUlTriggerReq (env : Env) (s : SchedState) (ulInfoList : List UlInfoListElement_s) :
    Res (SchedState × Option (List UlDciListElement_s)) :=
  match ulPassSelect env s ulInfoList with
  | .error f => .error f
  | .ok (s1, _, none) => .ok (s1, none)
  | .ok (s1, l, some rntiMax) =>
    match ulAssignAll s1.m_ulBandwidth rntiMax l with
    | .error f => .error f
    | .ok l1 =>
      match ulDescLoop env (ulAllocationMap s1.m_flowStatsUl l1.rbgAllocationMap) 0 s1
          l1.dciList with
      | .error f => .error f
      | .ok (s2, dciList) => .ok (s2, some dciList)

/-! ## The scheduler as a transition system -/

/-- The requests of the scheduler interface that change or read its state. -/
inductive Request where
  | CschedCellConfigReq (dlBandwidth ulBandwidth : Nat)
  | CschedUeConfigReq (rnti transmissionMode : Nat)
  | CschedLcConfigReq (rnti nLc : Nat)
  | CschedLcReleaseReq (rnti : Nat) (lcIds : List Nat)
  | CschedUeReleaseReq (rnti : Nat)
  | SchedDlRlcBufferReq (params : SchedDlRlcBufferReqParameters)
  | SchedDlPagingBufferReq
  | SchedDlMacBufferReq
  | SchedDlRachInfoReq (rachList : List RachListElement_s)
  | SchedDlCqiInfoReq (cqiList : List CqiListElement_s)
  | SchedDlTriggerReq (dlInfoList : List DlInfoListElement_s)
  | SchedUlTriggerReq (ulInfoList : List UlInfoListElement_s)
  | SchedUlMacCtrlInfoReq (macCeList : List MacCeListElement_s)
  | SchedUlCqiInfoReq (params : SchedUlCqiInfoReqParameters)
  | SchedUlNoiseInterferenceReq
  | SchedUlSrInfoReq

/-- What a request hands to the collaborator. -/
inductive Indication where
  | none
  | dlConfig (ind : SchedDlConfigIndParameters)
  | ulConfig (dciList : List UlDciListElement_s)
deriving DecidableEq, Repr

/-- The scheduler after one request, with what it handed over. -/
def handle (env : Env) (s : SchedState) : Request → Res (SchedState × Indication)
  | .CschedCellConfigReq dl ul => .ok (DoCschedCellConfigReq s dl ul, .none)
  | .CschedUeConfigReq rnti txMode => .ok (DoCschedUeConfigReq s rnti txMode, .none)
  | .CschedLcConfigReq rnti nLc => .ok (DoCschedLcConfigReq s rnti nLc, .none)
  | .CschedLcReleaseReq rnti lcIds => .ok (DoCschedLcReleaseReq s rnti lcIds, .none)
  | .CschedUeReleaseReq rnti => .ok (DoCschedUeReleaseReq s rnti, .none)
  | .SchedDlRlcBufferReq params => .ok (DoSchedDlRlcBufferReq s params, .none)
  | .SchedDlPagingBufferReq => .error .fatal
  | .SchedDlMacBufferReq => .error .fatal
  | .SchedDlRachInfoReq rachList => .ok (DoSchedDlRachInfoReq s rachList, .none)
  | .SchedDlCqiInfoReq cqiList =>
      match DoSchedDlCqiInfoReq s cqiList with
      | .error f => .error f
      | .ok s1 => .ok (s1, .none)
  | .SchedDlTriggerReq dlInfoList =>
      match DoSchedDlTriggerReq env s dlInfoList with
      | .error f => .error f
      | .ok (s1, some ind) => .ok (s1, .dlConfig ind)
      | .ok (s1, none) => .ok (s1, .none)
  | .SchedUlTriggerReq ulInfoList =>
      match DoSchedUlTriggerReq env s ulInfoList with
      | .error f => .error f
      | .ok (s1, some dciList) => .ok (s1, .ulConfig dciList)
      | .ok (s1, none) => .ok (s1, .none)
  | .SchedUlMacCtrlInfoReq macCeList =>
      match DoSchedUlMacCtrlInfoReq env s macCeList with
      | .error f => .error f
      | .ok s1 => .ok (s1, .none)
  | .SchedUlCqiInfoReq params =>
      match DoSchedUlCqiInfoReq env s params with
      | .error f => .error f
      | .ok s1 => .ok (s1, .none)
  | .SchedUlNoiseInterferenceReq => .ok (s, .none)
  | .SchedUlSrInfoReq => .ok (s, .none)

/-- The scheduler after a sequence of requests, with everything handed over,
in order. -/
def run (env : Env) : List Request → SchedState → Res (SchedState × List Indication)
  | [], s => .ok (s, [])
  | r :: rest, s =>
      match handle env s r with
      | .error f => .error f
      | .ok (s1, ind) =>
        match run env rest s1 with
        | .error f => .error f
        | .ok (s2, inds) => .ok (s2, ind :: inds)

/-! ## Definitions used to state the properties -/

/-- The scheduler after `n` successive calls of the member function `f`. -/
def Res.iterate {σ : Type} (f : σ → Res σ) : Nat → σ → Res σ
  | 0, s => .ok s
  | n + 1, s =>
      match f s with
      | .error e => .error e
      | .ok s1 => Res.iterate f n s1

/-- Representation invariant of a channel-quality store: the timer map has no
repeated key (it is a `std::map`) and the timer map and the sample map have the
same keys. -/
def CqiMapsConsistent {α : Type} (timers : RMap Nat) (rxed : RMap α) : Prop :=
  (timers.map Prod.fst).Nodup ∧ ∀ k, (timers.find k).isSome = (rxed.find k).isSome

/-- A scheduler with `CqiTimerThreshold` 1 that has received one wideband
report, CQI 9, of user 1. -/
def cqiExampleState : SchedState :=
  { SchedState.init true 1 0 UlCqiFilter_t.SRS_UL_CQI with
    m_p10CqiRxed := [(1, 9)], m_p10CqiTimers := [(1, 1)] }

/-- Bound on a redundancy-version vector before the update of layer `j`: every
entry is at most 3 and the entries of the layers from `j` on that the update
loop still visits (layers below 2) are at most 2. -/
def RvBelow (rv : List Nat) (j : Nat) : Prop :=
  (∀ x, x ∈ rv → x ≤ 3) ∧ ∀ i x, j ≤ i → i < 2 → rv[i]? = some x → x ≤ 2

/-! ## Example scenarios -/

/-- An environment for the examples: the header constants of ns-3
(`HARQ_DL_TIMEOUT` 11, `HARQ_PERIOD` 7, `NO_SINR` -5000), transport-block sizes
that grow with the MCS and the number of resource blocks, one layer for the
transmission modes 0 and 1 and two for the others. -/
def exampleEnv : Env :=
  { HARQ_DL_TIMEOUT := 11, HARQ_PERIOD := 7, NO_SINR := -5000, DBL_MAX := 1000000,
    GetMcsFromCqi := fun cqi => 2 * cqi,
    GetDlTbSizeFromMcs := fun mcs nprb => 16 * (mcs + 1) * nprb,
    GetUlTbSizeFromMcs := fun mcs nprb => 16 * (mcs + 1) * nprb,
    TxMode2LayerNum := fun txMode => if txMode < 2 then 1 else 2,
    BsrId2BufferSize := fun bsrId => 10 * bsrId,
    avgSinr := fun l => l.sum / l.length,
    cqiFromSinr := fun sinr => if sinr < 0 then 0 else 5,
    fpS11dot3toDouble := fun fp => fp,
    SRS_CQI_RNTI_VSP := 1 }

/-- The scheduler of the examples right after construction: HARQ on, CQI timer
threshold 1000, uplink grant MCS 0. -/
def exampleInit : SchedState := SchedState.init true 1000 0 UlCqiFilter_t.SRS_UL_CQI

/-- A buffer report of `size` bytes of new data on logical channel 3. -/
def exampleBuffer (rnti size : Nat) : SchedDlRlcBufferReqParameters :=
  { m_rnti := rnti, m_logicalChannelIdentity := 3, m_rlcTransmissionQueueSize := size,
    m_rlcRetransmissionQueueSize := 0, m_rlcStatusPduSize := 0 }

/-- The scheduler a run ends in (the initial one if the run faults). -/
def stateOf (r : Res (SchedState × List Indication)) : SchedState :=
  match r with
  | .ok (s, _) => s
  | .error _ => exampleInit

/-- A cell of 6 RBGs with two users; user 1 is granted all RBGs in a first
pass (process 1), user 2 in a second pass (process 1). -/
def twoGrantsRequests : List Request :=
  [ .CschedCellConfigReq 6 6, .CschedUeConfigReq 1 0, .CschedUeConfigReq 2 0,
    .CschedLcConfigReq 1 1, .CschedLcConfigReq 2 1,
    .SchedDlRlcBufferReq (exampleBuffer 1 10), .SchedDlTriggerReq [],
    .SchedDlRlcBufferReq (exampleBuffer 2 10), .SchedDlTriggerReq [] ]

/-- The scheduler after `twoGrantsRequests`. -/
def twoGrantsState : SchedState := stateOf (run exampleEnv twoGrantsRequests exampleInit)

/-- A NACK of the single transport block of process 1 of a user. -/
def exampleNack (rnti : Nat) : DlInfoListElement_s :=
  { m_rnti := rnti, m_harqProcessId := 1, m_harqStatus := [HarqStatus_e.NACK] }

/-- The locals of a downlink pass over `rbgNum` RBGs before the feedback loop. -/
def freshDlLocals (rbgNum : Nat) : DlLocals :=
  { rbgMap := List.replicate rbgNum false, rbgAllocatedNum := 0, rntiAllocated := [],
    buildDataList := [], dlInfoListUntxed := [] }

/-- The outcome of handling the NACK of user 1 in `twoGrantsState`. -/
def exampleNackOutcome : SchedState × DlLocals :=
  match dlHarqFeedbackEntry 6 (exampleNack 1) twoGrantsState (freshDlLocals 6) with
  | .ok r => r
  | .error _ => (twoGrantsState, freshDlLocals 6)

/-- The DCI stored by the new-data grants of `twoGrantsRequests`. -/
def exampleStoredDci (rnti : Nat) : DlDciListElement_s :=
  { m_rnti := rnti, m_rbBitmap := 63, m_resAlloc := 0, m_harqProcess := 1, m_mcs := [0],
    m_tbsSize := [12], m_ndi := [1], m_rv := [0], m_tpc := 1 }

/-- What the examples look at in the outcome of a downlink pass: of every data
descriptor the user, the RBGs its bitmap names and its redundancy versions;
the carry-over buffer after the pass; and the redundancy versions stored for
process 1 of user 2. -/
def dlPassView (r : Res (SchedState × Option SchedDlConfigIndParameters)) :
    Res (Option (List (Nat × List Nat × List Nat)) × List DlInfoListElement_s ×
      Option (List Nat)) :=
  r.map (fun out =>
    (out.2.map (fun ind =>
      ind.m_buildDataList.map (fun el =>
        (el.m_rnti, decodeRbgBitmap el.m_dci.m_rbBitmap, el.m_dci.m_rv))),
     out.1.m_dlInfoListBuffered,
     ((out.1.m_dlHarqProcessesDciBuffer.find 2).bind (fun dcis => dcis[1]?)).map
       (fun dci => dci.m_rv)))

/-- A cell of 6 uplink resource blocks; user 5 asks for random access, user 1
has a logical channel; one downlink pass, then the uplink pass of the TTI. -/
def rachThenUlRequests : List Request :=
  [ .CschedCellConfigReq 6 6, .CschedUeConfigReq 1 0, .CschedUeConfigReq 5 0,
    .CschedLcConfigReq 1 1,
    .SchedDlRachInfoReq [{ m_rnti := 5, m_estimatedSize := 30 }],
    .SchedDlTriggerReq [], .SchedUlTriggerReq [] ]

/-- The resource-block ranges `(user, rbStart, rbLen)` a run hands over: of the
RACH grants of every downlink batch and of the descriptors of every uplink
batch. -/
def ulRanges : List Indication → List (Nat × Nat × Nat)
  | [] => []
  | .none :: rest => ulRanges rest
  | .dlConfig ind :: rest =>
      ind.m_buildRarList.map (fun rar => (rar.m_rnti, rar.m_grant_rbStart, rar.m_grant_rbLen))
        ++ ulRanges rest
  | .ulConfig dciList :: rest =>
      dciList.map (fun dci => (dci.m_rnti, dci.m_rbStart, dci.m_rbLen)) ++ ulRanges rest

/-- One user is granted all RBGs (process 1) and no feedback arrives during the
11 passes that follow. -/
def harqTimeoutRequests : List Request :=
  [ .CschedCellConfigReq 6 6, .CschedUeConfigReq 1 0, .CschedLcConfigReq 1 1,
    .SchedDlRlcBufferReq (exampleBuffer 1 10), .SchedDlTriggerReq [] ] ++
  List.replicate 11 (.SchedDlTriggerReq [])

/-- The scheduler after `harqTimeoutRequests`: the timer of process 1 of user 1
is at `HARQ_DL_TIMEOUT`. -/
def harqTimeoutState : SchedState := stateOf (run exampleEnv harqTimeoutRequests exampleInit)

/-- Status, timers and archive of the downlink HARQ processes of a user. -/
def harqView (s : SchedState) (rnti : Nat) :
    Option (List Nat) × Option (List Nat) × Option (List (List (List RlcPduListElement_s))) :=
  (s.m_dlHarqProcessesStatus.find rnti, s.m_dlHarqProcessesTimer.find rnti,
   s.m_dlHarqProcessesRlcPduListBuffer.find rnti)

/-- The achievable-rate metric the selection loop computes for a user: the
rate accumulated over the layers of its transmission mode at its wideband CQI
(0 for a user without transmission mode, for which the loop computes none). -/
def dlMetric (env : Env) (s : SchedState) (rbgSize rnti : Nat) : Nat :=
  match s.m_uesTxMode.find rnti with
  | none => 0
  | some txMode => dlAchievableRate env rbgSize (dlWbCqi s rnti) (env.TxMode2LayerNum txMode)

/-- The tests a flow passes before the selection loop compares its metric: not
served by a retransmission in this pass, a free HARQ process, a wideband CQI
other than 0 (a missing sample counts as 1) and a logical channel with pending
data. -/
def DlCandidate (s : SchedState) (rntiAllocated : List Nat) (rnti : Nat) : Prop :=
  rnti ∉ rntiAllocated ∧ HarqProcessAvailability s rnti = .ok true ∧ dlWbCqi s rnti ≠ 0 ∧
  LcActivePerFlow s rnti > 0

/-- Eligibility for the new-data grant: a flow of `m_flowStatsDl` (a user with
LC configuration) that passes the tests of the selection loop. -/
def DlEligible (s : SchedState) (rntiAllocated : List Nat) (rnti : Nat) : Prop :=
  rnti ∈ s.m_flowStatsDl ∧ DlCandidate s rntiAllocated rnti

/-- Invariant of the selection loop after the flows `pre`: no candidate among
them has a metric above `M`; without a best user `M` is 0; the best user is a
candidate with metric `M`, and the candidates before it have a smaller one. -/
def DlSelectInv (env : Env) (s : SchedState) (rbgSize : Nat) (rntiAllocated : List Nat)
    (pre : List Nat) (itMax : Option Nat) (M : Nat) : Prop :=
  (∀ v, v ∈ pre → DlCandidate s rntiAllocated v → dlMetric env s rbgSize v ≤ M) ∧
  match itMax with
  | none => M = 0
  | some u => DlCandidate s rntiAllocated u ∧ dlMetric env s rbgSize u = M ∧
      ∃ p q, pre = p ++ u :: q ∧
        ∀ v, v ∈ p → DlCandidate s rntiAllocated v → dlMetric env s rbgSize v < M

/-- Two users with pending data and no CQI report in a cell of 6 RBGs. -/
def twoFlowsRequests : List Request :=
  [ .CschedCellConfigReq 6 6, .CschedUeConfigReq 1 0, .CschedUeConfigReq 2 0,
    .CschedLcConfigReq 1 1, .CschedLcConfigReq 2 1,
    .SchedDlRlcBufferReq (exampleBuffer 1 10), .SchedDlRlcBufferReq (exampleBuffer 2 10) ]

/-- The scheduler after `twoFlowsRequests`. -/
def twoFlowsState : SchedState := stateOf (run exampleEnv twoFlowsRequests exampleInit)

/-- The outcome of the new-data part of a pass in `twoFlowsState`. -/
def twoFlowsNewData : SchedState × List BuildDataListElement_s :=
  match dlPassNewData exampleEnv twoFlowsState (freshDlLocals 6) 1 6 with
  | .ok r => r
  | .error _ => (twoFlowsState, [])

/-- The status of slot `i` of user `u` in a status map (`none` when the user
has no entry or the slot is outside its table). -/
def statusSlot (status : RMap (List Nat)) (u i : Nat) : Option Nat :=
  (status.find u).bind (fun stat => stat[i]?)

/-- The status of downlink HARQ process `i` of user `u`: `some 0` free,
`some x` with `x ≠ 0` busy. -/
def dlSlot (s : SchedState) (u i : Nat) : Option Nat :=
  statusSlot s.m_dlHarqProcessesStatus u i

/-- A feedback entry in which no layer is NACK: neither of the two flags the
feedback loop builds from the entry is set. -/
def DlNoNack (e : DlInfoListElement_s) : Prop :=
  ¬ (e.m_harqStatus[0]? = some HarqStatus_e.NACK ∨
      (e.m_harqStatus.length ≠ 1 ∧ e.m_harqStatus[1]? = some HarqStatus_e.NACK))

/-- The redundancy version the drop test reads from the DCI stored for process
`i` of user `u` is 3. -/
def DlStoredRvMax (dciBuffer : RMap (List DlDciListElement_s)) (u i : Nat) : Prop :=
  ∃ dcis dci, dciBuffer.find u = some dcis ∧ dcis[i]? = some dci ∧ dciRv dci = .ok 3

/-- The members the downlink HARQ machinery reads are the same in two
schedulers. -/
def DlHarqCoreEq (s s1 : SchedState) : Prop :=
  s1.m_dlHarqProcessesStatus = s.m_dlHarqProcessesStatus ∧
  s1.m_dlHarqProcessesTimer = s.m_dlHarqProcessesTimer ∧
  s1.m_dlHarqProcessesDciBuffer = s.m_dlHarqProcessesDciBuffer ∧
  s1.m_dlInfoListBuffered = s.m_dlInfoListBuffered ∧
  s1.m_harqOn = s.m_harqOn

/-- An ACK of the single transport block of process 1 of a user. -/
def exampleAck (rnti : Nat) : DlInfoListElement_s :=
  { m_rnti := rnti, m_harqProcessId := 1, m_harqStatus := [HarqStatus_e.ACK] }

/-- The outcome of the downlink pass of `twoGrantsState` that receives the ACK
of user 1. -/
def exampleAckOutcome : SchedState × Indication :=
  match handle exampleEnv twoGrantsState (Request.SchedDlTriggerReq [exampleAck 1]) with
  | .ok r => r
  | .error _ => (twoGrantsState, Indication.none)

/-! ## Definitions used to state the properties of the ledger and the grants -/

/-- The value `m_rlcBufferReq.find(flow)` points at: the queue sizes stored
under the key, if the ledger has the key. -/
def ledgerFind (flow : LteFlowId_t) :
    List (LteFlowId_t × SchedDlRlcBufferReqParameters) → Option SchedDlRlcBufferReqParameters
  | [] => none
  | (k, v) :: rest => if k = flow then some v else ledgerFind flow rest

/-- A cell of 6 uplink resource blocks with one pending random access request
of the given estimated size, of user 5. -/
def rachRequestState (estimatedSize : Nat) : SchedState :=
  stateOf (run exampleEnv
    [ .CschedCellConfigReq 6 6, .CschedUeConfigReq 5 0,
      .SchedDlRachInfoReq [{ m_rnti := 5, m_estimatedSize := estimatedSize }] ] exampleInit)

/-- The scheduler `s1` differs from `s` at most in the members the HARQ refresh,
the feedback loop and the new-data grant of a downlink pass write: the downlink
HARQ tables and the RLC buffer ledger. -/
def DlPassFrame (s s1 : SchedState) : Prop :=
  ∃ cur st tm dc ar ledger, s1 =
    { s with m_dlHarqCurrentProcessId := cur, m_dlHarqProcessesStatus := st,
             m_dlHarqProcessesTimer := tm, m_dlHarqProcessesDciBuffer := dc,
             m_dlHarqProcessesRlcPduListBuffer := ar, m_rlcBufferReq := ledger }

/-- The value of a computation that succeeds, `d` for one that faults. -/
def Res.getD {α : Type} (r : Res α) (d : α) : α :=
  match r with
  | .ok a => a
  | .error _ => d

/-- A wideband CQI report of one user. -/
def exampleCqi (rnti cqi : Nat) : CqiListElement_s :=
  { m_rnti := rnti, m_cqiType := CqiType_e.P10, m_wbCqi := [cqi], m_sbMeasResult := [] }

/-- Two users with pending data in a cell of 6 RBGs; user 1 has reported the
wideband CQI 0 and user 2 the wideband CQI 10. -/
def cqiZeroState : SchedState :=
  stateOf (run exampleEnv
    (twoFlowsRequests ++ [.SchedDlCqiInfoReq [exampleCqi 1 0, exampleCqi 2 10]]) exampleInit)

/-- The outcome of a downlink pass without feedback in `cqiZeroState`. -/
def cqiZeroOutcome : SchedState × Option SchedDlConfigIndParameters :=
  Res.getD (DoSchedDlTriggerReq exampleEnv cqiZeroState []) (cqiZeroState, none)

/-- User 5 is granted the uplink blocks `[0, 2)` for its random access in a
first downlink pass; seven passes later, when the HARQ period has elapsed, user
6 is granted the same blocks for its own random access. -/
def rachTwiceRequests : List Request :=
  [ .CschedCellConfigReq 6 6, .CschedUeConfigReq 5 0, .CschedUeConfigReq 6 0,
    .SchedDlRachInfoReq [{ m_rnti := 5, m_estimatedSize := 30 }], .SchedDlTriggerReq [] ] ++
  List.replicate 6 (.SchedDlTriggerReq []) ++
  [ .SchedDlRachInfoReq [{ m_rnti := 6, m_estimatedSize := 30 }], .SchedDlTriggerReq [] ]

/-- The scheduler after `rachTwiceRequests`. -/
def rachTwiceState : SchedState := stateOf (run exampleEnv rachTwiceRequests exampleInit)

/-- The locals of the uplink pass that follows `rachTwiceRequests`, before its
feedback loop: blocks 0 and 1 are taken by the random access of user 6. -/
def rachTwiceLocals : UlLocals :=
  { rbMap := [true, true, false, false, false, false],
    rbgAllocationMap := [6, 6, 0, 0, 0, 0], rntiAllocated := [], dciList := [] }

/-- The ranges of a list of RACH grants are consecutive from block `start`:
each grant begins where the previous one ends and has at least one block. -/
def RarConsecutive : Nat → List BuildRarListElement_s → Prop
  | _, [] => True
  | start, g :: rest =>
      g.m_grant_rbStart = start ∧ 1 ≤ g.m_grant_rbLen ∧
      RarConsecutive (start + g.m_grant_rbLen) rest

/-- The RACH grants a downlink pass hands over (none when it hands over no
batch). -/
def grantsOf (out : Option SchedDlConfigIndParameters) : List BuildRarListElement_s :=
  match out with
  | some ind => ind.m_buildRarList
  | none => []

/-- Three pending random access requests of estimated size 30 in a cell of 6
uplink resource blocks. -/
def rachThreeState : SchedState :=
  stateOf (run exampleEnv
    [ .CschedCellConfigReq 6 6, .CschedUeConfigReq 5 0, .CschedUeConfigReq 6 0,
      .CschedUeConfigReq 7 0,
      .SchedDlRachInfoReq [{ m_rnti := 5, m_estimatedSize := 30 },
        { m_rnti := 6, m_estimatedSize := 30 }, { m_rnti := 7, m_estimatedSize := 30 }] ]
    exampleInit)

/-- The outcome of a downlink pass without feedback in `rachThreeState`. -/
def rachThreeOutcome : SchedState × Option SchedDlConfigIndParameters :=
  Res.getD (DoSchedDlTriggerReq exampleEnv rachThreeState []) (rachThreeState, none)

/-- One user with one logical channel that holds 1000 bytes of new data, in a
cell of 6 RBGs. -/
def oneFlowState : SchedState :=
  stateOf (run exampleEnv
    [ .CschedCellConfigReq 6 6, .CschedUeConfigReq 1 0, .CschedLcConfigReq 1 1,
      .SchedDlRlcBufferReq (exampleBuffer 1 1000) ] exampleInit)

/-- The outcome of a downlink pass without feedback in `oneFlowState`. -/
def oneFlowOutcome : SchedState × Option SchedDlConfigIndParameters :=
  Res.getD (DoSchedDlTriggerReq exampleEnv oneFlowState []) (oneFlowState, none)

/-- The test of the scheduler for a ledger entry with pending data: new data,
retransmission data or a status PDU. -/
def lcPending (req : SchedDlRlcBufferReqParameters) : Bool :=
  decide (req.m_rlcTransmissionQueueSize > 0 ∨ req.m_rlcRetransmissionQueueSize > 0 ∨
    req.m_rlcStatusPduSize > 0)

/-- Representation invariant of the ledger, a `std::map` keyed by
`LteFlowId_t`: the entries are in strictly ascending key order. -/
def LedgerSorted (ledger : List (LteFlowId_t × SchedDlRlcBufferReqParameters)) : Prop :=
  ledger.Pairwise (fun a b => LteFlowId_t.lt a.1 b.1 = true)

/-- The ledger entries of a user that hold pending data, in key order. -/
def activeEntries (ledger : List (LteFlowId_t × SchedDlRlcBufferReqParameters)) (rnti : Nat) :
    List (LteFlowId_t × SchedDlRlcBufferReqParameters) :=
  ledger.filter (fun kv => decide (kv.1.m_rnti = rnti) && lcPending kv.2)

/-- The queue sizes of a channel after the grants of the layers of one
descriptor: `UpdateDlRlcBufferInfo` is applied once per layer, with the share
of the channel in the transport block of the layer. -/
def grantQueues (lcid lcActives : Nat) (tbs : List Nat) (req : SchedDlRlcBufferReqParameters) :
    SchedDlRlcBufferReqParameters :=
  tbs.foldl (fun r tb => updateDlRlcQueues lcid (tb / lcActives) r) req

/-- The ledger entry after a new-data grant to the user `rnti`: the entries of
the user with pending data are granted, the others are kept. -/
def grantEntry (rnti lcActives : Nat) (tbs : List Nat)
    (kv : LteFlowId_t × SchedDlRlcBufferReqParameters) :
    LteFlowId_t × SchedDlRlcBufferReqParameters :=
  if kv.1.m_rnti = rnti ∧ lcPending kv.2 = true then
    (kv.1, grantQueues kv.1.m_lcId lcActives tbs kv.2)
  else kv

/-- The PDUs a new-data grant builds for one channel: one per layer, of the
share of the channel in the transport block of the layer. -/
def grantPdus (lcActives : Nat) (tbs : List Nat)
    (kv : LteFlowId_t × SchedDlRlcBufferReqParameters) : List RlcPduListElement_s :=
  tbs.map (fun tb => { m_logicalChannelIdentity := kv.1.m_lcId, m_size := tb / lcActives })

/-- The divisor the new-data grant uses for the shares of the channels:
`LcActivePerFlow` held in a `uint16_t`, replaced by 65535 when it is 0. -/
def grantDivisor (s : SchedState) (rnti : Nat) : Nat :=
  if LcActivePerFlow s rnti % 65536 = 0 then 65535 else LcActivePerFlow s rnti % 65536

/-- A buffer report of a logical channel with the given sizes of its new-data
queue, its retransmission queue and its status PDU. -/
def exampleQueues (rnti lcid tx retx status : Nat) : SchedDlRlcBufferReqParameters :=
  { m_rnti := rnti, m_logicalChannelIdentity := lcid, m_rlcTransmissionQueueSize := tx,
    m_rlcRetransmissionQueueSize := retx, m_rlcStatusPduSize := status }

/-- User 1 with three logical channels that hold pending data: new data on
channel 1, retransmission data on channel 2 and a status PDU on channel 3. -/
def threeChannelsState : SchedState :=
  stateOf (run exampleEnv
    [ .CschedCellConfigReq 6 6, .CschedUeConfigReq 1 0, .CschedLcConfigReq 1 3,
      .SchedDlRlcBufferReq (exampleQueues 1 1 100 0 0),
      .SchedDlRlcBufferReq (exampleQueues 1 2 0 50 0),
      .SchedDlRlcBufferReq (exampleQueues 1 3 0 0 7) ] exampleInit)

/-- The outcome of the new-data grant of the 6 RBGs of the cell to user 1 in
`threeChannelsState`. -/
def threeChannelsGrant : SchedState × BuildDataListElement_s :=
  Res.getD (newDataGrant exampleEnv 1 1 [0, 1, 2, 3, 4, 5] threeChannelsState)
    (threeChannelsState, { m_rnti := 0, m_dci := DlDciListElement_s.empty, m_rlcPduList := [] })

/-- The RLC header overhead `UpdateDlRlcBufferInfo` takes off a grant before it
reduces the new-data queue (its local `rlcOverhead`): 4 bytes on logical
channel 1, 2 bytes on the others. -/
def rlcOverhead (lcid : Nat) : Nat := if lcid = 1 then 4 else 2

/-- The outcome of the new-data grant of the 6 RBGs of the cell to user 1 in
`oneFlowState`. -/
def oneFlowGrant : SchedState × BuildDataListElement_s :=
  Res.getD (newDataGrant exampleEnv 1 1 [0, 1, 2, 3, 4, 5] oneFlowState)
    (oneFlowState, { m_rnti := 0, m_dci := DlDciListElement_s.empty, m_rlcPduList := [] })

/-! ## Definitions used to state the properties of the uplink pass and of the requests -/

/-- A reception report of a user with status `NotOk`. -/
def exampleUlNack (rnti : Nat) : UlInfoListElement_s :=
  { m_rnti := rnti, m_receptionStatus := ReceptionStatus_e.NotOk }

/-- One user in a cell of 6 uplink resource blocks is granted the whole grid in
an uplink pass (the descriptor is stored in slot 0); seven downlink passes
follow, after which the current uplink process id of the user is 7. -/
def ulGrantRequests : List Request :=
  [ .CschedCellConfigReq 6 6, .CschedUeConfigReq 1 0, .CschedLcConfigReq 1 1,
    .SchedUlTriggerReq [] ] ++ List.replicate 7 (.SchedDlTriggerReq [])

/-- The scheduler after `ulGrantRequests`. -/
def ulGrantState : SchedState := stateOf (run exampleEnv ulGrantRequests exampleInit)

/-- The locals of an uplink pass over 6 free resource blocks before its
feedback loop. -/
def freshUlLocals : UlLocals :=
  { rbMap := List.replicate 6 false, rbgAllocationMap := List.replicate 6 0,
    rntiAllocated := [], dciList := [] }

/-- The descriptor stored by the uplink grant of `ulGrantRequests`. -/
def exampleUlDci : UlDciListElement_s :=
  { m_rnti := 1, m_rbStart := 0, m_rbLen := 6, m_tbSize := 12, m_mcs := 0, m_ndi := 1 }

/-- What the channel reads of the uplink pass write: the scheduler `s1` is `s`
with other uplink samples (`EstimateUlSinr` stores its estimate). -/
def UlCqiFrame (s s1 : SchedState) : Prop :=
  ∃ cqi, s1 = { s with m_ueCqi := cqi }

/-- One user in a cell of 6 uplink resource blocks that has reported a buffer
status of 100 bytes (index 10 for its first logical channel group). -/
def bsrRequests : List Request :=
  [ .CschedCellConfigReq 6 6, .CschedUeConfigReq 1 0, .CschedLcConfigReq 1 1,
    .SchedUlMacCtrlInfoReq
      [{ m_rnti := 1, m_macCeType := MacCeType_e.BSR, m_bufferStatus := [10, 0, 0, 0] }] ]

/-- The scheduler after `bsrRequests`. -/
def bsrState : SchedState := stateOf (run exampleEnv bsrRequests exampleInit)

/-- The outcome of the descriptor loop body for user 1 with the 6 blocks of the
grid in `bsrState`. -/
def bsrGrant : SchedState × UlDciListElement_s :=
  (ulDescEntry exampleEnv 1 6 0 bsrState).getD (bsrState, UlDciListElement_s.empty)

/-- Two users with a logical channel in a cell of 6 uplink resource blocks. -/
def twoUlFlowsRequests : List Request :=
  [ .CschedCellConfigReq 6 6, .CschedUeConfigReq 1 0, .CschedUeConfigReq 2 0,
    .CschedLcConfigReq 1 1, .CschedLcConfigReq 2 1 ]

/-- The scheduler after `twoUlFlowsRequests`. -/
def twoUlFlowsState : SchedState := stateOf (run exampleEnv twoUlFlowsRequests exampleInit)

/-- The outcome of the first part of the uplink pass in `twoUlFlowsState`. -/
def twoUlFlowsSelect : SchedState × UlLocals × Option Nat :=
  (ulPassSelect exampleEnv twoUlFlowsState []).getD
    (twoUlFlowsState, freshUlLocals, none)

/-- The outcome of the uplink pass in `twoUlFlowsState`. -/
def twoUlFlowsOutcome : SchedState × Option (List UlDciListElement_s) :=
  (DoSchedUlTriggerReq exampleEnv twoUlFlowsState []).getD (twoUlFlowsState, none)

/-- The stores `DoCschedUeReleaseReq` erases from hold nothing under the user:
transmission mode, downlink and uplink HARQ tables, the two flow sets, the
uplink buffer status and the ledger. -/
def ReleasePurged (s : SchedState) (rnti : Nat) : Prop :=
  s.m_uesTxMode.find rnti = none ∧
  s.m_dlHarqCurrentProcessId.find rnti = none ∧
  s.m_dlHarqProcessesStatus.find rnti = none ∧
  s.m_dlHarqProcessesTimer.find rnti = none ∧
  s.m_dlHarqProcessesDciBuffer.find rnti = none ∧
  s.m_dlHarqProcessesRlcPduListBuffer.find rnti = none ∧
  s.m_ulHarqCurrentProcessId.find rnti = none ∧
  s.m_ulHarqProcessesStatus.find rnti = none ∧
  s.m_ulHarqProcessesDciBuffer.find rnti = none ∧
  rnti ∉ s.m_flowStatsDl ∧ rnti ∉ s.m_flowStatsUl ∧
  s.m_ceBsrRxed.find rnti = none ∧
  ∀ flow, flow.m_rnti = rnti → ledgerFind flow s.m_rlcBufferReq = none

/-- The entries of the user `u` in the stores `DoCschedUeReleaseReq` erases from
are the same in two schedulers. -/
def UserEntriesEq (s s1 : SchedState) (u : Nat) : Prop :=
  s1.m_uesTxMode.find u = s.m_uesTxMode.find u ∧
  s1.m_dlHarqCurrentProcessId.find u = s.m_dlHarqCurrentProcessId.find u ∧
  s1.m_dlHarqProcessesStatus.find u = s.m_dlHarqProcessesStatus.find u ∧
  s1.m_dlHarqProcessesTimer.find u = s.m_dlHarqProcessesTimer.find u ∧
  s1.m_dlHarqProcessesDciBuffer.find u = s.m_dlHarqProcessesDciBuffer.find u ∧
  s1.m_dlHarqProcessesRlcPduListBuffer.find u = s.m_dlHarqProcessesRlcPduListBuffer.find u ∧
  s1.m_ulHarqCurrentProcessId.find u = s.m_ulHarqCurrentProcessId.find u ∧
  s1.m_ulHarqProcessesStatus.find u = s.m_ulHarqProcessesStatus.find u ∧
  s1.m_ulHarqProcessesDciBuffer.find u = s.m_ulHarqProcessesDciBuffer.find u ∧
  (u ∈ s1.m_flowStatsDl ↔ u ∈ s.m_flowStatsDl) ∧
  (u ∈ s1.m_flowStatsUl ↔ u ∈ s.m_flowStatsUl) ∧
  s1.m_ceBsrRxed.find u = s.m_ceBsrRxed.find u ∧
  ∀ flow, flow.m_rnti = u →
    ledgerFind flow s1.m_rlcBufferReq = ledgerFind flow s.m_rlcBufferReq

/-- The three channel-quality stores and their age counters are the same in
two schedulers. -/
def CqiStoresEq (s s1 : SchedState) : Prop :=
  s1.m_p10CqiRxed = s.m_p10CqiRxed ∧ s1.m_p10CqiTimers = s.m_p10CqiTimers ∧
  s1.m_a30CqiRxed = s.m_a30CqiRxed ∧ s1.m_a30CqiTimers = s.m_a30CqiTimers ∧
  s1.m_ueCqi = s.m_ueCqi ∧ s1.m_ueCqiTimers = s.m_ueCqiTimers

/-- An SRS report of user 1 over 6 resource blocks. -/
def exampleSrs : SchedUlCqiInfoReqParameters :=
  { m_sfnSf := 0, m_type := UlCqiType_e.SRS, m_sinr := [3, 3, 3, 3, 3, 3],
    m_vendorSpecificList := [{ m_type := 1, m_rnti := 1 }] }

/-- Two users with pending data; user 1 reports a wideband CQI, a subband CQI
and an SRS measurement, and is then released. -/
def releaseRequests : List Request :=
  twoFlowsRequests ++
  [ .SchedDlCqiInfoReq
      [ exampleCqi 1 9,
        { m_rnti := 1, m_cqiType := CqiType_e.A30, m_wbCqi := [], m_sbMeasResult := [7, 8] } ],
    .SchedUlCqiInfoReq exampleSrs,
    .CschedUeReleaseReq 1 ]

/-- The scheduler after `releaseRequests`. -/
def releaseState : SchedState := stateOf (run exampleEnv releaseRequests exampleInit)

/-- After `twoGrantsRequests` both users are NACKed in one pass, in which the
retransmission of user 2 finds no room and is carried over; user 2 is then
released. -/
def releaseCarriedRequests : List Request :=
  twoGrantsRequests ++
  [ .SchedDlTriggerReq [exampleNack 1, exampleNack 2], .CschedUeReleaseReq 2 ]

/-- The scheduler after `releaseCarriedRequests`. -/
def releaseCarriedState : SchedState :=
  stateOf (run exampleEnv releaseCarriedRequests exampleInit)

/-- A downlink report element of type P11 of user 1. -/
def exampleP11 : CqiListElement_s :=
  { m_rnti := 1, m_cqiType := CqiType_e.P11, m_wbCqi := [9], m_sbMeasResult := [] }

/-- An uplink report of the given type, without samples. -/
def exampleUlReport (type : UlCqiType_e) : SchedUlCqiInfoReqParameters :=
  { m_sfnSf := 0, m_type := type, m_sinr := [], m_vendorSpecificList := [] }

/-- One user in transmission mode 2 (two layers) with 1000 bytes of new data
and no CQI report, in a cell of 6 RBGs. -/
def twoLayersState : SchedState :=
  stateOf (run exampleEnv
    [ .CschedCellConfigReq 6 6, .CschedUeConfigReq 1 2, .CschedLcConfigReq 1 1,
      .SchedDlRlcBufferReq (exampleBuffer 1 1000) ] exampleInit)

/-- The outcome of the new-data grant of the 6 RBGs of the cell to user 1 in
`twoLayersState`. -/
def twoLayersGrant : SchedState × BuildDataListElement_s :=
  Res.getD (newDataGrant exampleEnv 1 1 [0, 1, 2, 3, 4, 5] twoLayersState)
    (twoLayersState, { m_rnti := 0, m_dci := DlDciListElement_s.empty, m_rlcPduList := [] })

/-- The data descriptors a request hands over. -/
def dataListOf : Indication → List BuildDataListElement_s
  | .dlConfig ind => ind.m_buildDataList
  | _ => []

/-- The archive of layer `j` of downlink HARQ process `i` of a user. -/
def archiveOf (s : SchedState) (rnti j i : Nat) : Option (List RlcPduListElement_s) :=
  ((s.m_dlHarqProcessesRlcPduListBuffer.find rnti).bind (fun arch => arch[j]?)).bind
    (fun layer => layer[i]?)

/-- One user with 1000 bytes of new data and no feedback at all: the first
eight of twelve downlink passes grant the processes 1, 2, ..., 7, 0, the next
four find no free process; the user then reports the wideband CQI 5. -/
def staleArchiveRequests : List Request :=
  [ .CschedCellConfigReq 6 6, .CschedUeConfigReq 1 0, .CschedLcConfigReq 1 1,
    .SchedDlRlcBufferReq (exampleBuffer 1 1000) ] ++
  List.replicate 12 (.SchedDlTriggerReq []) ++ [ .SchedDlCqiInfoReq [exampleCqi 1 5] ]

/-- The scheduler after `staleArchiveRequests`: every process of user 1 is busy
and the timer of process 1 is at `HARQ_DL_TIMEOUT`. -/
def staleArchiveState : SchedState :=
  stateOf (run exampleEnv staleArchiveRequests exampleInit)

/-- A cell that is configured four times, with 1, 2, 3 and 4 RBGs. User 1 is
granted RBG 0 in the cell of 1 RBG, user 3 the RBGs 0 and 1 in the cell of 2
RBGs; in the cell of 3 RBGs user 1 retransmits on RBG 0 and user 2 is granted
the RBGs 1 and 2. All three grants use process 1. The cell then has 4 RBGs and
no user has pending data. -/
def movedRetxRequests : List Request :=
  [ .CschedCellConfigReq 1 1, .CschedUeConfigReq 1 0, .CschedUeConfigReq 2 0,
    .CschedUeConfigReq 3 0, .CschedLcConfigReq 1 1, .CschedLcConfigReq 2 1,
    .CschedLcConfigReq 3 1,
    .SchedDlRlcBufferReq (exampleBuffer 1 10), .SchedDlTriggerReq [],
    .CschedCellConfigReq 2 2, .SchedDlRlcBufferReq (exampleBuffer 1 0),
    .SchedDlRlcBufferReq (exampleBuffer 3 10), .SchedDlTriggerReq [],
    .CschedCellConfigReq 3 3, .SchedDlRlcBufferReq (exampleBuffer 3 0),
    .SchedDlRlcBufferReq (exampleBuffer 2 10), .SchedDlTriggerReq [exampleNack 1],
    .CschedCellConfigReq 4 4, .SchedDlRlcBufferReq (exampleBuffer 2 0) ]

/-- The scheduler after `movedRetxRequests`. -/
def movedRetxState : SchedState := stateOf (run exampleEnv movedRetxRequests exampleInit)

/-- The RBGs named by the DCI stored for process 1 of a user. -/
def storedRbgs (s : SchedState) (rnti : Nat) : Option (List Nat) :=
  ((s.m_dlHarqProcessesDciBuffer.find rnti).bind (fun dcis => dcis[1]?)).map
    (fun dci => decodeRbgBitmap dci.m_rbBitmap)

/-! ## Definitions used to state the invariants and the remaining properties -/

/-- User 1 with two logical channels that hold 1000 bytes of new data each, in
a cell of one RBG: the grant carries 2 bytes, 1 byte for each channel. -/
def smallGrantRequests : List Request :=
  [ .CschedCellConfigReq 1 1, .CschedUeConfigReq 1 0, .CschedLcConfigReq 1 1,
    .SchedDlRlcBufferReq (exampleQueues 1 3 1000 0 0),
    .SchedDlRlcBufferReq (exampleQueues 1 4 1000 0 0) ]

/-- The scheduler after `smallGrantRequests`. -/
def smallGrantState : SchedState := stateOf (run exampleEnv smallGrantRequests exampleInit)

/-- The pending bytes of a ledger entry: status PDU, retransmission queue and
new-data queue. -/
def pendingBytes (req : SchedDlRlcBufferReqParameters) : Nat :=
  req.m_rlcStatusPduSize + req.m_rlcRetransmissionQueueSize + req.m_rlcTransmissionQueueSize

/-- The environment of the examples with a link adaptation that maps a SINR
below 10 to CQI 0. -/
def lowSinrEnv : Env :=
  { exampleEnv with cqiFromSinr := fun sinr => if sinr < 10 then 0 else 5 }

/-- An SRS report of user 1 over 6 resource blocks whose sample of block 3 is
below 10. -/
def lowSrs : SchedUlCqiInfoReqParameters :=
  { m_sfnSf := 0, m_type := UlCqiType_e.SRS, m_sinr := [20, 20, 20, 5, 20, 20],
    m_vendorSpecificList := [{ m_type := 1, m_rnti := 1 }] }

/-- Two users with a logical channel in a cell of 6 uplink resource blocks;
user 1 has sent the report `lowSrs`. -/
def lowSinrRequests : List Request :=
  [ .CschedCellConfigReq 6 6, .CschedUeConfigReq 1 0, .CschedUeConfigReq 2 0,
    .CschedLcConfigReq 1 1, .CschedLcConfigReq 2 1, .SchedUlCqiInfoReq lowSrs ]

/-- The scheduler after `lowSinrRequests`. -/
def lowSinrState : SchedState := stateOf (run lowSinrEnv lowSinrRequests exampleInit)

/-- The ids returned by `n` successive calls of `UpdateHarqProcessId(rnti)` and
the scheduler after them. -/
def updateHarqTimes (rnti : Nat) : Nat → SchedState → Res (List Nat × SchedState)
  | 0, s => .ok ([], s)
  | n + 1, s =>
      match UpdateHarqProcessId s rnti with
      | .error f => .error f
      | .ok (i, s1) =>
        match updateHarqTimes rnti n s1 with
        | .error f => .error f
        | .ok (ids, s2) => .ok (i :: ids, s2)

/-- The free slots of a status table of 8 slots. -/
def freeSlots (stat : List Nat) : List Nat :=
  (List.range 8).filter (fun i => decide (stat[i]? = some 0))

/-- A user right after its configuration. -/
def freshUserState : SchedState := DoCschedUeConfigReq exampleInit 1 0

/-- The descriptors built so far in a downlink pass are addressed to pairwise
distinct users, every one of which is recorded in `rntiAllocated`. -/
def DlServedOnce (l : DlLocals) : Prop :=
  (l.buildDataList.map (fun el => el.m_rnti)).Nodup ∧
  ∀ el, el ∈ l.buildDataList → el.m_rnti ∈ l.rntiAllocated

/-- The outcome of the pass of `twoGrantsState` that receives two NACKs of user
1 and one NACK of user 2. -/
def repeatedNackOutcome : SchedState × Option SchedDlConfigIndParameters :=
  Res.getD (DoSchedDlTriggerReq exampleEnv twoGrantsState
    [exampleNack 1, exampleNack 1, exampleNack 2]) (twoGrantsState, none)

/-- The batch of `repeatedNackOutcome`. -/
def repeatedNackBatch : SchedDlConfigIndParameters :=
  repeatedNackOutcome.2.getD { m_buildDataList := [], m_buildRarList := [] }

/-- What an uplink pass writes: the scheduler `s1` differs from `s` at most in
the uplink samples and their age counters, the RACH allocation map, the uplink
HARQ tables and the buffer status. -/
def UlPassFrame (s s1 : SchedState) : Prop :=
  ∃ cqi tm rach st dc bsr, s1 =
    { s with m_ueCqi := cqi, m_ueCqiTimers := tm, m_rachAllocationMap := rach,
             m_ulHarqProcessesStatus := st, m_ulHarqProcessesDciBuffer := dc,
             m_ceBsrRxed := bsr }

/-- What a downlink pass writes, `s0` being the scheduler after the CQI refresh
at its start: the uplink process ids are advanced, the RACH list is emptied, and
the RACH allocation map, the stored uplink descriptors, the downlink HARQ
tables, the ledger and the carry-over buffer are written. -/
def DlTriggerFrame (s0 s1 : SchedState) : Prop :=
  ∃ rach uldc cur st tm dc ar ledger buf, s1 =
    { s0 with m_ulHarqCurrentProcessId := advanceUlHarqProcessIds s0.m_ulHarqCurrentProcessId,
              m_rachAllocationMap := rach, m_ulHarqProcessesDciBuffer := uldc,
              m_rachList := [],
              m_dlHarqCurrentProcessId := cur, m_dlHarqProcessesStatus := st,
              m_dlHarqProcessesTimer := tm, m_dlHarqProcessesDciBuffer := dc,
              m_dlHarqProcessesRlcPduListBuffer := ar, m_rlcBufferReq := ledger,
              m_dlInfoListBuffered := buf }

/-- What the configuration requests and the buffer and RACH reports write: the
cell bandwidths, the transmission modes, the HARQ tables of both directions,
the flow sets, the buffer status, the ledger, the RACH list and allocation map
and the round-robin pointer. -/
def ConfigFrame (s s1 : SchedState) : Prop :=
  ∃ dlbw ulbw tx cur st tm dc ar ulcur ulst uldc fdl ful bsr ledger rachl rach nxt, s1 =
    { s with m_dlBandwidth := dlbw, m_ulBandwidth := ulbw, m_uesTxMode := tx,
             m_dlHarqCurrentProcessId := cur, m_dlHarqProcessesStatus := st,
             m_dlHarqProcessesTimer := tm, m_dlHarqProcessesDciBuffer := dc,
             m_dlHarqProcessesRlcPduListBuffer := ar,
             m_ulHarqCurrentProcessId := ulcur, m_ulHarqProcessesStatus := ulst,
             m_ulHarqProcessesDciBuffer := uldc, m_flowStatsDl := fdl, m_flowStatsUl := ful,
             m_ceBsrRxed := bsr, m_rlcBufferReq := ledger, m_rachList := rachl,
             m_rachAllocationMap := rach, m_nextRntiUl := nxt }

/-- The three channel-quality stores are consistent and no uplink allocation is
stored. -/
def CqiStoresConsistent (s : SchedState) : Prop :=
  s.m_allocationMaps = [] ∧
  CqiMapsConsistent s.m_p10CqiTimers s.m_p10CqiRxed ∧
  CqiMapsConsistent s.m_a30CqiTimers s.m_a30CqiRxed ∧
  CqiMapsConsistent s.m_ueCqiTimers s.m_ueCqi

/-- Two users with pending data; both report a wideband CQI, user 1 an SRS
measurement; a downlink and an uplink pass follow. -/
def mixedCqiRequests : List Request :=
  twoFlowsRequests ++
  [ .SchedDlCqiInfoReq [exampleCqi 1 0, exampleCqi 2 10], .SchedUlCqiInfoReq exampleSrs,
    .SchedDlTriggerReq [], .SchedUlTriggerReq [] ]

/-- The scheduler after `mixedCqiRequests`. -/
def mixedCqiState : SchedState := stateOf (run exampleEnv mixedCqiRequests exampleInit)

/-- Every uplink retransmission-count table has `HARQ_PROC_NUM` entries, each at
most 3, and every current uplink process id is below `HARQ_PROC_NUM`. -/
def UlHarqTablesOk (s : SchedState) : Prop :=
  (∀ kv, kv ∈ s.m_ulHarqProcessesStatus → kv.2.length = HARQ_PROC_NUM ∧ ∀ x, x ∈ kv.2 → x ≤ 3) ∧
  (∀ kv, kv ∈ s.m_ulHarqCurrentProcessId → kv.2 < HARQ_PROC_NUM)

/-- The requests of `ulGrantRequests` followed by an uplink pass that receives
the NACK of the grant. -/
def ulNackRequests : List Request :=
  ulGrantRequests ++ [.SchedUlTriggerReq [exampleUlNack 1]]

/-- The scheduler after `ulNackRequests`. -/
def ulNackState : SchedState := stateOf (run exampleEnv ulNackRequests exampleInit)

/-- What a downlink pass writes besides the status and timer tables of the
downlink HARQ processes. -/
def DlAuxFrame (s s1 : SchedState) : Prop :=
  ∃ r10 t10 r30 t30 ulcur rach uldc rachl cur dc ar ledger buf, s1 =
    { s with m_p10CqiRxed := r10, m_p10CqiTimers := t10, m_a30CqiRxed := r30,
             m_a30CqiTimers := t30, m_ulHarqCurrentProcessId := ulcur,
             m_rachAllocationMap := rach, m_ulHarqProcessesDciBuffer := uldc,
             m_rachList := rachl, m_dlHarqCurrentProcessId := cur,
             m_dlHarqProcessesDciBuffer := dc, m_dlHarqProcessesRlcPduListBuffer := ar,
             m_rlcBufferReq := ledger, m_dlInfoListBuffered := buf }

/-- What one call of `RefreshHarqProcesses` does to a timer value: a timer at
`HARQ_DL_TIMEOUT` is reset, any other is incremented (in `uint8_t`). -/
def tickHarqTimer (env : Env) (t : Nat) : Nat :=
  if t = env.HARQ_DL_TIMEOUT then 0 else (t + 1) % 256

/-- The timer of downlink HARQ process `i` of user `u`. -/
def dlTimerSlot (s : SchedState) (u i : Nat) : Option Nat :=
  statusSlot s.m_dlHarqProcessesTimer u i

/-- The timer table of the downlink HARQ processes is well formed: no user has
two entries, every entry holds `HARQ_PROC_NUM` timers, none above
`HARQ_DL_TIMEOUT`, its user has a status entry, and every status entry holds
`HARQ_PROC_NUM` slots. -/
def DlHarqTimersOk (env : Env) (s : SchedState) : Prop :=
  (s.m_dlHarqProcessesTimer.map Prod.fst).Nodup ∧
  (∀ kv, kv ∈ s.m_dlHarqProcessesTimer → kv.2.length = HARQ_PROC_NUM ∧
    (∀ x, x ∈ kv.2 → x ≤ env.HARQ_DL_TIMEOUT) ∧
    (s.m_dlHarqProcessesStatus.find kv.1).isSome = true) ∧
  (∀ u stat, s.m_dlHarqProcessesStatus.find u = some stat → stat.length = HARQ_PROC_NUM)

/-- One user with pending data in a cell of 6 RBGs is granted the whole grid in
a downlink pass (process 1). -/
def grantedRequests : List Request :=
  [ .CschedCellConfigReq 6 6, .CschedUeConfigReq 1 0, .CschedLcConfigReq 1 1,
    .SchedDlRlcBufferReq (exampleBuffer 1 10), .SchedDlTriggerReq [] ]

/-- The scheduler after `grantedRequests`. -/
def grantedState : SchedState := stateOf (run exampleEnv grantedRequests exampleInit)

/-- The users for which the uplink HARQ feedback loop places a retransmission
(pushes the stored descriptor to the output), from the scheduler `s` and the
locals `l`. -/
def ulRetxUsers (env : Env) : List UlInfoListElement_s → SchedState → UlLocals → List Nat
  | [], _, _ => []
  | e :: rest, s, l =>
      match ulHarqFeedbackEntry env e s l with
      | .error _ => []
      | .ok (s1, l1) =>
        (if l1.dciList.length > l.dciList.length then [e.m_rnti] else []) ++
          ulRetxUsers env rest s1 l1

/-- The users for which the uplink pass on `ulInfoList` places a
retransmission. -/
def ulPassRetxUsers (env : Env) (s : SchedState) (ulInfoList : List UlInfoListElement_s) :
    List Nat :=
  match RefreshUlCqiMaps s with
  | .error _ => []
  | .ok s0 =>
    match ulRachMark s0.m_rachAllocationMap s0.m_ulBandwidth 0
        (List.replicate s0.m_ulBandwidth false) with
    | .error _ => []
    | .ok rbMap =>
      if s0.m_harqOn then
        ulRetxUsers env ulInfoList
          { s0 with m_rachAllocationMap := List.replicate s0.m_ulBandwidth 0 }
          { rbMap := rbMap, rbgAllocationMap := s0.m_rachAllocationMap, rntiAllocated := [],
            dciList := [] }
      else []

/-- The buffer-status entry, the retransmission counts and the stored
descriptors of the user `u` are the same in two schedulers. -/
def UlUserEntriesEq (u : Nat) (s s1 : SchedState) : Prop :=
  s1.m_ceBsrRxed.find u = s.m_ceBsrRxed.find u ∧
  s1.m_ulHarqProcessesStatus.find u = s.m_ulHarqProcessesStatus.find u ∧
  s1.m_ulHarqProcessesDciBuffer.find u = s.m_ulHarqProcessesDciBuffer.find u

/-- Two users with a logical channel in a cell of 6 uplink resource blocks;
user 2 has reported a buffer status of 100 bytes. -/
def twoUlBsrRequests : List Request :=
  twoUlFlowsRequests ++
  [ .SchedUlMacCtrlInfoReq
      [{ m_rnti := 2, m_macCeType := MacCeType_e.BSR, m_bufferStatus := [10, 0, 0, 0] }] ]

/-- The scheduler after `twoUlBsrRequests`. -/
def twoUlBsrState : SchedState := stateOf (run exampleEnv twoUlBsrRequests exampleInit)

/-- The outcome of the uplink pass without reception reports in
`twoUlBsrState`. -/
def twoUlBsrOutcome : SchedState × Option (List UlDciListElement_s) :=
  (DoSchedUlTriggerReq exampleEnv twoUlBsrState []).getD (twoUlBsrState, none)

/-- Two users with pending data in a cell of 6 RBGs and a scheduler whose
`CqiTimerThreshold` is 1: user 1 reports the wideband CQI 0 and user 2 the
wideband CQI 10, then a downlink pass grants user 2 part of its data. -/
def expiredCqiRequests : List Request :=
  [ .CschedCellConfigReq 6 6, .CschedUeConfigReq 1 0, .CschedUeConfigReq 2 0,
    .CschedLcConfigReq 1 1, .CschedLcConfigReq 2 1,
    .SchedDlRlcBufferReq (exampleBuffer 1 10), .SchedDlRlcBufferReq (exampleBuffer 2 1000),
    .SchedDlCqiInfoReq [exampleCqi 1 0, exampleCqi 2 10], .SchedDlTriggerReq [] ]

/-- The scheduler after `expiredCqiRequests`: both samples are stored and both
age counters are 0. -/
def expiredCqiState : SchedState :=
  stateOf (run exampleEnv expiredCqiRequests (SchedState.init true 1 0 UlCqiFilter_t.SRS_UL_CQI))

/-- The requests that lead to `cqiZeroState`. -/
def cqiZeroRequests : List Request :=
  twoFlowsRequests ++ [Request.SchedDlCqiInfoReq [exampleCqi 1 0, exampleCqi 2 10]]

/-- The number of free RBGs of a grid. -/
def freeRbgs (rbgMap : List Bool) : Nat :=
  (rbgMap.filter (fun b => !b)).length

/-- The part of `dlPassFeedback` before the feedback loop: the scheduler with
which the loop over the merged feedback `m_dlInfoListBuffered` starts, the RAR
list, `rbgSize` and `rbgNum`. -/
def dlPassLoopStart (env : Env) (s : SchedState) (dlInfoList : List DlInfoListElement_s) :
    Res (SchedState × List BuildRarListElement_s × Nat × Nat) :=
  match RefreshDlCqiMaps s with
  | .error f => .error f
  | .ok s1 =>
    let rbgSize := GetRbgSize s1.m_dlBandwidth
    if rbgSize < 0 then .error .lengthError
    else
      let rbgNum := s1.m_dlBandwidth / rbgSize.toNat
      let s2 := { s1 with
        m_ulHarqCurrentProcessId := advanceUlHarqProcessIds s1.m_ulHarqCurrentProcessId,
        m_rachAllocationMap := vecResize s1.m_rachAllocationMap s1.m_ulBandwidth 0 }
      match rachLoop env s2.m_rachList 0 [] s2 with
      | .error f => .error f
      | .ok (rar, s3) =>
        match RefreshHarqProcesses env { s3 with m_rachList := [] } with
        | .error f => .error f
        | .ok s4 =>
          .ok ({ s4 with m_dlInfoListBuffered := mergeDlInfo s4 dlInfoList }, rar,
               rbgSize.toNat, rbgNum)

theorem vecAt_eq_ok {α : Type} (v : List α) (i : Nat) (x : α) :
    vecAt v i = .ok x ↔ v[i]? = some x := by
  unfold vecAt
  cases h : v[i]? <;> simp

theorem vecAt_of_lt {α : Type} (v : List α) (i : Nat) (h : i < v.length) :
    vecAt v i = .ok v[i] := by
  rw [vecAt_eq_ok]; exact List.getElem?_eq_getElem h

theorem vecSet_of_lt {α : Type} (v : List α) (i : Nat) (x : α) (h : i < v.length) :
    vecSet v i x = .ok (v.set i x) := by
  simp [vecSet, h]

theorem vecSet_eq_ok {α : Type} (v : List α) (i : Nat) (x : α) (w : List α) :
    vecSet v i x = .ok w ↔ i < v.length ∧ w = v.set i x := by
  unfold vecSet
  by_cases h : i < v.length <;> simp [h, eq_comm]

theorem RMap.find_assign_self {α : Type} (m : RMap α) (k : Nat) (x y : α)
    (h : m.find k = some y) : (m.assign k x).find k = some x := by
  induction m with
  | nil => simp [RMap.find] at h
  | cons kv m ih =>
    obtain ⟨k1, v1⟩ := kv
    by_cases hk : k1 = k
    · simp [RMap.assign, RMap.find, hk]
    · simp [RMap.assign, RMap.find, hk] at h ⊢
      exact ih h

theorem RMap.find_assign_ne {α : Type} (m : RMap α) (k k2 : Nat) (x : α)
    (h : k2 ≠ k) : (m.assign k x).find k2 = m.find k2 := by
  induction m with
  | nil => simp [RMap.assign]
  | cons kv m ih =>
    obtain ⟨k1, v1⟩ := kv
    by_cases hk : k1 = k
    · subst hk
      have : ¬ k1 = k2 := fun e => h e.symm
      simp [RMap.assign, RMap.find, this]
    · by_cases hk2 : k1 = k2
      · subst hk2
        simp [RMap.assign, RMap.find, hk]
      · simp [RMap.assign, RMap.find, hk, hk2, ih]

/-- The probing loop, started after `m` occupied slots, leaves at the first free
slot after the last-used one, or at the last-used one. -/
theorem harqProbe_spec (stat : List Nat) (cur : Nat) (hlen : stat.length = 8) (hcur : cur < 8) :
    ∀ (fuel m : Nat), m + fuel = 8 → 0 < fuel →
      (∀ j, 1 ≤ j → j ≤ m → stat[(cur + j) % 8]? ≠ some 0) →
      ∃ k, m < k ∧ k ≤ 8 ∧ harqProbe stat cur fuel ((cur + m) % 8) = .ok ((cur + k) % 8) ∧
        (∀ j, 1 ≤ j → j < k → stat[(cur + j) % 8]? ≠ some 0) ∧
        (k < 8 → stat[(cur + k) % 8]? = some 0) := by
  intro fuel
  induction fuel with
  | zero => intro m _ h; omega
  | succ fuel ih =>
    intro m hm _ hbusy
    have hi1 : ((cur + m) % 8 + 1) % 8 = (cur + (m + 1)) % 8 := by omega
    have hlt : (cur + (m + 1)) % 8 < stat.length := by omega
    simp only [harqProbe, HARQ_PROC_NUM, hi1, vecAt_of_lt _ _ hlt]
    by_cases hm7 : m + 1 = 8
    · refine ⟨8, by omega, le_refl _, ?_, ?_, by omega⟩
      · have : (cur + (m + 1)) % 8 = cur := by omega
        have h8 : (cur + 8) % 8 = cur := by omega
        simp [this, h8]
      · intro j h1 h2; exact hbusy j h1 (by omega)
    · by_cases hz : stat[(cur + (m + 1)) % 8] = 0
      · refine ⟨m + 1, by omega, by omega, ?_, ?_, ?_⟩
        · simp [hz]
        · intro j h1 h2; exact hbusy j h1 (by omega)
        · intro _; rw [List.getElem?_eq_getElem hlt, hz]
      · have hne : (cur + (m + 1)) % 8 ≠ cur := by omega
        have hb : ∀ j, 1 ≤ j → j ≤ m + 1 → stat[(cur + j) % 8]? ≠ some 0 := by
          intro j h1 h2
          by_cases hj : j = m + 1
          · subst hj; rw [List.getElem?_eq_getElem hlt]; simpa using hz
          · exact hbusy j h1 (by omega)
        obtain ⟨k, hk1, hk2, hk3, hk4, hk5⟩ := ih (m + 1) (by omega) (by omega) hb
        refine ⟨k, by omega, hk2, ?_, hk4, hk5⟩
        simp [hz, hne, hk3]


/-- C7: for a configured user (entries in both HARQ tables, 8 status slots,
last-used slot below 8) `HarqProcessAvailability` returns `true` exactly when at
least one of the 8 slots is free, the last-used slot included, and `false` when
all 8 are busy. The function is a reader of the scheduler: its embedding has no
state in its result, so no state changes. -/
theorem harqProcessAvailability_iff_free_slot (s : SchedState) (rnti cur : Nat)
    (stat : List Nat)
    (hc : s.m_dlHarqCurrentProcessId.find rnti = some cur)
    (hs : s.m_dlHarqProcessesStatus.find rnti = some stat)
    (hlen : stat.length = 8) (hcur : cur < 8) :
    HarqProcessAvailability s rnti = .ok (decide (∃ i, i < 8 ∧ stat[i]? = some 0)) := by
  obtain ⟨k, hk1, hk2, hk3, hk4, hk5⟩ :=
    harqProbe_spec stat cur hlen hcur 8 0 (by omega) (by omega) (by intro j h1 h2; omega)
  have hcur0 : (cur + 0) % 8 = cur := by omega
  rw [hcur0] at hk3
  have hlt : (cur + k) % 8 < stat.length := by omega
  simp only [HarqProcessAvailability, hc, hs, harqProbeFuel, HARQ_PROC_NUM, hk3,
    vecAt_of_lt _ _ hlt]
  congr 1
  by_cases hk8 : k < 8
  · have h0 := hk5 hk8
    rw [List.getElem?_eq_getElem hlt] at h0
    have h0v : stat[(cur + k) % 8] = 0 := by simpa using h0
    have hex : ∃ i, i < 8 ∧ stat[i]? = some 0 :=
      ⟨(cur + k) % 8, by omega, by rw [List.getElem?_eq_getElem hlt, h0v]⟩
    simp [h0v, hex]
  · have hk : k = 8 := by omega
    subst hk
    have hcur8 : (cur + 8) % 8 = cur := by omega
    have hltc : cur < stat.length := by omega
    simp only [hcur8]
    by_cases hz : stat[cur] = 0
    · have hex : ∃ i, i < 8 ∧ stat[i]? = some 0 :=
        ⟨cur, hcur, by rw [List.getElem?_eq_getElem hltc, hz]⟩
      simp [hz, hex]
    · have hno : ¬ ∃ i, i < 8 ∧ stat[i]? = some 0 := by
        rintro ⟨i, hi, hfree⟩
        by_cases hic : i = cur
        · subst hic
          rw [List.getElem?_eq_getElem hltc] at hfree
          exact hz (by simpa using hfree)
        · have := hk4 ((i + 8 - cur) % 8) (by omega) (by omega)
          have hidx : (cur + (i + 8 - cur) % 8) % 8 = i := by omega
          rw [hidx] at this
          exact this hfree
      simp [hz, hno]

/-- C6: with HARQ enabled, for a configured user with last-used slot `cur`
(below 8) and at least one free slot, `UpdateHarqProcessId` returns the first
free slot met when probing `cur+1, cur+2, ..., cur` modulo 8; afterwards that
slot is busy and is the new last-used slot, every other slot of the user and
every slot of every other user is unchanged. -/
theorem updateHarqProcessId_first_free (s : SchedState) (rnti cur : Nat) (stat : List Nat)
    (hon : s.m_harqOn = true)
    (hc : s.m_dlHarqCurrentProcessId.find rnti = some cur)
    (hs : s.m_dlHarqProcessesStatus.find rnti = some stat)
    (hlen : stat.length = 8) (hcur : cur < 8)
    (hfree : ∃ i, i < 8 ∧ stat[i]? = some 0) :
    ∃ k s1 stat1, 1 ≤ k ∧ k ≤ 8 ∧
      UpdateHarqProcessId s rnti = .ok ((cur + k) % 8, s1) ∧
      stat[(cur + k) % 8]? = some 0 ∧
      (∀ j, 1 ≤ j → j < k → stat[(cur + j) % 8]? ≠ some 0) ∧
      s1.m_dlHarqCurrentProcessId.find rnti = some ((cur + k) % 8) ∧
      s1.m_dlHarqProcessesStatus.find rnti = some stat1 ∧
      stat1.length = 8 ∧
      stat1[(cur + k) % 8]? = some 1 ∧
      (∀ i, i ≠ (cur + k) % 8 → stat1[i]? = stat[i]?) ∧
      (∀ r, r ≠ rnti →
        s1.m_dlHarqProcessesStatus.find r = s.m_dlHarqProcessesStatus.find r) := by
  obtain ⟨k, hk1, hk2, hk3, hk4, hk5⟩ :=
    harqProbe_spec stat cur hlen hcur 8 0 (by omega) (by omega) (by intro j h1 h2; omega)
  have hcur0 : (cur + 0) % 8 = cur := by omega
  rw [hcur0] at hk3
  have hlt : (cur + k) % 8 < stat.length := by omega
  have hslot : stat[(cur + k) % 8]? = some 0 := by
    by_cases hk8 : k < 8
    · exact hk5 hk8
    · have hk : k = 8 := by omega
      subst hk
      obtain ⟨i, hi, hif⟩ := hfree
      by_cases hic : (cur + 8) % 8 = i
      · rw [hic]; exact hif
      · exfalso
        have := hk4 ((i + 8 - cur) % 8) (by omega) (by omega)
        have hidx : (cur + (i + 8 - cur) % 8) % 8 = i := by omega
        rw [hidx] at this
        exact this hif
  have h0v : stat[(cur + k) % 8] = 0 := by
    rw [List.getElem?_eq_getElem hlt] at hslot; simpa using hslot
  refine ⟨k, { s with
      m_dlHarqCurrentProcessId := s.m_dlHarqCurrentProcessId.assign rnti ((cur + k) % 8),
      m_dlHarqProcessesStatus :=
        s.m_dlHarqProcessesStatus.assign rnti (stat.set ((cur + k) % 8) 1) },
    stat.set ((cur + k) % 8) 1, by omega, hk2, ?_, hslot, hk4, ?_, ?_, ?_, ?_, ?_, ?_⟩
  · simp only [UpdateHarqProcessId, hon, hc, hs, harqProbeFuel, HARQ_PROC_NUM, hk3,
      vecAt_of_lt _ _ hlt, h0v, vecSet_of_lt _ _ _ hlt]
    simp
  · exact RMap.find_assign_self _ _ _ _ hc
  · exact RMap.find_assign_self _ _ _ _ hs
  · simp [hlen]
  · simp [List.getElem?_set, hlt]
  · intro i hi
    simp [List.getElem?_set, hlt, Ne.symm hi]
  · intro r hr
    exact RMap.find_assign_ne _ _ _ _ hr

/-- Witness of C7: a freshly configured user. -/
theorem harqProcessAvailability_iff_free_slot_witness :
    HarqProcessAvailability
        (DoCschedUeConfigReq (SchedState.init true 1000 0 UlCqiFilter_t.SRS_UL_CQI) 1 0) 1
      = .ok (decide (∃ i, i < 8 ∧ (List.replicate 8 0)[i]? = some 0)) :=
  harqProcessAvailability_iff_free_slot _ 1 0 (List.replicate 8 0) rfl rfl rfl (by decide)

/-- Witness of C6: a freshly configured user. -/
theorem updateHarqProcessId_first_free_witness :
    ∃ k s1 stat1, 1 ≤ k ∧ k ≤ 8 ∧
      UpdateHarqProcessId
          (DoCschedUeConfigReq (SchedState.init true 1000 0 UlCqiFilter_t.SRS_UL_CQI) 1 0) 1
        = .ok ((0 + k) % 8, s1) ∧
      (List.replicate 8 0)[(0 + k) % 8]? = some 0 ∧
      (∀ j, 1 ≤ j → j < k → (List.replicate 8 0)[(0 + j) % 8]? ≠ some 0) ∧
      s1.m_dlHarqCurrentProcessId.find 1 = some ((0 + k) % 8) ∧
      s1.m_dlHarqProcessesStatus.find 1 = some stat1 ∧
      stat1.length = 8 ∧
      stat1[(0 + k) % 8]? = some 1 ∧
      (∀ i, i ≠ (0 + k) % 8 → stat1[i]? = (List.replicate 8 0)[i]?) ∧
      (∀ r, r ≠ 1 →
        s1.m_dlHarqProcessesStatus.find r =
          (DoCschedUeConfigReq (SchedState.init true 1000 0 UlCqiFilter_t.SRS_UL_CQI) 1
            0).m_dlHarqProcessesStatus.find r) :=
  updateHarqProcessId_first_free _ 1 0 (List.replicate 8 0) rfl rfl rfl rfl (by decide)
    ⟨0, by decide, rfl⟩

/-! ## Channel-quality store -/

theorem RMap.find_eq_none_of_not_mem {α : Type} (m : RMap α) (k : Nat)
    (h : k ∉ m.map Prod.fst) : m.find k = none := by
  induction m with
  | nil => rfl
  | cons kv m ih =>
    obtain ⟨k1, v1⟩ := kv
    simp only [List.map_cons, List.mem_cons, not_or] at h
    have : ¬ k1 = k := fun e => h.1 e.symm
    simp [RMap.find, this, ih h.2]

theorem RMap.mem_keys_of_find {α : Type} (m : RMap α) (k : Nat) (v : α)
    (h : m.find k = some v) : k ∈ m.map Prod.fst := by
  by_contra hn
  rw [RMap.find_eq_none_of_not_mem m k hn] at h
  cases h

theorem RMap.find_erase_self {α : Type} (m : RMap α) (k : Nat) : (m.erase k).find k = none := by
  induction m with
  | nil => rfl
  | cons kv m ih =>
    obtain ⟨k1, v1⟩ := kv
    by_cases hk : k1 = k
    · simp [RMap.erase, hk, ih]
    · simp [RMap.erase, RMap.find, hk, ih]

theorem RMap.find_erase_ne {α : Type} (m : RMap α) (k k2 : Nat) (h : k2 ≠ k) :
    (m.erase k).find k2 = m.find k2 := by
  induction m with
  | nil => rfl
  | cons kv m ih =>
    obtain ⟨k1, v1⟩ := kv
    by_cases hk : k1 = k
    · subst hk
      have : ¬ k1 = k2 := fun e => h e.symm
      simp [RMap.erase, RMap.find, this, ih]
    · by_cases hk2 : k1 = k2
      · subst hk2
        simp [RMap.erase, RMap.find, hk]
      · simp [RMap.erase, RMap.find, hk, hk2, ih]

/-- One run of the refresh loop over a timer map without repeated keys, each of
whose keys has a sample. -/
theorem refreshCqiLoop_spec {α : Type} :
    ∀ (timers : RMap Nat) (rxed : RMap α), (timers.map Prod.fst).Nodup →
      (∀ k, k ∈ timers.map Prod.fst → (rxed.find k).isSome = true) →
      ∃ t1 r1, refreshCqiLoop timers rxed = .ok (t1, r1) ∧
        (t1.map Prod.fst).Sublist (timers.map Prod.fst) ∧
        (∀ k, t1.find k = match timers.find k with
                          | some (n + 1) => some n
                          | _ => none) ∧
        (∀ k, r1.find k = if timers.find k = some 0 then none else rxed.find k) := by
  intro timers
  induction timers with
  | nil =>
    intro rxed _ _
    exact ⟨[], rxed, rfl, List.Sublist.refl _, fun k => rfl, fun k => by simp [RMap.find]⟩
  | cons kv rest ih =>
    obtain ⟨k0, t0⟩ := kv
    intro rxed hnd hsome
    simp only [List.map_cons, List.nodup_cons] at hnd
    obtain ⟨hk0, hnd'⟩ := hnd
    have hrest0 : RMap.find rest k0 = none := RMap.find_eq_none_of_not_mem rest k0 hk0
    by_cases ht : t0 = 0
    · subst ht
      have h0 := hsome k0 (by simp)
      obtain ⟨c, hc⟩ := Option.isSome_iff_exists.mp h0
      have hsome' : ∀ k, k ∈ rest.map Prod.fst → ((rxed.erase k0).find k).isSome = true := by
        intro k hk
        have hne : k ≠ k0 := fun e => hk0 (e ▸ hk)
        rw [RMap.find_erase_ne _ _ _ hne]
        exact hsome k (by simp [hk])
      obtain ⟨t1, r1, h1, h2, h3, h4⟩ := ih (rxed.erase k0) hnd' hsome'
      refine ⟨t1, r1, ?_, ?_, ?_, ?_⟩
      · simp [refreshCqiLoop, hc, h1]
      · exact List.Sublist.cons _ h2
      · intro k
        by_cases hk : k0 = k
        · subst hk; simp [RMap.find, h3, hrest0]
        · simp [RMap.find, hk, h3]
      · intro k
        by_cases hk : k0 = k
        · subst hk; simp [RMap.find, h4, hrest0, RMap.find_erase_self]
        · simp [RMap.find, hk, h4, RMap.find_erase_ne _ _ _ (Ne.symm hk)]
    · have hsome' : ∀ k, k ∈ rest.map Prod.fst → (rxed.find k).isSome = true :=
        fun k hk => hsome k (by simp [hk])
      obtain ⟨t1, r1, h1, h2, h3, h4⟩ := ih rxed hnd' hsome'
      obtain ⟨n, rfl⟩ : ∃ n, t0 = n + 1 := ⟨t0 - 1, by omega⟩
      refine ⟨(k0, n) :: t1, r1, ?_, ?_, ?_, ?_⟩
      · simp [refreshCqiLoop, h1]
      · simpa using h2.cons₂ k0
      · intro k
        by_cases hk : k0 = k
        · subst hk; simp [RMap.find]
        · simp [RMap.find, hk, h3]
      · intro k
        by_cases hk : k0 = k
        · subst hk; simp [RMap.find, h4, hrest0]
        · simp [RMap.find, hk, h4]


theorem RMap.find_isSome_of_mem_keys {α : Type} (m : RMap α) (k : Nat)
    (h : k ∈ m.map Prod.fst) : (m.find k).isSome = true := by
  induction m with
  | nil => simp at h
  | cons kv m ih =>
    obtain ⟨k1, v1⟩ := kv
    by_cases hk : k1 = k
    · simp [RMap.find, hk]
    · simp only [List.map_cons, List.mem_cons] at h
      rcases h with h | h
      · exact absurd h.symm hk
      · simp [RMap.find, hk, ih h]

/-- The refresh loop keeps a consistent pair of maps consistent. -/
theorem refreshCqiLoop_consistent {α : Type} (timers : RMap Nat) (rxed : RMap α)
    (h : CqiMapsConsistent timers rxed) :
    ∃ t1 r1, refreshCqiLoop timers rxed = .ok (t1, r1) ∧ CqiMapsConsistent t1 r1 ∧
      (∀ k, t1.find k = match timers.find k with
                        | some (n + 1) => some n
                        | _ => none) ∧
      (∀ k, r1.find k = if timers.find k = some 0 then none else rxed.find k) := by
  obtain ⟨hnd, hkeys⟩ := h
  have hsome : ∀ k, k ∈ timers.map Prod.fst → (rxed.find k).isSome = true := by
    intro k hk
    rw [← hkeys k]
    exact RMap.find_isSome_of_mem_keys timers k hk
  obtain ⟨t1, r1, h1, h2, h3, h4⟩ := refreshCqiLoop_spec timers rxed hnd hsome
  refine ⟨t1, r1, h1, ⟨h2.nodup hnd, ?_⟩, h3, h4⟩
  intro k
  rw [h3 k, h4 k]
  have hk := hkeys k
  cases hf : timers.find k with
  | none =>
    rw [hf] at hk
    simp only [Option.isSome_none] at hk
    simp [← hk]
  | some v =>
    rw [hf] at hk
    cases v with
    | zero => simp
    | succ n => simp [← hk]

/-- An entry with timer `T` of a store refreshed by `f` stays, with its sample,
through `T` calls of `f` and is gone after call `T + 1`. -/
theorem cqi_entry_lifetime {σ α : Type} (f : σ → Res σ) (tm : σ → RMap Nat)
    (rx : σ → RMap α) (I : σ → Prop)
    (hstep : ∀ s, I s → ∃ s1, f s = .ok s1 ∧ I s1 ∧
      (∀ k, (tm s1).find k = match (tm s).find k with
                             | some (n + 1) => some n
                             | _ => none) ∧
      (∀ k, (rx s1).find k = if (tm s).find k = some 0 then none else (rx s).find k))
    (u : Nat) (c : α) :
    ∀ (T : Nat) (s : σ), I s → (tm s).find u = some T → (rx s).find u = some c →
      (∀ k, k ≤ T → ∃ s1, Res.iterate f k s = .ok s1 ∧ (tm s1).find u = some (T - k) ∧
        (rx s1).find u = some c) ∧
      (∃ s1, Res.iterate f (T + 1) s = .ok s1 ∧ (tm s1).find u = none ∧
        (rx s1).find u = none) := by
  intro T
  induction T with
  | zero =>
    intro s hI ht hc
    obtain ⟨s1, hf, _, h3, h4⟩ := hstep s hI
    refine ⟨?_, s1, ?_, ?_, ?_⟩
    · intro k hk
      have : k = 0 := by omega
      subst this
      exact ⟨s, rfl, ht, hc⟩
    · simp [Res.iterate, hf]
    · rw [h3 u, ht]
    · rw [h4 u, ht]; simp
  | succ n ih =>
    intro s hI ht hc
    obtain ⟨s1, hf, hI1, h3, h4⟩ := hstep s hI
    have ht1 : (tm s1).find u = some n := by rw [h3 u, ht]
    have hc1 : (rx s1).find u = some c := by rw [h4 u, ht]; simpa using hc
    obtain ⟨ihk, s2, hs2, hs2t, hs2r⟩ := ih s1 hI1 ht1 hc1
    refine ⟨?_, s2, ?_, hs2t, hs2r⟩
    · intro k hk
      cases k with
      | zero => exact ⟨s, rfl, ht, hc⟩
      | succ k =>
        obtain ⟨s3, h31, h32, h33⟩ := ihk k (by omega)
        refine ⟨s3, ?_, ?_, h33⟩
        · simp [Res.iterate, hf, h31]
        · rw [h32]; congr 1; omega
    · show Res.iterate f (n + 1 + 1) s = .ok s2
      rw [Res.iterate]
      simp only [hf]
      exact hs2


/-- `RefreshDlCqiMaps` on consistent wideband and subband stores. -/
theorem refreshDlCqiMaps_step (s : SchedState)
    (h : CqiMapsConsistent s.m_p10CqiTimers s.m_p10CqiRxed ∧
         CqiMapsConsistent s.m_a30CqiTimers s.m_a30CqiRxed) :
    ∃ s1, RefreshDlCqiMaps s = .ok s1 ∧
      (CqiMapsConsistent s1.m_p10CqiTimers s1.m_p10CqiRxed ∧
       CqiMapsConsistent s1.m_a30CqiTimers s1.m_a30CqiRxed) ∧
      ((∀ k, s1.m_p10CqiTimers.find k = match s.m_p10CqiTimers.find k with
                                        | some (n + 1) => some n
                                        | _ => none) ∧
       (∀ k, s1.m_p10CqiRxed.find k =
          if s.m_p10CqiTimers.find k = some 0 then none else s.m_p10CqiRxed.find k)) ∧
      ((∀ k, s1.m_a30CqiTimers.find k = match s.m_a30CqiTimers.find k with
                                        | some (n + 1) => some n
                                        | _ => none) ∧
       (∀ k, s1.m_a30CqiRxed.find k =
          if s.m_a30CqiTimers.find k = some 0 then none else s.m_a30CqiRxed.find k)) := by
  obtain ⟨t10, r10, e10, c10, f10, g10⟩ := refreshCqiLoop_consistent _ _ h.1
  obtain ⟨t30, r30, e30, c30, f30, g30⟩ := refreshCqiLoop_consistent _ _ h.2
  refine ⟨{ s with m_p10CqiTimers := t10, m_p10CqiRxed := r10,
                    m_a30CqiTimers := t30, m_a30CqiRxed := r30 },
    ?_, ⟨?_, ?_⟩, ⟨?_, ?_⟩, ⟨?_, ?_⟩⟩
  · simp only [RefreshDlCqiMaps, e10, e30]
  · exact c10
  · exact c30
  · exact f10
  · exact g10
  · exact f30
  · exact g30

/-- `RefreshUlCqiMaps` on a consistent uplink store. -/
theorem refreshUlCqiMaps_step (s : SchedState)
    (h : CqiMapsConsistent s.m_ueCqiTimers s.m_ueCqi) :
    ∃ s1, RefreshUlCqiMaps s = .ok s1 ∧ CqiMapsConsistent s1.m_ueCqiTimers s1.m_ueCqi ∧
      (∀ k, s1.m_ueCqiTimers.find k = match s.m_ueCqiTimers.find k with
                                      | some (n + 1) => some n
                                      | _ => none) ∧
      (∀ k, s1.m_ueCqi.find k =
          if s.m_ueCqiTimers.find k = some 0 then none else s.m_ueCqi.find k) := by
  obtain ⟨t, r, e, c, f, g⟩ := refreshCqiLoop_consistent _ _ h
  refine ⟨{ s with m_ueCqiTimers := t, m_ueCqi := r }, ?_, ?_, ?_, ?_⟩
  · simp only [RefreshUlCqiMaps, e]
  · exact c
  · exact f
  · exact g

/-- C5 (as amended): in a scheduler whose channel-quality stores are consistent,
an entry whose age counter is `T` and that is not reported again is still
present, with its sample, after each of the first `T` refresh calls (its counter
is `T - k` after call `k`), and is purged from the timer map and the sample map
by the call number `T + 1`. This holds for the wideband and the subband store
under `RefreshDlCqiMaps` and for the uplink store under `RefreshUlCqiMaps`. -/
theorem cqi_entry_purged_by_refresh_after_threshold (s : SchedState) (u T : Nat)
    (h10 : CqiMapsConsistent s.m_p10CqiTimers s.m_p10CqiRxed)
    (h30 : CqiMapsConsistent s.m_a30CqiTimers s.m_a30CqiRxed)
    (hul : CqiMapsConsistent s.m_ueCqiTimers s.m_ueCqi) :
    (∀ c, s.m_p10CqiTimers.find u = some T → s.m_p10CqiRxed.find u = some c →
      (∀ k, k ≤ T → ∃ s1, Res.iterate RefreshDlCqiMaps k s = .ok s1 ∧
        s1.m_p10CqiTimers.find u = some (T - k) ∧ s1.m_p10CqiRxed.find u = some c) ∧
      (∃ s1, Res.iterate RefreshDlCqiMaps (T + 1) s = .ok s1 ∧
        s1.m_p10CqiTimers.find u = none ∧ s1.m_p10CqiRxed.find u = none)) ∧
    (∀ c, s.m_a30CqiTimers.find u = some T → s.m_a30CqiRxed.find u = some c →
      (∀ k, k ≤ T → ∃ s1, Res.iterate RefreshDlCqiMaps k s = .ok s1 ∧
        s1.m_a30CqiTimers.find u = some (T - k) ∧ s1.m_a30CqiRxed.find u = some c) ∧
      (∃ s1, Res.iterate RefreshDlCqiMaps (T + 1) s = .ok s1 ∧
        s1.m_a30CqiTimers.find u = none ∧ s1.m_a30CqiRxed.find u = none)) ∧
    (∀ c, s.m_ueCqiTimers.find u = some T → s.m_ueCqi.find u = some c →
      (∀ k, k ≤ T → ∃ s1, Res.iterate RefreshUlCqiMaps k s = .ok s1 ∧
        s1.m_ueCqiTimers.find u = some (T - k) ∧ s1.m_ueCqi.find u = some c) ∧
      (∃ s1, Res.iterate RefreshUlCqiMaps (T + 1) s = .ok s1 ∧
        s1.m_ueCqiTimers.find u = none ∧ s1.m_ueCqi.find u = none)) := by
  refine ⟨?_, ?_, ?_⟩
  · intro c ht hc
    exact cqi_entry_lifetime RefreshDlCqiMaps (fun s => s.m_p10CqiTimers)
      (fun s => s.m_p10CqiRxed)
      (fun s => CqiMapsConsistent s.m_p10CqiTimers s.m_p10CqiRxed ∧
                CqiMapsConsistent s.m_a30CqiTimers s.m_a30CqiRxed)
      (fun s hI => by
        obtain ⟨s1, e, c1, f10, _⟩ := refreshDlCqiMaps_step s hI
        exact ⟨s1, e, c1, f10.1, f10.2⟩) u c T s ⟨h10, h30⟩ ht hc
  · intro c ht hc
    exact cqi_entry_lifetime RefreshDlCqiMaps (fun s => s.m_a30CqiTimers)
      (fun s => s.m_a30CqiRxed)
      (fun s => CqiMapsConsistent s.m_p10CqiTimers s.m_p10CqiRxed ∧
                CqiMapsConsistent s.m_a30CqiTimers s.m_a30CqiRxed)
      (fun s hI => by
        obtain ⟨s1, e, c1, _, f30⟩ := refreshDlCqiMaps_step s hI
        exact ⟨s1, e, c1, f30.1, f30.2⟩) u c T s ⟨h10, h30⟩ ht hc
  · intro c ht hc
    exact cqi_entry_lifetime RefreshUlCqiMaps (fun s => s.m_ueCqiTimers)
      (fun s => s.m_ueCqi) (fun s => CqiMapsConsistent s.m_ueCqiTimers s.m_ueCqi)
      (fun s hI => refreshUlCqiMaps_step s hI) u c T s hul ht hc

/-- Stores of the scheduler after construction are consistent. -/
theorem cqiMapsConsistent_nil {α : Type} : CqiMapsConsistent ([] : RMap Nat) ([] : RMap α) :=
  ⟨by simp, fun k => rfl⟩

/-- A store with one entry is consistent. -/
theorem cqiMapsConsistent_single {α : Type} (u t : Nat) (c : α) :
    CqiMapsConsistent ([(u, t)] : RMap Nat) ([(u, c)] : RMap α) := by
  refine ⟨by simp, fun k => ?_⟩
  by_cases hk : u = k <;> simp [RMap.find, hk]

/-- Counterexample to C5 as stated: with threshold `T = 1`, the entry recorded
by `DoSchedDlCqiInfoReq` (age counter 1) is still in the store after the first,
that is the `T`-th, refresh call; its counter is then 0. -/
theorem cqi_entry_present_after_threshold_refreshes :
    DoSchedDlCqiInfoReq (SchedState.init true 1 0 UlCqiFilter_t.SRS_UL_CQI)
        [{ m_rnti := 1, m_cqiType := CqiType_e.P10, m_wbCqi := [9], m_sbMeasResult := [] }]
      = .ok cqiExampleState ∧
    ∃ s1, Res.iterate RefreshDlCqiMaps 1 cqiExampleState = .ok s1 ∧
      s1.m_p10CqiRxed.find 1 = some 9 ∧ s1.m_p10CqiTimers.find 1 = some 0 :=
  ⟨rfl, _, rfl, rfl, rfl⟩

/-- Witness of C5 (as amended) at the recorded entry of `cqiExampleState`. -/
theorem cqi_entry_purged_by_refresh_after_threshold_witness :
    (∀ k, k ≤ 1 → ∃ s1, Res.iterate RefreshDlCqiMaps k cqiExampleState = .ok s1 ∧
        s1.m_p10CqiTimers.find 1 = some (1 - k) ∧ s1.m_p10CqiRxed.find 1 = some 9) ∧
      (∃ s1, Res.iterate RefreshDlCqiMaps (1 + 1) cqiExampleState = .ok s1 ∧
        s1.m_p10CqiTimers.find 1 = none ∧ s1.m_p10CqiRxed.find 1 = none) :=
  (cqi_entry_purged_by_refresh_after_threshold cqiExampleState 1 1
    (cqiMapsConsistent_single 1 1 9) cqiMapsConsistent_nil cqiMapsConsistent_nil).1 9 rfl rfl

/-! ## Downlink HARQ feedback -/

/-- Every layer of a cleared archive is empty at the cleared process. -/
theorem clearArchive_spec (harqId : Nat) :
    ∀ (arch arch1 : List (List (List RlcPduListElement_s))),
      clearArchive harqId arch = .ok arch1 →
      arch1.length = arch.length ∧ ∀ layer, layer ∈ arch1 → layer[harqId]? = some [] := by
  intro arch
  induction arch with
  | nil =>
    intro arch1 h
    simp only [clearArchive, Except.ok.injEq] at h
    subst h
    simp
  | cons layer rest ih =>
    intro arch1 h
    simp only [clearArchive] at h
    split at h
    · cases h
    · rename_i layer1 hl
      split at h
      · cases h
      · rename_i rest1 hr
        simp only [Except.ok.injEq] at h
        subst h
        obtain ⟨hlen, hall⟩ := ih rest1 hr
        rw [vecSet_eq_ok] at hl
        refine ⟨by simp [hlen], ?_⟩
        intro l hl2
        simp only [List.mem_cons] at hl2
        rcases hl2 with rfl | hl2
        · rw [hl.2]; simp [List.getElem?_set, hl.1]
        · exact hall l hl2

/-- Freeing a process: its status slot is 0 afterwards, its archive is empty on
every layer, and nothing but the status and the archive of the user changes. -/
theorem dlHarqRelease_spec (missing : Fault) (s s1 : SchedState) (rnti harqId : Nat)
    (h : dlHarqRelease missing s rnti harqId = .ok s1) :
    (∃ stat1, s1.m_dlHarqProcessesStatus.find rnti = some stat1 ∧ stat1[harqId]? = some 0) ∧
    (∃ arch1, s1.m_dlHarqProcessesRlcPduListBuffer.find rnti = some arch1 ∧
      ∀ layer, layer ∈ arch1 → layer[harqId]? = some []) ∧
    s1.m_dlHarqProcessesDciBuffer = s.m_dlHarqProcessesDciBuffer := by
  simp only [dlHarqRelease] at h
  split at h
  · cases h
  · rename_i stat hs
    split at h
    · cases h
    · rename_i stat1 hst
      split at h
      · cases h
      · rename_i arch ha
        split at h
        · cases h
        · rename_i arch1 hc
          simp only [Except.ok.injEq] at h
          subst h
          rw [vecSet_eq_ok] at hst
          refine ⟨⟨stat1, RMap.find_assign_self _ _ _ _ hs, ?_⟩,
            ⟨arch1, RMap.find_assign_self _ _ _ _ ha, (clearArchive_spec _ _ _ hc).2⟩, rfl⟩
          rw [hst.2]; simp [List.getElem?_set, hst.1]


/-- One round of the per-layer update. -/
theorem retxLayerStep_spec (retx : List Bool) (j : Nat) (dci dci1 : DlDciListElement_s)
    (srv srv1 : List Nat) (h : retxLayerStep retx j dci srv = .ok (dci1, srv1))
    (hb : RvBelow dci.m_rv j) (hj : j < 2) :
    RvBelow dci1.m_rv (j + 1) ∧ dci.m_ndi.length ≤ dci1.m_ndi.length ∧
    (∀ i x, dci.m_rv[i]? = some x → i ≠ j → dci1.m_rv[i]? = some x) ∧
    (retx[j]? = some true → j < dci.m_ndi.length →
      ∃ x, dci.m_rv[j]? = some x ∧ dci1.m_rv[j]? = some (x + 1)) ∧
    (j < dci.m_ndi.length → ∀ i, i ≠ j → dci1.m_rv[i]? = dci.m_rv[i]?) ∧
    dci1.m_rnti = dci.m_rnti ∧ dci1.m_harqProcess = dci.m_harqProcess ∧
    dci1.m_rbBitmap = dci.m_rbBitmap := by
  obtain ⟨hall, hlow⟩ := hb
  simp only [retxLayerStep] at h
  split at h
  · cases h
  · rename_i r hr
    rw [vecAt_eq_ok] at hr
    split at h
    · rename_i hrt
      subst hrt
      split at h
      · rename_i hge
        simp only [Except.ok.injEq, Prod.mk.injEq] at h
        obtain ⟨rfl, rfl⟩ := h
        refine ⟨⟨?_, ?_⟩, by simp, ?_, ?_, ?_, rfl, rfl, rfl⟩
        · intro x hx
          simp only [List.mem_append, List.mem_singleton] at hx
          rcases hx with hx | hx
          · exact hall x hx
          · omega
        · intro i x hi1 hi2 hx
          simp only [List.getElem?_append] at hx
          split at hx
          · exact hlow i x (by omega) hi2 hx
          · rename_i hlen
            have : x = 0 := by
              cases hm : i - dci.m_rv.length with
              | zero => rw [hm] at hx; simpa using hx.symm
              | succ n => rw [hm] at hx; simp at hx
            omega
        · intro i x hx _
          have hlt : i < dci.m_rv.length := (List.getElem?_eq_some_iff.mp hx).1
          simp [List.getElem?_append, hlt, hx]
        · intro _ hlt
          omega
        · intro hlt
          omega
      · rename_i hlt
        split at h
        · cases h
        · rename_i ndi1 hndi
          split at h
          · cases h
          · rename_i rv hrv
            split at h
            · cases h
            · rename_i rv1 hrv1
              split at h
              · cases h
              · split at h
                · cases h
                · simp only [Except.ok.injEq, Prod.mk.injEq] at h
                  obtain ⟨rfl, _⟩ := h
                  rw [vecAt_eq_ok] at hrv
                  rw [vecSet_eq_ok] at hrv1 hndi
                  have hrv2 : rv ≤ 2 := hlow j rv (le_refl _) hj hrv
                  have hmod : (rv + 1) % 256 = rv + 1 := by omega
                  rw [hmod] at hrv1
                  obtain ⟨hjl, rfl⟩ := hrv1
                  refine ⟨⟨?_, ?_⟩, by simp [hndi.2], ?_, ?_, ?_, rfl, rfl, rfl⟩
                  · intro x hx
                    rcases List.mem_or_eq_of_mem_set hx with hx | hx
                    · exact hall x hx
                    · omega
                  · intro i x hi1 hi2 hx
                    have hne : j ≠ i := by omega
                    simp only [List.getElem?_set, hne, if_false] at hx
                    exact hlow i x (by omega) hi2 hx
                  · intro i x hx hne
                    simp [List.getElem?_set, Ne.symm hne, hx]
                  · intro _ _
                    exact ⟨rv, hrv, by simp [List.getElem?_set, hjl]⟩
                  · intro _ i hne
                    simp [List.getElem?_set, Ne.symm hne]
    · rename_i hrf
      split at h
      · cases h
      · rename_i ndi1 hndi
        split at h
        · cases h
        · rename_i rv1 hrv1
          split at h
          · cases h
          · split at h
            · cases h
            · simp only [Except.ok.injEq, Prod.mk.injEq] at h
              obtain ⟨rfl, _⟩ := h
              rw [vecSet_eq_ok] at hrv1 hndi
              obtain ⟨hjl, rfl⟩ := hrv1
              refine ⟨⟨?_, ?_⟩, by simp [hndi.2], ?_, ?_, ?_, rfl, rfl, rfl⟩
              · intro x hx
                rcases List.mem_or_eq_of_mem_set hx with hx | hx
                · exact hall x hx
                · omega
              · intro i x hi1 hi2 hx
                have hne : j ≠ i := by omega
                simp only [List.getElem?_set, hne, if_false] at hx
                exact hlow i x (by omega) hi2 hx
              · intro i x hx hne
                simp [List.getElem?_set, Ne.symm hne, hx]
              · intro hr1 _
                rw [hr] at hr1
                simp only [Option.some.injEq] at hr1
                exact absurd hr1 hrf
              · intro _ i hne
                simp [List.getElem?_set, Ne.symm hne]


/-- The per-layer update loop from layer `j` on. -/
theorem retxLayers_spec (retx : List Bool) :
    ∀ (n j : Nat) (dci dci2 : DlDciListElement_s) (srv srv2 : List Nat),
      retxLayers retx n j dci srv = .ok (dci2, srv2) → RvBelow dci.m_rv j → j + n ≤ 2 →
      (∀ x, x ∈ dci2.m_rv → x ≤ 3) ∧
      (∀ i, j ≤ i → i < j + n → retx[i]? = some true → i < dci.m_ndi.length →
        ∃ x, dci.m_rv[i]? = some x ∧ dci2.m_rv[i]? = some (x + 1)) ∧
      (∀ i x, i < j → dci.m_rv[i]? = some x → dci2.m_rv[i]? = some x) ∧
      dci2.m_rnti = dci.m_rnti ∧ dci2.m_harqProcess = dci.m_harqProcess ∧
      dci2.m_rbBitmap = dci.m_rbBitmap := by
  intro n
  induction n with
  | zero =>
    intro j dci dci2 srv srv2 h hb _
    simp only [retxLayers, Except.ok.injEq, Prod.mk.injEq] at h
    obtain ⟨rfl, _⟩ := h
    exact ⟨hb.1, fun i h1 h2 => by omega, fun i x _ hx => hx, rfl, rfl, rfl⟩
  | succ n ih =>
    intro j dci dci2 srv srv2 h hb hjn
    simp only [retxLayers] at h
    split at h
    · cases h
    · rename_i dci1 srv1 hstep
      obtain ⟨hb1, hmono, hkeep, hinc, hsame, e1, e2, e3⟩ :=
        retxLayerStep_spec retx j dci dci1 srv srv1 hstep hb (by omega)
      obtain ⟨i1, i2, i3, i4, i5, i6⟩ := ih (j + 1) dci1 dci2 srv1 srv2 h hb1 (by omega)
      refine ⟨i1, ?_, ?_, by rw [i4, e1], by rw [i5, e2], by rw [i6, e3]⟩
      · intro i hi1 hi2 hr hlt
        by_cases hij : i = j
        · subst hij
          obtain ⟨x, hx1, hx2⟩ := hinc hr hlt
          exact ⟨x, hx1, i3 i (x + 1) (by omega) hx2⟩
        · obtain ⟨x, hx1, hx2⟩ := i2 i (by omega) (by omega) hr (by omega)
          refine ⟨x, ?_, hx2⟩
          rw [← hsame (by omega) i hij]
          exact hx1
      · intro i x hi hx
        exact i3 i x (by omega) (hkeep i x hx (by omega))


/-- The per-layer update loop reads `retx` at every layer it updates. -/
theorem retxLayers_ok_length (retx : List Bool) :
    ∀ (n j : Nat) (dci : DlDciListElement_s) (srv : List Nat)
      (r : DlDciListElement_s × List Nat),
      retxLayers retx n j dci srv = .ok r → n = 0 ∨ j + n ≤ retx.length := by
  intro n
  induction n with
  | zero => intro j dci srv r _; exact Or.inl rfl
  | succ n ih =>
    intro j dci srv r h
    right
    simp only [retxLayers] at h
    split at h
    · cases h
    · rename_i dci1 srv1 hstep
      have hj : j < retx.length := by
        simp only [retxLayerStep] at hstep
        split at hstep
        · cases hstep
        · rename_i b hb
          rw [vecAt_eq_ok] at hb
          exact (List.getElem?_eq_some_iff.mp hb).1
      rcases ih (j + 1) dci1 srv1 r h with h0 | h0
      · omega
      · omega

/-- The flags built from a feedback entry. -/
theorem retxFlags_spec (e : DlInfoListElement_s) (retx : List Bool)
    (h : retxFlags e = .ok retx) :
    retx.length = 2 ∧ 1 ≤ e.m_harqStatus.length ∧
    (retx[0]? = some true ↔ e.m_harqStatus[0]? = some HarqStatus_e.NACK) ∧
    (retx[1]? = some true ↔
      (e.m_harqStatus.length ≠ 1 ∧ e.m_harqStatus[1]? = some HarqStatus_e.NACK)) := by
  simp only [retxFlags] at h
  split at h
  · rename_i h1
    split at h
    · cases h
    · rename_i a ha
      rw [vecAt_eq_ok] at ha
      simp only [Except.ok.injEq] at h
      subst h
      simp [ha, h1]
  · rename_i h1
    split at h
    · cases h
    · rename_i a ha
      split at h
      · cases h
      · rename_i b hb
        rw [vecAt_eq_ok] at ha hb
        simp only [Except.ok.injEq] at h
        subst h
        have : 1 ≤ e.m_harqStatus.length := by
          have := (List.getElem?_eq_some_iff.mp ha).1
          omega
        simp [ha, hb, h1, this]

/-- The placement changes nothing of the working DCI but its bitmap, and does
not touch the descriptor list or the set of served users. -/
theorem dlRetxPlace_frame (rbgNum : Nat) (e : DlInfoListElement_s) (dci dci1 : DlDciListElement_s)
    (l l1 : DlLocals) (h : dlRetxPlace rbgNum e dci l = .ok (dci1, l1)) :
    dci1.m_rv = dci.m_rv ∧ dci1.m_ndi = dci.m_ndi ∧ dci1.m_rnti = dci.m_rnti ∧
    dci1.m_harqProcess = dci.m_harqProcess ∧
    l1.buildDataList = l.buildDataList ∧ l1.rntiAllocated = l.rntiAllocated := by
  simp only [dlRetxPlace] at h
  split at h
  · cases h
  · split at h
    · split at h
      · cases h
      · simp only [Except.ok.injEq, Prod.mk.injEq] at h
        obtain ⟨rfl, rfl⟩ := h
        simp
    · split at h
      · cases h
      · split at h
        · cases h
        · split at h
          · simp only [Except.ok.injEq, Prod.mk.injEq] at h
            obtain ⟨rfl, rfl⟩ := h
            simp
          · simp only [Except.ok.injEq, Prod.mk.injEq] at h
            obtain ⟨rfl, rfl⟩ := h
            simp

/-- The emission of a retransmission descriptor. -/
theorem dlRetxEmit_spec (e : DlInfoListElement_s) (retx : List Bool)
    (dcis : List DlDciListElement_s) (dci : DlDciListElement_s) (s s1 : SchedState)
    (l l1 : DlLocals) (h : dlRetxEmit e retx dcis dci s l = .ok (s1, l1))
    (hd : s.m_dlHarqProcessesDciBuffer.find e.m_rnti = some dcis)
    (hb : RvBelow dci.m_rv 0) (hlen : retx.length = 2) :
    ∃ newEl dcis1 stored1, l1.buildDataList = l.buildDataList ++ [newEl] ∧
      newEl.m_rnti = e.m_rnti ∧
      s1.m_dlHarqProcessesDciBuffer.find e.m_rnti = some dcis1 ∧
      dcis1[e.m_harqProcessId]? = some stored1 ∧
      stored1.m_rv = newEl.m_dci.m_rv ∧
      (∀ x, x ∈ newEl.m_dci.m_rv → x ≤ 3) ∧
      (∀ j, j < e.m_harqStatus.length → retx[j]? = some true → j < dci.m_ndi.length →
        ∃ x, dci.m_rv[j]? = some x ∧ newEl.m_dci.m_rv[j]? = some (x + 1)) := by
  simp only [dlRetxEmit] at h
  split at h
  · cases h
  · split at h
    · cases h
    · rename_i stored hst
      split at h
      · cases h
      · rename_i dci1 srv1 hlay
        split at h
        · cases h
        · split at h
          · cases h
          · split at h
            · cases h
            · rename_i rlcPduList _
              split at h
              · cases h
              · rename_i dcis1 hset
                split at h
                · cases h
                · split at h
                  · cases h
                  · simp only [Except.ok.injEq, Prod.mk.injEq] at h
                    obtain ⟨rfl, rfl⟩ := h
                    rw [vecSet_eq_ok] at hset
                    have hn : e.m_harqStatus.length = 0 ∨ 0 + e.m_harqStatus.length ≤ retx.length :=
                      retxLayers_ok_length retx _ _ _ _ _ hlay
                    obtain ⟨a1, a2, _, _, _, _⟩ :=
                      retxLayers_spec retx _ 0 dci dci1 _ _ hlay hb (by omega)
                    refine ⟨_, dcis1, { stored with m_rv := dci1.m_rv }, rfl, rfl, ?_, ?_, rfl,
                      a1, ?_⟩
                    · exact RMap.find_assign_self _ _ _ _ hd
                    · rw [hset.2]; simp [List.getElem?_set, hset.1]
                    · intro j hj hr hlt
                      exact a2 j (by omega) (by omega) hr hlt


/-- The stored value read by the drop test bounds the entries of layers 0 and 1. -/
theorem rvBelow_of_dciRv (dci : DlDciListElement_s) (r : Nat) (h : dciRv dci = .ok r)
    (hle : ∀ x, x ∈ dci.m_rv → x ≤ 3) (hr : r ≠ 3) : RvBelow dci.m_rv 0 := by
  refine ⟨hle, ?_⟩
  intro i x _ hi hx
  have hx3 : x ≤ 3 := hle x (List.mem_iff_getElem?.mpr ⟨i, hx⟩)
  simp only [dciRv] at h
  split at h
  · rename_i h1
    rw [vecAt_eq_ok] at h
    have hi0 : i = 0 := by
      have := (List.getElem?_eq_some_iff.mp hx).1
      omega
    subst hi0
    rw [hx] at h
    simp only [Option.some.injEq] at h
    omega
  · split at h
    · cases h
    · rename_i a ha
      split at h
      · cases h
      · rename_i b hb
        rw [vecAt_eq_ok] at ha hb
        simp only [Except.ok.injEq] at h
        have ha3 : a ≤ 3 := hle a (List.mem_iff_getElem?.mpr ⟨0, ha⟩)
        have hb3 : b ≤ 3 := hle b (List.mem_iff_getElem?.mpr ⟨1, hb⟩)
        have hi01 : i = 0 ∨ i = 1 := by omega
        rcases hi01 with rfl | rfl
        · rw [hx] at ha
          simp only [Option.some.injEq] at ha
          subst ha
          split at h <;> omega
        · rw [hx] at hb
          simp only [Option.some.injEq] at hb
          subst hb
          split at h <;> omega

/-- C3: handling a feedback entry with a NACK for a process whose stored
redundancy versions are at most 3 (the user not yet served in this pass).
When the stored redundancy version read by the drop test is 3, the process is
freed, its archive is emptied on every layer, no descriptor is emitted and the
stored DCI is untouched. Otherwise, whenever the entry is handled, one
descriptor is emitted in which the redundancy version of every NACKed layer the
stored DCI carries is the stored one plus one; the stored DCI gets the same
redundancy versions, and none of them is above 3. -/
theorem dl_nack_advances_rv_until_drop (rbgNum : Nat) (e : DlInfoListElement_s)
    (s s1 : SchedState) (l l1 : DlLocals) (dcis : List DlDciListElement_s)
    (dci : DlDciListElement_s) (r : Nat)
    (hna : e.m_rnti ∉ l.rntiAllocated)
    (hnack : e.m_harqStatus[0]? = some HarqStatus_e.NACK ∨
      (e.m_harqStatus.length ≠ 1 ∧ e.m_harqStatus[1]? = some HarqStatus_e.NACK))
    (hd : s.m_dlHarqProcessesDciBuffer.find e.m_rnti = some dcis)
    (hdci : dcis[e.m_harqProcessId]? = some dci)
    (hrv : dciRv dci = .ok r)
    (hle : ∀ x, x ∈ dci.m_rv → x ≤ 3)
    (h : dlHarqFeedbackEntry rbgNum e s l = .ok (s1, l1)) :
    (r = 3 →
      l1 = l ∧
      (∃ stat1, s1.m_dlHarqProcessesStatus.find e.m_rnti = some stat1 ∧
        stat1[e.m_harqProcessId]? = some 0) ∧
      (∃ arch1, s1.m_dlHarqProcessesRlcPduListBuffer.find e.m_rnti = some arch1 ∧
        ∀ layer, layer ∈ arch1 → layer[e.m_harqProcessId]? = some []) ∧
      s1.m_dlHarqProcessesDciBuffer = s.m_dlHarqProcessesDciBuffer) ∧
    (r ≠ 3 →
      ∃ newEl dcis1 stored1, l1.buildDataList = l.buildDataList ++ [newEl] ∧
        newEl.m_rnti = e.m_rnti ∧
        s1.m_dlHarqProcessesDciBuffer.find e.m_rnti = some dcis1 ∧
        dcis1[e.m_harqProcessId]? = some stored1 ∧
        stored1.m_rv = newEl.m_dci.m_rv ∧
        (∀ x, x ∈ newEl.m_dci.m_rv → x ≤ 3) ∧
        (∀ j, j < e.m_harqStatus.length → e.m_harqStatus[j]? = some HarqStatus_e.NACK →
          j < dci.m_ndi.length →
          ∃ x, dci.m_rv[j]? = some x ∧ newEl.m_dci.m_rv[j]? = some (x + 1))) := by
  simp only [dlHarqFeedbackEntry, hna, if_false] at h
  split at h
  · cases h
  · rename_i retx hflags
    obtain ⟨hlen, hn1, hf0, hf1⟩ := retxFlags_spec e retx hflags
    have hor : retx[0]? = some true ∨ retx[1]? = some true := by
      rcases hnack with h0 | h1
      · exact Or.inl (hf0.mpr h0)
      · exact Or.inr (hf1.mpr h1)
    simp only [hor, if_true] at h
    have hat : vecAt dcis e.m_harqProcessId = .ok dci := (vecAt_eq_ok _ _ _).mpr hdci
    simp only [dlHarqRetx, hd, hat, hrv] at h
    refine ⟨?_, ?_⟩
    · intro hr3
      simp only [hr3, if_true] at h
      split at h
      · cases h
      · rename_i s2 hrel
        simp only [Except.ok.injEq, Prod.mk.injEq] at h
        obtain ⟨rfl, rfl⟩ := h
        obtain ⟨a, b, c⟩ := dlHarqRelease_spec _ _ _ _ _ hrel
        exact ⟨rfl, a, b, c⟩
    · intro hr3
      simp only [hr3, if_false] at h
      split at h
      · cases h
      · rename_i dci1 l2 hplace
        obtain ⟨p1, p2, _, _, p5, _⟩ := dlRetxPlace_frame _ _ _ _ _ _ hplace
        have hb : RvBelow dci1.m_rv 0 := by
          rw [p1]; exact rvBelow_of_dciRv dci r hrv hle hr3
        obtain ⟨newEl, dcis1, stored1, q1, q2, q3, q4, q5, q6, q7⟩ :=
          dlRetxEmit_spec e retx dcis dci1 s s1 l2 l1 h hd hb hlen
        refine ⟨newEl, dcis1, stored1, by rw [q1, p5], q2, q3, q4, q5, q6, ?_⟩
        intro j hj hnk hlt
        have hjr : retx[j]? = some true := by
          have hj2 : j < 2 := by
            have := (List.getElem?_eq_some_iff.mp hnk).1
            by_contra hcon
            have hn : e.m_harqStatus.length = 0 ∨ 0 + e.m_harqStatus.length ≤ retx.length := by
              simp only [dlRetxEmit] at h
              split at h
              · cases h
              · split at h
                · cases h
                · split at h
                  · cases h
                  · rename_i hlay
                    exact retxLayers_ok_length retx _ _ _ _ _ hlay
            omega
          have hj01 : j = 0 ∨ j = 1 := by omega
          rcases hj01 with rfl | rfl
          · exact hf0.mpr hnk
          · exact hf1.mpr ⟨by omega, hnk⟩
        rw [← p1, ← p2] at *
        exact q7 j hj hjr hlt


/-- Witness of C3: the NACK of user 1 in `twoGrantsState`, stored redundancy
version 0. -/
theorem dl_nack_advances_rv_until_drop_witness :
    dlHarqFeedbackEntry 6 (exampleNack 1) twoGrantsState (freshDlLocals 6)
      = .ok exampleNackOutcome ∧
    ∃ newEl dcis1 stored1,
      exampleNackOutcome.2.buildDataList = (freshDlLocals 6).buildDataList ++ [newEl] ∧
      newEl.m_rnti = (exampleNack 1).m_rnti ∧
      exampleNackOutcome.1.m_dlHarqProcessesDciBuffer.find (exampleNack 1).m_rnti
        = some dcis1 ∧
      dcis1[(exampleNack 1).m_harqProcessId]? = some stored1 ∧
      stored1.m_rv = newEl.m_dci.m_rv ∧
      (∀ x, x ∈ newEl.m_dci.m_rv → x ≤ 3) ∧
      (∀ j, j < (exampleNack 1).m_harqStatus.length →
        (exampleNack 1).m_harqStatus[j]? = some HarqStatus_e.NACK →
        j < (exampleStoredDci 1).m_ndi.length →
        ∃ x, (exampleStoredDci 1).m_rv[j]? = some x ∧ newEl.m_dci.m_rv[j]? = some (x + 1)) :=
  ⟨rfl,
   (dl_nack_advances_rv_until_drop 6 (exampleNack 1) twoGrantsState exampleNackOutcome.1
      (freshDlLocals 6) exampleNackOutcome.2
      ([DlDciListElement_s.empty, exampleStoredDci 1] ++
        List.replicate 6 DlDciListElement_s.empty)
      (exampleStoredDci 1) 0 (by decide) (Or.inl rfl) rfl rfl rfl (by decide) rfl).2
     (by decide)⟩

/-! ## Evaluations of the passes at concrete inputs -/

/-- C4, the code at the failing input: in `twoGrantsState` both users NACK
process 1, whose stored bitmap names all 6 RBGs. The retransmission of user 1
takes the 6 RBGs; for user 2 the previous RBGs are not free and the search finds
none, so the placement stores the entry in `dlInfoListUntxed` and leaves the
DCI as it is. The pass nevertheless emits a descriptor for user 2 with
redundancy version 1, advances the stored redundancy version to 1, and carries
the entry over to the next pass. -/
theorem dl_deferred_retx_is_still_emitted :
    dlRetxPlace 6 (exampleNack 2) (exampleStoredDci 2) exampleNackOutcome.2
      = .ok (exampleStoredDci 2,
             { exampleNackOutcome.2 with dlInfoListUntxed := [exampleNack 2] }) ∧
    dlPassView (DoSchedDlTriggerReq exampleEnv twoGrantsState [exampleNack 1, exampleNack 2])
      = .ok (some [(1, [0, 1, 2, 3, 4, 5], [1]), (2, [0, 1, 2, 3, 4, 5], [1])],
             [exampleNack 2], some [1]) :=
  ⟨rfl, rfl⟩

/-- C1, the code at the failing input: the pass of `twoGrantsState` with a NACK
of both users emits two data descriptors whose bitmaps name the same RBGs
`0..5`; RBG 0 is assigned to user 1 and to user 2. -/
theorem dl_pass_assigns_rbg_twice :
    (DoSchedDlTriggerReq exampleEnv twoGrantsState [exampleNack 1, exampleNack 2]).map
        (fun out => out.2.map (fun ind =>
          ind.m_buildDataList.map (fun el =>
            (el.m_rnti, decide (0 ∈ decodeRbgBitmap el.m_dci.m_rbBitmap)))))
      = .ok (some [(1, true), (2, true)]) :=
  rfl

/-- C2, the code at the failing input: in one TTI the downlink pass grants the
resource blocks `[0, 2)` to the random access of user 5 and the uplink pass
hands the blocks `[0, 6)` to user 1. -/
theorem ul_pass_assigns_rach_blocks_twice :
    (run exampleEnv rachThenUlRequests exampleInit).map (fun out => ulRanges out.2)
      = .ok [(5, 0, 2), (1, 0, 6)] :=
  rfl

/-- C8, the code at the failing input: in `harqTimeoutState` process 1 of user 1
is busy, its timer is at `HARQ_DL_TIMEOUT` and its archive holds one PDU. After
`RefreshHarqProcesses` its status is 0 and its timer is 0, and its archive still
holds the PDU. -/
theorem refreshHarqProcesses_keeps_archive :
    harqView harqTimeoutState 1 =
      (some [0, 1, 0, 0, 0, 0, 0, 0], some [0, 11, 0, 0, 0, 0, 0, 0],
       some [[[], [{ m_logicalChannelIdentity := 3, m_size := 12 }], [], [], [], [], [], []],
             [[], [], [], [], [], [], [], []]]) ∧
    (RefreshHarqProcesses exampleEnv harqTimeoutState).map (fun s => harqView s 1) =
      .ok (some [0, 0, 0, 0, 0, 0, 0, 0], some [1, 0, 1, 1, 1, 1, 1, 1],
       some [[[], [{ m_logicalChannelIdentity := 3, m_size := 12 }], [], [], [], [], [], []],
             [[], [], [], [], [], [], [], []]]) :=
  ⟨rfl, rfl⟩

/-! ## Downlink new-data user selection -/

/-- One round of the selection loop either keeps the best user, the flow being
no candidate or its metric not above the best one, or makes the flow the best
user, the flow being a candidate with a metric above the best one so far. -/
theorem dlSelectStep_spec (env : Env) (s : SchedState) (rbgSize : Nat)
    (rntiAllocated : List Nat) (rnti : Nat) (itMax it1 : Option Nat) (M M1 : Nat)
    (h : dlSelectStep env s rbgSize rntiAllocated rnti itMax M = .ok (it1, M1)) :
    (it1 = itMax ∧ M1 = M ∧
      (DlCandidate s rntiAllocated rnti → dlMetric env s rbgSize rnti ≤ M)) ∨
    (it1 = some rnti ∧ M1 = dlMetric env s rbgSize rnti ∧ DlCandidate s rntiAllocated rnti ∧
      M < dlMetric env s rbgSize rnti) := by
  simp only [dlSelectStep] at h
  split at h
  · rename_i hmem
    split at h
    · cases h
    · simp only [Except.ok.injEq, Prod.mk.injEq] at h
      exact Or.inl ⟨h.1.symm, h.2.symm, fun hc => absurd hmem hc.1⟩
  · rename_i hmem
    split at h
    · cases h
    · rename_i avail hav
      split at h
      · rename_i hfalse
        simp only [Except.ok.injEq, Prod.mk.injEq] at h
        refine Or.inl ⟨h.1.symm, h.2.symm, fun hc => ?_⟩
        rw [hc.2.1] at hav
        simp only [Except.ok.injEq] at hav
        rw [← hav] at hfalse
        cases hfalse
      · rename_i htrue
        have hav1 : HarqProcessAvailability s rnti = .ok true := by
          rw [hav]; congr 1; simpa using htrue
        split at h
        · cases h
        · rename_i txMode htx
          have hmet : dlMetric env s rbgSize rnti =
              dlAchievableRate env rbgSize (dlWbCqi s rnti) (env.TxMode2LayerNum txMode) := by
            simp [dlMetric, htx]
          split at h
          · rename_i hcqi
            split at h
            · rename_i hlc
              split at h
              · rename_i hgt
                simp only [Except.ok.injEq, Prod.mk.injEq] at h
                exact Or.inr ⟨h.1.symm, by rw [hmet]; exact h.2.symm,
                  ⟨hmem, hav1, hcqi, hlc⟩, by rw [hmet]; exact hgt⟩
              · rename_i hle
                simp only [Except.ok.injEq, Prod.mk.injEq] at h
                exact Or.inl ⟨h.1.symm, h.2.symm, fun _ => by rw [hmet]; omega⟩
            · rename_i hlc
              simp only [Except.ok.injEq, Prod.mk.injEq] at h
              exact Or.inl ⟨h.1.symm, h.2.symm, fun hc => absurd hc.2.2.2 hlc⟩
          · rename_i hcqi
            simp only [Except.ok.injEq, Prod.mk.injEq] at h
            exact Or.inl ⟨h.1.symm, h.2.symm, fun hc => absurd hc.2.2.1 hcqi⟩

/-- The selection loop keeps its invariant. -/
theorem dlSelectLoop_inv (env : Env) (s : SchedState) (rbgSize : Nat)
    (rntiAllocated : List Nat) :
    ∀ (flows pre : List Nat) (itMax it1 : Option Nat) (M M1 : Nat),
      DlSelectInv env s rbgSize rntiAllocated pre itMax M →
      dlSelectLoop env s rbgSize rntiAllocated flows itMax M = .ok (it1, M1) →
      DlSelectInv env s rbgSize rntiAllocated (pre ++ flows) it1 M1 := by
  intro flows
  induction flows with
  | nil =>
    intro pre itMax it1 M M1 hinv h
    simp only [dlSelectLoop, Except.ok.injEq, Prod.mk.injEq] at h
    obtain ⟨rfl, rfl⟩ := h
    simpa using hinv
  | cons rnti rest ih =>
    intro pre itMax it1 M M1 hinv h
    simp only [dlSelectLoop] at h
    split at h
    · cases h
    · rename_i it2 M2 hstep
      have hnext : DlSelectInv env s rbgSize rntiAllocated (pre ++ [rnti]) it2 M2 := by
        obtain ⟨hall, hbest⟩ := hinv
        rcases dlSelectStep_spec env s rbgSize rntiAllocated rnti itMax it2 M M2 hstep with
          ⟨rfl, rfl, hle⟩ | ⟨rfl, rfl, hc, hlt⟩
        · refine ⟨?_, ?_⟩
          · intro v hv hcv
            simp only [List.mem_append, List.mem_singleton] at hv
            rcases hv with hv | rfl
            · exact hall v hv hcv
            · exact hle hcv
          · cases it2 with
            | none => exact hbest
            | some u =>
              obtain ⟨h1, h2, p, q, hpq, hp⟩ := hbest
              exact ⟨h1, h2, p, q ++ [rnti], by simp [hpq], hp⟩
        · refine ⟨?_, hc, rfl, pre, [], rfl, ?_⟩
          · intro v hv hcv
            simp only [List.mem_append, List.mem_singleton] at hv
            rcases hv with hv | rfl
            · exact le_of_lt (lt_of_le_of_lt (hall v hv hcv) hlt)
            · exact le_refl _
          · intro v hv hcv
            exact lt_of_le_of_lt (hall v hv hcv) hlt
      have := ih (pre ++ [rnti]) it2 it1 M2 M1 hnext h
      simpa using this


/-- The descriptor built by the new-data grant is addressed to the granted user. -/
theorem newDataGrant_rnti (env : Env) (rbgSize rnti : Nat) (tempMap : List Nat)
    (s s1 : SchedState) (el : BuildDataListElement_s)
    (h : newDataGrant env rbgSize rnti tempMap s = .ok (s1, el)) :
    el.m_rnti = rnti ∧ el.m_dci.m_rnti = rnti := by
  simp only [newDataGrant] at h
  split at h
  · cases h
  · split at h
    · cases h
    · split at h
      · cases h
      · split at h
        · cases h
        · simp only [Except.ok.injEq, Prod.mk.injEq] at h
          obtain ⟨_, rfl⟩ := h
          exact ⟨rfl, rfl⟩

/-- The user selected by the loop is a first maximal candidate. -/
theorem dlSelect_spec (env : Env) (s : SchedState) (rbgSize : Nat) (rntiAllocated : List Nat)
    (u : Nat) (h : dlSelect env s rbgSize rntiAllocated = .ok (some u)) :
    DlEligible s rntiAllocated u ∧
    (∀ v, DlEligible s rntiAllocated v → dlMetric env s rbgSize v ≤ dlMetric env s rbgSize u) ∧
    ∃ p q, s.m_flowStatsDl = p ++ u :: q ∧
      ∀ v, v ∈ p → DlCandidate s rntiAllocated v →
        dlMetric env s rbgSize v < dlMetric env s rbgSize u := by
  simp only [dlSelect] at h
  split at h
  · cases h
  · rename_i itMax M hloop
    simp only [Except.ok.injEq] at h
    subst h
    have hinv := dlSelectLoop_inv env s rbgSize rntiAllocated s.m_flowStatsDl [] none (some u) 0 M
      ⟨by simp, rfl⟩ hloop
    simp only [List.nil_append] at hinv
    obtain ⟨hall, hc, hm, p, q, hpq, hp⟩ := hinv
    refine ⟨⟨by rw [hpq]; simp, hc⟩, ?_, p, q, hpq, ?_⟩
    · intro v hv
      rw [hm]
      exact hall v hv.1 hv.2
    · intro v hv hcv
      rw [hm]
      exact hp v hv hcv

/-- C10: the new-data part of a downlink pass either adds no descriptor or
adds one descriptor, and the user it is addressed to is eligible (a flow of
`m_flowStatsDl`, not served by a retransmission in this pass, with a free HARQ
process, a wideband CQI other than 0 and a logical channel with pending data),
has a metric at least that of every eligible user, is the smallest RNTI among
the eligible users with that metric, and every eligible user before it in
iteration order has a smaller metric. `m_flowStatsDl` is a `std::set`, so it
is iterated in ascending order. -/
theorem dl_new_data_user_is_first_maximal (env : Env) (s s1 : SchedState) (l : DlLocals)
    (rbgSize rbgNum : Nat) (dataList : List BuildDataListElement_s)
    (hsorted : s.m_flowStatsDl.Pairwise (fun a b => a < b))
    (h : dlPassNewData env s l rbgSize rbgNum = .ok (s1, dataList)) :
    dataList = l.buildDataList ∨
    ∃ el, dataList = l.buildDataList ++ [el] ∧
      DlEligible s l.rntiAllocated el.m_rnti ∧
      (∀ v, DlEligible s l.rntiAllocated v →
        dlMetric env s rbgSize v ≤ dlMetric env s rbgSize el.m_rnti) ∧
      (∀ v, DlEligible s l.rntiAllocated v →
        dlMetric env s rbgSize v = dlMetric env s rbgSize el.m_rnti → el.m_rnti ≤ v) ∧
      (∃ p q, s.m_flowStatsDl = p ++ el.m_rnti :: q ∧
        ∀ v, v ∈ p → DlEligible s l.rntiAllocated v →
          dlMetric env s rbgSize v < dlMetric env s rbgSize el.m_rnti) := by
  simp only [dlPassNewData] at h
  split at h
  · cases h
  · simp only [Except.ok.injEq, Prod.mk.injEq] at h
    exact Or.inl h.2.symm
  · rename_i u hsel
    split at h
    · cases h
    · split at h
      · split at h
        · cases h
        · rename_i s2 newEl hgrant
          simp only [Except.ok.injEq, Prod.mk.injEq] at h
          obtain ⟨_, rfl⟩ := h
          obtain ⟨hr, _⟩ := newDataGrant_rnti _ _ _ _ _ _ _ hgrant
          obtain ⟨he, hmax, p, q, hpq, hp⟩ := dlSelect_spec env s rbgSize l.rntiAllocated u hsel
          right
          refine ⟨newEl, rfl, by rw [hr]; exact he, by rw [hr]; exact hmax, ?_, ?_⟩
          · rw [hr]
            intro v hv heq
            have hvmem := hv.1
            rw [hpq] at hvmem hsorted
            simp only [List.mem_append, List.mem_cons] at hvmem
            rcases hvmem with hvp | rfl | hvq
            · have := hp v hvp hv.2
              omega
            · exact le_refl _
            · have hpw := (List.pairwise_append.mp hsorted).2.1
              exact le_of_lt ((List.pairwise_cons.mp hpw).1 v hvq)
          · rw [hr]
            exact ⟨p, q, hpq, fun v hv hev => hp v hv hev.2⟩
      · simp only [Except.ok.injEq, Prod.mk.injEq] at h
        exact Or.inl h.2.symm


/-- Witness of C10: in `twoFlowsState` both users are eligible with the same
metric and the descriptor goes to one of them. -/
theorem dl_new_data_user_is_first_maximal_witness :
    dlPassNewData exampleEnv twoFlowsState (freshDlLocals 6) 1 6 = .ok twoFlowsNewData ∧
    (twoFlowsNewData.2 = (freshDlLocals 6).buildDataList ∨
     ∃ el, twoFlowsNewData.2 = (freshDlLocals 6).buildDataList ++ [el] ∧
      DlEligible twoFlowsState (freshDlLocals 6).rntiAllocated el.m_rnti ∧
      (∀ v, DlEligible twoFlowsState (freshDlLocals 6).rntiAllocated v →
        dlMetric exampleEnv twoFlowsState 1 v ≤ dlMetric exampleEnv twoFlowsState 1 el.m_rnti) ∧
      (∀ v, DlEligible twoFlowsState (freshDlLocals 6).rntiAllocated v →
        dlMetric exampleEnv twoFlowsState 1 v = dlMetric exampleEnv twoFlowsState 1 el.m_rnti →
        el.m_rnti ≤ v) ∧
      (∃ p q, twoFlowsState.m_flowStatsDl = p ++ el.m_rnti :: q ∧
        ∀ v, v ∈ p → DlEligible twoFlowsState (freshDlLocals 6).rntiAllocated v →
          dlMetric exampleEnv twoFlowsState 1 v
            < dlMetric exampleEnv twoFlowsState 1 el.m_rnti)) :=
  ⟨rfl,
   dl_new_data_user_is_first_maximal exampleEnv twoFlowsState twoFlowsNewData.1
     (freshDlLocals 6) 1 6 twoFlowsNewData.2 (by decide) rfl⟩

/-! ## Lifecycle of a downlink HARQ process -/

theorem statusSlot_assign_set (status : RMap (List Nat)) (rnti i v : Nat) (stat : List Nat)
    (hs : status.find rnti = some stat) (hi : i < stat.length) (u j : Nat) :
    statusSlot (status.assign rnti (stat.set i v)) u j =
      if u = rnti ∧ j = i then some v else statusSlot status u j := by
  unfold statusSlot
  by_cases hu : u = rnti
  · subst hu
    rw [RMap.find_assign_self _ _ _ _ hs, hs]
    by_cases hj : j = i
    · subst hj; simp [List.getElem?_set, hi]
    · have : ¬ i = j := fun e => hj e.symm
      simp [List.getElem?_set, hj, this]
  · rw [RMap.find_assign_ne _ _ _ _ hu]
    simp [hu]

theorem RMap.find_insertNew {α : Type} (m : RMap α) (k : Nat) (x : α) (k2 : Nat)
    (h : m.find k = none) :
    (m.insertNew k x).find k2 = if k2 = k then some x else m.find k2 := by
  induction m with
  | nil =>
    by_cases hk : k = k2
    · simp [RMap.insertNew, RMap.find, hk]
    · have : ¬ k2 = k := fun e => hk e.symm
      simp [RMap.insertNew, RMap.find, hk, this]
  | cons kv m ih =>
    obtain ⟨k1, v1⟩ := kv
    have hk1 : ¬ k1 = k := by
      intro e; simp [RMap.find, e] at h
    have hrest : RMap.find m k = none := by
      simpa [RMap.find, hk1] using h
    by_cases hlt : k < k1
    · by_cases hk : k = k2
      · subst hk
        simp [RMap.insertNew, RMap.find, hlt]
      · have : ¬ k2 = k := fun e => hk e.symm
        simp [RMap.insertNew, RMap.find, hlt, hk, this]
    · by_cases hk12 : k1 = k2
      · subst hk12
        simp [RMap.insertNew, RMap.find, hlt, hk1]
      · simp [RMap.insertNew, RMap.find, hlt, hk12, ih hrest]

/-- `insert` keeps the value of every key that was present. -/
theorem RMap.find_insert_of_some {α : Type} (m : RMap α) (k : Nat) (x y : α) (k2 : Nat)
    (h : m.find k2 = some y) : (m.insert k x).find k2 = some y := by
  unfold RMap.insert
  cases hk : m.find k with
  | some _ => exact h
  | none =>
    simp only
    rw [RMap.find_insertNew m k x k2 hk]
    have : ¬ k2 = k := by
      intro e; subst e; rw [hk] at h; cases h
    simp [this, h]

theorem mem_setInsert (s : List Nat) (k x : Nat) : x ∈ setInsert s k ↔ x ∈ s ∨ x = k := by
  induction s with
  | nil => simp [setInsert]
  | cons a s ih =>
    simp only [setInsert]
    split
    · rename_i h
      subst h
      constructor
      · intro hx; exact Or.inl hx
      · rintro (hx | rfl)
        · exact hx
        · simp
    · split
      · simp only [List.mem_cons]
        tauto
      · simp only [List.mem_cons, ih]
        tauto


/-- The slot loop of the HARQ refresh changes the status of a slot only to 0,
and only of a slot of the user whose timer is at the timeout. -/
theorem refreshHarqSlots_slot (env : Env) (rnti : Nat) :
    ∀ (n i : Nat) (tm tm1 : List Nat) (status status1 : RMap (List Nat)),
      refreshHarqSlots env rnti n i tm status = .ok (tm1, status1) →
      ∀ u j, statusSlot status1 u j = statusSlot status u j ∨
        (statusSlot status1 u j = some 0 ∧ u = rnti ∧ i ≤ j ∧
          tm[j]? = some env.HARQ_DL_TIMEOUT) := by
  intro n
  induction n with
  | zero =>
    intro i tm tm1 status status1 h u j
    simp only [refreshHarqSlots, Except.ok.injEq, Prod.mk.injEq] at h
    obtain ⟨_, rfl⟩ := h
    exact Or.inl rfl
  | succ n ih =>
    intro i tm tm1 status status1 h u j
    simp only [refreshHarqSlots] at h
    split at h
    · cases h
    · rename_i t ht
      rw [vecAt_eq_ok] at ht
      split at h
      · rename_i hto
        split at h
        · cases h
        · rename_i stat hst
          split at h
          · cases h
          · rename_i stat1 hset
            split at h
            · cases h
            · rename_i tm2 htm
              rw [vecSet_eq_ok] at hset htm
              obtain ⟨hil, rfl⟩ := hset
              obtain ⟨_, rfl⟩ := htm
              have hmid := statusSlot_assign_set status rnti i 0 stat hst hil u j
              rcases ih (i + 1) _ tm1 _ status1 h u j with hsame | ⟨h0, hu, hij, hj⟩
              · rw [hmid] at hsame
                by_cases hc : u = rnti ∧ j = i
                · rw [if_pos hc] at hsame
                  refine Or.inr ⟨hsame, hc.1, by omega, ?_⟩
                  rw [hc.2, ht, hto]
                · rw [if_neg hc] at hsame
                  exact Or.inl hsame
              · refine Or.inr ⟨h0, hu, by omega, ?_⟩
                have : ¬ i = j := by omega
                simpa [List.getElem?_set, this] using hj
      · split at h
        · cases h
        · rename_i tm2 htm
          rw [vecSet_eq_ok] at htm
          obtain ⟨_, rfl⟩ := htm
          rcases ih (i + 1) _ tm1 _ status1 h u j with hsame | ⟨h0, hu, hij, hj⟩
          · exact Or.inl hsame
          · refine Or.inr ⟨h0, hu, by omega, ?_⟩
            have : ¬ i = j := by omega
            simpa [List.getElem?_set, this] using hj


/-- The user loop of the HARQ refresh. -/
theorem refreshHarqUsers_slot (env : Env) :
    ∀ (timers timers1 : RMap (List Nat)) (status status1 : RMap (List Nat)),
      refreshHarqUsers env timers status = .ok (timers1, status1) →
      ∀ u j, statusSlot status1 u j = statusSlot status u j ∨
        (statusSlot status1 u j = some 0 ∧
          ∃ tm, (u, tm) ∈ timers ∧ tm[j]? = some env.HARQ_DL_TIMEOUT) := by
  intro timers
  induction timers with
  | nil =>
    intro timers1 status status1 h u j
    simp only [refreshHarqUsers, Except.ok.injEq, Prod.mk.injEq] at h
    obtain ⟨_, rfl⟩ := h
    exact Or.inl rfl
  | cons kv rest ih =>
    obtain ⟨rnti, tm⟩ := kv
    intro timers1 status status1 h u j
    simp only [refreshHarqUsers] at h
    split at h
    · cases h
    · rename_i tm1 status2 hslots
      split at h
      · cases h
      · rename_i rest1 status3 hrest
        simp only [Except.ok.injEq, Prod.mk.injEq] at h
        obtain ⟨_, rfl⟩ := h
        have h1 := refreshHarqSlots_slot env rnti _ _ _ _ _ _ hslots u j
        rcases ih rest1 status2 status3 hrest u j with hsame | ⟨h0, tm2, hmem, htm2⟩
        · rcases h1 with h1 | ⟨h10, hu, _, htm⟩
          · exact Or.inl (hsame.trans h1)
          · refine Or.inr ⟨hsame.trans h10, tm, ?_, htm⟩
            rw [hu]; simp
        · exact Or.inr ⟨h0, tm2, by simp [hmem], htm2⟩

/-- `RefreshHarqProcesses` frees a slot only when a timer entry of the user is
at the timeout for that slot; it changes neither the stored DCIs nor the
carry-over buffer. -/
theorem refreshHarqProcesses_slot (env : Env) (s s1 : SchedState)
    (h : RefreshHarqProcesses env s = .ok s1) :
    (∀ u j, dlSlot s1 u j = dlSlot s u j ∨
      (dlSlot s1 u j = some 0 ∧
        ∃ tm, (u, tm) ∈ s.m_dlHarqProcessesTimer ∧ tm[j]? = some env.HARQ_DL_TIMEOUT)) ∧
    s1.m_dlHarqProcessesDciBuffer = s.m_dlHarqProcessesDciBuffer ∧
    s1.m_dlInfoListBuffered = s.m_dlInfoListBuffered ∧ s1.m_harqOn = s.m_harqOn := by
  simp only [RefreshHarqProcesses] at h
  split at h
  · cases h
  · rename_i timers status hu
    simp only [Except.ok.injEq] at h
    subst h
    exact ⟨refreshHarqUsers_slot env _ _ _ _ hu, rfl, rfl, rfl⟩


/-- Freeing a process changes the status of that one slot only, to 0. -/
theorem dlHarqRelease_slot (missing : Fault) (s s1 : SchedState) (rnti harqId : Nat)
    (h : dlHarqRelease missing s rnti harqId = .ok s1) :
    ∀ u j, dlSlot s1 u j = dlSlot s u j ∨
      (dlSlot s1 u j = some 0 ∧ u = rnti ∧ j = harqId) := by
  simp only [dlHarqRelease] at h
  split at h
  · cases h
  · rename_i stat hs
    split at h
    · cases h
    · rename_i stat1 hst
      split at h
      · cases h
      · split at h
        · cases h
        · simp only [Except.ok.injEq] at h
          subst h
          rw [vecSet_eq_ok] at hst
          obtain ⟨hil, rfl⟩ := hst
          intro u j
          have hmid := statusSlot_assign_set s.m_dlHarqProcessesStatus rnti harqId 0 stat hs hil u j
          simp only [dlSlot]
          by_cases hc : u = rnti ∧ j = harqId
          · rw [if_pos hc] at hmid
            exact Or.inr ⟨hmid, hc.1, hc.2⟩
          · rw [if_neg hc] at hmid
            exact Or.inl hmid

/-- The emission of a retransmission leaves the status map as it is, changes the
stored DCIs of the served user only, and records the user as served. -/
theorem dlRetxEmit_frame (e : DlInfoListElement_s) (retx : List Bool)
    (dcis : List DlDciListElement_s) (dci : DlDciListElement_s) (s s1 : SchedState)
    (l l1 : DlLocals) (h : dlRetxEmit e retx dcis dci s l = .ok (s1, l1)) :
    s1.m_dlHarqProcessesStatus = s.m_dlHarqProcessesStatus ∧
    (∀ u, u ≠ e.m_rnti →
      s1.m_dlHarqProcessesDciBuffer.find u = s.m_dlHarqProcessesDciBuffer.find u) ∧
    l1.rntiAllocated = setInsert l.rntiAllocated e.m_rnti := by
  simp only [dlRetxEmit] at h
  split at h
  · cases h
  · split at h
    · cases h
    · split at h
      · cases h
      · split at h
        · cases h
        · split at h
          · cases h
          · split at h
            · cases h
            · split at h
              · cases h
              · split at h
                · cases h
                · split at h
                  · cases h
                  · simp only [Except.ok.injEq, Prod.mk.injEq] at h
                    obtain ⟨rfl, rfl⟩ := h
                    exact ⟨rfl, fun u hu => RMap.find_assign_ne _ _ _ _ hu, rfl⟩

/-- The body of the feedback loop frees a slot only when the entry addresses it,
the user is not yet served in the pass, and the entry has no NACK or the stored
redundancy version is 3. Stored DCIs change only for users it records as
served. -/
theorem dlHarqFeedbackEntry_slot (rbgNum : Nat) (e : DlInfoListElement_s)
    (s s1 : SchedState) (l l1 : DlLocals)
    (h : dlHarqFeedbackEntry rbgNum e s l = .ok (s1, l1)) :
    (∀ u j, dlSlot s1 u j = dlSlot s u j ∨
      (dlSlot s1 u j = some 0 ∧ u = e.m_rnti ∧ j = e.m_harqProcessId ∧
        e.m_rnti ∉ l.rntiAllocated ∧
        (DlNoNack e ∨ DlStoredRvMax s.m_dlHarqProcessesDciBuffer u j))) ∧
    (∀ u, u ∉ l1.rntiAllocated → u ∉ l.rntiAllocated ∧
      s1.m_dlHarqProcessesDciBuffer.find u = s.m_dlHarqProcessesDciBuffer.find u) := by
  simp only [dlHarqFeedbackEntry] at h
  split at h
  · simp only [Except.ok.injEq, Prod.mk.injEq] at h
    obtain ⟨rfl, rfl⟩ := h
    exact ⟨fun u j => Or.inl rfl, fun u hu => ⟨hu, rfl⟩⟩
  · rename_i hna
    split at h
    · cases h
    · rename_i retx hflags
      obtain ⟨_, _, hf0, hf1⟩ := retxFlags_spec e retx hflags
      split at h
      · simp only [dlHarqRetx] at h
        split at h
        · cases h
        · rename_i dcis hd
          split at h
          · cases h
          · rename_i dci hdci
            rw [vecAt_eq_ok] at hdci
            split at h
            · cases h
            · rename_i rv hrv
              split at h
              · rename_i hrv3
                subst hrv3
                split at h
                · cases h
                · rename_i s2 hrel
                  simp only [Except.ok.injEq, Prod.mk.injEq] at h
                  obtain ⟨rfl, rfl⟩ := h
                  refine ⟨fun u j => ?_, fun u hu => ⟨hu, ?_⟩⟩
                  · rcases dlHarqRelease_slot _ _ _ _ _ hrel u j with hs | ⟨h0, hu, hj⟩
                    · exact Or.inl hs
                    · refine Or.inr ⟨h0, hu, hj, hna, Or.inr ?_⟩
                      subst hu hj
                      exact ⟨dcis, dci, hd, hdci, hrv⟩
                  · rw [(dlHarqRelease_spec _ _ _ _ _ hrel).2.2]
              · split at h
                · cases h
                · rename_i dci1 l2 hplace
                  obtain ⟨_, _, _, _, _, p6⟩ := dlRetxPlace_frame _ _ _ _ _ _ hplace
                  obtain ⟨q1, q2, q3⟩ := dlRetxEmit_frame _ _ _ _ _ _ _ _ h
                  refine ⟨fun u j => Or.inl (by simp only [dlSlot, q1]), fun u hu => ?_⟩
                  rw [q3, mem_setInsert, p6] at hu
                  exact ⟨fun hm => hu (Or.inl hm), q2 u (fun e => hu (Or.inr e))⟩
      · rename_i hno
        split at h
        · cases h
        · rename_i s2 hrel
          simp only [Except.ok.injEq, Prod.mk.injEq] at h
          obtain ⟨rfl, rfl⟩ := h
          refine ⟨fun u j => ?_, fun u hu => ⟨hu, ?_⟩⟩
          · rcases dlHarqRelease_slot _ _ _ _ _ hrel u j with hs | ⟨h0, hu, hj⟩
            · exact Or.inl hs
            · refine Or.inr ⟨h0, hu, hj, hna, Or.inl ?_⟩
              intro hn
              apply hno
              rcases hn with h0 | h1
              · exact Or.inl (hf0.mpr h0)
              · exact Or.inr (hf1.mpr h1)
          · rw [(dlHarqRelease_spec _ _ _ _ _ hrel).2.2]


/-- The feedback loop frees a slot only by an entry that addresses it and has no
NACK or finds the redundancy version stored at the start of the loop at 3;
`D` is the DCI buffer at the start of the loop. -/
theorem dlHarqFeedbackLoop_slot (rbgNum : Nat) (D : RMap (List DlDciListElement_s)) :
    ∀ (es : List DlInfoListElement_s) (s s1 : SchedState) (l l1 : DlLocals),
      (∀ u, u ∉ l.rntiAllocated → s.m_dlHarqProcessesDciBuffer.find u = D.find u) →
      dlHarqFeedbackLoop rbgNum es s l = .ok (s1, l1) →
      ∀ u j, dlSlot s1 u j = dlSlot s u j ∨
        (dlSlot s1 u j = some 0 ∧
          ∃ e, e ∈ es ∧ e.m_rnti = u ∧ e.m_harqProcessId = j ∧
            (DlNoNack e ∨ DlStoredRvMax D u j)) := by
  intro es
  induction es with
  | nil =>
    intro s s1 l l1 _ h u j
    simp only [dlHarqFeedbackLoop, Except.ok.injEq, Prod.mk.injEq] at h
    obtain ⟨rfl, _⟩ := h
    exact Or.inl rfl
  | cons e rest ih =>
    intro s s1 l l1 hD h u j
    simp only [dlHarqFeedbackLoop] at h
    split at h
    · cases h
    · rename_i s2 l2 hstep
      obtain ⟨hslot, hframe⟩ := dlHarqFeedbackEntry_slot rbgNum e s s2 l l2 hstep
      have hD2 : ∀ u, u ∉ l2.rntiAllocated →
          s2.m_dlHarqProcessesDciBuffer.find u = D.find u := by
        intro v hv
        obtain ⟨hv1, hv2⟩ := hframe v hv
        rw [hv2]; exact hD v hv1
      have hcause : dlSlot s2 u j = dlSlot s u j ∨
          (dlSlot s2 u j = some 0 ∧ e.m_rnti = u ∧ e.m_harqProcessId = j ∧
            (DlNoNack e ∨ DlStoredRvMax D u j)) := by
        rcases hslot u j with hs | ⟨h0, hu, hj, hna, hc⟩
        · exact Or.inl hs
        · refine Or.inr ⟨h0, hu.symm, hj.symm, ?_⟩
          rcases hc with hc | ⟨dcis, dci, h1, h2, h3⟩
          · exact Or.inl hc
          · refine Or.inr ⟨dcis, dci, ?_, h2, h3⟩
            rw [← hD u (by rw [hu]; exact hna)]
            exact h1
      rcases ih s2 s1 l2 l1 hD2 h u j with hs | ⟨h0, e2, hmem, hc⟩
      · rcases hcause with hs2 | ⟨h20, hc2⟩
        · exact Or.inl (hs.trans hs2)
        · exact Or.inr ⟨hs.trans h20, e, by simp, hc2⟩
      · exact Or.inr ⟨h0, e2, by simp [hmem], hc⟩

/-- Reserving a process changes the status of a slot only to 1. -/
theorem updateHarqProcessId_slot (s s1 : SchedState) (rnti i : Nat)
    (h : UpdateHarqProcessId s rnti = .ok (i, s1)) :
    ∀ u j, dlSlot s1 u j = dlSlot s u j ∨ dlSlot s1 u j = some 1 := by
  simp only [UpdateHarqProcessId] at h
  split at h
  · simp only [Except.ok.injEq, Prod.mk.injEq] at h
    obtain ⟨_, rfl⟩ := h
    exact fun u j => Or.inl rfl
  · split at h
    · cases h
    · split at h
      · cases h
      · rename_i stat hs
        split at h
        · cases h
        · rename_i k _
          split at h
          · cases h
          · split at h
            · split at h
              · cases h
              · rename_i stat1 hset
                simp only [Except.ok.injEq, Prod.mk.injEq] at h
                obtain ⟨_, rfl⟩ := h
                rw [vecSet_eq_ok] at hset
                obtain ⟨hil, rfl⟩ := hset
                intro u j
                have hmid := statusSlot_assign_set s.m_dlHarqProcessesStatus rnti k 1 stat hs hil u j
                simp only [dlSlot]
                by_cases hc : u = rnti ∧ j = k
                · rw [if_pos hc] at hmid
                  exact Or.inr hmid
                · rw [if_neg hc] at hmid
                  exact Or.inl hmid
            · cases h

theorem archivePush_status (s s1 : SchedState) (rnti j harqProcess : Nat)
    (el : RlcPduListElement_s) (h : archivePush s rnti j harqProcess el = .ok s1) :
    s1.m_dlHarqProcessesStatus = s.m_dlHarqProcessesStatus ∧ s1.m_harqOn = s.m_harqOn := by
  simp only [archivePush] at h
  split at h
  · cases h
  · split at h
    · cases h
    · split at h
      · cases h
      · split at h
        · cases h
        · split at h
          · cases h
          · simp only [Except.ok.injEq] at h
            subst h
            exact ⟨rfl, rfl⟩

theorem newDataLcLayers_status (rnti lcid lcActives harqProcess : Nat) (tbs : List Nat) :
    ∀ (n j : Nat) (s s1 : SchedState) (acc acc1 : List RlcPduListElement_s),
      newDataLcLayers rnti lcid lcActives harqProcess tbs n j s acc = .ok (s1, acc1) →
      s1.m_dlHarqProcessesStatus = s.m_dlHarqProcessesStatus ∧ s1.m_harqOn = s.m_harqOn := by
  intro n
  induction n with
  | zero =>
    intro j s s1 acc acc1 h
    simp only [newDataLcLayers, Except.ok.injEq, Prod.mk.injEq] at h
    obtain ⟨rfl, _⟩ := h
    exact ⟨rfl, rfl⟩
  | succ n ih =>
    intro j s s1 acc acc1 h
    simp only [newDataLcLayers] at h
    split at h
    · cases h
    · split at h
      · cases h
      · rename_i s2 hpush
        obtain ⟨a, b⟩ := ih _ _ _ _ _ h
        split at hpush
        · obtain ⟨c, d⟩ := archivePush_status _ _ _ _ _ _ hpush
          exact ⟨a.trans c, b.trans d⟩
        · simp only [Except.ok.injEq] at hpush
          subst hpush
          exact ⟨a, b⟩

theorem newDataLedgerLoop_status (rnti lcActives harqProcess nLayer : Nat) (tbs : List Nat) :
    ∀ (fuel idx : Nat) (s s1 : SchedState) (acc acc1 : List (List RlcPduListElement_s)),
      newDataLedgerLoop rnti lcActives harqProcess nLayer tbs fuel idx s acc = .ok (s1, acc1) →
      s1.m_dlHarqProcessesStatus = s.m_dlHarqProcessesStatus ∧ s1.m_harqOn = s.m_harqOn := by
  intro fuel
  induction fuel with
  | zero =>
    intro idx s s1 acc acc1 h
    simp only [newDataLedgerLoop, Except.ok.injEq, Prod.mk.injEq] at h
    obtain ⟨rfl, _⟩ := h
    exact ⟨rfl, rfl⟩
  | succ fuel ih =>
    intro idx s s1 acc acc1 h
    simp only [newDataLedgerLoop] at h
    split at h
    · simp only [Except.ok.injEq, Prod.mk.injEq] at h
      obtain ⟨rfl, _⟩ := h
      exact ⟨rfl, rfl⟩
    · split at h
      · split at h
        · cases h
        · rename_i s2 pdus hlay
          obtain ⟨c, d⟩ := newDataLcLayers_status _ _ _ _ _ _ _ _ _ _ _ hlay
          split at h
          · simp only [Except.ok.injEq, Prod.mk.injEq] at h
            obtain ⟨rfl, _⟩ := h
            exact ⟨c, d⟩
          · obtain ⟨a, b⟩ := ih _ _ _ _ _ h
            exact ⟨a.trans c, b.trans d⟩
      · split at h
        · simp only [Except.ok.injEq, Prod.mk.injEq] at h
          obtain ⟨rfl, _⟩ := h
          exact ⟨rfl, rfl⟩
        · exact ih _ _ _ _ _ h

theorem newDataStoreDci_status (s s1 : SchedState) (newDci : DlDciListElement_s)
    (h : newDataStoreDci s newDci = .ok s1) :
    s1.m_dlHarqProcessesStatus = s.m_dlHarqProcessesStatus := by
  simp only [newDataStoreDci] at h
  split at h
  · cases h
  · split at h
    · cases h
    · split at h
      · cases h
      · split at h
        · cases h
        · simp only [Except.ok.injEq] at h
          subst h
          rfl

/-- The new-data grant changes the status of a slot only to 1. -/
theorem newDataGrant_slot (env : Env) (rbgSize rnti : Nat) (tempMap : List Nat)
    (s s1 : SchedState) (el : BuildDataListElement_s)
    (h : newDataGrant env rbgSize rnti tempMap s = .ok (s1, el)) :
    ∀ u j, dlSlot s1 u j = dlSlot s u j ∨ dlSlot s1 u j = some 1 := by
  simp only [newDataGrant] at h
  split at h
  · cases h
  · rename_i hp s2 hupd
    split at h
    · cases h
    · split at h
      · cases h
      · rename_i s3 pdus hloop
        obtain ⟨hl, _⟩ := newDataLedgerLoop_status _ _ _ _ _ _ _ _ _ _ _ hloop
        split at h
        · cases h
        · rename_i s4 hstore
          simp only [Except.ok.injEq, Prod.mk.injEq] at h
          obtain ⟨rfl, _⟩ := h
          have h4 : s4.m_dlHarqProcessesStatus = s3.m_dlHarqProcessesStatus := by
            split at hstore
            · exact newDataStoreDci_status _ _ _ hstore
            · simp only [Except.ok.injEq] at hstore
              subst hstore
              rfl
          intro u j
          have := updateHarqProcessId_slot s s2 rnti hp hupd u j
          simp only [dlSlot] at this ⊢
          rw [h4, hl]
          exact this

/-- The new-data part of a downlink pass changes the status of a slot only
to 1. -/
theorem dlPassNewData_slot (env : Env) (s s1 : SchedState) (l : DlLocals)
    (rbgSize rbgNum : Nat) (dataList : List BuildDataListElement_s)
    (h : dlPassNewData env s l rbgSize rbgNum = .ok (s1, dataList)) :
    ∀ u j, dlSlot s1 u j = dlSlot s u j ∨ dlSlot s1 u j = some 1 := by
  simp only [dlPassNewData] at h
  split at h
  · cases h
  · simp only [Except.ok.injEq, Prod.mk.injEq] at h
    obtain ⟨rfl, _⟩ := h
    exact fun u j => Or.inl rfl
  · split at h
    · cases h
    · split at h
      · split at h
        · cases h
        · rename_i s2 newEl hgrant
          simp only [Except.ok.injEq, Prod.mk.injEq] at h
          obtain ⟨rfl, _⟩ := h
          exact newDataGrant_slot _ _ _ _ _ _ _ hgrant
      · simp only [Except.ok.injEq, Prod.mk.injEq] at h
        obtain ⟨rfl, _⟩ := h
        exact fun u j => Or.inl rfl


theorem refreshDlCqiMaps_core (s s1 : SchedState) (h : RefreshDlCqiMaps s = .ok s1) :
    DlHarqCoreEq s s1 := by
  simp only [RefreshDlCqiMaps] at h
  split at h
  · cases h
  · split at h
    · cases h
    · simp only [Except.ok.injEq] at h
      subst h
      exact ⟨rfl, rfl, rfl, rfl, rfl⟩

theorem rachStoreDci_core (s s1 : SchedState) (uldci : UlDciListElement_s)
    (h : rachStoreDci s uldci = .ok s1) : DlHarqCoreEq s s1 := by
  simp only [rachStoreDci] at h
  split at h
  · cases h
  · split at h
    · cases h
    · split at h
      · cases h
      · simp only [Except.ok.injEq] at h
        subst h
        exact ⟨rfl, rfl, rfl, rfl, rfl⟩

theorem DlHarqCoreEq.trans {s s1 s2 : SchedState} (h1 : DlHarqCoreEq s s1)
    (h2 : DlHarqCoreEq s1 s2) : DlHarqCoreEq s s2 :=
  ⟨h2.1.trans h1.1, h2.2.1.trans h1.2.1, h2.2.2.1.trans h1.2.2.1,
   h2.2.2.2.1.trans h1.2.2.2.1, h2.2.2.2.2.trans h1.2.2.2.2⟩

theorem rachLoop_core (env : Env) :
    ∀ (rach : List RachListElement_s) (rbStart : Nat) (rar rar1 : List BuildRarListElement_s)
      (s s1 : SchedState),
      rachLoop env rach rbStart rar s = .ok (rar1, s1) → DlHarqCoreEq s s1 := by
  intro rach
  induction rach with
  | nil =>
    intro rbStart rar rar1 s s1 h
    simp only [rachLoop, Except.ok.injEq, Prod.mk.injEq] at h
    obtain ⟨_, rfl⟩ := h
    exact ⟨rfl, rfl, rfl, rfl, rfl⟩
  | cons r rest ih =>
    intro rbStart rar rar1 s s1 h
    simp only [rachLoop] at h
    split at h
    · split at h
      · simp only [Except.ok.injEq, Prod.mk.injEq] at h
        obtain ⟨_, rfl⟩ := h
        exact ⟨rfl, rfl, rfl, rfl, rfl⟩
      · split at h
        · cases h
        · rename_i map1 _
          split at h
          · cases h
          · rename_i s2 hstore
            have h2 := ih _ _ _ _ _ h
            have h1 : DlHarqCoreEq s s2 := by
              split at hstore
              · have := rachStoreDci_core _ _ _ hstore
                exact ⟨this.1, this.2.1, this.2.2.1, this.2.2.2.1, this.2.2.2.2⟩
              · simp only [Except.ok.injEq] at hstore
                subst hstore
                exact ⟨rfl, rfl, rfl, rfl, rfl⟩
            exact h1.trans h2
    · cases h

/-- The merged feedback depends on the carry-over buffer and the HARQ switch
only. -/
theorem mergeDlInfo_congr (s s1 : SchedState) (dlInfoList : List DlInfoListElement_s)
    (h1 : s1.m_dlInfoListBuffered = s.m_dlInfoListBuffered) (h2 : s1.m_harqOn = s.m_harqOn) :
    mergeDlInfo s1 dlInfoList = mergeDlInfo s dlInfoList := by
  simp only [mergeDlInfo, h1, h2]

/-- The first part of a downlink pass frees a slot only by the HARQ refresh,
the timer of the slot being at the timeout when the pass starts, or by a
feedback entry for the slot that has no NACK or finds the redundancy version
stored when the pass starts at 3. -/
theorem dlPassFeedback_slot (env : Env) (s s1 : SchedState)
    (dlInfoList : List DlInfoListElement_s) (l : DlLocals)
    (rar : List BuildRarListElement_s) (rbgSize rbgNum : Nat)
    (h : dlPassFeedback env s dlInfoList = .ok (s1, l, rar, rbgSize, rbgNum)) :
    ∀ u j, dlSlot s1 u j = dlSlot s u j ∨
      (dlSlot s1 u j = some 0 ∧
        ((∃ tm, (u, tm) ∈ s.m_dlHarqProcessesTimer ∧ tm[j]? = some env.HARQ_DL_TIMEOUT) ∨
         ∃ e, e ∈ mergeDlInfo s dlInfoList ∧ e.m_rnti = u ∧ e.m_harqProcessId = j ∧
           (DlNoNack e ∨ DlStoredRvMax s.m_dlHarqProcessesDciBuffer u j))) := by
  simp only [dlPassFeedback] at h
  split at h
  · cases h
  · rename_i sa hcqi
    have ca := refreshDlCqiMaps_core s sa hcqi
    split at h
    · cases h
    · split at h
      · cases h
      · rename_i rar2 sc hrach
        have cc := rachLoop_core env _ _ _ _ _ _ hrach
        split at h
        · cases h
        · rename_i sd hharq
          obtain ⟨d1, d2, d3, d4⟩ := refreshHarqProcesses_slot env _ sd hharq
          split at h
          · cases h
          · rename_i sf lf hloop
            simp only [Except.ok.injEq, Prod.mk.injEq] at h
            obtain ⟨rfl, _⟩ := h
            have hstat0 : sc.m_dlHarqProcessesStatus = s.m_dlHarqProcessesStatus :=
              cc.1.trans ca.1
            have htim0 : sc.m_dlHarqProcessesTimer = s.m_dlHarqProcessesTimer :=
              cc.2.1.trans ca.2.1
            have hdci0 : sd.m_dlHarqProcessesDciBuffer = s.m_dlHarqProcessesDciBuffer :=
              d2.trans (cc.2.2.1.trans ca.2.2.1)
            have hbuf0 : sd.m_dlInfoListBuffered = s.m_dlInfoListBuffered :=
              d3.trans (cc.2.2.2.1.trans ca.2.2.2.1)
            have hon0 : sd.m_harqOn = s.m_harqOn := d4.trans (cc.2.2.2.2.trans ca.2.2.2.2)
            have hmerge := mergeDlInfo_congr s sd dlInfoList hbuf0 hon0
            have hl := dlHarqFeedbackLoop_slot _ s.m_dlHarqProcessesDciBuffer _ _ sf _ lf
              (fun u _ => by show sd.m_dlHarqProcessesDciBuffer.find u = _; rw [hdci0]) hloop
            intro u j
            have hL : dlSlot sf u j = dlSlot sd u j ∨
                (dlSlot sf u j = some 0 ∧
                  ∃ e, e ∈ mergeDlInfo s dlInfoList ∧ e.m_rnti = u ∧ e.m_harqProcessId = j ∧
                    (DlNoNack e ∨ DlStoredRvMax s.m_dlHarqProcessesDciBuffer u j)) := by
              rcases hl u j with hs | ⟨h0, e, hmem, hc⟩
              · exact Or.inl hs
              · refine Or.inr ⟨h0, e, ?_, hc⟩
                rw [← hmerge]; exact hmem
            have hR : dlSlot sd u j = dlSlot s u j ∨
                (dlSlot sd u j = some 0 ∧
                  ∃ tm, (u, tm) ∈ s.m_dlHarqProcessesTimer ∧
                    tm[j]? = some env.HARQ_DL_TIMEOUT) := by
              rcases d1 u j with hs | ⟨h0, tm, hmem, htm⟩
              · left
                rw [hs]
                simp only [dlSlot, hstat0]
              · refine Or.inr ⟨h0, tm, ?_, htm⟩
                have : ({ sc with m_rachList := [] } : SchedState).m_dlHarqProcessesTimer
                    = s.m_dlHarqProcessesTimer := htim0
                rw [← this]; exact hmem
            show dlSlot sf u j = _ ∨ (dlSlot sf u j = some 0 ∧ _)
            rcases hL with hs | ⟨h0, hc⟩
            · rcases hR with hs2 | ⟨h20, hc2⟩
              · exact Or.inl (hs.trans hs2)
              · exact Or.inr ⟨hs.trans h20, Or.inl hc2⟩
            · exact Or.inr ⟨h0, Or.inr hc⟩

theorem DlHarqCoreEq.refl (s : SchedState) : DlHarqCoreEq s s := ⟨rfl, rfl, rfl, rfl, rfl⟩

theorem estimateUlSinr_core (env : Env) (s s1 : SchedState) (rnti rb : Nat) (x : Int)
    (h : EstimateUlSinr env s rnti rb = .ok (x, s1)) : DlHarqCoreEq s s1 := by
  simp only [EstimateUlSinr] at h
  split at h
  · simp only [Except.ok.injEq, Prod.mk.injEq] at h
    obtain ⟨_, rfl⟩ := h
    exact DlHarqCoreEq.refl _
  · split at h
    · cases h
    · split at h
      · cases h
      · simp only [Except.ok.injEq, Prod.mk.injEq] at h
        obtain ⟨_, rfl⟩ := h
        exact ⟨rfl, rfl, rfl, rfl, rfl⟩

theorem ulSampleOrEstimate_core (env : Env) (s s1 : SchedState) (rnti i : Nat)
    (who : Option Nat) (rb : Nat) (x : Int)
    (h : ulSampleOrEstimate env s rnti i who rb = .ok (x, s1)) : DlHarqCoreEq s s1 := by
  simp only [ulSampleOrEstimate] at h
  split at h
  · cases h
  · split at h
    · cases h
    · split at h
      · split at h
        · cases h
        · exact estimateUlSinr_core _ _ _ _ _ _ h
      · simp only [Except.ok.injEq, Prod.mk.injEq] at h
        obtain ⟨_, rfl⟩ := h
        exact DlHarqCoreEq.refl _

theorem ulMinSinrLoop_core (env : Env) (rnti : Nat) (who : Option Nat) :
    ∀ (n i : Nat) (s s1 : SchedState) (m x : Int),
      ulMinSinrLoop env rnti who n i s m = .ok (x, s1) → DlHarqCoreEq s s1 := by
  intro n
  induction n with
  | zero =>
    intro i s s1 m x h
    simp only [ulMinSinrLoop, Except.ok.injEq, Prod.mk.injEq] at h
    obtain ⟨_, rfl⟩ := h
    exact DlHarqCoreEq.refl _
  | succ n ih =>
    intro i s s1 m x h
    simp only [ulMinSinrLoop] at h
    split at h
    · cases h
    · rename_i y s2 hs
      exact (ulSampleOrEstimate_core _ _ _ _ _ _ _ _ hs).trans (ih _ _ _ _ _ h)

theorem ulMcsFromSamples_core (env : Env) (s s1 : SchedState) (rnti : Nat)
    (who : Option Nat) (rbStart rbLen mcs : Nat)
    (h : ulMcsFromSamples env s rnti who rbStart rbLen = .ok (mcs, s1)) :
    DlHarqCoreEq s s1 := by
  simp only [ulMcsFromSamples] at h
  split at h
  · cases h
  · split at h
    · cases h
    · split at h
      · cases h
      · rename_i y s2 hs
        split at h
        · cases h
        · rename_i z s3 hl
          split at h
          · cases h
          · simp only [Except.ok.injEq, Prod.mk.injEq] at h
            obtain ⟨_, rfl⟩ := h
            exact (ulSampleOrEstimate_core _ _ _ _ _ _ _ _ hs).trans
              (ulMinSinrLoop_core _ _ _ _ _ _ _ _ _ hl)

theorem ulSelectLayers_core (env : Env) (rnti : Nat) :
    ∀ (n : Nat) (s s1 : SchedState) (rate : Nat) (itMax it1 : Option Nat) (M M1 : Nat),
      ulSelectLayers env rnti n s rate itMax M = .ok (s1, it1, M1) → DlHarqCoreEq s s1 := by
  intro n
  induction n with
  | zero =>
    intro s s1 rate itMax it1 M M1 h
    simp only [ulSelectLayers, Except.ok.injEq, Prod.mk.injEq] at h
    obtain ⟨rfl, _⟩ := h
    exact DlHarqCoreEq.refl _
  | succ n ih =>
    intro s s1 rate itMax it1 M M1 h
    simp only [ulSelectLayers] at h
    split at h
    · cases h
    · rename_i mcs s2 hm
      have h2 : DlHarqCoreEq s s2 := by
        split at hm
        · simp only [Except.ok.injEq, Prod.mk.injEq] at hm
          obtain ⟨_, rfl⟩ := hm
          exact DlHarqCoreEq.refl _
        · exact ulMcsFromSamples_core _ _ _ _ _ _ _ _ hm
      split at h
      · exact h2.trans (ih _ _ _ _ _ _ _ h)
      · exact h2.trans (ih _ _ _ _ _ _ _ h)

theorem ulSelectStep_core (env : Env) (rntiAllocated : List Nat) (rnti : Nat)
    (s s1 : SchedState) (itMax it1 : Option Nat) (M M1 : Nat)
    (h : ulSelectStep env rntiAllocated rnti s itMax M = .ok (s1, it1, M1)) :
    DlHarqCoreEq s s1 := by
  simp only [ulSelectStep] at h
  split at h
  · split at h
    · cases h
    · simp only [Except.ok.injEq, Prod.mk.injEq] at h
      obtain ⟨rfl, _⟩ := h
      exact DlHarqCoreEq.refl _
  · split at h
    · cases h
    · split at h
      · simp only [Except.ok.injEq, Prod.mk.injEq] at h
        obtain ⟨rfl, _⟩ := h
        exact DlHarqCoreEq.refl _
      · split at h
        · cases h
        · split at h
          · cases h
          · split at h
            · exact ulSelectLayers_core _ _ _ _ _ _ _ _ _ _ h
            · simp only [Except.ok.injEq, Prod.mk.injEq] at h
              obtain ⟨rfl, _⟩ := h
              exact DlHarqCoreEq.refl _

theorem ulSelectLoop_core (env : Env) (rntiAllocated : List Nat) :
    ∀ (flows : List Nat) (s s1 : SchedState) (itMax it1 : Option Nat) (M M1 : Nat),
      ulSelectLoop env rntiAllocated flows s itMax M = .ok (s1, it1, M1) →
      DlHarqCoreEq s s1 := by
  intro flows
  induction flows with
  | nil =>
    intro s s1 itMax it1 M M1 h
    simp only [ulSelectLoop, Except.ok.injEq, Prod.mk.injEq] at h
    obtain ⟨rfl, _⟩ := h
    exact DlHarqCoreEq.refl _
  | cons rnti rest ih =>
    intro s s1 itMax it1 M M1 h
    simp only [ulSelectLoop] at h
    split at h
    · cases h
    · rename_i s2 it2 M2 hstep
      exact (ulSelectStep_core _ _ _ _ _ _ _ _ _ hstep).trans (ih _ _ _ _ _ _ h)

theorem ulHarqFeedbackEntry_core (env : Env) (e : UlInfoListElement_s) (s s1 : SchedState)
    (l l1 : UlLocals) (h : ulHarqFeedbackEntry env e s l = .ok (s1, l1)) :
    DlHarqCoreEq s s1 := by
  simp only [ulHarqFeedbackEntry] at h
  split at h
  · split at h
    · cases h
    · split at h
      · simp only [Except.ok.injEq, Prod.mk.injEq] at h
        obtain ⟨rfl, _⟩ := h
        exact DlHarqCoreEq.refl _
      · split at h
        · cases h
        · split at h
          · cases h
          · split at h
            · cases h
            · split at h
              · simp only [Except.ok.injEq, Prod.mk.injEq] at h
                obtain ⟨rfl, _⟩ := h
                exact DlHarqCoreEq.refl _
              · split at h
                · cases h
                · split at h
                  · split at h
                    · cases h
                    · split at h
                      · cases h
                      · split at h
                        · cases h
                        · split at h
                          · cases h
                          · simp only [Except.ok.injEq, Prod.mk.injEq] at h
                            obtain ⟨rfl, _⟩ := h
                            exact ⟨rfl, rfl, rfl, rfl, rfl⟩
                  · simp only [Except.ok.injEq, Prod.mk.injEq] at h
                    obtain ⟨rfl, _⟩ := h
                    exact DlHarqCoreEq.refl _
  · simp only [Except.ok.injEq, Prod.mk.injEq] at h
    obtain ⟨rfl, _⟩ := h
    exact DlHarqCoreEq.refl _

theorem ulHarqFeedbackLoop_core (env : Env) :
    ∀ (es : List UlInfoListElement_s) (s s1 : SchedState) (l l1 : UlLocals),
      ulHarqFeedbackLoop env es s l = .ok (s1, l1) → DlHarqCoreEq s s1 := by
  intro es
  induction es with
  | nil =>
    intro s s1 l l1 h
    simp only [ulHarqFeedbackLoop, Except.ok.injEq, Prod.mk.injEq] at h
    obtain ⟨rfl, _⟩ := h
    exact DlHarqCoreEq.refl _
  | cons e rest ih =>
    intro s s1 l l1 h
    simp only [ulHarqFeedbackLoop] at h
    split at h
    · cases h
    · rename_i s2 l2 hstep
      exact (ulHarqFeedbackEntry_core _ _ _ _ _ _ hstep).trans (ih _ _ _ _ h)


theorem refreshUlCqiMaps_core (s s1 : SchedState) (h : RefreshUlCqiMaps s = .ok s1) :
    DlHarqCoreEq s s1 := by
  simp only [RefreshUlCqiMaps] at h
  split at h
  · cases h
  · simp only [Except.ok.injEq] at h
    subst h
    exact ⟨rfl, rfl, rfl, rfl, rfl⟩

theorem ulPassSelect_core (env : Env) (s s1 : SchedState)
    (ulInfoList : List UlInfoListElement_s) (l : UlLocals) (itMax : Option Nat)
    (h : ulPassSelect env s ulInfoList = .ok (s1, l, itMax)) : DlHarqCoreEq s s1 := by
  simp only [ulPassSelect] at h
  split at h
  · cases h
  · rename_i sa hcqi
    have ca := refreshUlCqiMaps_core _ _ hcqi
    split at h
    · cases h
    · split at h
      · cases h
      · rename_i sb lb hfb
        have cb : DlHarqCoreEq sa sb := by
          split at hfb
          · have := ulHarqFeedbackLoop_core _ _ _ _ _ _ hfb
            exact ⟨this.1, this.2.1, this.2.2.1, this.2.2.2.1, this.2.2.2.2⟩
          · simp only [Except.ok.injEq, Prod.mk.injEq] at hfb
            obtain ⟨rfl, _⟩ := hfb
            exact ⟨rfl, rfl, rfl, rfl, rfl⟩
        split at h
        · cases h
        · rename_i sc it M hsel
          have cc := ulSelectLoop_core _ _ _ _ _ _ _ _ _ hsel
          simp only [Except.ok.injEq, Prod.mk.injEq] at h
          obtain ⟨rfl, _⟩ := h
          exact (ca.trans cb).trans cc

theorem ulDescLayers_core (env : Env) (rnti rbStart rbLen rbPerFlow : Nat) :
    ∀ (n : Nat) (s s1 : SchedState) (acc acc1 : Option (Nat × Nat)),
      ulDescLayers env rnti rbStart rbLen rbPerFlow n s acc = .ok (s1, acc1) →
      DlHarqCoreEq s s1 := by
  intro n
  induction n with
  | zero =>
    intro s s1 acc acc1 h
    simp only [ulDescLayers, Except.ok.injEq, Prod.mk.injEq] at h
    obtain ⟨rfl, _⟩ := h
    exact DlHarqCoreEq.refl _
  | succ n ih =>
    intro s s1 acc acc1 h
    simp only [ulDescLayers] at h
    split at h
    · cases h
    · rename_i mcs s2 hm
      have h2 : DlHarqCoreEq s s2 := by
        split at hm
        · simp only [Except.ok.injEq, Prod.mk.injEq] at hm
          obtain ⟨_, rfl⟩ := hm
          exact DlHarqCoreEq.refl _
        · exact ulMcsFromSamples_core _ _ _ _ _ _ _ _ hm
      exact h2.trans (ih _ _ _ _ h)

theorem ulStoreDci_core (s s1 : SchedState) (uldci : UlDciListElement_s)
    (h : ulStoreDci s uldci = .ok s1) : DlHarqCoreEq s s1 := by
  simp only [ulStoreDci] at h
  split at h
  · cases h
  · split at h
    · cases h
    · split at h
      · cases h
      · split at h
        · cases h
        · split at h
          · cases h
          · simp only [Except.ok.injEq] at h
            subst h
            exact ⟨rfl, rfl, rfl, rfl, rfl⟩

theorem updateUlRlcBufferInfo_core (s : SchedState) (rnti size : Nat) :
    DlHarqCoreEq s (UpdateUlRlcBufferInfo s rnti size) := by
  simp only [UpdateUlRlcBufferInfo]
  split
  · exact ⟨rfl, rfl, rfl, rfl, rfl⟩
  · exact DlHarqCoreEq.refl _

theorem ulDescEntry_core (env : Env) (rnti rbPerFlow rbAllocated : Nat) (s s1 : SchedState)
    (uldci : UlDciListElement_s)
    (h : ulDescEntry env rnti rbPerFlow rbAllocated s = .ok (s1, uldci)) :
    DlHarqCoreEq s s1 := by
  simp only [ulDescEntry] at h
  split at h
  · cases h
  · split at h
    · cases h
    · cases h
    · rename_i s2 mcs tb hlay
      have c1 := ulDescLayers_core _ _ _ _ _ _ _ _ _ _ hlay
      have c2 := updateUlRlcBufferInfo_core s2 rnti tb
      split at h
      · cases h
      · rename_i s3 hst
        simp only [Except.ok.injEq, Prod.mk.injEq] at h
        obtain ⟨rfl, _⟩ := h
        have c3 : DlHarqCoreEq (UpdateUlRlcBufferInfo s2 rnti tb) s3 := by
          split at hst
          · exact ulStoreDci_core _ _ _ hst
          · simp only [Except.ok.injEq] at hst
            subst hst
            exact DlHarqCoreEq.refl _
        exact (c1.trans c2).trans c3

theorem ulDescLoop_core (env : Env) :
    ∀ (alloc : List (Nat × Nat)) (rbAllocated : Nat) (s s1 : SchedState)
      (dciList dciList1 : List UlDciListElement_s),
      ulDescLoop env alloc rbAllocated s dciList = .ok (s1, dciList1) → DlHarqCoreEq s s1 := by
  intro alloc
  induction alloc with
  | nil =>
    intro rbAllocated s s1 dciList dciList1 h
    simp only [ulDescLoop, Except.ok.injEq, Prod.mk.injEq] at h
    obtain ⟨rfl, _⟩ := h
    exact DlHarqCoreEq.refl _
  | cons kv rest ih =>
    obtain ⟨rnti, rbPerFlow⟩ := kv
    intro rbAllocated s s1 dciList dciList1 h
    simp only [ulDescLoop] at h
    split at h
    · cases h
    · rename_i s2 uldci hstep
      exact (ulDescEntry_core _ _ _ _ _ _ _ hstep).trans (ih _ _ _ _ _ h)

/-- An uplink pass leaves the downlink HARQ status, timers, stored DCIs and
carry-over buffer as they are. -/
theorem doSchedUlTriggerReq_core (env : Env) (s s1 : SchedState)
    (ulInfoList : List UlInfoListElement_s) (out : Option (List UlDciListElement_s))
    (h : DoSchedUlTriggerReq env s ulInfoList = .ok (s1, out)) : DlHarqCoreEq s s1 := by
  simp only [DoSchedUlTriggerReq] at h
  split at h
  · cases h
  · rename_i sa la hsel
    simp only [Except.ok.injEq, Prod.mk.injEq] at h
    obtain ⟨rfl, _⟩ := h
    exact ulPassSelect_core _ _ _ _ _ _ hsel
  · rename_i sa la rntiMax hsel
    have ca := ulPassSelect_core _ _ _ _ _ _ hsel
    split at h
    · cases h
    · split at h
      · cases h
      · rename_i sb dl hloop
        simp only [Except.ok.injEq, Prod.mk.injEq] at h
        obtain ⟨rfl, _⟩ := h
        exact ca.trans (ulDescLoop_core _ _ _ _ _ _ _ hloop)

theorem doSchedDlCqiInfoReq_core :
    ∀ (cqiList : List CqiListElement_s) (s s1 : SchedState),
      DoSchedDlCqiInfoReq s cqiList = .ok s1 → DlHarqCoreEq s s1 := by
  intro cqiList
  induction cqiList with
  | nil =>
    intro s s1 h
    simp only [DoSchedDlCqiInfoReq, Except.ok.injEq] at h
    subst h
    exact DlHarqCoreEq.refl _
  | cons c rest ih =>
    intro s s1 h
    simp only [DoSchedDlCqiInfoReq] at h
    split at h
    · cases h
    · rename_i s2 he
      have c1 : DlHarqCoreEq s s2 := by
        simp only [dlCqiInfoEntry] at he
        split at he
        · split at he
          · cases he
          · split at he
            · cases he
            · simp only [Except.ok.injEq] at he
              subst he
              exact ⟨rfl, rfl, rfl, rfl, rfl⟩
        · split at he
          · split at he
            · cases he
            · simp only [Except.ok.injEq] at he
              subst he
              exact ⟨rfl, rfl, rfl, rfl, rfl⟩
          · simp only [Except.ok.injEq] at he
            subst he
            exact DlHarqCoreEq.refl _
      exact c1.trans (ih _ _ h)

theorem doSchedUlMacCtrlInfoReq_core (env : Env) :
    ∀ (macCeList : List MacCeListElement_s) (s s1 : SchedState),
      DoSchedUlMacCtrlInfoReq env s macCeList = .ok s1 → DlHarqCoreEq s s1 := by
  intro macCeList
  induction macCeList with
  | nil =>
    intro s s1 h
    simp only [DoSchedUlMacCtrlInfoReq, Except.ok.injEq] at h
    subst h
    exact DlHarqCoreEq.refl _
  | cons c rest ih =>
    intro s s1 h
    simp only [DoSchedUlMacCtrlInfoReq] at h
    split at h
    · split at h
      · cases h
      · have := ih _ _ h
        exact ⟨this.1, this.2.1, this.2.2.1, this.2.2.2.1, this.2.2.2.2⟩
    · exact ih _ _ h

theorem ulCqiPuschLoop_core (env : Env) (sinrs alloc : List Nat) :
    ∀ (n i : Nat) (s s1 : SchedState),
      ulCqiPuschLoop env sinrs alloc n i s = .ok s1 → DlHarqCoreEq s s1 := by
  intro n
  induction n with
  | zero =>
    intro i s s1 h
    simp only [ulCqiPuschLoop, Except.ok.injEq] at h
    subst h
    exact DlHarqCoreEq.refl _
  | succ n ih =>
    intro i s s1 h
    simp only [ulCqiPuschLoop] at h
    split at h
    · cases h
    · split at h
      · cases h
      · split at h
        · have := ih _ _ _ h
          exact ⟨this.1, this.2.1, this.2.2.1, this.2.2.2.1, this.2.2.2.2⟩
        · split at h
          · cases h
          · split at h
            · cases h
            · have := ih _ _ _ h
              exact ⟨this.1, this.2.1, this.2.2.1, this.2.2.2.1, this.2.2.2.2⟩

theorem doSchedUlCqiInfoReq_core (env : Env) (s s1 : SchedState)
    (params : SchedUlCqiInfoReqParameters)
    (h : DoSchedUlCqiInfoReq env s params = .ok s1) : DlHarqCoreEq s s1 := by
  simp only [DoSchedUlCqiInfoReq] at h
  split at h
  · cases h
  · simp only [Except.ok.injEq] at h
    subst h
    exact DlHarqCoreEq.refl _
  · split at h
    · simp only [ulCqiPusch] at h
      split at h
      · simp only [Except.ok.injEq] at h
        subst h
        exact DlHarqCoreEq.refl _
      · split at h
        · cases h
        · rename_i s2 hl
          simp only [Except.ok.injEq] at h
          subst h
          have := ulCqiPuschLoop_core _ _ _ _ _ _ _ hl
          exact ⟨this.1, this.2.1, this.2.2.1, this.2.2.2.1, this.2.2.2.2⟩
    · simp only [ulCqiSrs] at h
      split at h
      · split at h
        · split at h
          · cases h
          · simp only [Except.ok.injEq] at h
            subst h
            exact ⟨rfl, rfl, rfl, rfl, rfl⟩
        · split at h
          · cases h
          · split at h
            · cases h
            · simp only [Except.ok.injEq] at h
              subst h
              exact ⟨rfl, rfl, rfl, rfl, rfl⟩
      · cases h
    · cases h
    · cases h
    · cases h


/-- A downlink pass frees a busy process only by the HARQ refresh, the timer of
the process being at the timeout when the pass starts, or by a feedback entry
for the process that has no NACK or finds the stored redundancy version at 3. -/
theorem doSchedDlTriggerReq_slot (env : Env) (s s1 : SchedState)
    (dlInfoList : List DlInfoListElement_s) (out : Option SchedDlConfigIndParameters)
    (h : DoSchedDlTriggerReq env s dlInfoList = .ok (s1, out)) (u j x : Nat)
    (hbusy : dlSlot s u j = some x) (hx : x ≠ 0) (hfree : dlSlot s1 u j = some 0) :
    (∃ tm, (u, tm) ∈ s.m_dlHarqProcessesTimer ∧ tm[j]? = some env.HARQ_DL_TIMEOUT) ∨
    ∃ e, e ∈ mergeDlInfo s dlInfoList ∧ e.m_rnti = u ∧ e.m_harqProcessId = j ∧
      (DlNoNack e ∨ DlStoredRvMax s.m_dlHarqProcessesDciBuffer u j) := by
  simp only [DoSchedDlTriggerReq] at h
  split at h
  · cases h
  · rename_i sa la rar rbgSize rbgNum hfb
    have hA := dlPassFeedback_slot env s sa dlInfoList la rar rbgSize rbgNum hfb u j
    have hfin : dlSlot sa u j = some 0 →
        ((∃ tm, (u, tm) ∈ s.m_dlHarqProcessesTimer ∧ tm[j]? = some env.HARQ_DL_TIMEOUT) ∨
        ∃ e, e ∈ mergeDlInfo s dlInfoList ∧ e.m_rnti = u ∧ e.m_harqProcessId = j ∧
          (DlNoNack e ∨ DlStoredRvMax s.m_dlHarqProcessesDciBuffer u j)) := fun h0 => by
      rcases hA with hs | ⟨_, hc⟩
      · rw [hs, hbusy] at h0
        simp only [Option.some.injEq] at h0
        exact absurd h0 hx
      · exact hc
    split at h
    · split at h
      · simp only [Except.ok.injEq, Prod.mk.injEq] at h
        obtain ⟨rfl, _⟩ := h
        exact hfin hfree
      · simp only [Except.ok.injEq, Prod.mk.injEq] at h
        obtain ⟨rfl, _⟩ := h
        exact hfin hfree
    · split at h
      · cases h
      · rename_i sb dataList hnew
        simp only [Except.ok.injEq, Prod.mk.injEq] at h
        obtain ⟨rfl, _⟩ := h
        rcases dlPassNewData_slot _ _ _ _ _ _ _ hnew u j with hs | h1
        · rw [hs] at hfree
          exact hfin hfree
        · rw [h1] at hfree
          cases hfree

theorem doCschedUeConfigReq_slot (s : SchedState) (rnti txMode u j x : Nat)
    (hbusy : dlSlot s u j = some x) :
    dlSlot (DoCschedUeConfigReq s rnti txMode) u j = some x := by
  simp only [dlSlot, statusSlot] at hbusy ⊢
  cases hf : s.m_dlHarqProcessesStatus.find u with
  | none => rw [hf] at hbusy; cases hbusy
  | some stat =>
    simp only [DoCschedUeConfigReq]
    split
    · simp only
      rw [RMap.find_insert_of_some _ _ _ _ _ hf]
      rw [hf] at hbusy
      exact hbusy
    · simp only
      exact hbusy

theorem doCschedUeReleaseReq_slot (s : SchedState) (rnti u j : Nat) :
    dlSlot (DoCschedUeReleaseReq s rnti) u j = dlSlot s u j ∨
    dlSlot (DoCschedUeReleaseReq s rnti) u j = none := by
  simp only [dlSlot, statusSlot, DoCschedUeReleaseReq]
  by_cases hu : u = rnti
  · subst hu
    right
    rw [RMap.find_erase_self]
    rfl
  · left
    rw [RMap.find_erase_ne _ _ _ hu]

/-- C9: whenever a request of the scheduler interface takes a downlink HARQ
process of a user from busy to free, the request is a downlink trigger and one
of three things holds: a timer entry of the process is at `HARQ_DL_TIMEOUT`
when the pass starts (`RefreshHarqProcesses` frees it), or the feedback the
pass handles (the carry-over buffer followed by the feedback of the trigger)
has an entry for the process in which no layer is NACK, or it has an entry for
the process and the redundancy version stored for the process is 3. Every
step of every run of the scheduler is such a request, so no other operation
frees a busy process. -/
theorem dl_harq_process_freed_only_by_ack_maxrv_or_timeout (env : Env) (s s1 : SchedState)
    (req : Request) (ind : Indication) (u i x : Nat)
    (h : handle env s req = .ok (s1, ind))
    (hbusy : dlSlot s u i = some x) (hx : x ≠ 0) (hfree : dlSlot s1 u i = some 0) :
    ∃ dlInfoList, req = Request.SchedDlTriggerReq dlInfoList ∧
      ((∃ tm, (u, tm) ∈ s.m_dlHarqProcessesTimer ∧ tm[i]? = some env.HARQ_DL_TIMEOUT) ∨
       ∃ e, e ∈ mergeDlInfo s dlInfoList ∧ e.m_rnti = u ∧ e.m_harqProcessId = i ∧
         (DlNoNack e ∨ DlStoredRvMax s.m_dlHarqProcessesDciBuffer u i)) := by
  have hne : dlSlot s1 u i ≠ dlSlot s u i := by
    rw [hbusy, hfree]
    intro e
    simp only [Option.some.injEq] at e
    exact hx e.symm
  have hcore : ∀ s2, DlHarqCoreEq s s2 → dlSlot s2 u i = dlSlot s u i := by
    intro s2 hc
    simp only [dlSlot, hc.1]
  cases req with
  | CschedCellConfigReq dl ul =>
    simp only [handle, Except.ok.injEq, Prod.mk.injEq] at h
    obtain ⟨rfl, _⟩ := h
    exact absurd rfl hne
  | CschedUeConfigReq rnti txMode =>
    simp only [handle, Except.ok.injEq, Prod.mk.injEq] at h
    obtain ⟨rfl, _⟩ := h
    rw [doCschedUeConfigReq_slot s rnti txMode u i x hbusy] at hfree
    simp only [Option.some.injEq] at hfree
    exact absurd hfree hx
  | CschedLcConfigReq rnti nLc =>
    simp only [handle, Except.ok.injEq, Prod.mk.injEq] at h
    obtain ⟨rfl, _⟩ := h
    exfalso
    apply hne
    simp only [DoCschedLcConfigReq]
    split
    · rfl
    · split <;> rfl
  | CschedLcReleaseReq rnti lcIds =>
    simp only [handle, Except.ok.injEq, Prod.mk.injEq] at h
    obtain ⟨rfl, _⟩ := h
    exact absurd rfl hne
  | CschedUeReleaseReq rnti =>
    simp only [handle, Except.ok.injEq, Prod.mk.injEq] at h
    obtain ⟨rfl, _⟩ := h
    rcases doCschedUeReleaseReq_slot s rnti u i with hs | hn
    · exact absurd hs hne
    · rw [hn] at hfree; cases hfree
  | SchedDlRlcBufferReq params =>
    simp only [handle, Except.ok.injEq, Prod.mk.injEq] at h
    obtain ⟨rfl, _⟩ := h
    exact absurd rfl hne
  | SchedDlPagingBufferReq => simp only [handle] at h; cases h
  | SchedDlMacBufferReq => simp only [handle] at h; cases h
  | SchedDlRachInfoReq rachList =>
    simp only [handle, Except.ok.injEq, Prod.mk.injEq] at h
    obtain ⟨rfl, _⟩ := h
    exact absurd rfl hne
  | SchedDlCqiInfoReq cqiList =>
    simp only [handle] at h
    split at h
    · cases h
    · rename_i s2 hd
      simp only [Except.ok.injEq, Prod.mk.injEq] at h
      obtain ⟨rfl, _⟩ := h
      exact absurd (hcore _ (doSchedDlCqiInfoReq_core _ _ _ hd)) hne
  | SchedDlTriggerReq dlInfoList =>
    refine ⟨dlInfoList, rfl, ?_⟩
    simp only [handle] at h
    split at h
    · cases h
    · rename_i s2 out hd
      simp only [Except.ok.injEq, Prod.mk.injEq] at h
      obtain ⟨rfl, _⟩ := h
      exact doSchedDlTriggerReq_slot env s s2 dlInfoList _ hd u i x hbusy hx hfree
    · rename_i s2 hd
      simp only [Except.ok.injEq, Prod.mk.injEq] at h
      obtain ⟨rfl, _⟩ := h
      exact doSchedDlTriggerReq_slot env s s2 dlInfoList _ hd u i x hbusy hx hfree
  | SchedUlTriggerReq ulInfoList =>
    simp only [handle] at h
    split at h
    · cases h
    · rename_i s2 out hd
      simp only [Except.ok.injEq, Prod.mk.injEq] at h
      obtain ⟨rfl, _⟩ := h
      exact absurd (hcore _ (doSchedUlTriggerReq_core _ _ _ _ _ hd)) hne
    · rename_i s2 hd
      simp only [Except.ok.injEq, Prod.mk.injEq] at h
      obtain ⟨rfl, _⟩ := h
      exact absurd (hcore _ (doSchedUlTriggerReq_core _ _ _ _ _ hd)) hne
  | SchedUlMacCtrlInfoReq macCeList =>
    simp only [handle] at h
    split at h
    · cases h
    · rename_i s2 hd
      simp only [Except.ok.injEq, Prod.mk.injEq] at h
      obtain ⟨rfl, _⟩ := h
      exact absurd (hcore _ (doSchedUlMacCtrlInfoReq_core _ _ _ _ hd)) hne
  | SchedUlCqiInfoReq params =>
    simp only [handle] at h
    split at h
    · cases h
    · rename_i s2 hd
      simp only [Except.ok.injEq, Prod.mk.injEq] at h
      obtain ⟨rfl, _⟩ := h
      exact absurd (hcore _ (doSchedUlCqiInfoReq_core _ _ _ _ hd)) hne
  | SchedUlNoiseInterferenceReq =>
    simp only [handle, Except.ok.injEq, Prod.mk.injEq] at h
    obtain ⟨rfl, _⟩ := h
    exact absurd rfl hne
  | SchedUlSrInfoReq =>
    simp only [handle, Except.ok.injEq, Prod.mk.injEq] at h
    obtain ⟨rfl, _⟩ := h
    exact absurd rfl hne


/-- Witness of C9: in `twoGrantsState` process 1 of user 1 is busy, and the
pass that receives its ACK frees it. -/
theorem dl_harq_process_freed_only_by_ack_maxrv_or_timeout_witness :
    handle exampleEnv twoGrantsState (Request.SchedDlTriggerReq [exampleAck 1])
      = .ok exampleAckOutcome ∧
    ∃ dlInfoList, Request.SchedDlTriggerReq [exampleAck 1]
        = Request.SchedDlTriggerReq dlInfoList ∧
      ((∃ tm, (1, tm) ∈ twoGrantsState.m_dlHarqProcessesTimer ∧
          tm[1]? = some exampleEnv.HARQ_DL_TIMEOUT) ∨
       ∃ e, e ∈ mergeDlInfo twoGrantsState dlInfoList ∧ e.m_rnti = 1 ∧
         e.m_harqProcessId = 1 ∧
         (DlNoNack e ∨ DlStoredRvMax twoGrantsState.m_dlHarqProcessesDciBuffer 1 1)) :=
  ⟨rfl,
   dl_harq_process_freed_only_by_ack_maxrv_or_timeout exampleEnv twoGrantsState
     exampleAckOutcome.1 (Request.SchedDlTriggerReq [exampleAck 1]) exampleAckOutcome.2 1 1 1
     rfl rfl (by decide) rfl⟩

/-! ## RLC buffer ledger -/

/-- The ledger update keeps the keys, leaves every entry under another key as
it is, and is the identity on a ledger without the key. -/
theorem ledgerUpdate_frame (flow : LteFlowId_t)
    (f : SchedDlRlcBufferReqParameters → SchedDlRlcBufferReqParameters) :
    ∀ (ledger : List (LteFlowId_t × SchedDlRlcBufferReqParameters)),
      (ledgerUpdate flow f ledger).map Prod.fst = ledger.map Prod.fst ∧
      (∀ (i : Nat) (kv : LteFlowId_t × SchedDlRlcBufferReqParameters), ledger[i]? = some kv →
        kv.1 ≠ flow → (ledgerUpdate flow f ledger)[i]? = some kv) ∧
      (ledgerFind flow ledger = none → ledgerUpdate flow f ledger = ledger) ∧
      ledgerFind flow (ledgerUpdate flow f ledger) = (ledgerFind flow ledger).map f := by
  intro ledger
  induction ledger with
  | nil => simp [ledgerUpdate, ledgerFind]
  | cons kv rest ih =>
    obtain ⟨k, v⟩ := kv
    obtain ⟨ih1, ih2, ih3, ih4⟩ := ih
    by_cases hk : k = flow
    · subst hk
      refine ⟨by simp [ledgerUpdate], ?_, by simp [ledgerFind], by simp [ledgerUpdate, ledgerFind]⟩
      intro i kv hi hne
      cases i with
      | zero =>
        simp only [List.getElem?_cons_zero, Option.some.injEq] at hi
        subst hi
        exact absurd rfl hne
      | succ i => simpa [ledgerUpdate] using hi
    · refine ⟨by simp [ledgerUpdate, hk, ih1], ?_, ?_, by simp [ledgerUpdate, ledgerFind, hk, ih4]⟩
      · intro i kv hi hne
        cases i with
        | zero => simpa [ledgerUpdate, hk] using hi
        | succ i =>
          simp only [List.getElem?_cons_succ] at hi
          simpa [ledgerUpdate, hk] using ih2 i kv hi hne
      · intro hnone
        simp only [ledgerFind, hk, if_false] at hnone
        simp [ledgerUpdate, hk, ih3 hnone]

/-- The queue update on one entry, case by case. -/
theorem updateDlRlcQueues_cases (lcid size : Nat) (req : SchedDlRlcBufferReqParameters) :
    (0 < req.m_rlcStatusPduSize ∧ req.m_rlcStatusPduSize ≤ size →
      updateDlRlcQueues lcid size req = { req with m_rlcStatusPduSize := 0 }) ∧
    (¬ (0 < req.m_rlcStatusPduSize ∧ req.m_rlcStatusPduSize ≤ size) →
      0 < req.m_rlcRetransmissionQueueSize ∧ req.m_rlcRetransmissionQueueSize ≤ size →
      updateDlRlcQueues lcid size req = { req with m_rlcRetransmissionQueueSize := 0 }) ∧
    (¬ (0 < req.m_rlcStatusPduSize ∧ req.m_rlcStatusPduSize ≤ size) →
      ¬ (0 < req.m_rlcRetransmissionQueueSize ∧ req.m_rlcRetransmissionQueueSize ≤ size) →
      ∃ q, q ≤ req.m_rlcTransmissionQueueSize ∧
        updateDlRlcQueues lcid size req = { req with m_rlcTransmissionQueueSize := q }) := by
  refine ⟨?_, ?_, ?_⟩
  · intro h
    simp [updateDlRlcQueues, h.1, h.2]
  · intro h1 h2
    have h1' : ¬ (req.m_rlcStatusPduSize > 0 ∧ size ≥ req.m_rlcStatusPduSize) := h1
    simp [updateDlRlcQueues, h1', h2.1, h2.2]
  · intro h1 h2
    have h1' : ¬ (req.m_rlcStatusPduSize > 0 ∧ size ≥ req.m_rlcStatusPduSize) := h1
    have h2' : ¬ (req.m_rlcRetransmissionQueueSize > 0 ∧
        size ≥ req.m_rlcRetransmissionQueueSize) := h2
    by_cases h3 : req.m_rlcTransmissionQueueSize > 0
    · by_cases h4 : req.m_rlcTransmissionQueueSize ≤
          (size + 2 ^ 32 - (if lcid = 1 then 4 else 2)) % 2 ^ 32
      · exact ⟨0, Nat.zero_le _, by simp only [updateDlRlcQueues, h1', h2', h3, h4, if_true, if_false]⟩
      · exact ⟨req.m_rlcTransmissionQueueSize -
            (size + 2 ^ 32 - (if lcid = 1 then 4 else 2)) % 2 ^ 32, Nat.sub_le _ _, by
          simp only [updateDlRlcQueues, h1', h2', h3, h4, if_true, if_false]⟩
    · exact ⟨req.m_rlcTransmissionQueueSize, le_refl _, by
        simp only [updateDlRlcQueues, h1', h2', h3, if_false]⟩

/-- C15: `UpdateDlRlcBufferInfo(rnti, lcid, size)` changes the ledger only; it
keeps the keys and every entry stored under another (user, channel); when the
ledger has no entry for (user, channel) the scheduler is unchanged; and the
entry of (user, channel) is updated in the order status PDU, retransmission
queue, new-data queue: with a status size `s > 0` and `size >= s` only the
status size changes, to 0; otherwise with a retransmission size `r > 0` and
`size >= r` only the retransmission size changes, to 0; otherwise only the
new-data size may change, and it does not grow. -/
theorem updateDlRlcBufferInfo_priority_order (s : SchedState) (rnti lcid size : Nat) :
    UpdateDlRlcBufferInfo s rnti lcid size =
      { s with m_rlcBufferReq := (UpdateDlRlcBufferInfo s rnti lcid size).m_rlcBufferReq } ∧
    (UpdateDlRlcBufferInfo s rnti lcid size).m_rlcBufferReq.map Prod.fst =
      s.m_rlcBufferReq.map Prod.fst ∧
    (∀ (i : Nat) (kv : LteFlowId_t × SchedDlRlcBufferReqParameters), s.m_rlcBufferReq[i]? = some kv →
      kv.1 ≠ { m_rnti := rnti, m_lcId := lcid } →
      (UpdateDlRlcBufferInfo s rnti lcid size).m_rlcBufferReq[i]? = some kv) ∧
    (ledgerFind { m_rnti := rnti, m_lcId := lcid } s.m_rlcBufferReq = none →
      UpdateDlRlcBufferInfo s rnti lcid size = s) ∧
    (∀ req, ledgerFind { m_rnti := rnti, m_lcId := lcid } s.m_rlcBufferReq = some req →
      ∃ req1, ledgerFind { m_rnti := rnti, m_lcId := lcid }
          (UpdateDlRlcBufferInfo s rnti lcid size).m_rlcBufferReq = some req1 ∧
        (0 < req.m_rlcStatusPduSize ∧ req.m_rlcStatusPduSize ≤ size →
          req1 = { req with m_rlcStatusPduSize := 0 }) ∧
        (¬ (0 < req.m_rlcStatusPduSize ∧ req.m_rlcStatusPduSize ≤ size) →
          0 < req.m_rlcRetransmissionQueueSize ∧ req.m_rlcRetransmissionQueueSize ≤ size →
          req1 = { req with m_rlcRetransmissionQueueSize := 0 }) ∧
        (¬ (0 < req.m_rlcStatusPduSize ∧ req.m_rlcStatusPduSize ≤ size) →
          ¬ (0 < req.m_rlcRetransmissionQueueSize ∧ req.m_rlcRetransmissionQueueSize ≤ size) →
          ∃ q, q ≤ req.m_rlcTransmissionQueueSize ∧
            req1 = { req with m_rlcTransmissionQueueSize := q }) ∧
        req1.m_rlcStatusPduSize ≤ req.m_rlcStatusPduSize ∧
        req1.m_rlcRetransmissionQueueSize ≤ req.m_rlcRetransmissionQueueSize ∧
        req1.m_rlcTransmissionQueueSize ≤ req.m_rlcTransmissionQueueSize) := by
  obtain ⟨f1, f2, f3, f4⟩ := ledgerUpdate_frame { m_rnti := rnti, m_lcId := lcid }
    (updateDlRlcQueues lcid size) s.m_rlcBufferReq
  refine ⟨rfl, f1, f2, ?_, ?_⟩
  · intro hnone
    simp only [UpdateDlRlcBufferInfo, f3 hnone]
  · intro req hreq
    obtain ⟨c1, c2, c3⟩ := updateDlRlcQueues_cases lcid size req
    refine ⟨updateDlRlcQueues lcid size req, ?_, c1, c2, c3, ?_⟩
    · show ledgerFind _ (ledgerUpdate _ _ _) = _
      rw [f4, hreq]
      rfl
    · by_cases h1 : 0 < req.m_rlcStatusPduSize ∧ req.m_rlcStatusPduSize ≤ size
      · rw [c1 h1]
        exact ⟨Nat.zero_le _, le_refl _, le_refl _⟩
      · by_cases h2 : 0 < req.m_rlcRetransmissionQueueSize ∧
            req.m_rlcRetransmissionQueueSize ≤ size
        · rw [c2 h1 h2]
          exact ⟨le_refl _, Nat.zero_le _, le_refl _⟩
        · obtain ⟨q, hq, he⟩ := c3 h1 h2
          rw [he]
          exact ⟨le_refl _, le_refl _, hq⟩

/-! ## Positive downlink HARQ feedback -/

/-- Clearing the archive of a process succeeds when every layer has the slot. -/
theorem clearArchive_ok (harqId : Nat) :
    ∀ (arch : List (List (List RlcPduListElement_s))),
      (∀ layer, layer ∈ arch → harqId < layer.length) →
      ∃ arch1, clearArchive harqId arch = .ok arch1 := by
  intro arch
  induction arch with
  | nil => intro _; exact ⟨[], rfl⟩
  | cons layer rest ih =>
    intro h
    obtain ⟨rest1, hrest⟩ := ih (fun l hl => h l (List.mem_cons_of_mem _ hl))
    have hlt := h layer (List.mem_cons_self _ _)
    refine ⟨layer.set harqId [] :: rest1, ?_⟩
    simp only [clearArchive, vecSet_of_lt layer harqId [] hlt, hrest]

/-- The flags of a feedback entry that reports at least one transport block and
no NACK are both clear. -/
theorem retxFlags_of_noNack (e : DlInfoListElement_s) (hne : e.m_harqStatus ≠ [])
    (hack : DlNoNack e) :
    ∃ retx, retxFlags e = .ok retx ∧ ¬ (retx[0]? = some true ∨ retx[1]? = some true) := by
  have hok : ∃ retx, retxFlags e = .ok retx := by
    cases hst : e.m_harqStatus with
    | nil => exact absurd hst hne
    | cons a rest =>
      cases rest with
      | nil => exact ⟨[decide (a = HarqStatus_e.NACK), false], by simp [retxFlags, hst, vecAt]⟩
      | cons b rest2 =>
        exact ⟨[decide (a = HarqStatus_e.NACK), decide (b = HarqStatus_e.NACK)], by
          simp [retxFlags, hst, vecAt]⟩
  obtain ⟨retx, hretx⟩ := hok
  obtain ⟨_, _, h0, h1⟩ := retxFlags_spec e retx hretx
  refine ⟨retx, hretx, ?_⟩
  intro hor
  apply hack
  rcases hor with h | h
  · exact Or.inl (h0.mp h)
  · exact Or.inr (h1.mp h)

/-- C16: in the feedback loop of the downlink pass, an entry that reports no
NACK, for a user not yet served by a retransmission in this pass whose HARQ
tables hold the named process, is handled without fault: afterwards the process
is free and its PDU archive is empty on every layer, and the locals of the pass
are unchanged, so no descriptor is emitted for the entry and the entry is not
put into the carry-over buffer. -/
theorem dl_ack_frees_process_and_clears_archive (rbgNum : Nat) (e : DlInfoListElement_s)
    (s : SchedState) (l : DlLocals) (stat : List Nat)
    (arch : List (List (List RlcPduListElement_s)))
    (hnot : e.m_rnti ∉ l.rntiAllocated) (hne : e.m_harqStatus ≠ []) (hack : DlNoNack e)
    (hstat : s.m_dlHarqProcessesStatus.find e.m_rnti = some stat)
    (hi : e.m_harqProcessId < stat.length)
    (harch : s.m_dlHarqProcessesRlcPduListBuffer.find e.m_rnti = some arch)
    (hlay : ∀ layer, layer ∈ arch → e.m_harqProcessId < layer.length) :
    ∃ s1 arch1, dlHarqFeedbackEntry rbgNum e s l = .ok (s1, l) ∧
      dlSlot s1 e.m_rnti e.m_harqProcessId = some 0 ∧
      s1.m_dlHarqProcessesRlcPduListBuffer.find e.m_rnti = some arch1 ∧
      arch1.length = arch.length ∧
      (∀ layer, layer ∈ arch1 → layer[e.m_harqProcessId]? = some []) ∧
      s1.m_dlHarqProcessesDciBuffer = s.m_dlHarqProcessesDciBuffer ∧
      s1.m_dlInfoListBuffered = s.m_dlInfoListBuffered := by
  obtain ⟨retx, hretx, hno⟩ := retxFlags_of_noNack e hne hack
  obtain ⟨arch1, hclear⟩ := clearArchive_ok e.m_harqProcessId arch hlay
  obtain ⟨hlen, hempty⟩ := clearArchive_spec e.m_harqProcessId arch arch1 hclear
  refine ⟨{ s with
      m_dlHarqProcessesStatus :=
        s.m_dlHarqProcessesStatus.assign e.m_rnti (stat.set e.m_harqProcessId 0),
      m_dlHarqProcessesRlcPduListBuffer :=
        s.m_dlHarqProcessesRlcPduListBuffer.assign e.m_rnti arch1 }, arch1, ?_, ?_, ?_, hlen,
    hempty, rfl, rfl⟩
  · simp only [dlHarqFeedbackEntry, hnot, if_false, hretx, hno, dlHarqRelease, hstat,
      vecSet_of_lt stat e.m_harqProcessId 0 hi, harch, hclear]
  · simp only [dlSlot]
    rw [statusSlot_assign_set _ _ _ _ _ hstat hi]
    simp
  · exact RMap.find_assign_self _ _ _ _ harch
/-- Witness of C16: the ACK of process 1 of user 1 in `twoGrantsState`, whose
archive holds one PDU on layer 0. -/
theorem dl_ack_frees_process_and_clears_archive_witness :
    (twoGrantsState.m_dlHarqProcessesRlcPduListBuffer.find 1 =
      some [[[], [{ m_logicalChannelIdentity := 3, m_size := 12 }], [], [], [], [], [], []],
            [[], [], [], [], [], [], [], []]]) ∧
    ∃ s1 arch1,
      dlHarqFeedbackEntry 6 (exampleAck 1) twoGrantsState (freshDlLocals 6)
        = .ok (s1, freshDlLocals 6) ∧
      dlSlot s1 (exampleAck 1).m_rnti (exampleAck 1).m_harqProcessId = some 0 ∧
      s1.m_dlHarqProcessesRlcPduListBuffer.find (exampleAck 1).m_rnti = some arch1 ∧
      arch1.length =
        [[[], [({ m_logicalChannelIdentity := 3, m_size := 12 } : RlcPduListElement_s)],
          [], [], [], [], [], []],
         [[], [], [], [], [], [], [], []]].length ∧
      (∀ layer, layer ∈ arch1 → layer[(exampleAck 1).m_harqProcessId]? = some []) ∧
      s1.m_dlHarqProcessesDciBuffer = twoGrantsState.m_dlHarqProcessesDciBuffer ∧
      s1.m_dlInfoListBuffered = twoGrantsState.m_dlInfoListBuffered :=
  ⟨rfl,
   dl_ack_frees_process_and_clears_archive 6 (exampleAck 1) twoGrantsState (freshDlLocals 6)
     [0, 1, 0, 0, 0, 0, 0, 0]
     [[[], [{ m_logicalChannelIdentity := 3, m_size := 12 }], [], [], [], [], [], []],
      [[], [], [], [], [], [], [], []]]
     (by decide) (by decide) (by unfold DlNoNack; decide) rfl (by decide) rfl (by decide)⟩

/-! ## Random access grants -/

/-- `RefreshDlCqiMaps` writes the four channel-quality maps only. -/
theorem refreshDlCqiMaps_eq (s s1 : SchedState) (h : RefreshDlCqiMaps s = .ok s1) :
    ∃ t10 r10 t30 r30, s1 = { s with m_p10CqiTimers := t10, m_p10CqiRxed := r10,
                                     m_a30CqiTimers := t30, m_a30CqiRxed := r30 } := by
  simp only [RefreshDlCqiMaps] at h
  split at h
  · cases h
  · rename_i t10 r10 _
    split at h
    · cases h
    · rename_i t30 r30 _
      simp only [Except.ok.injEq] at h
      exact ⟨t10, r10, t30, r30, h.symm⟩

/-- A RACH loop that completes although an oversized request is in its list
has left the loop before that request: it made fewer grants than there are
requests ahead of it. -/
theorem rachLoop_oversized (env : Env) (r : RachListElement_s) (rest : List RachListElement_s) :
    ∀ (pre : List RachListElement_s) (rbStart : Nat) (rar rar1 : List BuildRarListElement_s)
      (s s1 : SchedState),
      env.GetUlTbSizeFromMcs s.m_ulGrantMcs s.m_ulBandwidth < r.m_estimatedSize →
      rachLoop env (pre ++ r :: rest) rbStart rar s = .ok (rar1, s1) →
      rar1.length < rar.length + pre.length := by
  intro pre
  induction pre with
  | nil =>
    intro rbStart rar rar1 s s1 hover h
    have hn : ¬ (env.GetUlTbSizeFromMcs s.m_ulGrantMcs s.m_ulBandwidth > r.m_estimatedSize) := by
      omega
    simp only [List.nil_append, rachLoop, hn, if_false] at h
    cases h
  | cons p pre ih =>
    intro rbStart rar rar1 s s1 hover h
    simp only [List.cons_append, rachLoop] at h
    split at h
    · split at h
      · simp only [Except.ok.injEq, Prod.mk.injEq] at h
        obtain ⟨rfl, _⟩ := h
        simp
      · split at h
        · cases h
        · rename_i map1 _
          split at h
          · cases h
          · rename_i s2 hstore
            have h1 : s2.m_ulGrantMcs = s.m_ulGrantMcs ∧ s2.m_ulBandwidth = s.m_ulBandwidth := by
              split at hstore
              · simp only [rachStoreDci] at hstore
                split at hstore
                · cases hstore
                · split at hstore
                  · cases hstore
                  · split at hstore
                    · cases hstore
                    · simp only [Except.ok.injEq] at hstore
                      subst hstore
                      exact ⟨rfl, rfl⟩
              · simp only [Except.ok.injEq] at hstore
                subst hstore
                exact ⟨rfl, rfl⟩
            have := ih _ _ _ _ _ (by rw [h1.1, h1.2]; exact hover) h
            simp only [List.length_append, List.length_singleton, List.length_cons,
              List.length_nil] at this ⊢
            omega
    · cases h

/-- C18: a RACH request whose estimated size exceeds the uplink transport-block
size of the default grant MCS over the full uplink bandwidth makes the RACH
loop fail its assertion when the loop reaches it; a loop that completes with
such a request in its list left before reaching it (it made fewer grants than
there are requests ahead of it); and a downlink pass whose first pending
request is such a request fails the assertion. -/
theorem rach_request_above_full_band_fails_assertion (env : Env) (s : SchedState)
    (r : RachListElement_s)
    (h : env.GetUlTbSizeFromMcs s.m_ulGrantMcs s.m_ulBandwidth < r.m_estimatedSize) :
    (∀ rest rbStart rar, rachLoop env (r :: rest) rbStart rar s = .error .assertion) ∧
    (∀ pre rest rbStart rar rar1 s1,
      rachLoop env (pre ++ r :: rest) rbStart rar s = .ok (rar1, s1) →
      rar1.length < rar.length + pre.length) ∧
    (∀ rest dlInfoList s1, RefreshDlCqiMaps s = .ok s1 → 0 ≤ GetRbgSize s.m_dlBandwidth →
      s.m_rachList = r :: rest → DoSchedDlTriggerReq env s dlInfoList = .error .assertion) := by
  have hn : ¬ (env.GetUlTbSizeFromMcs s.m_ulGrantMcs s.m_ulBandwidth > r.m_estimatedSize) := by
    omega
  refine ⟨?_, ?_, ?_⟩
  · intro rest rbStart rar
    simp only [rachLoop, hn, if_false]
  · intro pre rest rbStart rar rar1 s1 hloop
    exact rachLoop_oversized env r rest pre rbStart rar rar1 s s1 h hloop
  · intro rest dlInfoList s1 hr hsize hlist
    obtain ⟨t10, r10, t30, r30, rfl⟩ := refreshDlCqiMaps_eq s s1 hr
    have hsize' : ¬ (GetRbgSize s.m_dlBandwidth < 0) := by omega
    simp only [DoSchedDlTriggerReq, dlPassFeedback, hr, hsize', if_false, hlist, rachLoop, hn]

/-- Witness of C18: a request of estimated size 200 in a cell of 6 uplink
resource blocks, where the default grant MCS carries 96 bits over the full
bandwidth. -/
theorem rach_request_above_full_band_fails_assertion_witness :
    exampleEnv.GetUlTbSizeFromMcs (rachRequestState 200).m_ulGrantMcs
      (rachRequestState 200).m_ulBandwidth = 96 ∧
    (rachRequestState 200).m_rachList = [{ m_rnti := 5, m_estimatedSize := 200 }] ∧
    DoSchedDlTriggerReq exampleEnv (rachRequestState 200) [] = .error .assertion :=
  ⟨rfl, rfl,
   (rach_request_above_full_band_fails_assertion exampleEnv (rachRequestState 200)
      { m_rnti := 5, m_estimatedSize := 200 } (by decide)).2.2 [] [] (rachRequestState 200)
      rfl (by decide) rfl⟩

/-! ## What the parts of a downlink pass write -/

theorem dlPassFrame_refl (s : SchedState) : DlPassFrame s s :=
  ⟨_, _, _, _, _, _, rfl⟩

theorem dlPassFrame_trans {s s1 s2 : SchedState} (h1 : DlPassFrame s s1)
    (h2 : DlPassFrame s1 s2) : DlPassFrame s s2 := by
  obtain ⟨_, _, _, _, _, _, rfl⟩ := h1
  obtain ⟨_, _, _, _, _, _, rfl⟩ := h2
  exact ⟨_, _, _, _, _, _, rfl⟩

theorem refreshHarqProcesses_frame (env : Env) (s s1 : SchedState)
    (h : RefreshHarqProcesses env s = .ok s1) : DlPassFrame s s1 := by
  simp only [RefreshHarqProcesses] at h
  split at h
  · cases h
  · simp only [Except.ok.injEq] at h
    subst h
    exact ⟨_, _, _, _, _, _, rfl⟩

theorem dlHarqRelease_frame (missing : Fault) (s s1 : SchedState) (rnti harqId : Nat)
    (h : dlHarqRelease missing s rnti harqId = .ok s1) : DlPassFrame s s1 := by
  simp only [dlHarqRelease] at h
  split at h
  · cases h
  · split at h
    · cases h
    · split at h
      · cases h
      · split at h
        · cases h
        · simp only [Except.ok.injEq] at h
          subst h
          exact ⟨_, _, _, _, _, _, rfl⟩

theorem dlRetxEmit_pass_frame (e : DlInfoListElement_s) (retx : List Bool)
    (dcis : List DlDciListElement_s) (dci : DlDciListElement_s) (s s1 : SchedState)
    (l l1 : DlLocals) (h : dlRetxEmit e retx dcis dci s l = .ok (s1, l1)) :
    DlPassFrame s s1 := by
  simp only [dlRetxEmit] at h
  split at h
  · cases h
  · split at h
    · cases h
    · split at h
      · cases h
      · split at h
        · cases h
        · split at h
          · cases h
          · split at h
            · cases h
            · split at h
              · cases h
              · split at h
                · cases h
                · split at h
                  · cases h
                  · simp only [Except.ok.injEq, Prod.mk.injEq] at h
                    obtain ⟨rfl, _⟩ := h
                    exact ⟨_, _, _, _, _, _, rfl⟩

theorem dlHarqFeedbackEntry_frame (rbgNum : Nat) (e : DlInfoListElement_s)
    (s s1 : SchedState) (l l1 : DlLocals)
    (h : dlHarqFeedbackEntry rbgNum e s l = .ok (s1, l1)) : DlPassFrame s s1 := by
  simp only [dlHarqFeedbackEntry] at h
  split at h
  · simp only [Except.ok.injEq, Prod.mk.injEq] at h
    obtain ⟨rfl, _⟩ := h
    exact dlPassFrame_refl _
  · split at h
    · cases h
    · split at h
      · simp only [dlHarqRetx] at h
        split at h
        · cases h
        · split at h
          · cases h
          · split at h
            · cases h
            · split at h
              · split at h
                · cases h
                · rename_i s2 hrel
                  simp only [Except.ok.injEq, Prod.mk.injEq] at h
                  obtain ⟨rfl, _⟩ := h
                  exact dlHarqRelease_frame _ _ _ _ _ hrel
              · split at h
                · cases h
                · exact dlRetxEmit_pass_frame _ _ _ _ _ _ _ _ h
      · split at h
        · cases h
        · rename_i s2 hrel
          simp only [Except.ok.injEq, Prod.mk.injEq] at h
          obtain ⟨rfl, _⟩ := h
          exact dlHarqRelease_frame _ _ _ _ _ hrel

theorem dlHarqFeedbackLoop_frame (rbgNum : Nat) :
    ∀ (es : List DlInfoListElement_s) (s s1 : SchedState) (l l1 : DlLocals),
      dlHarqFeedbackLoop rbgNum es s l = .ok (s1, l1) → DlPassFrame s s1 := by
  intro es
  induction es with
  | nil =>
    intro s s1 l l1 h
    simp only [dlHarqFeedbackLoop, Except.ok.injEq, Prod.mk.injEq] at h
    obtain ⟨rfl, _⟩ := h
    exact dlPassFrame_refl _
  | cons e rest ih =>
    intro s s1 l l1 h
    simp only [dlHarqFeedbackLoop] at h
    split at h
    · cases h
    · rename_i s2 l2 hentry
      exact dlPassFrame_trans (dlHarqFeedbackEntry_frame _ _ _ _ _ _ hentry) (ih _ _ _ _ h)

theorem updateHarqProcessId_frame (s s1 : SchedState) (rnti i : Nat)
    (h : UpdateHarqProcessId s rnti = .ok (i, s1)) : DlPassFrame s s1 := by
  simp only [UpdateHarqProcessId] at h
  split at h
  · simp only [Except.ok.injEq, Prod.mk.injEq] at h
    obtain ⟨_, rfl⟩ := h
    exact dlPassFrame_refl _
  · split at h
    · cases h
    · split at h
      · cases h
      · split at h
        · cases h
        · split at h
          · cases h
          · split at h
            · split at h
              · cases h
              · simp only [Except.ok.injEq, Prod.mk.injEq] at h
                obtain ⟨_, rfl⟩ := h
                exact ⟨_, _, _, _, _, _, rfl⟩
            · cases h

theorem archivePush_frame (s s1 : SchedState) (rnti j harqProcess : Nat)
    (el : RlcPduListElement_s) (h : archivePush s rnti j harqProcess el = .ok s1) :
    DlPassFrame s s1 ∧ s1.m_rlcBufferReq = s.m_rlcBufferReq := by
  simp only [archivePush] at h
  split at h
  · cases h
  · split at h
    · cases h
    · split at h
      · cases h
      · split at h
        · cases h
        · split at h
          · cases h
          · simp only [Except.ok.injEq] at h
            subst h
            exact ⟨⟨_, _, _, _, _, _, rfl⟩, rfl⟩

theorem updateDlRlcBufferInfo_frame (s : SchedState) (rnti lcid size : Nat) :
    DlPassFrame s (UpdateDlRlcBufferInfo s rnti lcid size) :=
  ⟨_, _, _, _, _, _, rfl⟩

theorem newDataLcLayers_frame (rnti lcid lcActives harqProcess : Nat) (tbs : List Nat) :
    ∀ (n j : Nat) (s s1 : SchedState) (acc acc1 : List RlcPduListElement_s),
      newDataLcLayers rnti lcid lcActives harqProcess tbs n j s acc = .ok (s1, acc1) →
      DlPassFrame s s1 := by
  intro n
  induction n with
  | zero =>
    intro j s s1 acc acc1 h
    simp only [newDataLcLayers, Except.ok.injEq, Prod.mk.injEq] at h
    obtain ⟨rfl, _⟩ := h
    exact dlPassFrame_refl _
  | succ n ih =>
    intro j s s1 acc acc1 h
    simp only [newDataLcLayers] at h
    split at h
    · cases h
    · split at h
      · cases h
      · rename_i s2 hpush
        have h2 := ih _ _ _ _ _ h
        have h1 : DlPassFrame s s2 := by
          split at hpush
          · exact dlPassFrame_trans (updateDlRlcBufferInfo_frame _ _ _ _)
              (archivePush_frame _ _ _ _ _ _ hpush).1
          · simp only [Except.ok.injEq] at hpush
            subst hpush
            exact updateDlRlcBufferInfo_frame _ _ _ _
        exact dlPassFrame_trans h1 h2

theorem newDataLedgerLoop_frame (rnti lcActives harqProcess nLayer : Nat) (tbs : List Nat) :
    ∀ (fuel idx : Nat) (s s1 : SchedState) (acc acc1 : List (List RlcPduListElement_s)),
      newDataLedgerLoop rnti lcActives harqProcess nLayer tbs fuel idx s acc = .ok (s1, acc1) →
      DlPassFrame s s1 := by
  intro fuel
  induction fuel with
  | zero =>
    intro idx s s1 acc acc1 h
    simp only [newDataLedgerLoop, Except.ok.injEq, Prod.mk.injEq] at h
    obtain ⟨rfl, _⟩ := h
    exact dlPassFrame_refl _
  | succ fuel ih =>
    intro idx s s1 acc acc1 h
    simp only [newDataLedgerLoop] at h
    split at h
    · simp only [Except.ok.injEq, Prod.mk.injEq] at h
      obtain ⟨rfl, _⟩ := h
      exact dlPassFrame_refl _
    · split at h
      · split at h
        · cases h
        · rename_i s2 pdus hlay
          have c := newDataLcLayers_frame _ _ _ _ _ _ _ _ _ _ _ hlay
          split at h
          · simp only [Except.ok.injEq, Prod.mk.injEq] at h
            obtain ⟨rfl, _⟩ := h
            exact c
          · exact dlPassFrame_trans c (ih _ _ _ _ _ h)
      · split at h
        · simp only [Except.ok.injEq, Prod.mk.injEq] at h
          obtain ⟨rfl, _⟩ := h
          exact dlPassFrame_refl _
        · exact ih _ _ _ _ _ h

theorem newDataStoreDci_frame (s s1 : SchedState) (newDci : DlDciListElement_s)
    (h : newDataStoreDci s newDci = .ok s1) :
    DlPassFrame s s1 ∧ s1.m_rlcBufferReq = s.m_rlcBufferReq := by
  simp only [newDataStoreDci] at h
  split at h
  · cases h
  · split at h
    · cases h
    · split at h
      · cases h
      · split at h
        · cases h
        · simp only [Except.ok.injEq] at h
          subst h
          exact ⟨⟨_, _, _, _, _, _, rfl⟩, rfl⟩

theorem newDataGrant_frame (env : Env) (rbgSize rnti : Nat) (tempMap : List Nat)
    (s s1 : SchedState) (el : BuildDataListElement_s)
    (h : newDataGrant env rbgSize rnti tempMap s = .ok (s1, el)) : DlPassFrame s s1 := by
  simp only [newDataGrant] at h
  split at h
  · cases h
  · rename_i hp s2 hupd
    have h1 := updateHarqProcessId_frame s s2 rnti hp hupd
    split at h
    · cases h
    · split at h
      · cases h
      · rename_i s3 pdus hloop
        have h2 := newDataLedgerLoop_frame _ _ _ _ _ _ _ _ _ _ _ hloop
        split at h
        · cases h
        · rename_i s4 hstore
          simp only [Except.ok.injEq, Prod.mk.injEq] at h
          obtain ⟨rfl, _⟩ := h
          have h3 : DlPassFrame s3 s4 := by
            split at hstore
            · exact (newDataStoreDci_frame _ _ _ hstore).1
            · simp only [Except.ok.injEq] at hstore
              subst hstore
              exact dlPassFrame_refl _
          exact dlPassFrame_trans (dlPassFrame_trans h1 h2) h3

/-- The new-data part of a pass adds at most one descriptor, the one built by
the grant to the selected user over the RBGs that were free. -/
theorem dlPassNewData_shape (env : Env) (s s1 : SchedState) (l : DlLocals)
    (rbgSize rbgNum : Nat) (dataList : List BuildDataListElement_s)
    (h : dlPassNewData env s l rbgSize rbgNum = .ok (s1, dataList)) :
    (s1 = s ∧ dataList = l.buildDataList) ∨
    ∃ u rbgMap1 tempMap el,
      dlSelect env s rbgSize l.rntiAllocated = .ok (some u) ∧
      takeFreeRbgs rbgNum 0 l.rbgMap [] = .ok (rbgMap1, tempMap) ∧ 0 < tempMap.length ∧
      newDataGrant env rbgSize u tempMap s = .ok (s1, el) ∧
      dataList = l.buildDataList ++ [el] := by
  simp only [dlPassNewData] at h
  split at h
  · cases h
  · simp only [Except.ok.injEq, Prod.mk.injEq] at h
    exact Or.inl ⟨h.1.symm, h.2.symm⟩
  · rename_i u hsel
    split at h
    · cases h
    · rename_i rbgMap1 tempMap htake
      split at h
      · rename_i hpos
        split at h
        · cases h
        · rename_i s2 newEl hgrant
          simp only [Except.ok.injEq, Prod.mk.injEq] at h
          obtain ⟨rfl, rfl⟩ := h
          exact Or.inr ⟨u, rbgMap1, tempMap, newEl, hsel, htake, hpos, hgrant, rfl⟩
      · simp only [Except.ok.injEq, Prod.mk.injEq] at h
        exact Or.inl ⟨h.1.symm, h.2.symm⟩

theorem dlPassNewData_frame (env : Env) (s s1 : SchedState) (l : DlLocals)
    (rbgSize rbgNum : Nat) (dataList : List BuildDataListElement_s)
    (h : dlPassNewData env s l rbgSize rbgNum = .ok (s1, dataList)) : DlPassFrame s s1 := by
  rcases dlPassNewData_shape env s s1 l rbgSize rbgNum dataList h with
    ⟨rfl, _⟩ | ⟨u, _, tempMap, el, _, _, _, hgrant, _⟩
  · exact dlPassFrame_refl _
  · exact newDataGrant_frame _ _ _ _ _ _ _ hgrant

/-! ## The parts of a downlink pass -/

/-- The first part of a downlink pass, step by step: the CQI refresh, the RACH
loop on the resized RACH allocation map, the HARQ refresh and the feedback loop
over the merged feedback, from fresh locals. -/
theorem dlPassFeedback_parts (env : Env) (s s1 : SchedState)
    (dlInfoList : List DlInfoListElement_s) (l : DlLocals)
    (rar : List BuildRarListElement_s) (rbgSize rbgNum : Nat)
    (h : dlPassFeedback env s dlInfoList = .ok (s1, l, rar, rbgSize, rbgNum)) :
    ∃ s0 sr sh sf,
      RefreshDlCqiMaps s = .ok s0 ∧ 0 ≤ GetRbgSize s.m_dlBandwidth ∧
      rbgSize = (GetRbgSize s.m_dlBandwidth).toNat ∧ rbgNum = s.m_dlBandwidth / rbgSize ∧
      rachLoop env s.m_rachList 0 []
        { s0 with
          m_ulHarqCurrentProcessId := advanceUlHarqProcessIds s.m_ulHarqCurrentProcessId,
          m_rachAllocationMap := vecResize s.m_rachAllocationMap s.m_ulBandwidth 0 }
        = .ok (rar, sr) ∧
      RefreshHarqProcesses env { sr with m_rachList := [] } = .ok sh ∧
      dlHarqFeedbackLoop rbgNum (mergeDlInfo s dlInfoList)
        { sh with m_dlInfoListBuffered := mergeDlInfo s dlInfoList } (freshDlLocals rbgNum)
        = .ok (sf, l) ∧
      s1 = { sf with m_dlInfoListBuffered := l.dlInfoListUntxed } := by
  simp only [dlPassFeedback] at h
  split at h
  · cases h
  · rename_i s0 hcqi
    obtain ⟨t10, r10, t30, r30, rfl⟩ := refreshDlCqiMaps_eq s s0 hcqi
    split at h
    · cases h
    · rename_i hsize
      split at h
      · cases h
      · rename_i rar2 sr hrach
        have cc := rachLoop_core env _ _ _ _ _ _ hrach
        split at h
        · cases h
        · rename_i sh hharq
          obtain ⟨_, _, d3, d4⟩ := refreshHarqProcesses_slot env _ sh hharq
          have hmerge : mergeDlInfo sh dlInfoList = mergeDlInfo s dlInfoList :=
            mergeDlInfo_congr s sh dlInfoList (d3.trans cc.2.2.2.1) (d4.trans cc.2.2.2.2)
          split at h
          · cases h
          · rename_i sf lf hloop
            simp only [Except.ok.injEq, Prod.mk.injEq] at h
            obtain ⟨rfl, rfl, rfl, rfl, rfl⟩ := h
            have hsize' : ¬ (GetRbgSize s.m_dlBandwidth < 0) := hsize
            refine ⟨_, sr, sh, sf, hcqi, by omega, rfl, rfl, hrach, hharq, ?_, rfl⟩
            rw [← hmerge]
            exact hloop

/-- A downlink pass that completes is its first part followed, unless every
RBG is taken by then, by its new-data part. -/
theorem doSchedDlTriggerReq_parts (env : Env) (s s2 : SchedState)
    (dlInfoList : List DlInfoListElement_s) (out : Option SchedDlConfigIndParameters)
    (h : DoSchedDlTriggerReq env s dlInfoList = .ok (s2, out)) :
    ∃ s1 l rar rbgSize rbgNum,
      dlPassFeedback env s dlInfoList = .ok (s1, l, rar, rbgSize, rbgNum) ∧
      ((l.rbgAllocatedNum = rbgNum ∧ s2 = s1 ∧
          ((out = none ∧ l.buildDataList = [] ∧ rar = []) ∨
            out = some { m_buildDataList := l.buildDataList, m_buildRarList := rar })) ∨
       (l.rbgAllocatedNum ≠ rbgNum ∧ ∃ dataList,
          dlPassNewData env s1 l rbgSize rbgNum = .ok (s2, dataList) ∧
          out = some { m_buildDataList := dataList, m_buildRarList := rar })) := by
  simp only [DoSchedDlTriggerReq] at h
  split at h
  · cases h
  · rename_i s1 l rar rbgSize rbgNum hfb
    refine ⟨s1, l, rar, rbgSize, rbgNum, hfb, ?_⟩
    split at h
    · rename_i hfull
      left
      split at h
      · simp only [Except.ok.injEq, Prod.mk.injEq] at h
        exact ⟨hfull, h.1.symm, Or.inr h.2.symm⟩
      · rename_i hempty
        simp only [Except.ok.injEq, Prod.mk.injEq] at h
        refine ⟨hfull, h.1.symm, Or.inl ⟨h.2.symm, ?_, ?_⟩⟩
        · apply List.eq_nil_of_length_eq_zero
          omega
        · apply List.eq_nil_of_length_eq_zero
          omega
    · rename_i hnot
      right
      split at h
      · cases h
      · rename_i s3 dataList hnew
        simp only [Except.ok.injEq, Prod.mk.injEq] at h
        obtain ⟨rfl, rfl⟩ := h
        exact ⟨hnot, dataList, hnew, rfl⟩

/-! ## The CQI gate of the new-data selection -/

/-- The RACH loop writes the RACH allocation map and the uplink DCI buffer
only. -/
theorem rachLoop_writes (env : Env) :
    ∀ (rach : List RachListElement_s) (rbStart : Nat) (rar rar1 : List BuildRarListElement_s)
      (s s1 : SchedState),
      rachLoop env rach rbStart rar s = .ok (rar1, s1) →
      ∃ map dcis, s1 = { s with m_rachAllocationMap := map,
                                m_ulHarqProcessesDciBuffer := dcis } := by
  intro rach
  induction rach with
  | nil =>
    intro rbStart rar rar1 s s1 h
    simp only [rachLoop, Except.ok.injEq, Prod.mk.injEq] at h
    obtain ⟨_, rfl⟩ := h
    exact ⟨_, _, rfl⟩
  | cons r rest ih =>
    intro rbStart rar rar1 s s1 h
    simp only [rachLoop] at h
    split at h
    · split at h
      · simp only [Except.ok.injEq, Prod.mk.injEq] at h
        obtain ⟨_, rfl⟩ := h
        exact ⟨_, _, rfl⟩
      · split at h
        · cases h
        · rename_i map1 _
          split at h
          · cases h
          · rename_i s2 hstore
            obtain ⟨m2, d2, rfl⟩ := ih _ _ _ _ _ h
            split at hstore
            · simp only [rachStoreDci] at hstore
              split at hstore
              · cases hstore
              · split at hstore
                · cases hstore
                · split at hstore
                  · cases hstore
                  · simp only [Except.ok.injEq] at hstore
                    subst hstore
                    exact ⟨_, _, rfl⟩
            · simp only [Except.ok.injEq] at hstore
              subst hstore
              exact ⟨_, _, rfl⟩
    · cases h

/-- The first part of a downlink pass leaves the wideband CQI samples as the
CQI refresh at its start left them. -/
theorem dlPassFeedback_cqi (env : Env) (s s0 s1 : SchedState)
    (dlInfoList : List DlInfoListElement_s) (l : DlLocals)
    (rar : List BuildRarListElement_s) (rbgSize rbgNum : Nat)
    (hr : RefreshDlCqiMaps s = .ok s0)
    (h : dlPassFeedback env s dlInfoList = .ok (s1, l, rar, rbgSize, rbgNum)) :
    s1.m_p10CqiRxed = s0.m_p10CqiRxed := by
  obtain ⟨s0', sr, sh, sf, hr', _, _, _, hrach, hharq, hloop, rfl⟩ :=
    dlPassFeedback_parts env s s1 dlInfoList l rar rbgSize rbgNum h
  rw [hr] at hr'
  simp only [Except.ok.injEq] at hr'
  subst hr'
  obtain ⟨_, _, rfl⟩ := rachLoop_writes env _ _ _ _ _ _ hrach
  obtain ⟨_, _, _, _, _, _, rfl⟩ := refreshHarqProcesses_frame env _ sh hharq
  obtain ⟨_, _, _, _, _, _, rfl⟩ := dlHarqFeedbackLoop_frame _ _ _ _ _ _ hloop
  rfl

/-- In every downlink pass that hands over a batch, the data descriptors are
those of the feedback part of the pass (retransmissions), followed by at most
one new-data descriptor; the new-data descriptor is never addressed to a user
whose wideband CQI is 0 in the scheduler `s0` that the CQI refresh at the start
of the pass leaves. -/
theorem dlPass_refreshed_cqi_zero_not_granted (env : Env) (s s0 s2 : SchedState)
    (dlInfoList : List DlInfoListElement_s) (ind : SchedDlConfigIndParameters) (u : Nat)
    (hr : RefreshDlCqiMaps s = .ok s0) (hcqi : s0.m_p10CqiRxed.find u = some 0)
    (h : DoSchedDlTriggerReq env s dlInfoList = .ok (s2, some ind)) :
    ∃ s1 l rar rbgSize rbgNum,
      dlPassFeedback env s dlInfoList = .ok (s1, l, rar, rbgSize, rbgNum) ∧
      (ind.m_buildDataList = l.buildDataList ∨
       ∃ el, ind.m_buildDataList = l.buildDataList ++ [el] ∧ el.m_rnti ≠ u) := by
  obtain ⟨s1, l, rar, rbgSize, rbgNum, hfb, hcase⟩ :=
    doSchedDlTriggerReq_parts env s s2 dlInfoList (some ind) h
  refine ⟨s1, l, rar, rbgSize, rbgNum, hfb, ?_⟩
  have hsame := dlPassFeedback_cqi env s s0 s1 dlInfoList l rar rbgSize rbgNum hr hfb
  rcases hcase with ⟨_, _, hout⟩ | ⟨_, dataList, hnew, hout⟩
  · rcases hout with ⟨hout, _, _⟩ | hout
    · cases hout
    · simp only [Option.some.injEq] at hout
      subst hout
      exact Or.inl rfl
  · simp only [Option.some.injEq] at hout
    subst hout
    rcases dlPassNewData_shape env s1 s2 l rbgSize rbgNum dataList hnew with
      ⟨_, hd⟩ | ⟨v, _, tempMap, el, hsel, _, _, hgrant, hd⟩
    · exact Or.inl hd
    · refine Or.inr ⟨el, hd, ?_⟩
      obtain ⟨hrnti, _⟩ := newDataGrant_rnti _ _ _ _ _ _ _ hgrant
      obtain ⟨helig, _, _⟩ := dlSelect_spec env s1 rbgSize l.rntiAllocated v hsel
      intro heq
      have hz : dlWbCqi s1 u = 0 := by
        simp only [dlWbCqi, hsame, hcqi]
      apply helig.2.2.2.1
      rw [← hrnti, heq]
      exact hz

/-! ## Uplink retransmissions -/

/-- The range check answers "not free" as soon as one block of the range, all
of it inside the grid, is occupied. -/
theorem ulRangeFree_occupied (rbMap : List Bool) :
    ∀ (n j : Nat) (free : Bool), j + n ≤ rbMap.length →
      (free = false ∨ ∃ i, j ≤ i ∧ i < j + n ∧ rbMap[i]? = some true) →
      ulRangeFree rbMap n j free = .ok false := by
  intro n
  induction n with
  | zero =>
    intro j free _ h
    rcases h with h | ⟨i, h1, h2, _⟩
    · simp only [ulRangeFree, h]
    · omega
  | succ n ih =>
    intro j free hlen h
    have hj : j < rbMap.length := by omega
    simp only [ulRangeFree, vecAt_of_lt rbMap j hj]
    apply ih (j + 1) _ (by omega)
    rcases h with h | ⟨i, h1, h2, h3⟩
    · left
      subst h
      split <;> rfl
    · by_cases hij : i = j
      · left
        subst hij
        have : rbMap[i] = true := by
          rw [List.getElem?_eq_getElem hj] at h3
          simpa using h3
        simp [this]
      · right
        exact ⟨i, by omega, by omega, h3⟩

/-- C20: in the feedback loop of the uplink pass, a negative reception report
for a user whose HARQ tables hold the addressed process, and whose stored
resource-block range lies in the grid and contains a block that is already
occupied, is handled without fault and changes nothing: the locals of the pass
(grid, allocation map, descriptor list, served users) and the scheduler
(retransmission counts, stored descriptors) stay exactly as they were. -/
theorem ul_retx_on_occupied_range_is_skipped (env : Env) (e : UlInfoListElement_s)
    (s : SchedState) (l : UlLocals) (procId : Nat) (dcis : List UlDciListElement_s)
    (dci : UlDciListElement_s) (stat : List Nat) (cnt j : Nat)
    (hnack : e.m_receptionStatus = ReceptionStatus_e.NotOk)
    (hproc : s.m_ulHarqCurrentProcessId.find e.m_rnti = some procId)
    (hdcis : s.m_ulHarqProcessesDciBuffer.find e.m_rnti = some dcis)
    (hdci : dcis[ulHarqId env procId]? = some dci)
    (hstat : s.m_ulHarqProcessesStatus.find e.m_rnti = some stat)
    (hcnt : stat[ulHarqId env procId]? = some cnt)
    (hin : dci.m_rbStart + dci.m_rbLen ≤ l.rbMap.length)
    (hj1 : dci.m_rbStart ≤ j) (hj2 : j < dci.m_rbStart + dci.m_rbLen)
    (hocc : l.rbMap[j]? = some true) :
    ulHarqFeedbackEntry env e s l = .ok (s, l) := by
  have hfree := ulRangeFree_occupied l.rbMap dci.m_rbLen dci.m_rbStart true hin
    (Or.inr ⟨j, hj1, hj2, hocc⟩)
  have h1 : vecAt dcis (ulHarqId env procId) = .ok dci := (vecAt_eq_ok _ _ _).mpr hdci
  have h2 : vecAt stat (ulHarqId env procId) = .ok cnt := (vecAt_eq_ok _ _ _).mpr hcnt
  simp only [ulHarqFeedbackEntry, hnack, if_true, hproc, hdcis, h1, hstat, h2, hfree]
  split <;> simp

/-- Witness of C20: after `rachTwiceRequests` the uplink DCI stored for the
process a NACK of user 5 addresses names the blocks `[0, 2)`, which the random
access of user 6 occupies. -/
theorem ul_retx_on_occupied_range_is_skipped_witness :
    ((rachTwiceState.m_ulHarqProcessesDciBuffer.find 5).bind (fun dcis => dcis[1]?)).map
        (fun dci => (dci.m_rbStart, dci.m_rbLen)) = some (0, 2) ∧
    rachTwiceState.m_rachAllocationMap = [6, 6, 0, 0, 0, 0] ∧
    ulHarqFeedbackEntry exampleEnv { m_rnti := 5, m_receptionStatus := ReceptionStatus_e.NotOk }
      rachTwiceState rachTwiceLocals = .ok (rachTwiceState, rachTwiceLocals) :=
  ⟨rfl, rfl,
   ul_retx_on_occupied_range_is_skipped exampleEnv
     { m_rnti := 5, m_receptionStatus := ReceptionStatus_e.NotOk } rachTwiceState
     rachTwiceLocals 0
     ([UlDciListElement_s.empty,
       { m_rnti := 5, m_rbStart := 0, m_rbLen := 2, m_tbSize := 4, m_mcs := 0, m_ndi := 1 }] ++
       List.replicate 6 UlDciListElement_s.empty)
     { m_rnti := 5, m_rbStart := 0, m_rbLen := 2, m_tbSize := 4, m_mcs := 0, m_ndi := 1 }
     [0, 0, 0, 0, 0, 0, 0, 0] 0 0 rfl rfl rfl rfl rfl rfl (by decide) (by decide) (by decide)
     rfl⟩

/-- C17, the code at the failing input: in a cell of 6 uplink resource blocks
with default grant MCS 0, one resource block carries 16 bits, which is enough
for a RACH request of estimated size 10; the pass grants 2 resource blocks
(a transport block of 4 bytes), because the search loop starts from length 1
without looking at its transport-block size. -/
theorem rach_grant_skips_single_block :
    exampleEnv.GetUlTbSizeFromMcs (rachRequestState 10).m_ulGrantMcs 1 = 16 ∧
    (rachRequestState 10).m_rachList = [{ m_rnti := 5, m_estimatedSize := 10 }] ∧
    (DoSchedDlTriggerReq exampleEnv (rachRequestState 10) []).map
        (fun out => out.2.map (fun ind => ind.m_buildRarList))
      = .ok (some [{ m_rnti := 5, m_grant_rnti := 5, m_grant_mcs := 0, m_grant_rbStart := 0,
                     m_grant_rbLen := 2, m_grant_tbSize := 4 }]) :=
  ⟨rfl, rfl, rfl⟩

/-! ## Ranges of the random access grants -/

/-- The search loop never shortens the length it starts from. -/
theorem rachGrantLen_ge (env : Env) (mcs est rbStart ulBandwidth : Nat) :
    ∀ (fuel rbLen tbSizeBits : Nat),
      rbLen ≤ (rachGrantLen env mcs est rbStart ulBandwidth fuel rbLen tbSizeBits).1 := by
  intro fuel
  induction fuel with
  | zero => intro rbLen tb; simp [rachGrantLen]
  | succ fuel ih =>
    intro rbLen tb
    simp only [rachGrantLen]
    split
    · exact le_trans (Nat.le_succ rbLen) (ih (rbLen + 1) _)
    · exact le_refl _

/-- A fill that succeeds stays inside the vector, keeps its length, and writes
exactly the entries of the range. -/
theorem vecFill_spec {α : Type} (x : α) :
    ∀ (n i : Nat) (v v1 : List α), vecFill x n i v = .ok v1 →
      v1.length = v.length ∧ (n = 0 ∨ i + n ≤ v.length) ∧
      ∀ k, v1[k]? = if i ≤ k ∧ k < i + n then some x else v[k]? := by
  intro n
  induction n with
  | zero =>
    intro i v v1 h
    simp only [vecFill, Except.ok.injEq] at h
    subst h
    refine ⟨rfl, Or.inl rfl, fun k => ?_⟩
    have : ¬ (i ≤ k ∧ k < i + 0) := by omega
    simp only [this, if_false]
  | succ n ih =>
    intro i v v1 h
    simp only [vecFill] at h
    split at h
    · cases h
    · rename_i v2 hset
      obtain ⟨hi, rfl⟩ := (vecSet_eq_ok _ _ _ _).mp hset
      obtain ⟨h1, h2, h3⟩ := ih _ _ _ h
      simp only [List.length_set] at h1 h2
      refine ⟨h1, Or.inr (by omega), fun k => ?_⟩
      rw [h3 k, List.getElem?_set]
      by_cases hk : i = k
      · subst hk
        have a1 : ¬ (i + 1 ≤ i ∧ i < i + 1 + n) := by omega
        have a2 : i ≤ i ∧ i < i + (n + 1) := by omega
        simp only [a1, a2, if_false, if_true, hi, and_self]
      · by_cases hr : i + 1 ≤ k ∧ k < i + 1 + n
        · have a2 : i ≤ k ∧ k < i + (n + 1) := by omega
          simp only [hr, a2, and_self, if_true]
        · have a2 : ¬ (i ≤ k ∧ k < i + (n + 1)) := by omega
          simp only [hr, a2, hk, if_false]

/-- Consecutive ranges begin at or after their start and are in order, each
ending before the next begins. -/
theorem rarConsecutive_ordered :
    ∀ (rar : List BuildRarListElement_s) (start : Nat), RarConsecutive start rar →
      (∀ g, g ∈ rar → start ≤ g.m_grant_rbStart) ∧
      rar.Pairwise (fun a b => a.m_grant_rbStart + a.m_grant_rbLen ≤ b.m_grant_rbStart) := by
  intro rar
  induction rar with
  | nil => intro start _; exact ⟨by simp, List.Pairwise.nil⟩
  | cons g rest ih =>
    intro start h
    obtain ⟨h1, h2, h3⟩ := h
    obtain ⟨i1, i2⟩ := ih _ h3
    refine ⟨?_, List.Pairwise.cons ?_ i2⟩
    · intro g2 hg2
      rcases List.mem_cons.mp hg2 with rfl | hg2
      · omega
      · have := i1 g2 hg2
        omega
    · intro g2 hg2
      have := i1 g2 hg2
      omega

/-- The RACH loop from block `rbStart`: the grants it adds are consecutive from
`rbStart`, lie inside the RACH allocation map and are addressed to the first
requests of the list, in order; the map keeps its length, holds the user of a
grant on every block of its range, and is unchanged elsewhere. -/
theorem rachLoop_grants (env : Env) :
    ∀ (rach : List RachListElement_s) (rbStart : Nat) (rar rar1 : List BuildRarListElement_s)
      (s s1 : SchedState),
      rachLoop env rach rbStart rar s = .ok (rar1, s1) →
      ∃ new, rar1 = rar ++ new ∧ RarConsecutive rbStart new ∧
        (∀ g, g ∈ new → g.m_grant_rbStart + g.m_grant_rbLen ≤ s.m_rachAllocationMap.length) ∧
        new.map (fun g => g.m_rnti) = (rach.take new.length).map (fun r => r.m_rnti) ∧
        s1.m_rachAllocationMap.length = s.m_rachAllocationMap.length ∧
        (∀ g i, g ∈ new → g.m_grant_rbStart ≤ i → i < g.m_grant_rbStart + g.m_grant_rbLen →
          s1.m_rachAllocationMap[i]? = some g.m_rnti) ∧
        (∀ i, (∀ g, g ∈ new →
            ¬ (g.m_grant_rbStart ≤ i ∧ i < g.m_grant_rbStart + g.m_grant_rbLen)) →
          s1.m_rachAllocationMap[i]? = s.m_rachAllocationMap[i]?) := by
  intro rach
  induction rach with
  | nil =>
    intro rbStart rar rar1 s s1 h
    simp only [rachLoop, Except.ok.injEq, Prod.mk.injEq] at h
    obtain ⟨rfl, rfl⟩ := h
    exact ⟨[], by simp, trivial, by simp, by simp, rfl, by simp, fun _ _ => rfl⟩
  | cons r rest ih =>
    intro rbStart rar rar1 s s1 h
    simp only [rachLoop] at h
    have hge := rachGrantLen_ge env s.m_ulGrantMcs r.m_estimatedSize rbStart
      s.m_ulBandwidth s.m_ulBandwidth 1 0
    generalize rachGrantLen env s.m_ulGrantMcs r.m_estimatedSize rbStart
      s.m_ulBandwidth s.m_ulBandwidth 1 0 = found at h hge
    split at h
    · split at h
      · simp only [Except.ok.injEq, Prod.mk.injEq] at h
        obtain ⟨rfl, rfl⟩ := h
        exact ⟨[], by simp, trivial, by simp, by simp, rfl, by simp, fun _ _ => rfl⟩
      · split at h
        · cases h
        · rename_i map1 hfill
          split at h
          · cases h
          · rename_i s2 hstore
            have hmap2 : s2.m_rachAllocationMap = map1 := by
              split at hstore
              · simp only [rachStoreDci] at hstore
                split at hstore
                · cases hstore
                · split at hstore
                  · cases hstore
                  · split at hstore
                    · cases hstore
                    · simp only [Except.ok.injEq] at hstore
                      subst hstore
                      rfl
              · simp only [Except.ok.injEq] at hstore
                subst hstore
                rfl
            obtain ⟨f1, f2, f3⟩ := vecFill_spec _ _ _ _ _ hfill
            have hin : rbStart + found.1 ≤ s.m_rachAllocationMap.length := by
              rcases f2 with f2 | f2
              · omega
              · exact f2
            obtain ⟨new, hnew, hcons, hinside, hrnti, hlen, hmark, hkeep⟩ := ih _ _ _ _ _ h
            rw [hmap2] at hinside hlen hkeep
            obtain ⟨hstart, _⟩ := rarConsecutive_ordered new _ hcons
            refine ⟨({ m_rnti := r.m_rnti, m_grant_rnti := r.m_rnti,
                       m_grant_mcs := s.m_ulGrantMcs, m_grant_rbStart := rbStart,
                       m_grant_rbLen := found.1, m_grant_tbSize := found.2 / 8 } :
                  BuildRarListElement_s) :: new,
              by rw [hnew]; simp, ⟨rfl, hge, hcons⟩, ?_, ?_, ?_, ?_, ?_⟩
            · intro g hg
              rcases List.mem_cons.mp hg with rfl | hg
              · exact hin
              · rw [← f1]; exact hinside g hg
            · simp [hrnti]
            · rw [hlen, f1]
            · intro g i hg hi1 hi2
              rcases List.mem_cons.mp hg with rfl | hg
              · simp only at hi1 hi2
                have hk := hkeep i (fun g2 hg2 => by
                  have := hstart g2 hg2
                  omega)
                rw [hk, f3 i]
                simp only [hi1, hi2, and_self, if_true]
              · exact hmark g i hg hi1 hi2
            · intro i hi
              have h1 := hi _ (List.mem_cons_self _ _)
              simp only at h1
              rw [hkeep i (fun g hg => hi g (List.mem_cons_of_mem _ hg)), f3 i]
              simp only [h1, if_false]
    · cases h
theorem vecResize_length {α : Type} (v : List α) (n : Nat) (x : α) :
    (vecResize v n x).length = n := by
  simp only [vecResize, List.length_append, List.length_take, List.length_replicate]
  omega

/-- C19: for every downlink pass that completes, the ranges of the RACH grants
it hands over are consecutive from block 0 (each begins where the previous one
ends and has at least one block), hence pairwise disjoint, and lie inside
`[0, ulBandwidth)`; the grants answer the first pending requests, in order;
the RACH allocation map has `ulBandwidth` entries after the pass, holds the
requesting user on every block of a granted range, and on every other block
holds what it held when the pass had resized it: nothing (the value 0) when the
map was clear before the pass, as the uplink pass of a TTI leaves it. A pass
writes the map with bounds-checked accesses, so a write outside the grid makes
the pass fault instead of completing. -/
theorem rach_grants_consecutive_disjoint_in_grid (env : Env) (s s2 : SchedState)
    (dlInfoList : List DlInfoListElement_s) (out : Option SchedDlConfigIndParameters)
    (h : DoSchedDlTriggerReq env s dlInfoList = .ok (s2, out)) :
    RarConsecutive 0 (grantsOf out) ∧
    (grantsOf out).Pairwise
      (fun a b => a.m_grant_rbStart + a.m_grant_rbLen ≤ b.m_grant_rbStart) ∧
    (∀ g, g ∈ grantsOf out → g.m_grant_rbStart + g.m_grant_rbLen ≤ s.m_ulBandwidth) ∧
    (grantsOf out).map (fun g => g.m_rnti) =
      (s.m_rachList.take (grantsOf out).length).map (fun r => r.m_rnti) ∧
    s2.m_rachAllocationMap.length = s.m_ulBandwidth ∧
    (∀ g i, g ∈ grantsOf out → g.m_grant_rbStart ≤ i →
      i < g.m_grant_rbStart + g.m_grant_rbLen → s2.m_rachAllocationMap[i]? = some g.m_rnti) ∧
    (∀ i, (∀ g, g ∈ grantsOf out →
        ¬ (g.m_grant_rbStart ≤ i ∧ i < g.m_grant_rbStart + g.m_grant_rbLen)) →
      s2.m_rachAllocationMap[i]? = (vecResize s.m_rachAllocationMap s.m_ulBandwidth 0)[i]?) ∧
    ((∀ x, x ∈ s.m_rachAllocationMap → x = 0) →
      ∀ i x, (∀ g, g ∈ grantsOf out →
          ¬ (g.m_grant_rbStart ≤ i ∧ i < g.m_grant_rbStart + g.m_grant_rbLen)) →
        s2.m_rachAllocationMap[i]? = some x → x = 0) := by
  obtain ⟨s1, l, rar, rbgSize, rbgNum, hfb, hcase⟩ :=
    doSchedDlTriggerReq_parts env s s2 dlInfoList out h
  obtain ⟨s0, sr, sh, sf, _, _, _, _, hrach, hharq, hloop, rfl⟩ :=
    dlPassFeedback_parts env s s1 dlInfoList l rar rbgSize rbgNum hfb
  obtain ⟨new, hnew, hcons, hinside, hrnti, hlen, hmark, hkeep⟩ :=
    rachLoop_grants env _ _ _ _ _ _ hrach
  simp only [List.nil_append] at hnew
  subst hnew
  simp only [vecResize_length] at hinside hlen
  have hmap1 : sf.m_rachAllocationMap = sr.m_rachAllocationMap := by
    obtain ⟨_, _, _, _, _, _, rfl⟩ := refreshHarqProcesses_frame env _ sh hharq
    obtain ⟨_, _, _, _, _, _, rfl⟩ := dlHarqFeedbackLoop_frame _ _ _ _ _ _ hloop
    rfl
  have hmap2 : s2.m_rachAllocationMap = sr.m_rachAllocationMap ∧
      (grantsOf out = rar) := by
    rcases hcase with ⟨_, rfl, hout⟩ | ⟨_, dataList, hnewd, hout⟩
    · refine ⟨hmap1, ?_⟩
      rcases hout with ⟨rfl, _, hr⟩ | rfl
      · exact hr.symm
      · rfl
    · obtain ⟨_, _, _, _, _, _, rfl⟩ := dlPassNewData_frame _ _ _ _ _ _ _ hnewd
      subst hout
      exact ⟨hmap1, rfl⟩
  obtain ⟨hm, hg⟩ := hmap2
  rw [hm, hg]
  obtain ⟨_, hpair⟩ := rarConsecutive_ordered rar 0 hcons
  refine ⟨hcons, hpair, hinside, hrnti, hlen, hmark, hkeep, ?_⟩
  intro hclear i x hout hx
  rw [hkeep i hout] at hx
  have hmem := List.mem_iff_getElem?.mpr ⟨i, hx⟩
  simp only [vecResize, List.mem_append, List.mem_replicate] at hmem
  rcases hmem with hmem | hmem
  · exact hclear x (List.mem_of_mem_take hmem)
  · exact hmem.2

/-- Witness of C19: three requests of estimated size 30 in a cell of 6 uplink
resource blocks are granted the blocks `[0, 2)`, `[2, 4)` and `[4, 6)`. -/
theorem rach_grants_consecutive_disjoint_in_grid_witness :
    (grantsOf rachThreeOutcome.2).map
        (fun g => (g.m_rnti, g.m_grant_rbStart, g.m_grant_rbLen))
      = [(5, 0, 2), (6, 2, 2), (7, 4, 2)] ∧
    rachThreeOutcome.1.m_rachAllocationMap = [5, 5, 6, 6, 7, 7] ∧
    RarConsecutive 0 (grantsOf rachThreeOutcome.2) ∧
    (grantsOf rachThreeOutcome.2).Pairwise
      (fun a b => a.m_grant_rbStart + a.m_grant_rbLen ≤ b.m_grant_rbStart) ∧
    (∀ g, g ∈ grantsOf rachThreeOutcome.2 →
      g.m_grant_rbStart + g.m_grant_rbLen ≤ rachThreeState.m_ulBandwidth) ∧
    (grantsOf rachThreeOutcome.2).map (fun g => g.m_rnti) =
      (rachThreeState.m_rachList.take (grantsOf rachThreeOutcome.2).length).map
        (fun r => r.m_rnti) ∧
    rachThreeOutcome.1.m_rachAllocationMap.length = rachThreeState.m_ulBandwidth ∧
    (∀ g i, g ∈ grantsOf rachThreeOutcome.2 → g.m_grant_rbStart ≤ i →
      i < g.m_grant_rbStart + g.m_grant_rbLen →
      rachThreeOutcome.1.m_rachAllocationMap[i]? = some g.m_rnti) ∧
    (∀ i, (∀ g, g ∈ grantsOf rachThreeOutcome.2 →
        ¬ (g.m_grant_rbStart ≤ i ∧ i < g.m_grant_rbStart + g.m_grant_rbLen)) →
      rachThreeOutcome.1.m_rachAllocationMap[i]? =
        (vecResize rachThreeState.m_rachAllocationMap rachThreeState.m_ulBandwidth 0)[i]?) ∧
    ((∀ x, x ∈ rachThreeState.m_rachAllocationMap → x = 0) →
      ∀ i x, (∀ g, g ∈ grantsOf rachThreeOutcome.2 →
          ¬ (g.m_grant_rbStart ≤ i ∧ i < g.m_grant_rbStart + g.m_grant_rbLen)) →
        rachThreeOutcome.1.m_rachAllocationMap[i]? = some x → x = 0) :=
  ⟨rfl, rfl,
   rach_grants_consecutive_disjoint_in_grid exampleEnv rachThreeState rachThreeOutcome.1 []
     rachThreeOutcome.2 rfl⟩

/-! ## The RBG bitmap of the new-data descriptor -/

/-- `GetRbgSize` by bandwidth range. -/
theorem getRbgSize_eq (bw : Nat) :
    GetRbgSize (bw : Int) =
      if bw < 10 then 1 else if bw < 26 then 2 else if bw < 63 then 3
      else if bw < 110 then 4 else -1 := by
  simp only [GetRbgSize, TdMtType0AllocationRbg, getRbgSizeLoop]
  split_ifs <;> omega

/-- A bandwidth for which `GetRbgSize` finds a size has at most 32 RBGs. -/
theorem rbgNum_le (bw : Nat) (h : 0 ≤ GetRbgSize (bw : Int)) :
    bw / (GetRbgSize (bw : Int)).toNat ≤ 32 := by
  rw [getRbgSize_eq] at h ⊢
  split_ifs at h ⊢ with h1 h2 h3 h4
  · simp; omega
  · have : ((2 : Int).toNat) = 2 := rfl
    rw [this]; omega
  · have : ((3 : Int).toNat) = 3 := rfl
    rw [this]; omega
  · have : ((4 : Int).toNat) = 4 := rfl
    rw [this]; omega
  · omega

/-- The decoding loop lists the set bits of the bitmap among the indices it
visits. -/
theorem decodeRbgBitmapFrom_eq (bitmap : Nat) :
    ∀ (n j : Nat), decodeRbgBitmapFrom bitmap n j =
      (List.range' j n).filter (fun k => bitmap.testBit k) := by
  intro n
  induction n with
  | zero => intro j; simp [decodeRbgBitmapFrom]
  | succ n ih =>
    intro j
    simp only [decodeRbgBitmapFrom, List.range'_succ, List.filter_cons, ih, Nat.mul_one]

/-- The encoding loop on ascending indices below 32 that all lie above the bits
of the mask sets exactly their bits. -/
theorem encodeRbgMask_testBit :
    ∀ (t : List Nat) (mask : Nat), t.Pairwise (fun a b => a < b) → (∀ y, y ∈ t → y < 32) →
      (∀ y, y ∈ t → mask < 2 ^ y) →
      ∀ j, (encodeRbgMask t mask).testBit j = (mask.testBit j || decide (j ∈ t)) := by
  intro t
  induction t with
  | nil => intro mask _ _ _ j; simp [encodeRbgMask]
  | cons x rest ih =>
    intro mask hsorted hlt hmask j
    obtain ⟨hx, hrest⟩ := List.pairwise_cons.mp hsorted
    have hm : mask < 2 ^ x := hmask x (List.mem_cons_self _ _)
    have hx32 : x < 32 := hlt x (List.mem_cons_self _ _)
    have hpow : 2 ^ (x + 1) ≤ 2 ^ 32 := Nat.pow_le_pow_right (by decide) (by omega)
    have hsum : mask + 2 ^ x < 2 ^ (x + 1) := by rw [Nat.pow_succ]; omega
    have hmod : (mask + 2 ^ x) % 2 ^ 32 = 2 ^ x + mask := by
      rw [Nat.mod_eq_of_lt (by omega)]; omega
    simp only [encodeRbgMask, hmod]
    rw [ih (2 ^ x + mask) hrest (fun y hy => hlt y (List.mem_cons_of_mem _ hy)) ?_ j]
    · have hbit : (2 ^ x + mask).testBit j = (mask.testBit j || decide (j = x)) := by
        rcases Nat.lt_trichotomy j x with hj | hj | hj
        · rw [Nat.testBit_two_pow_add_gt hj]
          have : ¬ j = x := by omega
          simp [this]
        · subst hj
          rw [Nat.testBit_two_pow_add_eq, Nat.testBit_lt_two_pow hm]
          simp
        · have h1 : (2 ^ x + mask).testBit j = false := by
            apply Nat.testBit_lt_two_pow
            have : 2 ^ (x + 1) ≤ 2 ^ j := Nat.pow_le_pow_right (by decide) (by omega)
            omega
          have h2 : mask.testBit j = false := by
            apply Nat.testBit_lt_two_pow
            have : 2 ^ x ≤ 2 ^ j := Nat.pow_le_pow_right (by decide) (by omega)
            omega
          have : ¬ j = x := by omega
          simp [h1, h2, this]
      rw [hbit]
      simp only [List.mem_cons, Bool.decide_or, Bool.or_assoc]
    · intro y hy
      have hxy := hx y hy
      have : 2 ^ (x + 1) ≤ 2 ^ y := Nat.pow_le_pow_right (by decide) (by omega)
      omega

/-- Decoding the bitmap encoded from ascending indices below 32 gives the
indices back. -/
theorem decode_encode (p : Nat → Bool) (n : Nat) (hn : n ≤ 32) :
    decodeRbgBitmap (encodeRbgMask ((List.range n).filter p) 0) = (List.range n).filter p := by
  have hsorted : ((List.range n).filter p).Pairwise (fun a b => a < b) :=
    List.Pairwise.filter p (List.pairwise_lt_range n)
  have hlt : ∀ y, y ∈ (List.range n).filter p → y < 32 := by
    intro y hy
    have := List.mem_range.mp (List.mem_filter.mp hy).1
    omega
  have hbits := encodeRbgMask_testBit _ 0 hsorted hlt (fun y _ => Nat.pow_pos (by decide))
  simp only [decodeRbgBitmap, decodeRbgBitmapFrom_eq]
  have hsplit : List.range' 0 32 = List.range' 0 n ++ List.range' n (32 - n) := by
    have := List.range'_append 0 n (32 - n) 1
    simp only [Nat.one_mul, Nat.zero_add] at this
    rw [this]
    congr 1
    omega
  rw [hsplit, List.filter_append, ← List.range_eq_range']
  have h1 : (List.range n).filter
      (fun k => (encodeRbgMask ((List.range n).filter p) 0).testBit k) =
      (List.range n).filter p := by
    apply List.filter_congr
    intro k hk
    rw [hbits k]
    simp only [Nat.zero_testBit, Bool.false_or, List.mem_filter, hk, true_and]
    cases p k <;> simp
  have h2 : (List.range' n (32 - n)).filter
      (fun k => (encodeRbgMask ((List.range n).filter p) 0).testBit k) = [] := by
    apply List.filter_eq_nil_iff.mpr
    intro k hk
    rw [hbits k]
    have hk1 := (List.mem_range'_1.mp hk).1
    simp only [Nat.zero_testBit, Bool.false_or, List.mem_filter, List.mem_range,
      decide_eq_true_eq, not_and]
    intro hk2
    omega
  rw [h1, h2, List.append_nil]

/-- The assignment loop collects, in ascending order, the indices it visits
whose RBG is free. -/
theorem takeFreeRbgs_spec :
    ∀ (n i : Nat) (rbgMap : List Bool) (tempMap : List Nat) (rbgMap1 : List Bool)
      (tempMap1 : List Nat),
      takeFreeRbgs n i rbgMap tempMap = .ok (rbgMap1, tempMap1) →
      tempMap1 = tempMap ++ (List.range' i n).filter (fun k => decide (rbgMap[k]? = some false)) := by
  intro n
  induction n with
  | zero =>
    intro i rbgMap tempMap rbgMap1 tempMap1 h
    simp only [takeFreeRbgs, Except.ok.injEq, Prod.mk.injEq] at h
    simp [h.2]
  | succ n ih =>
    intro i rbgMap tempMap rbgMap1 tempMap1 h
    simp only [takeFreeRbgs] at h
    split at h
    · cases h
    · rename_i b hb
      have hb' := (vecAt_eq_ok _ _ _).mp hb
      split at h
      · rename_i hfalse
        split at h
        · cases h
        · rename_i m1 hset
          obtain ⟨_, rfl⟩ := (vecSet_eq_ok _ _ _ _).mp hset
          rw [ih _ _ _ _ _ h]
          have hcongr : (List.range' (i + 1) n).filter
              (fun k => decide ((rbgMap.set i true)[k]? = some false)) =
              (List.range' (i + 1) n).filter (fun k => decide (rbgMap[k]? = some false)) := by
            apply List.filter_congr
            intro k hk
            have := (List.mem_range'_1.mp hk).1
            have hne : i ≠ k := by omega
            rw [List.getElem?_set_ne hne]
          rw [hcongr]
          subst hfalse
          simp [List.range'_succ, List.filter_cons, hb']
      · rename_i htrue
        rw [ih _ _ _ _ _ h]
        have : b = true := by simpa using htrue
        subst this
        simp [List.range'_succ, List.filter_cons, hb']

theorem rbgsReserve_length :
    ∀ (rs : List Nat) (m m1 : List Bool), rbgsReserve rs m = .ok m1 → m1.length = m.length := by
  intro rs
  induction rs with
  | nil =>
    intro m m1 h
    simp only [rbgsReserve, Except.ok.injEq] at h
    rw [h]
  | cons r rest ih =>
    intro m m1 h
    simp only [rbgsReserve] at h
    split at h
    · cases h
    · rename_i m2 hset
      obtain ⟨_, rfl⟩ := (vecSet_eq_ok _ _ _ _).mp hset
      rw [ih _ _ h, List.length_set]

theorem rbgSearchLoop_length (rbgNum startRbg : Nat) :
    ∀ (fuel j rbgId : Nat) (copy : List Bool) (dciRbg : List Nat) (j1 : Nat)
      (copy1 : List Bool) (dciRbg1 : List Nat),
      rbgSearchLoop rbgNum startRbg fuel j rbgId copy dciRbg = .ok (j1, copy1, dciRbg1) →
      copy1.length = copy.length := by
  intro fuel
  induction fuel with
  | zero =>
    intro j rbgId copy dciRbg j1 copy1 dciRbg1 h
    simp only [rbgSearchLoop] at h
    split at h
    · cases h
    · simp only [Except.ok.injEq, Prod.mk.injEq] at h
      rw [h.2.1]
  | succ fuel ih =>
    intro j rbgId copy dciRbg j1 copy1 dciRbg1 h
    simp only [rbgSearchLoop] at h
    split at h
    · split at h
      · cases h
      · split at h
        · split at h
          · cases h
          · rename_i c1 hset
            obtain ⟨_, rfl⟩ := (vecSet_eq_ok _ _ _ _).mp hset
            split at h
            · cases h
            · rw [ih _ _ _ _ _ _ _ h, List.length_set]
        · exact ih _ _ _ _ _ _ _ h
    · simp only [Except.ok.injEq, Prod.mk.injEq] at h
      rw [h.2.1]

theorem dlRetxPlace_length (rbgNum : Nat) (e : DlInfoListElement_s)
    (dci dci1 : DlDciListElement_s) (l l1 : DlLocals)
    (h : dlRetxPlace rbgNum e dci l = .ok (dci1, l1)) :
    l1.rbgMap.length = l.rbgMap.length := by
  simp only [dlRetxPlace] at h
  split at h
  · cases h
  · split at h
    · split at h
      · cases h
      · rename_i m1 hres
        simp only [Except.ok.injEq, Prod.mk.injEq] at h
        obtain ⟨_, rfl⟩ := h
        exact rbgsReserve_length _ _ _ hres
    · split at h
      · cases h
      · split at h
        · cases h
        · rename_i j copy dciRbg1 hsearch
          split at h
          · simp only [Except.ok.injEq, Prod.mk.injEq] at h
            obtain ⟨_, rfl⟩ := h
            exact rbgSearchLoop_length _ _ _ _ _ _ _ _ _ _ hsearch
          · simp only [Except.ok.injEq, Prod.mk.injEq] at h
            obtain ⟨_, rfl⟩ := h
            rfl

theorem dlRetxEmit_rbgMap (e : DlInfoListElement_s) (retx : List Bool)
    (dcis : List DlDciListElement_s) (dci : DlDciListElement_s) (s s1 : SchedState)
    (l l1 : DlLocals) (h : dlRetxEmit e retx dcis dci s l = .ok (s1, l1)) :
    l1.rbgMap = l.rbgMap := by
  simp only [dlRetxEmit] at h
  split at h
  · cases h
  · split at h
    · cases h
    · split at h
      · cases h
      · split at h
        · cases h
        · split at h
          · cases h
          · split at h
            · cases h
            · split at h
              · cases h
              · split at h
                · cases h
                · split at h
                  · cases h
                  · simp only [Except.ok.injEq, Prod.mk.injEq] at h
                    obtain ⟨_, rfl⟩ := h
                    rfl

/-- The feedback loop keeps the number of entries of the RBG grid. -/
theorem dlHarqFeedbackLoop_length (rbgNum : Nat) :
    ∀ (es : List DlInfoListElement_s) (s s1 : SchedState) (l l1 : DlLocals),
      dlHarqFeedbackLoop rbgNum es s l = .ok (s1, l1) →
      l1.rbgMap.length = l.rbgMap.length := by
  intro es
  induction es with
  | nil =>
    intro s s1 l l1 h
    simp only [dlHarqFeedbackLoop, Except.ok.injEq, Prod.mk.injEq] at h
    rw [h.2]
  | cons e rest ih =>
    intro s s1 l l1 h
    simp only [dlHarqFeedbackLoop] at h
    split at h
    · cases h
    · rename_i s2 l2 hentry
      rw [ih _ _ _ _ h]
      simp only [dlHarqFeedbackEntry] at hentry
      split at hentry
      · simp only [Except.ok.injEq, Prod.mk.injEq] at hentry
        rw [hentry.2]
      · split at hentry
        · cases hentry
        · split at hentry
          · simp only [dlHarqRetx] at hentry
            split at hentry
            · cases hentry
            · split at hentry
              · cases hentry
              · split at hentry
                · cases hentry
                · split at hentry
                  · split at hentry
                    · cases hentry
                    · simp only [Except.ok.injEq, Prod.mk.injEq] at hentry
                      rw [hentry.2]
                  · split at hentry
                    · cases hentry
                    · rename_i dci1 l3 hplace
                      rw [dlRetxEmit_rbgMap _ _ _ _ _ _ _ _ hentry]
                      exact dlRetxPlace_length _ _ _ _ _ _ hplace
          · split at hentry
            · cases hentry
            · simp only [Except.ok.injEq, Prod.mk.injEq] at hentry
              rw [hentry.2]

/-- The bitmap of the descriptor built by the new-data grant is the encoding
of the RBGs handed to the grant. -/
theorem newDataGrant_bitmap (env : Env) (rbgSize rnti : Nat) (tempMap : List Nat)
    (s s1 : SchedState) (el : BuildDataListElement_s)
    (h : newDataGrant env rbgSize rnti tempMap s = .ok (s1, el)) :
    el.m_dci.m_rbBitmap = encodeRbgMask tempMap 0 := by
  simp only [newDataGrant] at h
  split at h
  · cases h
  · split at h
    · cases h
    · split at h
      · cases h
      · split at h
        · cases h
        · simp only [Except.ok.injEq, Prod.mk.injEq] at h
          obtain ⟨_, rfl⟩ := h
          rfl

/-- C12: in every downlink pass that hands over a batch, the data descriptors
are those of the feedback part, followed by at most one new-data descriptor;
the RBGs named by the bitmap of the new-data descriptor are exactly the RBGs
`0 .. rbgNum - 1` that are free in the grid `rbgMap` after the feedback part,
that is, the RBGs no retransmission has reserved in this pass, where
`rbgNum = dlBandwidth / rbgSize`; when the pass has no feedback to handle
(none received, none carried over), they are all of `0 .. rbgNum - 1`. -/
theorem dl_new_data_bitmap_names_free_rbgs (env : Env) (s s2 : SchedState)
    (dlInfoList : List DlInfoListElement_s) (ind : SchedDlConfigIndParameters)
    (h : DoSchedDlTriggerReq env s dlInfoList = .ok (s2, some ind)) :
    ∃ s1 l rar rbgSize rbgNum,
      dlPassFeedback env s dlInfoList = .ok (s1, l, rar, rbgSize, rbgNum) ∧
      rbgSize = (GetRbgSize s.m_dlBandwidth).toNat ∧ rbgNum = s.m_dlBandwidth / rbgSize ∧
      (ind.m_buildDataList = l.buildDataList ∨
       ∃ el, ind.m_buildDataList = l.buildDataList ++ [el] ∧
         decodeRbgBitmap el.m_dci.m_rbBitmap =
           (List.range rbgNum).filter (fun i => decide (l.rbgMap[i]? = some false)) ∧
         (mergeDlInfo s dlInfoList = [] →
           decodeRbgBitmap el.m_dci.m_rbBitmap = List.range rbgNum)) := by
  obtain ⟨s1, l, rar, rbgSize, rbgNum, hfb, hcase⟩ :=
    doSchedDlTriggerReq_parts env s s2 dlInfoList (some ind) h
  obtain ⟨s0, sr, sh, sf, _, hsize, hrbgSize, hrbgNum, _, _, hloop, _⟩ :=
    dlPassFeedback_parts env s s1 dlInfoList l rar rbgSize rbgNum hfb
  refine ⟨s1, l, rar, rbgSize, rbgNum, hfb, hrbgSize, hrbgNum, ?_⟩
  have hle : rbgNum ≤ 32 := by
    rw [hrbgNum, hrbgSize]
    exact rbgNum_le s.m_dlBandwidth hsize
  rcases hcase with ⟨_, _, hout⟩ | ⟨_, dataList, hnew, hout⟩
  · rcases hout with ⟨hout, _, _⟩ | hout
    · cases hout
    · simp only [Option.some.injEq] at hout
      subst hout
      exact Or.inl rfl
  · simp only [Option.some.injEq] at hout
    subst hout
    rcases dlPassNewData_shape env s1 s2 l rbgSize rbgNum dataList hnew with
      ⟨_, hd⟩ | ⟨v, rbgMap1, tempMap, el, _, htake, _, hgrant, hd⟩
    · exact Or.inl hd
    · refine Or.inr ⟨el, hd, ?_⟩
      have htemp := takeFreeRbgs_spec _ _ _ _ _ _ htake
      simp only [List.nil_append, ← List.range_eq_range'] at htemp
      have hbit := newDataGrant_bitmap _ _ _ _ _ _ _ hgrant
      have hdec : decodeRbgBitmap el.m_dci.m_rbBitmap =
          (List.range rbgNum).filter (fun i => decide (l.rbgMap[i]? = some false)) := by
        rw [hbit, htemp]
        exact decode_encode _ rbgNum hle
      refine ⟨hdec, ?_⟩
      intro hnone
      rw [hdec]
      rw [hnone] at hloop
      simp only [dlHarqFeedbackLoop, Except.ok.injEq, Prod.mk.injEq] at hloop
      obtain ⟨_, rfl⟩ := hloop
      apply List.filter_eq_self.mpr
      intro i hi
      have hi' := List.mem_range.mp hi
      simp [freshDlLocals, List.getElem?_replicate, hi']

/-- Witness of C12: the pass without feedback in `oneFlowState` hands over one
descriptor, for user 1, whose bitmap 63 names the 6 RBGs of the cell. -/
theorem dl_new_data_bitmap_names_free_rbgs_witness :
    oneFlowOutcome.2.map (fun ind => ind.m_buildDataList.map
        (fun el => (el.m_rnti, el.m_dci.m_rbBitmap, decodeRbgBitmap el.m_dci.m_rbBitmap)))
      = some [(1, 63, [0, 1, 2, 3, 4, 5])] ∧
    ∃ s1 l rar rbgSize rbgNum,
      dlPassFeedback exampleEnv oneFlowState [] = .ok (s1, l, rar, rbgSize, rbgNum) ∧
      rbgSize = (GetRbgSize oneFlowState.m_dlBandwidth).toNat ∧
      rbgNum = oneFlowState.m_dlBandwidth / rbgSize ∧
      ((oneFlowOutcome.2.getD ⟨[], []⟩).m_buildDataList = l.buildDataList ∨
       ∃ el, (oneFlowOutcome.2.getD ⟨[], []⟩).m_buildDataList = l.buildDataList ++ [el] ∧
         decodeRbgBitmap el.m_dci.m_rbBitmap =
           (List.range rbgNum).filter (fun i => decide (l.rbgMap[i]? = some false)) ∧
         (mergeDlInfo oneFlowState [] = [] →
           decodeRbgBitmap el.m_dci.m_rbBitmap = List.range rbgNum)) :=
  ⟨rfl,
   dl_new_data_bitmap_names_free_rbgs exampleEnv oneFlowState oneFlowOutcome.1 []
     (oneFlowOutcome.2.getD ⟨[], []⟩) rfl⟩

/-! ## The new-data grant and the ledger -/

/-- Keys in ascending order: a later entry is of the same or a later user, and
of another key. -/
theorem ledgerSorted_cons {kv : LteFlowId_t × SchedDlRlcBufferReqParameters}
    {rest : List (LteFlowId_t × SchedDlRlcBufferReqParameters)}
    (h : LedgerSorted (kv :: rest)) :
    LedgerSorted rest ∧ ∀ x, x ∈ rest → kv.1.m_rnti ≤ x.1.m_rnti ∧ x.1 ≠ kv.1 := by
  obtain ⟨h1, h2⟩ := List.pairwise_cons.mp h
  refine ⟨h2, fun x hx => ?_⟩
  have := h1 x hx
  simp only [LteFlowId_t.lt, Bool.or_eq_true, decide_eq_true_eq, Bool.and_eq_true,
    beq_iff_eq] at this
  refine ⟨by omega, fun heq => ?_⟩
  rw [heq] at this
  omega

/-- In a ledger in key order, no entry after one of a later user belongs to
the user. -/
theorem activeEntries_of_later (rnti : Nat) :
    ∀ (ledger : List (LteFlowId_t × SchedDlRlcBufferReqParameters)),
      (∀ x, x ∈ ledger → rnti < x.1.m_rnti) → activeEntries ledger rnti = [] := by
  intro ledger h
  apply List.filter_eq_nil_iff.mpr
  intro x hx
  have := h x hx
  have hne : ¬ x.1.m_rnti = rnti := by omega
  simp [hne]

theorem activeEntries_cons (rnti : Nat) (kv : LteFlowId_t × SchedDlRlcBufferReqParameters)
    (rest : List (LteFlowId_t × SchedDlRlcBufferReqParameters)) :
    activeEntries (kv :: rest) rnti =
      if kv.1.m_rnti = rnti ∧ lcPending kv.2 = true then kv :: activeEntries rest rnti
      else activeEntries rest rnti := by
  simp only [activeEntries, List.filter_cons, Bool.and_eq_true, decide_eq_true_eq]

/-- On a ledger in key order `LcActivePerFlow` counts the entries of the user
that hold pending data. -/
theorem lcActiveLoop_sorted (rnti : Nat) :
    ∀ (ledger : List (LteFlowId_t × SchedDlRlcBufferReqParameters)) (acc : Nat),
      LedgerSorted ledger →
      lcActiveLoop rnti ledger acc = acc + (activeEntries ledger rnti).length := by
  intro ledger
  induction ledger with
  | nil => intro acc _; simp [lcActiveLoop, activeEntries]
  | cons kv rest ih =>
    intro acc hs
    obtain ⟨hrest, hlater⟩ := ledgerSorted_cons hs
    obtain ⟨flow, req⟩ := kv
    have hpend : (req.m_rlcTransmissionQueueSize > 0 ∨
        req.m_rlcRetransmissionQueueSize > 0 ∨ req.m_rlcStatusPduSize > 0) ↔
        lcPending req = true := by
      simp only [lcPending, decide_eq_true_eq]
    simp only [lcActiveLoop, activeEntries_cons, hpend]
    by_cases hgt : flow.m_rnti > rnti
    · have hne : ¬ flow.m_rnti = rnti := by omega
      have hnil : activeEntries rest rnti = [] :=
        activeEntries_of_later rnti rest (fun x hx => by
          have := (hlater x hx).1
          simp only at this
          omega)
      simp only [hgt, hne, false_and, if_false, if_true, hnil, List.length_nil, Nat.add_zero]
    · simp only [hgt, if_false]
      rw [ih _ hrest]
      by_cases hact : flow.m_rnti = rnti ∧ lcPending req = true
      · simp only [hact, and_self, if_true, List.length_cons]
        omega
      · simp only [hact, if_false]

theorem ledgerUpdate_comp (flow : LteFlowId_t)
    (f g : SchedDlRlcBufferReqParameters → SchedDlRlcBufferReqParameters) :
    ∀ (ledger : List (LteFlowId_t × SchedDlRlcBufferReqParameters)),
      ledgerUpdate flow f (ledgerUpdate flow g ledger) =
        ledgerUpdate flow (fun r => f (g r)) ledger := by
  intro ledger
  induction ledger with
  | nil => simp [ledgerUpdate]
  | cons kv rest ih =>
    obtain ⟨k, v⟩ := kv
    by_cases hk : k = flow
    · simp [ledgerUpdate, hk]
    · simp [ledgerUpdate, hk, ih]

theorem ledgerUpdate_id (flow : LteFlowId_t) :
    ∀ (ledger : List (LteFlowId_t × SchedDlRlcBufferReqParameters)),
      ledgerUpdate flow (fun r => r) ledger = ledger := by
  intro ledger
  induction ledger with
  | nil => simp [ledgerUpdate]
  | cons kv rest ih =>
    obtain ⟨k, v⟩ := kv
    by_cases hk : k = flow
    · simp [ledgerUpdate, hk]
    · simp [ledgerUpdate, hk, ih]

/-- The ledger update rewrites the entry of the key in place when no earlier
entry has the key. -/
theorem ledgerUpdate_append (flow : LteFlowId_t)
    (f : SchedDlRlcBufferReqParameters → SchedDlRlcBufferReqParameters)
    (v : SchedDlRlcBufferReqParameters)
    (suf : List (LteFlowId_t × SchedDlRlcBufferReqParameters)) :
    ∀ (pre : List (LteFlowId_t × SchedDlRlcBufferReqParameters)),
      (∀ x, x ∈ pre → x.1 ≠ flow) →
      ledgerUpdate flow f (pre ++ (flow, v) :: suf) = pre ++ (flow, f v) :: suf := by
  intro pre
  induction pre with
  | nil => intro _; simp [ledgerUpdate]
  | cons kv rest ih =>
    intro h
    obtain ⟨k, w⟩ := kv
    have hk : ¬ k = flow := h (k, w) (List.mem_cons_self _ _)
    simp [ledgerUpdate, hk, ih (fun x hx => h x (List.mem_cons_of_mem _ hx))]

/-- The per-layer loop for one channel: it reads the transport-block sizes of
the layers it visits, builds one PDU per layer with the share of the channel,
and applies the grants of these layers to the ledger entry of the channel. -/
theorem newDataLcLayers_spec (rnti lcid lcActives harqProcess : Nat) (tbs : List Nat) :
    ∀ (n j : Nat) (s s1 : SchedState) (acc acc1 : List RlcPduListElement_s),
      newDataLcLayers rnti lcid lcActives harqProcess tbs n j s acc = .ok (s1, acc1) →
      ((tbs.drop j).take n).length = n ∧
      acc1 = acc ++ ((tbs.drop j).take n).map
        (fun tb => { m_logicalChannelIdentity := lcid, m_size := tb / lcActives }) ∧
      s1.m_rlcBufferReq = ledgerUpdate { m_rnti := rnti, m_lcId := lcid }
        (grantQueues lcid lcActives ((tbs.drop j).take n)) s.m_rlcBufferReq := by
  intro n
  induction n with
  | zero =>
    intro j s s1 acc acc1 h
    simp only [newDataLcLayers, Except.ok.injEq, Prod.mk.injEq] at h
    obtain ⟨rfl, rfl⟩ := h
    refine ⟨by simp, by simp, ?_⟩
    simp only [List.take_zero]
    exact (ledgerUpdate_id _ _).symm
  | succ n ih =>
    intro j s s1 acc acc1 h
    simp only [newDataLcLayers] at h
    split at h
    · cases h
    · rename_i tb htb
      have htb' := (vecAt_eq_ok _ _ _).mp htb
      obtain ⟨hj, hget⟩ := List.getElem?_eq_some_iff.mp htb'
      have hdrop : tbs.drop j = tb :: tbs.drop (j + 1) := by
        rw [List.drop_eq_getElem_cons hj, hget]
      split at h
      · cases h
      · rename_i s2 hpush
        have hledger : s2.m_rlcBufferReq =
            ledgerUpdate { m_rnti := rnti, m_lcId := lcid }
              (updateDlRlcQueues lcid (tb / lcActives)) s.m_rlcBufferReq := by
          split at hpush
          · rw [(archivePush_frame _ _ _ _ _ _ hpush).2]
            rfl
          · simp only [Except.ok.injEq] at hpush
            subst hpush
            rfl
        obtain ⟨i1, i2, i3⟩ := ih _ _ _ _ _ h
        rw [hdrop, List.take_succ_cons]
        refine ⟨by simp [i1], by rw [i2]; simp, ?_⟩
        rw [i3, hledger, ledgerUpdate_comp]
        rfl

theorem grantEntry_of_active (rnti lcActives : Nat) (tbs : List Nat)
    (kv : LteFlowId_t × SchedDlRlcBufferReqParameters)
    (h : kv.1.m_rnti = rnti ∧ lcPending kv.2 = true) :
    grantEntry rnti lcActives tbs kv = (kv.1, grantQueues kv.1.m_lcId lcActives tbs kv.2) := by
  simp only [grantEntry, h, and_self, if_true]

theorem grantEntry_of_not_active (rnti lcActives : Nat) (tbs : List Nat)
    (kv : LteFlowId_t × SchedDlRlcBufferReqParameters)
    (h : ¬ (kv.1.m_rnti = rnti ∧ lcPending kv.2 = true)) :
    grantEntry rnti lcActives tbs kv = kv := by
  simp only [grantEntry, h, if_false]

/-- The grant keeps the key of an entry. -/
theorem grantEntry_fst (rnti lcActives : Nat) (tbs : List Nat)
    (kv : LteFlowId_t × SchedDlRlcBufferReqParameters) :
    (grantEntry rnti lcActives tbs kv).1 = kv.1 := by
  simp only [grantEntry]
  split <;> rfl

/-- The loop over the ledger, on a ledger in key order: it builds the PDUs of
the entries of the user that hold pending data, in order, and applies the
grants to these entries; `pre` are the entries already visited and `suf` the
entries still to visit. -/
theorem newDataLedgerLoop_spec (rnti lcActives harqProcess : Nat) (tbs : List Nat) :
    ∀ (fuel : Nat) (pre suf : List (LteFlowId_t × SchedDlRlcBufferReqParameters))
      (s s1 : SchedState) (acc acc1 : List (List RlcPduListElement_s)),
      LedgerSorted (pre ++ suf) →
      s.m_rlcBufferReq = pre.map (grantEntry rnti lcActives tbs) ++ suf →
      suf.length ≤ fuel →
      newDataLedgerLoop rnti lcActives harqProcess tbs.length tbs fuel pre.length s acc
        = .ok (s1, acc1) →
      s1.m_rlcBufferReq = (pre ++ suf).map (grantEntry rnti lcActives tbs) ∧
      acc1 = acc ++ (activeEntries suf rnti).map (grantPdus lcActives tbs) := by
  intro fuel
  induction fuel with
  | zero =>
    intro pre suf s s1 acc acc1 _ hled hfuel h
    have hsuf : suf = [] := List.eq_nil_of_length_eq_zero (by omega)
    subst hsuf
    simp only [newDataLedgerLoop, Except.ok.injEq, Prod.mk.injEq] at h
    obtain ⟨rfl, rfl⟩ := h
    simp [hled, activeEntries]
  | succ fuel ih =>
    intro pre suf s s1 acc acc1 hsorted hled hfuel h
    simp only [newDataLedgerLoop] at h
    cases suf with
    | nil =>
      have hnone : s.m_rlcBufferReq[pre.length]? = none := by
        rw [hled]; simp
      rw [hnone] at h
      simp only [Except.ok.injEq, Prod.mk.injEq] at h
      obtain ⟨rfl, rfl⟩ := h
      simp [hled, activeEntries]
    | cons kv suf1 =>
      obtain ⟨flow, req⟩ := kv
      have hsome : s.m_rlcBufferReq[pre.length]? = some (flow, req) := by
        rw [hled, List.getElem?_append_right (by simp)]
        simp
      rw [hsome] at h
      simp only at h
      have hsplit := List.pairwise_append.mp hsorted
      obtain ⟨hsuf1, hlater⟩ := ledgerSorted_cons hsplit.2.1
      have hpre : ∀ x, x ∈ pre.map (grantEntry rnti lcActives tbs) → x.1 ≠ flow := by
        intro x hx
        obtain ⟨y, hy, rfl⟩ := List.mem_map.mp hx
        rw [grantEntry_fst]
        have := hsplit.2.2 y hy (flow, req) (List.mem_cons_self _ _)
        intro heq
        rw [heq] at this
        simp [LteFlowId_t.lt] at this
      have hsorted1 : LedgerSorted ((pre ++ [(flow, req)]) ++ suf1) := by
        rw [List.append_assoc]; exact hsorted
      have hlen1 : (pre ++ [(flow, req)]).length = pre.length + 1 := by simp
      have hpend : (req.m_rlcTransmissionQueueSize > 0 ∨
          req.m_rlcRetransmissionQueueSize > 0 ∨ req.m_rlcStatusPduSize > 0) ↔
          lcPending req = true := by
        simp only [lcPending, decide_eq_true_eq]
      by_cases hact : flow.m_rnti = rnti ∧ lcPending req = true
      · rw [if_pos ⟨hact.1, hpend.mpr hact.2⟩] at h
        split at h
        · cases h
        · rename_i s2 pdus hlay
          obtain ⟨_, l2, l3⟩ := newDataLcLayers_spec _ _ _ _ _ _ _ _ _ _ _ hlay
          have hnot : ¬ (flow.m_rnti > rnti) := by omega
          rw [if_neg hnot] at h
          have hflow : ({ m_rnti := rnti, m_lcId := flow.m_lcId } : LteFlowId_t) = flow := by
            cases flow
            simp only at hact
            simp [hact.1]
          have hled2 : s2.m_rlcBufferReq =
              (pre ++ [(flow, req)]).map (grantEntry rnti lcActives tbs) ++ suf1 := by
            rw [l3, hled, hflow, List.drop_zero, List.take_length,
              ledgerUpdate_append flow _ req suf1 _ hpre]
            simp only [List.map_append, List.map_cons, List.map_nil, List.append_assoc,
              List.singleton_append]
            rw [grantEntry_of_active rnti lcActives tbs (flow, req) hact]
          rw [← hlen1] at h
          obtain ⟨r1, r2⟩ := ih _ _ _ _ _ _ hsorted1 hled2
            (by simp only [List.length_cons] at hfuel; omega) h
          refine ⟨by rw [r1, List.append_assoc]; rfl, ?_⟩
          rw [r2, l2, activeEntries_cons]
          simp only [hact, and_self, if_true, List.drop_zero, List.take_length,
            List.nil_append, List.map_cons, List.append_assoc, List.singleton_append]
          rfl
      · rw [if_neg (fun hc => hact ⟨hc.1, hpend.mp hc.2⟩)] at h
        have hkeep : grantEntry rnti lcActives tbs (flow, req) = (flow, req) :=
          grantEntry_of_not_active _ _ _ _ hact
        split at h
        · rename_i hgt
          simp only [Except.ok.injEq, Prod.mk.injEq] at h
          obtain ⟨rfl, rfl⟩ := h
          have hlate : ∀ x, x ∈ suf1 → rnti < x.1.m_rnti := by
            intro x hx
            have := (hlater x hx).1
            simp only at this
            omega
          have hmap : suf1.map (grantEntry rnti lcActives tbs) = suf1 := by
            conv_rhs => rw [← List.map_id suf1]
            apply List.map_congr_left
            intro x hx
            have := hlate x hx
            exact grantEntry_of_not_active _ _ _ _ (fun hc => by omega)
          refine ⟨by rw [hled]; simp [hkeep, hmap], ?_⟩
          rw [activeEntries_cons]
          simp only [hact, if_false, activeEntries_of_later rnti suf1 hlate, List.map_nil,
            List.append_nil]
        · have hled2 : s.m_rlcBufferReq =
              (pre ++ [(flow, req)]).map (grantEntry rnti lcActives tbs) ++ suf1 := by
            rw [hled]
            simp [hkeep]
          rw [← hlen1] at h
          obtain ⟨r1, r2⟩ := ih _ _ _ _ _ _ hsorted1 hled2
            (by simp only [List.length_cons] at hfuel; omega) h
          refine ⟨by rw [r1, List.append_assoc]; rfl, ?_⟩
          rw [r2, activeEntries_cons]
          simp only [hact, if_false]

theorem newDciLayers_spec (env : Env) (cqi : Option Nat) (nPrb : Nat) :
    ∀ (n : Nat) (mcs tbs : List Nat),
      (newDciLayers env cqi nPrb n mcs tbs).2.length = tbs.length + n ∧
      ∀ x, x ∈ (newDciLayers env cqi nPrb n mcs tbs).2 → x ∈ tbs ∨ x < 65536 := by
  intro n
  induction n with
  | zero =>
    intro mcs tbs
    simp only [newDciLayers, Nat.add_zero, true_and]
    exact fun x hx => Or.inl hx
  | succ n ih =>
    intro mcs tbs
    simp only [newDciLayers]
    refine ⟨?_, fun x hx => ?_⟩
    · rw [(ih _ _).1, List.length_append, List.length_singleton]
      omega
    · rcases (ih _ _).2 x hx with h | h
      · rcases List.mem_append.mp h with h | h
        · exact Or.inl h
        · right
          simp only [List.mem_singleton] at h
          rw [h]
          exact Nat.mod_lt _ (by decide)
      · exact Or.inr h

theorem updateHarqProcessId_ledger (s s1 : SchedState) (rnti i : Nat)
    (h : UpdateHarqProcessId s rnti = .ok (i, s1)) :
    s1.m_rlcBufferReq = s.m_rlcBufferReq := by
  simp only [UpdateHarqProcessId] at h
  split at h
  · simp only [Except.ok.injEq, Prod.mk.injEq] at h
    rw [← h.2]
  · split at h
    · cases h
    · split at h
      · cases h
      · split at h
        · cases h
        · split at h
          · cases h
          · split at h
            · split at h
              · cases h
              · simp only [Except.ok.injEq, Prod.mk.injEq] at h
                rw [← h.2]
            · cases h

/-- The new-data grant on a ledger in key order: the PDU list has one entry per
ledger entry of the user with pending data, in key order, holding per layer the
share of the channel; the ledger entries of these channels are granted these
shares, layer by layer, and no other entry changes; every transport-block size
of the descriptor fits 16 bits. -/
theorem newDataGrant_ledger (env : Env) (rbgSize rnti : Nat) (tempMap : List Nat)
    (s s1 : SchedState) (el : BuildDataListElement_s)
    (hsorted : LedgerSorted s.m_rlcBufferReq)
    (h : newDataGrant env rbgSize rnti tempMap s = .ok (s1, el)) :
    el.m_rlcPduList = (activeEntries s.m_rlcBufferReq rnti).map
      (grantPdus (grantDivisor s rnti) el.m_dci.m_tbsSize) ∧
    s1.m_rlcBufferReq = s.m_rlcBufferReq.map
      (grantEntry rnti (grantDivisor s rnti) el.m_dci.m_tbsSize) ∧
    (∀ x, x ∈ el.m_dci.m_tbsSize → x < 65536) := by
  simp only [newDataGrant] at h
  split at h
  · cases h
  · rename_i hp sa hupd
    have hled := updateHarqProcessId_ledger s sa rnti hp hupd
    have hdiv : (if LcActivePerFlow sa rnti % 65536 = 0 then 65535
        else LcActivePerFlow sa rnti % 65536) = grantDivisor s rnti := by
      simp only [grantDivisor, LcActivePerFlow, hled]
    rw [hdiv] at h
    split at h
    · cases h
    · rename_i txMode _
      obtain ⟨hlen, hbound⟩ := newDciLayers_spec env (sa.m_p10CqiRxed.find rnti)
        (tempMap.length * rbgSize) (env.TxMode2LayerNum txMode) [] []
      generalize newDciLayers env (sa.m_p10CqiRxed.find rnti) (tempMap.length * rbgSize)
        (env.TxMode2LayerNum txMode) [] [] = layers at h hlen hbound
      simp only [List.length_nil, Nat.zero_add] at hlen
      split at h
      · cases h
      · rename_i sb pdus hloop
        rw [← hlen] at hloop
        obtain ⟨r1, r2⟩ := newDataLedgerLoop_spec rnti (grantDivisor s rnti) hp layers.2
          sa.m_rlcBufferReq.length [] sa.m_rlcBufferReq sa sb [] pdus
          (by rw [List.nil_append, hled]; exact hsorted) (by simp) (le_refl _) hloop
        split at h
        · cases h
        · rename_i sc hstore
          simp only [Except.ok.injEq, Prod.mk.injEq] at h
          obtain ⟨rfl, rfl⟩ := h
          have hsc : sc.m_rlcBufferReq = sb.m_rlcBufferReq := by
            split at hstore
            · exact (newDataStoreDci_frame _ _ _ hstore).2
            · simp only [Except.ok.injEq] at hstore
              subst hstore
              rfl
          refine ⟨?_, ?_, ?_⟩
          · show pdus = _
            rw [r2, hled]
            simp
          · show sc.m_rlcBufferReq = _
            rw [hsc, r1, hled]
            simp
          · intro x hx
            rcases hbound x hx with hb | hb
            · simp at hb
            · exact hb

theorem grantDivisor_eq (s : SchedState) (rnti : Nat) (hn : 1 ≤ LcActivePerFlow s rnti)
    (hn16 : LcActivePerFlow s rnti < 65536) : grantDivisor s rnti = LcActivePerFlow s rnti := by
  have hmod : LcActivePerFlow s rnti % 65536 = LcActivePerFlow s rnti := Nat.mod_eq_of_lt hn16
  have hne : ¬ LcActivePerFlow s rnti = 0 := by omega
  simp only [grantDivisor, hmod, hne, if_false]

/-- C13: a new-data grant to a user with `n >= 1` ledger entries (logical
channels) that hold pending data (status PDU, retransmission queue or new
data), `n` being `LcActivePerFlow` of the user (held in 16 bits), builds a PDU
list with exactly `n` entries, one per such channel in key order, and the entry
of a channel holds, for every layer of the descriptor, a PDU of that channel of
size `floor(S / n)`, `S` being the transport-block size of the layer. The
ledger is a `std::map`, so it is in key order. -/
theorem new_data_grant_splits_tb_equally (env : Env) (rbgSize rnti : Nat)
    (tempMap : List Nat) (s s1 : SchedState) (el : BuildDataListElement_s)
    (hsorted : LedgerSorted s.m_rlcBufferReq)
    (hn : 1 ≤ LcActivePerFlow s rnti) (hn16 : LcActivePerFlow s rnti < 65536)
    (h : newDataGrant env rbgSize rnti tempMap s = .ok (s1, el)) :
    (activeEntries s.m_rlcBufferReq rnti).length = LcActivePerFlow s rnti ∧
    el.m_rlcPduList.length = LcActivePerFlow s rnti ∧
    el.m_rlcPduList = (activeEntries s.m_rlcBufferReq rnti).map (fun kv =>
      el.m_dci.m_tbsSize.map (fun S =>
        { m_logicalChannelIdentity := kv.1.m_lcId, m_size := S / LcActivePerFlow s rnti })) := by
  have hcount : (activeEntries s.m_rlcBufferReq rnti).length = LcActivePerFlow s rnti := by
    have := lcActiveLoop_sorted rnti s.m_rlcBufferReq 0 hsorted
    simp only [Nat.zero_add] at this
    exact this.symm
  obtain ⟨hpdu, _, _⟩ := newDataGrant_ledger env rbgSize rnti tempMap s s1 el hsorted h
  rw [grantDivisor_eq s rnti hn hn16] at hpdu
  refine ⟨hcount, ?_, ?_⟩
  · rw [hpdu, List.length_map, hcount]
  · rw [hpdu]
    rfl

/-- Witness of C13: in `threeChannelsState` the grant of the 6 RBGs carries a
transport block of 12 bytes, and each of the three channels gets a PDU of
`floor(12 / 3) = 4` bytes. -/
theorem new_data_grant_splits_tb_equally_witness :
    threeChannelsGrant.2.m_dci.m_tbsSize = [12] ∧
    threeChannelsGrant.2.m_rlcPduList =
      [[{ m_logicalChannelIdentity := 1, m_size := 4 }],
       [{ m_logicalChannelIdentity := 2, m_size := 4 }],
       [{ m_logicalChannelIdentity := 3, m_size := 4 }]] ∧
    (activeEntries threeChannelsState.m_rlcBufferReq 1).length =
      LcActivePerFlow threeChannelsState 1 ∧
    threeChannelsGrant.2.m_rlcPduList.length = LcActivePerFlow threeChannelsState 1 ∧
    threeChannelsGrant.2.m_rlcPduList =
      (activeEntries threeChannelsState.m_rlcBufferReq 1).map (fun kv =>
        threeChannelsGrant.2.m_dci.m_tbsSize.map (fun S =>
          { m_logicalChannelIdentity := kv.1.m_lcId,
            m_size := S / LcActivePerFlow threeChannelsState 1 })) :=
  ⟨rfl, rfl,
   new_data_grant_splits_tb_equally exampleEnv 1 1 [0, 1, 2, 3, 4, 5] threeChannelsState
     threeChannelsGrant.1 threeChannelsGrant.2 (by unfold LedgerSorted; decide) (by decide)
     (by decide) rfl⟩

/-! ## The pending size of a channel after a grant -/

/-- On a channel without status PDU and without retransmission data, a grant of
at least the RLC overhead reduces the new-data queue by the grant less the
overhead, saturating at zero. -/
theorem updateDlRlcQueues_tx (lcid size : Nat) (req : SchedDlRlcBufferReqParameters)
    (hst : req.m_rlcStatusPduSize = 0) (hre : req.m_rlcRetransmissionQueueSize = 0)
    (hoh : rlcOverhead lcid ≤ size) (hsize : size < 2 ^ 32) :
    updateDlRlcQueues lcid size req =
      { req with
        m_rlcTransmissionQueueSize :=
          req.m_rlcTransmissionQueueSize - (size - rlcOverhead lcid) } := by
  have h1 : ¬ (req.m_rlcStatusPduSize > 0 ∧ size ≥ req.m_rlcStatusPduSize) := by omega
  have h2 : ¬ (req.m_rlcRetransmissionQueueSize > 0 ∧
      size ≥ req.m_rlcRetransmissionQueueSize) := by omega
  simp only [updateDlRlcQueues, h1, h2, if_false]
  simp only [rlcOverhead] at hoh ⊢
  generalize (if lcid = 1 then 4 else 2) = oh at hoh ⊢
  have hgr : (size + 2 ^ 32 - oh) % 2 ^ 32 = size - oh := by
    have : size + 2 ^ 32 - oh = (size - oh) + 2 ^ 32 := by omega
    rw [this, Nat.add_mod_right, Nat.mod_eq_of_lt (by omega)]
  rw [hgr]
  by_cases h3 : req.m_rlcTransmissionQueueSize > 0
  · rw [if_pos h3]
    by_cases h4 : req.m_rlcTransmissionQueueSize ≤ size - oh
    · rw [if_pos h4, Nat.sub_eq_zero_of_le h4]
    · rw [if_neg h4]
  · rw [if_neg h3]
    have h0 : req.m_rlcTransmissionQueueSize = 0 := by omega
    rw [h0, Nat.zero_sub, ← h0]

/-- The grants of the layers of a descriptor on such a channel. -/
theorem grantQueues_tx (lcid lcActives : Nat) :
    ∀ (tbs : List Nat) (req : SchedDlRlcBufferReqParameters),
      req.m_rlcStatusPduSize = 0 → req.m_rlcRetransmissionQueueSize = 0 →
      (∀ S, S ∈ tbs → rlcOverhead lcid ≤ S / lcActives ∧ S < 65536) →
      grantQueues lcid lcActives tbs req =
        { req with
          m_rlcTransmissionQueueSize :=
            tbs.foldl (fun q S => q - (S / lcActives - rlcOverhead lcid))
              req.m_rlcTransmissionQueueSize } := by
  intro tbs
  induction tbs with
  | nil => intro req _ _ _; rfl
  | cons S rest ih =>
    intro req hst hre hall
    obtain ⟨h1, h2⟩ := hall S (List.mem_cons_self _ _)
    have hlt : S / lcActives < 2 ^ 32 := by
      have := Nat.div_le_self S lcActives
      omega
    simp only [grantQueues, List.foldl_cons]
    rw [updateDlRlcQueues_tx lcid (S / lcActives) req hst hre h1 hlt]
    exact ih _ hst hre (fun x hx => hall x (List.mem_cons_of_mem _ hx))

/-- In a ledger in key order, the entry found under a key after a key-keeping
map is the image of the entry of that key. -/
theorem ledgerFind_map (f : LteFlowId_t × SchedDlRlcBufferReqParameters →
      LteFlowId_t × SchedDlRlcBufferReqParameters) (hf : ∀ kv, (f kv).1 = kv.1)
    (flow : LteFlowId_t) (req : SchedDlRlcBufferReqParameters) :
    ∀ (ledger : List (LteFlowId_t × SchedDlRlcBufferReqParameters)),
      LedgerSorted ledger → (flow, req) ∈ ledger →
      ledgerFind flow (ledger.map f) = some (f (flow, req)).2 := by
  intro ledger
  induction ledger with
  | nil => intro _ h; simp at h
  | cons kv rest ih =>
    intro hs hmem
    obtain ⟨hrest, hlater⟩ := ledgerSorted_cons hs
    rcases List.mem_cons.mp hmem with heq | hmem
    · subst heq
      simp [ledgerFind, hf]
    · have hne : ¬ (f kv).1 = flow := by
        rw [hf]
        exact fun hc => (hlater _ hmem).2 hc.symm
      simp only [List.map_cons, ledgerFind, hne, if_false]
      exact ih hrest hmem

theorem foldl_sub_zero (g : Nat → Nat) :
    ∀ (tbs : List Nat), tbs.foldl (fun q S => q - g S) 0 = 0 := by
  intro tbs
  induction tbs with
  | nil => rfl
  | cons S rest ih => simp only [List.foldl_cons, Nat.zero_sub, ih]

/-- C14 (as amended): after a new-data grant to a user with `n >= 1` active
logical channels on a ledger in key order, a channel of the user that has no
pending status PDU and no pending retransmission data keeps these at 0 and has
its pending new-data size reduced, for every layer of the descriptor, by
`floor(S / n)` less the RLC overhead of the channel (4 bytes on channel 1, 2
bytes on the others), saturating at zero, `S` being the transport-block size of
the layer and `floor(S / n)` being at least the overhead. -/
theorem new_data_grant_reduces_queue_by_share_less_overhead (env : Env) (rbgSize rnti : Nat)
    (tempMap : List Nat) (s s1 : SchedState) (el : BuildDataListElement_s)
    (flow : LteFlowId_t) (req : SchedDlRlcBufferReqParameters)
    (hsorted : LedgerSorted s.m_rlcBufferReq)
    (hn : 1 ≤ LcActivePerFlow s rnti) (hn16 : LcActivePerFlow s rnti < 65536)
    (h : newDataGrant env rbgSize rnti tempMap s = .ok (s1, el))
    (hmem : (flow, req) ∈ s.m_rlcBufferReq) (hu : flow.m_rnti = rnti)
    (hst : req.m_rlcStatusPduSize = 0) (hre : req.m_rlcRetransmissionQueueSize = 0)
    (hoh : ∀ S, S ∈ el.m_dci.m_tbsSize →
      rlcOverhead flow.m_lcId ≤ S / LcActivePerFlow s rnti) :
    ledgerFind flow s1.m_rlcBufferReq = some
      { req with
        m_rlcTransmissionQueueSize :=
          el.m_dci.m_tbsSize.foldl
            (fun q S => q - (S / LcActivePerFlow s rnti - rlcOverhead flow.m_lcId))
            req.m_rlcTransmissionQueueSize } := by
  obtain ⟨_, hled, hbound⟩ := newDataGrant_ledger env rbgSize rnti tempMap s s1 el hsorted h
  rw [grantDivisor_eq s rnti hn hn16] at hled
  rw [hled, ledgerFind_map _ (grantEntry_fst rnti _ _) flow req _ hsorted hmem]
  congr 1
  by_cases hact : lcPending req = true
  · rw [grantEntry_of_active rnti _ _ (flow, req) ⟨hu, hact⟩]
    exact grantQueues_tx _ _ _ req hst hre (fun S hS => ⟨hoh S hS, hbound S hS⟩)
  · rw [grantEntry_of_not_active rnti _ _ (flow, req) (fun hc => hact hc.2)]
    have h0 : req.m_rlcTransmissionQueueSize = 0 := by
      simp only [lcPending, decide_eq_true_eq, not_or] at hact
      omega
    rw [h0, foldl_sub_zero]
    cases req
    simp only at h0 ⊢
    subst h0
    rfl

/-- Counterexample to C14 as stated: one user with one channel (channel 3)
that holds 1000 bytes; the pass without feedback grants a transport block of
`S = 12` bytes, and the channel is left with 990 pending bytes, not with
`1000 - 12 = 988`. -/
theorem dl_grant_leaves_overhead_in_queue :
    oneFlowState.m_rlcBufferReq.map
        (fun kv => (kv.1.m_lcId, kv.2.m_rlcTransmissionQueueSize)) = [(3, 1000)] ∧
    oneFlowOutcome.2.map
        (fun ind => ind.m_buildDataList.map (fun el => (el.m_rnti, el.m_dci.m_tbsSize)))
      = some [(1, [12])] ∧
    oneFlowOutcome.1.m_rlcBufferReq.map
        (fun kv => (kv.1.m_lcId, kv.2.m_rlcTransmissionQueueSize)) = [(3, 990)] ∧
    (990 : Nat) ≠ 1000 - 12 :=
  ⟨rfl, rfl, rfl, by decide⟩

/-- Witness of C14 (as amended): the grant of a transport block of 12 bytes to
the one channel of `oneFlowState`, which holds 1000 bytes, leaves
`1000 - (12 - 2) = 990` bytes. -/
theorem new_data_grant_reduces_queue_by_share_less_overhead_witness :
    oneFlowGrant.2.m_dci.m_tbsSize = [12] ∧
    ledgerFind { m_rnti := 1, m_lcId := 3 } oneFlowGrant.1.m_rlcBufferReq =
      some (exampleBuffer 1 990) ∧
    ledgerFind { m_rnti := 1, m_lcId := 3 } oneFlowGrant.1.m_rlcBufferReq = some
      { exampleBuffer 1 1000 with
        m_rlcTransmissionQueueSize :=
          oneFlowGrant.2.m_dci.m_tbsSize.foldl
            (fun q S => q - (S / LcActivePerFlow oneFlowState 1 -
              rlcOverhead ({ m_rnti := 1, m_lcId := 3 } : LteFlowId_t).m_lcId))
            (exampleBuffer 1 1000).m_rlcTransmissionQueueSize } :=
  ⟨rfl, rfl,
   new_data_grant_reduces_queue_by_share_less_overhead exampleEnv 1 1 [0, 1, 2, 3, 4, 5]
     oneFlowState oneFlowGrant.1 oneFlowGrant.2 { m_rnti := 1, m_lcId := 3 }
     (exampleBuffer 1 1000) (by unfold LedgerSorted; decide) (by decide) (by decide) rfl
     (by decide) rfl rfl rfl (by decide)⟩

/-! ## The representation invariant of the ledger, and the fuel of the RACH search -/

/-- The rounds granted to the RACH search loop are enough: with `ulBandwidth`
rounds from length 1 the loop has left, its condition being false at the
result. -/
theorem rachGrantLen_left (env : Env) (mcs est rbStart ulBandwidth : Nat) :
    ∀ (fuel rbLen tbSizeBits : Nat), ulBandwidth ≤ rbStart + rbLen + fuel →
      ¬ ((rachGrantLen env mcs est rbStart ulBandwidth fuel rbLen tbSizeBits).2 < est ∧
         rbStart + (rachGrantLen env mcs est rbStart ulBandwidth fuel rbLen tbSizeBits).1
           < ulBandwidth) := by
  intro fuel
  induction fuel with
  | zero =>
    intro rbLen tb h
    simp only [rachGrantLen]
    omega
  | succ fuel ih =>
    intro rbLen tb h
    simp only [rachGrantLen]
    split
    · exact ih _ _ (by omega)
    · assumption

theorem flowId_lt_trans {a b c : LteFlowId_t} (h1 : a.lt b = true) (h2 : b.lt c = true) :
    a.lt c = true := by
  simp only [LteFlowId_t.lt, Bool.or_eq_true, decide_eq_true_eq, Bool.and_eq_true,
    beq_iff_eq] at h1 h2 ⊢
  omega

theorem flowId_lt_of_not (a b : LteFlowId_t) (h1 : ¬ a = b) (h2 : ¬ b.lt a = true) :
    a.lt b = true := by
  simp only [LteFlowId_t.lt, Bool.or_eq_true, decide_eq_true_eq, Bool.and_eq_true,
    beq_iff_eq] at h2 ⊢
  have : ¬ (a.m_rnti = b.m_rnti ∧ a.m_lcId = b.m_lcId) := by
    intro hc
    apply h1
    cases a
    cases b
    simp only at hc
    simp [hc.1, hc.2]
  omega

theorem mem_ledgerUpsert (flow : LteFlowId_t) (req : SchedDlRlcBufferReqParameters) :
    ∀ (ledger : List (LteFlowId_t × SchedDlRlcBufferReqParameters))
      (x : LteFlowId_t × SchedDlRlcBufferReqParameters),
      x ∈ ledgerUpsert flow req ledger → x.1 = flow ∨ x ∈ ledger := by
  intro ledger
  induction ledger with
  | nil =>
    intro x hx
    simp only [ledgerUpsert, List.mem_singleton] at hx
    left
    rw [hx]
  | cons kv rest ih =>
    intro x hx
    obtain ⟨k, v⟩ := kv
    simp only [ledgerUpsert] at hx
    split at hx
    · rename_i hk
      rcases List.mem_cons.mp hx with rfl | hx
      · exact Or.inl hk
      · exact Or.inr (List.mem_cons_of_mem _ hx)
    · split at hx
      · rcases List.mem_cons.mp hx with rfl | hx
        · exact Or.inl rfl
        · exact Or.inr hx
      · rcases List.mem_cons.mp hx with rfl | hx
        · exact Or.inr (List.mem_cons_self _ _)
        · rcases ih x hx with h | h
          · exact Or.inl h
          · exact Or.inr (List.mem_cons_of_mem _ h)

/-- Recording a buffer report keeps the ledger in key order. -/
theorem ledgerUpsert_sorted (flow : LteFlowId_t) (req : SchedDlRlcBufferReqParameters) :
    ∀ (ledger : List (LteFlowId_t × SchedDlRlcBufferReqParameters)),
      LedgerSorted ledger → LedgerSorted (ledgerUpsert flow req ledger) := by
  intro ledger
  induction ledger with
  | nil => intro _; simp [ledgerUpsert, LedgerSorted]
  | cons kv rest ih =>
    intro hs
    obtain ⟨k, v⟩ := kv
    obtain ⟨h1, h2⟩ := List.pairwise_cons.mp hs
    simp only [ledgerUpsert]
    split
    · exact List.Pairwise.cons h1 h2
    · rename_i hk
      split
      · rename_i hlt
        refine List.Pairwise.cons ?_ hs
        intro x hx
        rcases List.mem_cons.mp hx with rfl | hx
        · exact hlt
        · exact flowId_lt_trans hlt (h1 x hx)
      · rename_i hlt
        refine List.Pairwise.cons ?_ (ih h2)
        intro x hx
        rcases mem_ledgerUpsert flow req rest x hx with hflow | hmem
        · show k.lt x.1 = true
          rw [hflow]
          exact flowId_lt_of_not k flow hk hlt
        · exact h1 x hmem

/-- `DoSchedDlRlcBufferReq` keeps the ledger in key order. -/
theorem doSchedDlRlcBufferReq_sorted (s : SchedState) (params : SchedDlRlcBufferReqParameters)
    (h : LedgerSorted s.m_rlcBufferReq) :
    LedgerSorted (DoSchedDlRlcBufferReq s params).m_rlcBufferReq :=
  ledgerUpsert_sorted _ _ _ h

/-! ## The table of RBG sizes -/

/-- C29: `GetRbgSize` follows the table (1 below 10 resource blocks, 2 below
26, 3 below 63, 4 below 110, and -1 from 110 on, for every `int` argument), and
for a bandwidth `bw` of 1 to 109 resource blocks the number of RBGs,
`bw / GetRbgSize(bw)`, is at least 1 and at most 27, so that the bit of every
RBG index lies below bit 32; when the size is 2 the number of RBGs is
`bw / 2`. -/
theorem getRbgSize_follows_table (b : Int) (bw : Nat) (h1 : 1 ≤ bw) (h2 : bw ≤ 109) :
    GetRbgSize b =
      (if b < 10 then 1 else if b < 26 then 2 else if b < 63 then 3
       else if b < 110 then 4 else -1) ∧
    1 ≤ bw / (GetRbgSize (bw : Int)).toNat ∧
    bw / (GetRbgSize (bw : Int)).toNat ≤ 27 ∧
    (∀ i, i < bw / (GetRbgSize (bw : Int)).toNat → 2 ^ i < 2 ^ 32) ∧
    (GetRbgSize (bw : Int) = 2 → bw / (GetRbgSize (bw : Int)).toNat = bw / 2) := by
  have hcount : 1 ≤ bw / (GetRbgSize (bw : Int)).toNat ∧
      bw / (GetRbgSize (bw : Int)).toNat ≤ 27 := by
    rw [getRbgSize_eq]
    have e1 : ((1 : Int).toNat) = 1 := rfl
    have e2 : ((2 : Int).toNat) = 2 := rfl
    have e3 : ((3 : Int).toNat) = 3 := rfl
    have e4 : ((4 : Int).toNat) = 4 := rfl
    split_ifs with c1 c2 c3 c4
    · rw [e1]; omega
    · rw [e2]; omega
    · rw [e3]; omega
    · rw [e4]; omega
    · omega
  refine ⟨?_, hcount.1, hcount.2, ?_, ?_⟩
  · simp only [GetRbgSize, TdMtType0AllocationRbg, getRbgSizeLoop]
    split_ifs <;> omega
  · intro i hi
    exact Nat.pow_lt_pow_right (by decide) (by omega)
  · intro h
    rw [h]
    rfl

/-- Witness of C29: a cell of 25 resource blocks has RBG size 2 and 12 RBGs. -/
theorem getRbgSize_follows_table_witness :
    (1 ≤ 25 ∧ 25 ≤ 109) ∧ GetRbgSize 25 = 2 ∧ GetRbgSize 110 = -1 ∧
    25 / (GetRbgSize ((25 : Nat) : Int)).toNat = 12 ∧
    (GetRbgSize 110 =
      (if (110 : Int) < 10 then 1 else if (110 : Int) < 26 then 2
       else if (110 : Int) < 63 then 3 else if (110 : Int) < 110 then 4 else -1) ∧
    1 ≤ 25 / (GetRbgSize ((25 : Nat) : Int)).toNat ∧
    25 / (GetRbgSize ((25 : Nat) : Int)).toNat ≤ 27 ∧
    (∀ i, i < 25 / (GetRbgSize ((25 : Nat) : Int)).toNat → 2 ^ i < 2 ^ 32) ∧
    (GetRbgSize ((25 : Nat) : Int) = 2 →
      25 / (GetRbgSize ((25 : Nat) : Int)).toNat = 25 / 2)) :=
  ⟨by decide, rfl, rfl, rfl, getRbgSize_follows_table 110 25 (by decide) (by decide)⟩

/-! ## Uplink retransmissions on the stored range -/

/-- The check of a range all of whose blocks are free keeps the flag. -/
theorem ulRangeFree_free (rbMap : List Bool) :
    ∀ (n j : Nat) (free : Bool),
      (∀ i, j ≤ i → i < j + n → rbMap[i]? = some false) →
      ulRangeFree rbMap n j free = .ok free := by
  intro n
  induction n with
  | zero => intro j free _; rfl
  | succ n ih =>
    intro j free h
    have h0 : vecAt rbMap j = .ok false := (vecAt_eq_ok _ _ _).mpr (h j (le_refl _) (by omega))
    simp only [ulRangeFree, h0]
    have := ih (j + 1) free (fun i h1 h2 => h i (by omega) (by omega))
    simpa using this

/-- Reserving a range whose blocks lie inside the grid and inside the
allocation map succeeds. -/
theorem ulRangeReserve_ok (rnti : Nat) :
    ∀ (n j : Nat) (rbMap : List Bool) (alloc : List Nat),
      (∀ i, j ≤ i → i < j + n → i < rbMap.length ∧ i < alloc.length) →
      ∃ r a, ulRangeReserve rnti n j rbMap alloc = .ok (r, a) := by
  intro n
  induction n with
  | zero => intro j rbMap alloc _; exact ⟨rbMap, alloc, rfl⟩
  | succ n ih =>
    intro j rbMap alloc h
    have h0 := h j (le_refl _) (by omega)
    have e1 : vecSet rbMap j true = .ok (rbMap.set j true) := vecSet_of_lt _ _ _ h0.1
    have e2 : vecSet alloc j rnti = .ok (alloc.set j rnti) := vecSet_of_lt _ _ _ h0.2
    simp only [ulRangeReserve, e1, e2]
    refine ih (j + 1) _ _ (fun i h1 h2 => ?_)
    have := h i (by omega) (by omega)
    simpa using this

/-- The slot a NACK addresses is a valid index, and the 8-bit wrap of the
difference leaves its residue modulo 8 as it is. -/
theorem ulHarqId_spec (env : Env) (c : Nat) :
    ulHarqId env c < 8 ∧
    (ulHarqId env c : Int) = ((c : Int) - (env.HARQ_PERIOD : Int)) % 8 := by
  simp only [ulHarqId, HARQ_PROC_NUM]
  omega

/-- C21: a NACK of a user whose current uplink process id is `c` addresses the
slot `h = (c - HARQ_PERIOD) mod 8`, which is a valid index whatever the 8-bit
wrap of the difference; when the retransmission count at `h` is below 3 and
every block of the range stored at `h` is free, the entry is handled without
fault, the descriptor appended to the output is the stored one (same `rbStart`
and `rbLen`) with NDI 0, the count at slot `c` becomes the old count at `h`
plus one, the count at `h` becomes 0, and the descriptor with NDI 0 is stored
in slot `c`. The HARQ tables have 8 slots, `HARQ_PERIOD` is not a multiple of
8, so that `h` is not `c`, and the allocation map is at least as long as the
grid, as it is after the loop that marks the RACH allocations. -/
theorem ul_nack_retransmits_from_offset_slot (env : Env) (e : UlInfoListElement_s)
    (s : SchedState) (l : UlLocals) (c : Nat) (dcis : List UlDciListElement_s)
    (dci : UlDciListElement_s) (stat : List Nat) (cnt : Nat)
    (hnack : e.m_receptionStatus = ReceptionStatus_e.NotOk)
    (hproc : s.m_ulHarqCurrentProcessId.find e.m_rnti = some c) (hc : c < 8)
    (hperiod : env.HARQ_PERIOD % 8 ≠ 0)
    (hdcis : s.m_ulHarqProcessesDciBuffer.find e.m_rnti = some dcis)
    (hdcisLen : dcis.length = 8)
    (hdci : dcis[ulHarqId env c]? = some dci)
    (hstat : s.m_ulHarqProcessesStatus.find e.m_rnti = some stat)
    (hstatLen : stat.length = 8)
    (hcnt : stat[ulHarqId env c]? = some cnt) (hlt : cnt < 3)
    (hfree : ∀ i, dci.m_rbStart ≤ i → i < dci.m_rbStart + dci.m_rbLen →
      l.rbMap[i]? = some false)
    (hgrid : l.rbMap.length ≤ l.rbgAllocationMap.length) :
    ulHarqId env c < 8 ∧
    (ulHarqId env c : Int) = ((c : Int) - (env.HARQ_PERIOD : Int)) % 8 ∧
    ∃ s1 l1 stat1 dcis1,
      ulHarqFeedbackEntry env e s l = .ok (s1, l1) ∧
      l1.dciList = l.dciList ++ [{ dci with m_ndi := 0 }] ∧
      s1.m_ulHarqProcessesStatus.find e.m_rnti = some stat1 ∧
      stat1[c]? = some (cnt + 1) ∧ stat1[ulHarqId env c]? = some 0 ∧
      s1.m_ulHarqProcessesDciBuffer.find e.m_rnti = some dcis1 ∧
      dcis1[c]? = some { dci with m_ndi := 0 } := by
  obtain ⟨hh, hres⟩ := ulHarqId_spec env c
  refine ⟨hh, hres, ?_⟩
  have hne : ulHarqId env c ≠ c := by
    intro heq
    rw [heq] at hres
    omega
  have hin : ∀ i, dci.m_rbStart ≤ i → i < dci.m_rbStart + dci.m_rbLen →
      i < l.rbMap.length ∧ i < l.rbgAllocationMap.length := by
    intro i h1 h2
    have h3 := (List.getElem?_eq_some_iff.mp (hfree i h1 h2)).1
    exact ⟨h3, by omega⟩
  obtain ⟨r, a, hres1⟩ := ulRangeReserve_ok dci.m_rnti dci.m_rbLen dci.m_rbStart l.rbMap
    l.rbgAllocationMap hin
  have hfr := ulRangeFree_free l.rbMap dci.m_rbLen dci.m_rbStart true hfree
  have h1 : vecAt dcis (ulHarqId env c) = .ok dci := (vecAt_eq_ok _ _ _).mpr hdci
  have h2 : vecAt stat (ulHarqId env c) = .ok cnt := (vecAt_eq_ok _ _ _).mpr hcnt
  have h3 : vecSet stat c ((cnt + 1) % 256) = .ok (stat.set c (cnt + 1)) := by
    rw [Nat.mod_eq_of_lt (by omega)]
    exact vecSet_of_lt _ _ _ (by omega)
  have h4 : vecSet (stat.set c (cnt + 1)) (ulHarqId env c) 0 =
      .ok ((stat.set c (cnt + 1)).set (ulHarqId env c) 0) :=
    vecSet_of_lt _ _ _ (by simp; omega)
  have h5 : vecSet dcis c { dci with m_ndi := 0 } = .ok (dcis.set c { dci with m_ndi := 0 }) :=
    vecSet_of_lt _ _ _ (by omega)
  have h6 : ¬ (cnt ≥ 3) := by omega
  refine ⟨{ s with
      m_ulHarqProcessesStatus :=
        s.m_ulHarqProcessesStatus.assign e.m_rnti
          ((stat.set c (cnt + 1)).set (ulHarqId env c) 0),
      m_ulHarqProcessesDciBuffer :=
        s.m_ulHarqProcessesDciBuffer.assign e.m_rnti (dcis.set c { dci with m_ndi := 0 }) },
    { l with rbMap := r, rbgAllocationMap := a,
             dciList := l.dciList ++ [{ dci with m_ndi := 0 }],
             rntiAllocated := setInsert l.rntiAllocated dci.m_rnti },
    (stat.set c (cnt + 1)).set (ulHarqId env c) 0,
    dcis.set c { dci with m_ndi := 0 }, ?_, ?_, ?_, ?_, ?_, ?_, ?_⟩
  · simp only [ulHarqFeedbackEntry, hnack, if_true, hproc, hdcis, h1, hstat, h2, if_neg h6,
      hfr, hres1, h3, h4, h5]
  · rfl
  · exact RMap.find_assign_self _ _ _ _ hstat
  · rw [List.getElem?_set_ne (fun h => hne h)]
    rw [List.getElem?_set_self (by omega)]
  · rw [List.getElem?_set_self (by simp; omega)]
  · exact RMap.find_assign_self _ _ _ _ hdcis
  · rw [List.getElem?_set_self (by omega)]

/-- Witness of C21: after `ulGrantRequests` the current process id of user 1 is
7, the NACK addresses slot 0, which holds the descriptor of the grant with
count 0, and the grid of the pass is free. -/
theorem ul_nack_retransmits_from_offset_slot_witness :
    ulGrantState.m_ulHarqCurrentProcessId.find 1 = some 7 ∧
    ulHarqId exampleEnv 7 = 0 ∧
    ∃ s1 l1 stat1 dcis1,
      ulHarqFeedbackEntry exampleEnv (exampleUlNack 1) ulGrantState freshUlLocals
        = .ok (s1, l1) ∧
      l1.dciList = freshUlLocals.dciList ++ [{ exampleUlDci with m_ndi := 0 }] ∧
      s1.m_ulHarqProcessesStatus.find (exampleUlNack 1).m_rnti = some stat1 ∧
      stat1[7]? = some (0 + 1) ∧ stat1[ulHarqId exampleEnv 7]? = some 0 ∧
      s1.m_ulHarqProcessesDciBuffer.find (exampleUlNack 1).m_rnti = some dcis1 ∧
      dcis1[7]? = some { exampleUlDci with m_ndi := 0 } :=
  ⟨rfl, rfl,
   (ul_nack_retransmits_from_offset_slot exampleEnv (exampleUlNack 1) ulGrantState
     freshUlLocals 7 (exampleUlDci :: List.replicate 7 UlDciListElement_s.empty) exampleUlDci
     [0, 0, 0, 0, 0, 0, 0, 0] 0 rfl rfl (by decide) (by decide) rfl rfl rfl rfl rfl rfl
     (by decide) (by decide) (by decide)).2.2⟩

/-! ## What the channel reads of the uplink pass write -/

theorem ulCqiFrame_refl (s : SchedState) : UlCqiFrame s s := ⟨s.m_ueCqi, rfl⟩

theorem ulCqiFrame_trans {s s1 s2 : SchedState} (h1 : UlCqiFrame s s1)
    (h2 : UlCqiFrame s1 s2) : UlCqiFrame s s2 := by
  obtain ⟨c1, rfl⟩ := h1
  obtain ⟨c2, rfl⟩ := h2
  exact ⟨c2, rfl⟩

theorem estimateUlSinr_frame (env : Env) (s s1 : SchedState) (rnti rb : Nat) (x : Int)
    (h : EstimateUlSinr env s rnti rb = .ok (x, s1)) : UlCqiFrame s s1 := by
  simp only [EstimateUlSinr] at h
  split at h
  · simp only [Except.ok.injEq, Prod.mk.injEq] at h
    obtain ⟨_, rfl⟩ := h
    exact ulCqiFrame_refl _
  · split at h
    · cases h
    · split at h
      · cases h
      · simp only [Except.ok.injEq, Prod.mk.injEq] at h
        obtain ⟨_, rfl⟩ := h
        exact ⟨_, rfl⟩

theorem ulSampleOrEstimate_frame (env : Env) (s s1 : SchedState) (rnti i : Nat)
    (who : Option Nat) (rb : Nat) (x : Int)
    (h : ulSampleOrEstimate env s rnti i who rb = .ok (x, s1)) : UlCqiFrame s s1 := by
  simp only [ulSampleOrEstimate] at h
  split at h
  · cases h
  · split at h
    · cases h
    · split at h
      · split at h
        · cases h
        · exact estimateUlSinr_frame _ _ _ _ _ _ h
      · simp only [Except.ok.injEq, Prod.mk.injEq] at h
        obtain ⟨_, rfl⟩ := h
        exact ulCqiFrame_refl _

theorem ulMinSinrLoop_frame (env : Env) (rnti : Nat) (who : Option Nat) :
    ∀ (n i : Nat) (s s1 : SchedState) (m x : Int),
      ulMinSinrLoop env rnti who n i s m = .ok (x, s1) → UlCqiFrame s s1 := by
  intro n
  induction n with
  | zero =>
    intro i s s1 m x h
    simp only [ulMinSinrLoop, Except.ok.injEq, Prod.mk.injEq] at h
    obtain ⟨_, rfl⟩ := h
    exact ulCqiFrame_refl _
  | succ n ih =>
    intro i s s1 m x h
    simp only [ulMinSinrLoop] at h
    split at h
    · cases h
    · rename_i y s2 hs
      exact ulCqiFrame_trans (ulSampleOrEstimate_frame _ _ _ _ _ _ _ _ hs) (ih _ _ _ _ _ h)

theorem ulMcsFromSamples_frame (env : Env) (s s1 : SchedState) (rnti : Nat)
    (who : Option Nat) (rbStart rbLen mcs : Nat)
    (h : ulMcsFromSamples env s rnti who rbStart rbLen = .ok (mcs, s1)) :
    UlCqiFrame s s1 := by
  simp only [ulMcsFromSamples] at h
  split at h
  · cases h
  · split at h
    · cases h
    · split at h
      · cases h
      · rename_i y s2 hs
        split at h
        · cases h
        · rename_i z s3 hl
          split at h
          · cases h
          · simp only [Except.ok.injEq, Prod.mk.injEq] at h
            obtain ⟨_, rfl⟩ := h
            exact ulCqiFrame_trans (ulSampleOrEstimate_frame _ _ _ _ _ _ _ _ hs)
              (ulMinSinrLoop_frame _ _ _ _ _ _ _ _ _ hl)

/-- The per-layer loop of a descriptor writes uplink samples only; the
transport-block size it leaves is a 16-bit value, and 0 when the flow has no
block. -/
theorem ulDescLayers_spec (env : Env) (rnti rbStart rbLen rbPerFlow : Nat) :
    ∀ (n : Nat) (s s1 : SchedState) (acc : Option (Nat × Nat)) (mcs tb : Nat),
      (∀ m t, acc = some (m, t) → t < 65536 ∧ (rbPerFlow = 0 → t = 0)) →
      ulDescLayers env rnti rbStart rbLen rbPerFlow n s acc = .ok (s1, some (mcs, tb)) →
      UlCqiFrame s s1 ∧ tb < 65536 ∧ (rbPerFlow = 0 → tb = 0) := by
  intro n
  induction n with
  | zero =>
    intro s s1 acc mcs tb hacc h
    simp only [ulDescLayers, Except.ok.injEq, Prod.mk.injEq] at h
    obtain ⟨rfl, h2⟩ := h
    exact ⟨ulCqiFrame_refl _, hacc mcs tb h2⟩
  | succ n ih =>
    intro s s1 acc mcs tb _ h
    simp only [ulDescLayers] at h
    split at h
    · cases h
    · rename_i m s2 hm
      have h2 : UlCqiFrame s s2 := by
        split at hm
        · simp only [Except.ok.injEq, Prod.mk.injEq] at hm
          obtain ⟨_, rfl⟩ := hm
          exact ulCqiFrame_refl _
        · exact ulMcsFromSamples_frame _ _ _ _ _ _ _ _ hm
      have h3 := ih _ _ _ _ _ (fun m1 t1 he => by
        simp only [Option.some.injEq, Prod.mk.injEq] at he
        obtain ⟨_, rfl⟩ := he
        constructor
        · split
          · omega
          · exact Nat.mod_lt _ (by decide)
        · intro hz
          simp only [hz, if_true]) h
      exact ⟨ulCqiFrame_trans h2 h3.1, h3.2⟩

/-- Archiving an uplink descriptor writes the uplink HARQ tables only. -/
theorem ulStoreDci_frame (s s1 : SchedState) (uldci : UlDciListElement_s)
    (h : ulStoreDci s uldci = .ok s1) :
    ∃ dcis stat, s1 = { s with m_ulHarqProcessesDciBuffer := dcis,
                               m_ulHarqProcessesStatus := stat } := by
  simp only [ulStoreDci] at h
  split at h
  · cases h
  · split at h
    · cases h
    · split at h
      · cases h
      · split at h
        · cases h
        · split at h
          · cases h
          · simp only [Except.ok.injEq] at h
            subst h
            exact ⟨_, _, rfl⟩

/-- `UpdateUlRlcBufferInfo` for a user with a buffer-status entry `b` and a
size of at least 2: the entry is reduced by the size less 2, and is 0 when it
is smaller than that. -/
theorem updateUlRlcBufferInfo_bsr (s : SchedState) (rnti size b : Nat)
    (hb : s.m_ceBsrRxed.find rnti = some b) (h2 : 2 ≤ size) (h16 : size < 65536) :
    (UpdateUlRlcBufferInfo s rnti size).m_ceBsrRxed.find rnti =
      some (if b ≥ size - 2 then b - (size - 2) else 0) := by
  have e : (size + 65536 - 2) % 65536 = size - 2 := by omega
  simp only [UpdateUlRlcBufferInfo, hb, e]
  exact RMap.find_assign_self _ _ _ _ hb

/-- The descriptor the loop body builds for the entry `(rnti, rbPerFlow)`, and
what the body writes. -/
theorem ulDescEntry_spec (env : Env) (rnti rbPerFlow rbAllocated : Nat) (s s1 : SchedState)
    (uldci : UlDciListElement_s)
    (h : ulDescEntry env rnti rbPerFlow rbAllocated s = .ok (s1, uldci)) :
    uldci.m_rnti = rnti ∧ uldci.m_ndi = 1 ∧ uldci.m_rbLen = rbPerFlow % 256 ∧
    uldci.m_tbSize < 65536 ∧ (rbPerFlow = 0 → uldci.m_tbSize = 0) ∧
    s1.m_ulBandwidth = s.m_ulBandwidth ∧ s1.m_flowStatsUl = s.m_flowStatsUl ∧
    s1.m_ceBsrRxed = (UpdateUlRlcBufferInfo s rnti uldci.m_tbSize).m_ceBsrRxed := by
  simp only [ulDescEntry] at h
  split at h
  · cases h
  · split at h
    · cases h
    · cases h
    · rename_i s2 mcs tb hlay
      obtain ⟨⟨cqi, rfl⟩, htb, hz⟩ := ulDescLayers_spec _ _ _ _ _ _ _ _ _ _ _
        (fun m t he => by cases he) hlay
      split at h
      · cases h
      · rename_i s3 hst
        simp only [Except.ok.injEq, Prod.mk.injEq] at h
        obtain ⟨rfl, rfl⟩ := h
        refine ⟨rfl, rfl, rfl, htb, hz, ?_⟩
        split at hst
        · obtain ⟨dcis, stat, rfl⟩ := ulStoreDci_frame _ _ _ hst
          refine ⟨?_, ?_, ?_⟩
          · simp only [UpdateUlRlcBufferInfo]; split <;> rfl
          · simp only [UpdateUlRlcBufferInfo]; split <;> rfl
          · simp only [UpdateUlRlcBufferInfo]; split <;> rfl
        · simp only [Except.ok.injEq] at hst
          subst hst
          refine ⟨?_, ?_, ?_⟩
          · simp only [UpdateUlRlcBufferInfo]; split <;> rfl
          · simp only [UpdateUlRlcBufferInfo]; split <;> rfl
          · simp only [UpdateUlRlcBufferInfo]; split <;> rfl

/-! ## The buffer status after an uplink grant -/

/-- C23, as the code has it: for every uplink new-data descriptor of
transport-block size `S` of at least 2 bytes, built for a user whose
buffer-status entry is `B`, the entry after the grant is `B - (S - 2)` when
`B ≥ S - 2` and 0 otherwise: `UpdateUlRlcBufferInfo` takes the minimum RLC
overhead of 2 bytes off the size before it reduces the entry. -/
theorem ul_grant_reduces_bsr_by_tb_less_overhead (env : Env)
    (rnti rbPerFlow rbAllocated : Nat) (s s1 : SchedState) (uldci : UlDciListElement_s)
    (B : Nat)
    (h : ulDescEntry env rnti rbPerFlow rbAllocated s = .ok (s1, uldci))
    (hB : s.m_ceBsrRxed.find rnti = some B)
    (hS : 2 ≤ uldci.m_tbSize) :
    s1.m_ceBsrRxed.find rnti =
      some (if B ≥ uldci.m_tbSize - 2 then B - (uldci.m_tbSize - 2) else 0) := by
  obtain ⟨_, _, _, h16, _, _, _, hbsr⟩ := ulDescEntry_spec _ _ _ _ _ _ _ h
  rw [hbsr]
  exact updateUlRlcBufferInfo_bsr s rnti uldci.m_tbSize B hB hS h16

/-- C23, the claim fails on the code: user 1 has reported 100 bytes and is
granted a transport block of 12 bytes; its buffer-status entry is 90 after the
pass, not 88. -/
theorem ul_grant_leaves_overhead_in_bsr :
    bsrState.m_ceBsrRxed.find 1 = some 100 ∧
    (DoSchedUlTriggerReq exampleEnv bsrState []).map
        (fun out => (out.2.map (fun dciList =>
            dciList.map (fun d => (d.m_rnti, d.m_ndi, d.m_tbSize))),
          out.1.m_ceBsrRxed.find 1))
      = .ok (some [(1, 1, 12)], some 90) :=
  ⟨rfl, rfl⟩

/-- Witness of C23: the grant of 12 bytes to user 1 in `bsrState`, whose entry
is 100, leaves 90. -/
theorem ul_grant_reduces_bsr_by_tb_less_overhead_witness :
    ulDescEntry exampleEnv 1 6 0 bsrState = .ok bsrGrant ∧
    bsrState.m_ceBsrRxed.find 1 = some 100 ∧ bsrGrant.2.m_tbSize = 12 ∧
    bsrGrant.1.m_ceBsrRxed.find 1 =
      some (if 100 ≥ bsrGrant.2.m_tbSize - 2 then 100 - (bsrGrant.2.m_tbSize - 2) else 0) ∧
    bsrGrant.1.m_ceBsrRxed.find 1 = some 90 :=
  ⟨rfl, rfl, rfl,
   ul_grant_reduces_bsr_by_tb_less_overhead exampleEnv 1 6 0 bsrState bsrGrant.1 bsrGrant.2
     100 rfl rfl (by decide), rfl⟩

/-! ## The descriptors of the uplink pass -/

/-- The per-layer loop of the selection writes uplink samples only, and the
best user it leaves is the one it started with or the flow it looks at. -/
theorem ulSelectLayers_frame (env : Env) (rnti : Nat) :
    ∀ (n : Nat) (s s1 : SchedState) (rate : Nat) (itMax it1 : Option Nat) (M M1 : Nat),
      ulSelectLayers env rnti n s rate itMax M = .ok (s1, it1, M1) →
      UlCqiFrame s s1 ∧ (it1 = itMax ∨ it1 = some rnti) := by
  intro n
  induction n with
  | zero =>
    intro s s1 rate itMax it1 M M1 h
    simp only [ulSelectLayers, Except.ok.injEq, Prod.mk.injEq] at h
    obtain ⟨rfl, rfl, _⟩ := h
    exact ⟨ulCqiFrame_refl _, Or.inl rfl⟩
  | succ n ih =>
    intro s s1 rate itMax it1 M M1 h
    simp only [ulSelectLayers] at h
    split at h
    · cases h
    · rename_i mcs s2 hm
      have h2 : UlCqiFrame s s2 := by
        split at hm
        · simp only [Except.ok.injEq, Prod.mk.injEq] at hm
          obtain ⟨_, rfl⟩ := hm
          exact ulCqiFrame_refl _
        · exact ulMcsFromSamples_frame _ _ _ _ _ _ _ _ hm
      split at h
      · have h3 := ih _ _ _ _ _ _ _ h
        refine ⟨ulCqiFrame_trans h2 h3.1, Or.inr ?_⟩
        rcases h3.2 with h4 | h4 <;> exact h4
      · have h3 := ih _ _ _ _ _ _ _ h
        exact ⟨ulCqiFrame_trans h2 h3.1, h3.2⟩

theorem ulSelectStep_frame (env : Env) (rntiAllocated : List Nat) (rnti : Nat)
    (s s1 : SchedState) (itMax it1 : Option Nat) (M M1 : Nat)
    (h : ulSelectStep env rntiAllocated rnti s itMax M = .ok (s1, it1, M1)) :
    UlCqiFrame s s1 ∧ (it1 = itMax ∨ it1 = some rnti) := by
  have hsame : ∀ {a : SchedState} {b : Option Nat} {c : Nat},
      (Except.ok (s, itMax, M) : Res (SchedState × Option Nat × Nat)) = .ok (a, b, c) →
      UlCqiFrame s a ∧ (b = itMax ∨ b = some rnti) := by
    intro a b c he
    simp only [Except.ok.injEq, Prod.mk.injEq] at he
    obtain ⟨rfl, rfl, _⟩ := he
    exact ⟨ulCqiFrame_refl _, Or.inl rfl⟩
  simp only [ulSelectStep] at h
  split at h
  · split at h
    · cases h
    · exact hsame h
  · split at h
    · cases h
    · split at h
      · exact hsame h
      · split at h
        · cases h
        · split at h
          · cases h
          · split at h
            · exact ulSelectLayers_frame _ _ _ _ _ _ _ _ _ _ h
            · exact hsame h

theorem ulSelectLoop_frame (env : Env) (rntiAllocated : List Nat) :
    ∀ (flows : List Nat) (s s1 : SchedState) (itMax it1 : Option Nat) (M M1 : Nat),
      ulSelectLoop env rntiAllocated flows s itMax M = .ok (s1, it1, M1) →
      UlCqiFrame s s1 ∧ (it1 = itMax ∨ ∃ r, r ∈ flows ∧ it1 = some r) := by
  intro flows
  induction flows with
  | nil =>
    intro s s1 itMax it1 M M1 h
    simp only [ulSelectLoop, Except.ok.injEq, Prod.mk.injEq] at h
    obtain ⟨rfl, rfl, _⟩ := h
    exact ⟨ulCqiFrame_refl _, Or.inl rfl⟩
  | cons rnti rest ih =>
    intro s s1 itMax it1 M M1 h
    simp only [ulSelectLoop] at h
    split at h
    · cases h
    · rename_i s2 it2 M2 hstep
      have h2 := ulSelectStep_frame _ _ _ _ _ _ _ _ _ hstep
      have h3 := ih _ _ _ _ _ _ h
      refine ⟨ulCqiFrame_trans h2.1 h3.1, ?_⟩
      rcases h3.2 with h4 | ⟨r, hr, h4⟩
      · rcases h2.2 with h5 | h5
        · exact Or.inl (h4.trans h5)
        · exact Or.inr ⟨rnti, List.mem_cons_self _ _, h4.trans h5⟩
      · exact Or.inr ⟨r, List.mem_cons_of_mem _ hr, h4⟩

/-- The first part of the uplink pass leaves an allocation map of the size of
the grid, and the user it selects is a flow of `m_flowStatsUl`. -/
theorem ulPassSelect_spec (env : Env) (s s1 : SchedState)
    (ulInfoList : List UlInfoListElement_s) (l : UlLocals) (itMax : Option Nat)
    (h : ulPassSelect env s ulInfoList = .ok (s1, l, itMax)) :
    l.rbgAllocationMap.length = s1.m_ulBandwidth ∧
    ∀ r, itMax = some r → r ∈ s1.m_flowStatsUl := by
  simp only [ulPassSelect] at h
  split at h
  · cases h
  · split at h
    · cases h
    · split at h
      · cases h
      · rename_i sb lb hfb
        split at h
        · cases h
        · rename_i sc it M hsel
          simp only [Except.ok.injEq, Prod.mk.injEq] at h
          obtain ⟨rfl, rfl, rfl⟩ := h
          obtain ⟨⟨cqi, rfl⟩, hit⟩ := ulSelectLoop_frame _ _ _ _ _ _ _ _ _ hsel
          refine ⟨vecResize_length _ _ _, fun r hr => ?_⟩
          rcases hit with h1 | ⟨r1, hr1, h1⟩
          · rw [h1] at hr; cases hr
          · rw [h1] at hr
            simp only [Option.some.injEq] at hr
            subst hr
            exact hr1

/-- The descriptor loop appends one descriptor with NDI 1 for every entry of
`allocationMap`, in order; its length is the number of blocks of the entry and
its transport-block size is 0 when the entry has no block. -/
theorem ulDescLoop_spec (env : Env) :
    ∀ (entries : List (Nat × Nat)) (rbAllocated : Nat) (s s1 : SchedState)
      (dciList out : List UlDciListElement_s),
      ulDescLoop env entries rbAllocated s dciList = .ok (s1, out) →
      ∃ news, out = dciList ++ news ∧
        news.map (fun d => d.m_rnti) = entries.map Prod.fst ∧
        ∀ d, d ∈ news → d.m_ndi = 1 ∧
          ∃ n, (d.m_rnti, n) ∈ entries ∧ d.m_rbLen = n % 256 ∧ (n = 0 → d.m_tbSize = 0) := by
  intro entries
  induction entries with
  | nil =>
    intro rbAllocated s s1 dciList out h
    simp only [ulDescLoop, Except.ok.injEq, Prod.mk.injEq] at h
    obtain ⟨_, rfl⟩ := h
    exact ⟨[], by simp, rfl, fun d hd => by cases hd⟩
  | cons entry rest ih =>
    intro rbAllocated s s1 dciList out h
    obtain ⟨rnti, n⟩ := entry
    simp only [ulDescLoop] at h
    split at h
    · cases h
    · rename_i s2 uldci hent
      obtain ⟨h1, h2, h3, _, h5, _⟩ := ulDescEntry_spec _ _ _ _ _ _ _ hent
      obtain ⟨news, rfl, hk, hall⟩ := ih _ _ _ _ _ h
      refine ⟨uldci :: news, by simp, by simp [h1, hk], fun d hd => ?_⟩
      rcases List.mem_cons.mp hd with rfl | hd
      · exact ⟨h2, n, by rw [h1]; exact List.mem_cons_self _ _, h3, h5⟩
      · obtain ⟨g1, m, g2, g3⟩ := hall d hd
        exact ⟨g1, m, List.mem_cons_of_mem _ g2, g3⟩

/-- After the statement that assigns all blocks to the selected user, the
allocation map of a grid-sized vector names that user in every block. -/
theorem ulAssignAll_alloc (ulBandwidth rnti : Nat) (l l1 : UlLocals)
    (hlen : l.rbgAllocationMap.length = ulBandwidth)
    (h : ulAssignAll ulBandwidth rnti l = .ok l1) :
    l1.rbgAllocationMap = List.replicate ulBandwidth rnti ∧ l1.dciList = l.dciList := by
  simp only [ulAssignAll] at h
  split at h
  · cases h
  · split at h
    · cases h
    · rename_i alloc1 hfill
      simp only [Except.ok.injEq] at h
      subst h
      obtain ⟨f1, _, f3⟩ := vecFill_spec _ _ _ _ _ hfill
      refine ⟨?_, rfl⟩
      apply List.ext_getElem?
      intro k
      show alloc1[k]? = _
      rw [f3 k]
      by_cases hk : k < ulBandwidth
      · have : 0 ≤ k ∧ k < 0 + ulBandwidth := ⟨Nat.zero_le _, by omega⟩
        simp only [this, and_self, if_true]
        rw [List.getElem?_replicate]
        simp [hk]
      · have : ¬ (0 ≤ k ∧ k < 0 + ulBandwidth) := by omega
        simp only [this, if_false]
        rw [List.getElem?_eq_none (by omega), List.getElem?_eq_none (by simp; omega)]

/-- The entries of `allocationMap` when every block names the user `rnti`. -/
theorem ulAllocationMap_replicate (flows : List Nat) (n rnti : Nat) :
    ulAllocationMap flows (List.replicate n rnti) =
      flows.map (fun flow => (flow, if flow = rnti then n else 0)) := by
  simp only [ulAllocationMap]
  apply List.map_congr_left
  intro flow _
  by_cases hf : flow = rnti
  · subst hf
    simp
  · have : ¬ rnti = flow := fun e => hf e.symm
    simp [hf, this, List.filter_replicate]

/-- The batch of an uplink pass in which a new-data user is selected and which
completes: the selected user is a flow of `m_flowStatsUl` and the batch is the
list of retransmission descriptors followed by one descriptor with NDI 1 for
every flow of `m_flowStatsUl`, in the order of the set; the descriptor of the
selected user has the length of the whole grid, and the descriptor of every
other flow has length 0 and transport-block size 0. -/
theorem ulPass_descriptors_of_selection (env : Env) (s s1 s2 : SchedState)
    (ulInfoList : List UlInfoListElement_s) (l : UlLocals) (rntiMax : Nat)
    (out : Option (List UlDciListElement_s))
    (hsel : ulPassSelect env s ulInfoList = .ok (s1, l, some rntiMax))
    (hpass : DoSchedUlTriggerReq env s ulInfoList = .ok (s2, out)) :
    rntiMax ∈ s1.m_flowStatsUl ∧
    ∃ news, out = some (l.dciList ++ news) ∧
      news.map (fun d => d.m_rnti) = s1.m_flowStatsUl ∧
      ∀ d, d ∈ news → d.m_ndi = 1 ∧
        d.m_rbLen = (if d.m_rnti = rntiMax then s1.m_ulBandwidth % 256 else 0) ∧
        (d.m_rnti ≠ rntiMax → d.m_tbSize = 0) := by
  obtain ⟨hlen, hflow⟩ := ulPassSelect_spec _ _ _ _ _ _ hsel
  refine ⟨hflow rntiMax rfl, ?_⟩
  simp only [DoSchedUlTriggerReq, hsel] at hpass
  split at hpass
  · cases hpass
  · rename_i l1 hassign
    obtain ⟨halloc, hdci⟩ := ulAssignAll_alloc _ _ _ _ hlen hassign
    rw [halloc, ulAllocationMap_replicate, hdci] at hpass
    split at hpass
    · cases hpass
    · rename_i s3 dciList hloop
      simp only [Except.ok.injEq, Prod.mk.injEq] at hpass
      obtain ⟨_, rfl⟩ := hpass
      obtain ⟨news, rfl, hk, hall⟩ := ulDescLoop_spec _ _ _ _ _ _ _ hloop
      refine ⟨news, rfl, ?_, fun d hd => ?_⟩
      · rw [hk, List.map_map]
        exact List.map_id _
      · obtain ⟨g1, n, g2, g3, g4⟩ := hall d hd
        obtain ⟨flow, _, hfl⟩ := List.mem_map.mp g2
        simp only [Prod.mk.injEq] at hfl
        obtain ⟨rfl, rfl⟩ := hfl
        refine ⟨g1, ?_, fun hne => ?_⟩
        · rw [g3]
          split <;> rfl
        · exact g4 (by simp only [hne, if_false])

/-- C22, the claim fails on the code: with two flows and no CQI report the
pass selects user 1, and the batch has two descriptors with NDI 1, one of 6
blocks for user 1 and one of 0 blocks and 0 bytes, at block 5, for user 2, which
was not selected. -/
theorem ul_pass_emits_descriptor_for_unselected_user :
    twoUlFlowsSelect.2.2 = some 1 ∧
    (DoSchedUlTriggerReq exampleEnv twoUlFlowsState []).map (fun r => r.2) =
      .ok (some [{ m_rnti := 1, m_rbStart := 0, m_rbLen := 6, m_tbSize := 12, m_mcs := 0,
                   m_ndi := 1 },
                 { m_rnti := 2, m_rbStart := 5, m_rbLen := 0, m_tbSize := 0, m_mcs := 0,
                   m_ndi := 1 }]) :=
  ⟨rfl, rfl⟩

/-! ## The batch of an uplink pass without new-data user -/

/-- C24, the code at the failing input: after `ulGrantRequests` user 1 is the
only flow and a NACK of its uplink transmission arrives. The feedback step
builds the retransmission descriptor (blocks `[0, 6)`, NDI 0) and records the
retransmission in the HARQ tables (count 1 in slot 7); the user is then served,
so the selection finds no new-data user, and the pass hands nothing over. -/
theorem ul_pass_without_new_data_user_drops_retx :
    (ulPassSelect exampleEnv ulGrantState [exampleUlNack 1]).map
        (fun r => (r.2.1.dciList, r.2.1.rntiAllocated, r.2.2))
      = .ok ([{ exampleUlDci with m_ndi := 0 }], [1], none) ∧
    (handle exampleEnv ulGrantState (Request.SchedUlTriggerReq [exampleUlNack 1])).map
        (fun r => (r.2, r.1.m_ulHarqProcessesStatus.find 1))
      = .ok (Indication.none, some [0, 0, 0, 0, 0, 0, 0, 1]) :=
  ⟨rfl, rfl⟩

/-! ## Release of a user -/

theorem ledgerFind_filter_self (rnti : Nat) (flow : LteFlowId_t) (h : flow.m_rnti = rnti) :
    ∀ ledger : List (LteFlowId_t × SchedDlRlcBufferReqParameters),
      ledgerFind flow (ledger.filter (fun kv => !(kv.1.m_rnti == rnti))) = none := by
  intro ledger
  induction ledger with
  | nil => rfl
  | cons kv rest ih =>
    obtain ⟨k, v⟩ := kv
    by_cases hk : k.m_rnti = rnti
    · simp only [List.filter, hk, beq_self_eq_true, Bool.not_true]
      exact ih
    · have hb : (!(k.m_rnti == rnti)) = true := by simp [hk]
      have hne : ¬ k = flow := fun e => hk (by rw [e]; exact h)
      simp only [List.filter, hb, ledgerFind, hne, if_false]
      exact ih

theorem ledgerFind_filter_ne (rnti : Nat) (flow : LteFlowId_t) (h : flow.m_rnti ≠ rnti) :
    ∀ ledger : List (LteFlowId_t × SchedDlRlcBufferReqParameters),
      ledgerFind flow (ledger.filter (fun kv => !(kv.1.m_rnti == rnti))) =
        ledgerFind flow ledger := by
  intro ledger
  induction ledger with
  | nil => rfl
  | cons kv rest ih =>
    obtain ⟨k, v⟩ := kv
    by_cases hk : k.m_rnti = rnti
    · have hne : ¬ k = flow := fun e => h (by rw [← e]; exact hk)
      simp only [List.filter, hk, beq_self_eq_true, Bool.not_true, ledgerFind, hne, if_false]
      exact ih
    · have hb : (!(k.m_rnti == rnti)) = true := by simp [hk]
      simp only [List.filter, hb, ledgerFind]
      by_cases hf : k = flow
      · simp only [hf, if_true]
      · simp only [hf, if_false]
        exact ih

/-- C25, as the code has it: after `DoCschedUeReleaseReq` for a user the
transmission mode, the downlink and uplink HARQ tables, the flow sets, the
ledger and the uplink buffer status hold no entry keyed by that user, and the
entries of every other user `u` in these stores are as before; the wideband,
subband and uplink channel-quality samples and their age counters are all left
as they are, those of the released user included. -/
theorem ue_release_purges_stores_but_cqi (s : SchedState) (rnti u : Nat) (hu : u ≠ rnti) :
    ReleasePurged (DoCschedUeReleaseReq s rnti) rnti ∧
    UserEntriesEq s (DoCschedUeReleaseReq s rnti) u ∧
    CqiStoresEq s (DoCschedUeReleaseReq s rnti) := by
  refine ⟨⟨RMap.find_erase_self _ _, RMap.find_erase_self _ _, RMap.find_erase_self _ _,
      RMap.find_erase_self _ _, RMap.find_erase_self _ _, RMap.find_erase_self _ _,
      RMap.find_erase_self _ _, RMap.find_erase_self _ _, RMap.find_erase_self _ _,
      ?_, ?_, RMap.find_erase_self _ _, fun flow hf => ledgerFind_filter_self rnti flow hf _⟩,
    ⟨RMap.find_erase_ne _ _ _ hu, RMap.find_erase_ne _ _ _ hu, RMap.find_erase_ne _ _ _ hu,
      RMap.find_erase_ne _ _ _ hu, RMap.find_erase_ne _ _ _ hu, RMap.find_erase_ne _ _ _ hu,
      RMap.find_erase_ne _ _ _ hu, RMap.find_erase_ne _ _ _ hu, RMap.find_erase_ne _ _ _ hu,
      ?_, ?_, RMap.find_erase_ne _ _ _ hu,
      fun flow hf => ledgerFind_filter_ne rnti flow (by rw [hf]; exact hu) _⟩,
    ⟨rfl, rfl, rfl, rfl, rfl, rfl⟩⟩
  · show rnti ∉ setErase s.m_flowStatsDl rnti
    simp [setErase]
  · show rnti ∉ setErase s.m_flowStatsUl rnti
    simp [setErase]
  · show u ∈ setErase s.m_flowStatsDl rnti ↔ u ∈ s.m_flowStatsDl
    simp [setErase, hu]
  · show u ∈ setErase s.m_flowStatsUl rnti ↔ u ∈ s.m_flowStatsUl
    simp [setErase, hu]

/-- C25, the claim fails on the code: user 1 has reported a wideband CQI, a
subband CQI and an SRS measurement; after its release the three stores still
hold its samples and their age counters. -/
theorem ue_release_keeps_cqi_samples :
    releaseState.m_uesTxMode.find 1 = none ∧
    releaseState.m_p10CqiRxed.find 1 = some 9 ∧
    releaseState.m_p10CqiTimers.find 1 = some 1000 ∧
    releaseState.m_a30CqiRxed.find 1 = some [7, 8] ∧
    releaseState.m_a30CqiTimers.find 1 = some 1000 ∧
    releaseState.m_ueCqi.find 1 = some [3, 3, 3, 3, 3, 3] ∧
    releaseState.m_ueCqiTimers.find 1 = some 1000 :=
  ⟨rfl, rfl, rfl, rfl, rfl, rfl, rfl⟩

/-- Witness of C25: the release of user 1 in `twoFlowsState`, seen from user 2,
whose transmission mode and flow stay. -/
theorem ue_release_purges_stores_but_cqi_witness :
    (2 ≠ 1) ∧ twoFlowsState.m_uesTxMode.find 1 = some 0 ∧
    (DoCschedUeReleaseReq twoFlowsState 1).m_uesTxMode.find 2 = some 0 ∧
    (ReleasePurged (DoCschedUeReleaseReq twoFlowsState 1) 1 ∧
     UserEntriesEq twoFlowsState (DoCschedUeReleaseReq twoFlowsState 1) 2 ∧
     CqiStoresEq twoFlowsState (DoCschedUeReleaseReq twoFlowsState 1)) :=
  ⟨by decide, rfl, rfl, ue_release_purges_stores_but_cqi twoFlowsState 1 2 (by decide)⟩

/-- The release does not look at the carried-over HARQ feedback: the entry of
the released user 2 stays in `m_dlInfoListBuffered`, and the next downlink pass
stops with the fatal error of a user without HARQ buffer. -/
theorem ue_release_keeps_carried_over_feedback :
    releaseCarriedState.m_dlInfoListBuffered = [exampleNack 2] ∧
    releaseCarriedState.m_dlHarqProcessesDciBuffer.find 2 = none ∧
    (handle exampleEnv releaseCarriedState (Request.SchedDlTriggerReq [])).map
        (fun r => r.2) = .error Fault.fatal :=
  ⟨rfl, rfl, rfl⟩

/-! ## Channel-quality reports of other types -/

/-- C26, as the code has it: a downlink report element whose type is neither
P10 nor A30 is skipped (the source logs it), so that the request goes on with
the remaining elements from the same scheduler; and under either setting of the
uplink filter (SRS or PUSCH) an uplink report of type PUCCH_1, PUCCH_2 or PRACH
is filtered out before the type switch: the request returns and the scheduler
is unchanged. Neither stops with a fatal error. -/
theorem cqi_report_of_other_type_is_skipped (env : Env) (s : SchedState)
    (c : CqiListElement_s) (rest : List CqiListElement_s)
    (params : SchedUlCqiInfoReqParameters)
    (hc1 : c.m_cqiType ≠ CqiType_e.P10) (hc2 : c.m_cqiType ≠ CqiType_e.A30)
    (hp : params.m_type = UlCqiType_e.PUCCH_1 ∨ params.m_type = UlCqiType_e.PUCCH_2 ∨
      params.m_type = UlCqiType_e.PRACH)
    (hf : s.m_ulCqiFilter ≠ UlCqiFilter_t.other) :
    dlCqiInfoEntry s c = .ok s ∧
    DoSchedDlCqiInfoReq s (c :: rest) = DoSchedDlCqiInfoReq s rest ∧
    DoSchedUlCqiInfoReq env s params = .ok s := by
  have h1 : dlCqiInfoEntry s c = .ok s := by
    simp only [dlCqiInfoEntry, hc1, hc2, if_false]
  refine ⟨h1, ?_, ?_⟩
  · simp only [DoSchedDlCqiInfoReq, h1]
  · have hsrs : params.m_type ≠ UlCqiType_e.SRS := by
      rcases hp with h | h | h <;> rw [h] <;> decide
    have hpusch : params.m_type ≠ UlCqiType_e.PUSCH := by
      rcases hp with h | h | h <;> rw [h] <;> decide
    simp only [DoSchedUlCqiInfoReq, ulCqiFilterPass]
    cases hfil : s.m_ulCqiFilter with
    | SRS_UL_CQI => simp [hsrs]
    | PUSCH_UL_CQI => simp [hpusch]
    | other => exact absurd hfil hf

/-- C26, the claim fails on the code: a downlink report with an element of type
P11 and an uplink report of type PUCCH_1 both return without error, the first
with the wideband sample of the other element recorded and nothing for user 1,
the second with the scheduler as it was. -/
theorem cqi_report_of_other_type_is_not_fatal :
    (DoSchedDlCqiInfoReq exampleInit [exampleP11, exampleCqi 2 9]).map
        (fun s => (s.m_p10CqiRxed, s.m_a30CqiRxed)) = .ok ([(2, 9)], []) ∧
    DoSchedUlCqiInfoReq exampleEnv exampleInit (exampleUlReport UlCqiType_e.PUCCH_1)
      = .ok exampleInit ∧
    DoSchedUlCqiInfoReq exampleEnv
        (SchedState.init true 1000 0 UlCqiFilter_t.PUSCH_UL_CQI)
        (exampleUlReport UlCqiType_e.PRACH)
      = .ok (SchedState.init true 1000 0 UlCqiFilter_t.PUSCH_UL_CQI) :=
  ⟨rfl, rfl, rfl⟩

/-- Witness of C26: a P11 element and a PUCCH_2 report at the scheduler of the
examples, whose uplink filter is SRS. -/
theorem cqi_report_of_other_type_is_skipped_witness :
    exampleP11.m_cqiType ≠ CqiType_e.P10 ∧ exampleP11.m_cqiType ≠ CqiType_e.A30 ∧
    exampleInit.m_ulCqiFilter ≠ UlCqiFilter_t.other ∧
    (dlCqiInfoEntry exampleInit exampleP11 = .ok exampleInit ∧
     DoSchedDlCqiInfoReq exampleInit (exampleP11 :: [exampleCqi 2 9]) =
       DoSchedDlCqiInfoReq exampleInit [exampleCqi 2 9] ∧
     DoSchedUlCqiInfoReq exampleEnv exampleInit (exampleUlReport UlCqiType_e.PUCCH_2)
       = .ok exampleInit) :=
  ⟨by decide, by decide, by decide,
   cqi_report_of_other_type_is_skipped exampleEnv exampleInit exampleP11 [exampleCqi 2 9]
     (exampleUlReport UlCqiType_e.PUCCH_2) (by decide) (by decide) (Or.inr (Or.inl rfl))
     (by decide)⟩

/-! ## A user without wideband sample -/

/-- Without stored CQI the layer loop of the new DCI pushes MCS 0 for every
layer, with the transport-block size of MCS 0. -/
theorem newDciLayers_none (env : Env) (nPrb : Nat) :
    ∀ (n : Nat) (mcs tbs : List Nat),
      newDciLayers env none nPrb n mcs tbs =
        (mcs ++ List.replicate n 0,
         tbs ++ List.replicate n (env.GetDlTbSizeFromMcs 0 nPrb / 8 % 65536)) := by
  intro n
  induction n with
  | zero => intro mcs tbs; simp [newDciLayers]
  | succ n ih =>
    intro mcs tbs
    simp only [newDciLayers, ih, List.append_assoc, List.singleton_append,
      List.replicate_succ]

/-- C28: a user without wideband CQI sample that is not served by a
retransmission in the pass, has a free HARQ process, a transmission mode and
pending data passes the tests of the selection loop: the loop takes its CQI to
be 1, computes its metric from that and returns without fault, with the user as
the best one when that metric beats the best so far; and every new-data
descriptor granted to it carries MCS 0 on each layer of its transmission mode
(with the transport-block sizes of MCS 0). -/
theorem dl_user_without_cqi_is_eligible_with_mcs_zero (env : Env) (s : SchedState)
    (rbgSize : Nat) (rntiAllocated : List Nat) (rnti txMode : Nat) (itMax : Option Nat)
    (metricMax : Nat)
    (hcqi : s.m_p10CqiRxed.find rnti = none)
    (hnot : rnti ∉ rntiAllocated)
    (hharq : HarqProcessAvailability s rnti = .ok true)
    (htx : s.m_uesTxMode.find rnti = some txMode)
    (hlc : LcActivePerFlow s rnti > 0) :
    dlWbCqi s rnti = 1 ∧ DlCandidate s rntiAllocated rnti ∧
    dlSelectStep env s rbgSize rntiAllocated rnti itMax metricMax =
      .ok (if dlAchievableRate env rbgSize 1 (env.TxMode2LayerNum txMode) > metricMax
           then (some rnti, dlAchievableRate env rbgSize 1 (env.TxMode2LayerNum txMode))
           else (itMax, metricMax)) ∧
    ∀ tempMap s1 el, newDataGrant env rbgSize rnti tempMap s = .ok (s1, el) →
      el.m_dci.m_mcs = List.replicate (env.TxMode2LayerNum txMode) 0 ∧
      el.m_dci.m_tbsSize = List.replicate (env.TxMode2LayerNum txMode)
        (env.GetDlTbSizeFromMcs 0 (tempMap.length * rbgSize) / 8 % 65536) := by
  have hwb : dlWbCqi s rnti = 1 := by simp only [dlWbCqi, hcqi]
  have hne : dlWbCqi s rnti ≠ 0 := by rw [hwb]; decide
  refine ⟨hwb, ⟨hnot, hharq, hne, hlc⟩, ?_, ?_⟩
  · simp only [dlSelectStep, if_neg hnot, hharq, htx]
    rw [hwb]
    have h1 : ¬ ((true : Bool) = false) := by decide
    have h2 : (1 : Nat) ≠ 0 := by decide
    simp only [if_neg h1, if_pos h2, if_pos hlc]
    split <;> rfl
  · intro tempMap s1 el h
    simp only [newDataGrant] at h
    split at h
    · cases h
    · rename_i harqProcess sa hup
      obtain ⟨cur, st, tm, dc, ar, ledger, rfl⟩ := updateHarqProcessId_frame _ _ _ _ hup
      have htx1 : s.m_uesTxMode.find rnti = some txMode := htx
      have hcqi1 : s.m_p10CqiRxed.find rnti = none := hcqi
      simp only [htx1, hcqi1, newDciLayers_none, List.nil_append] at h
      split at h
      · cases h
      · split at h
        · cases h
        · simp only [Except.ok.injEq, Prod.mk.injEq] at h
          obtain ⟨_, rfl⟩ := h
          exact ⟨rfl, rfl⟩

/-- Witness of C28: user 1 of `twoLayersState` has two layers, pending data and
no sample; it is selected and its descriptor carries MCS 0 on both layers. -/
theorem dl_user_without_cqi_is_eligible_with_mcs_zero_witness :
    twoLayersState.m_p10CqiRxed.find 1 = none ∧
    dlSelect exampleEnv twoLayersState 1 [] = .ok (some 1) ∧
    newDataGrant exampleEnv 1 1 [0, 1, 2, 3, 4, 5] twoLayersState = .ok twoLayersGrant ∧
    twoLayersGrant.2.m_dci.m_mcs = [0, 0] ∧
    (dlWbCqi twoLayersState 1 = 1 ∧ DlCandidate twoLayersState [] 1 ∧
     dlSelectStep exampleEnv twoLayersState 1 [] 1 none 0 =
      .ok (if dlAchievableRate exampleEnv 1 1 (exampleEnv.TxMode2LayerNum 2) > 0
           then (some 1, dlAchievableRate exampleEnv 1 1 (exampleEnv.TxMode2LayerNum 2))
           else (none, 0)) ∧
     ∀ tempMap s1 el, newDataGrant exampleEnv 1 1 tempMap twoLayersState = .ok (s1, el) →
      el.m_dci.m_mcs = List.replicate (exampleEnv.TxMode2LayerNum 2) 0 ∧
      el.m_dci.m_tbsSize = List.replicate (exampleEnv.TxMode2LayerNum 2)
        (exampleEnv.GetDlTbSizeFromMcs 0 (tempMap.length * 1) / 8 % 65536)) :=
  ⟨rfl, rfl, rfl, rfl,
   dl_user_without_cqi_is_eligible_with_mcs_zero exampleEnv twoLayersState 1 [] 1 2 none 0
     rfl (by decide) rfl rfl (by decide)⟩

/-! ## The archive of a process granted again after a timeout -/

/-- C27, the code at the failing input: in `staleArchiveState` process 1 of
user 1 is busy with its timer at `HARQ_DL_TIMEOUT` and its layer-0 archive
holds the PDU of its grant (12 bytes). The next pass frees the process by
timeout and grants it again: the emitted descriptor has one layer-0 PDU of 132
bytes, the process is busy with timer 0 and the stored DCI is the emitted one,
but the archive holds the old PDU followed by the new one. -/
theorem dl_grant_appends_to_archive_left_by_timeout :
    harqView staleArchiveState 1 =
      (some [1, 1, 1, 1, 1, 1, 1, 1], some [4, 11, 10, 9, 8, 7, 6, 5],
       some [List.replicate 8 [{ m_logicalChannelIdentity := 3, m_size := 12 }],
             List.replicate 8 []]) ∧
    (handle exampleEnv staleArchiveState (Request.SchedDlTriggerReq [])).map
        (fun r => (dataListOf r.2, dlSlot r.1 1 1,
          (r.1.m_dlHarqProcessesTimer.find 1).bind (fun tm => tm[1]?),
          (r.1.m_dlHarqProcessesDciBuffer.find 1).bind (fun dcis => dcis[1]?),
          archiveOf r.1 1 0 1))
      = .ok ([{ m_rnti := 1,
                m_dci := { m_rnti := 1, m_rbBitmap := 63, m_resAlloc := 0, m_harqProcess := 1,
                           m_mcs := [10], m_tbsSize := [132], m_ndi := [1], m_rv := [0],
                           m_tpc := 1 },
                m_rlcPduList := [[{ m_logicalChannelIdentity := 3, m_size := 132 }]] }],
             some 1, some 0,
             some { m_rnti := 1, m_rbBitmap := 63, m_resAlloc := 0, m_harqProcess := 1,
                    m_mcs := [10], m_tbsSize := [132], m_ndi := [1], m_rv := [0],
                    m_tpc := 1 },
             some [{ m_logicalChannelIdentity := 3, m_size := 12 },
                   { m_logicalChannelIdentity := 3, m_size := 132 }]) :=
  ⟨rfl, rfl⟩

/-! ## The circular search for the RBGs of a retransmission -/

/-- The circular search on stored DCIs that name a part of the grid, which a
cell that is reconfigured with processes pending can hold and a cell that is
configured once cannot: in `movedRetxState` the grid has 4 RBGs and the DCIs
stored for user 3 and user 2 name the RBGs 0, 1 and 1, 2. A pass receives the
NACKs of both. The retransmission of user 3 takes the RBGs 0 and 1; for user 2,
which needs 2 RBGs, RBG 1 is taken and the RBGs 2 and 3 are free, but the
search starts at RBG 3 and stops when it comes back to RBG 2, the last RBG of
the stored DCI, without testing it: it finds RBG 3 only and the entry is
deferred. After the feedback loop the RBGs 2 and 3 are still free, 2 RBGs are
allocated and the entry of user 2 is in the carry-over buffer. -/
theorem dl_retx_search_skips_last_used_rbg :
    storedRbgs movedRetxState 3 = some [0, 1] ∧
    storedRbgs movedRetxState 2 = some [1, 2] ∧
    (dlPassFeedback exampleEnv movedRetxState [exampleNack 3, exampleNack 2]).map
        (fun r => (r.2.1.rbgMap, r.2.1.rbgAllocatedNum, r.2.1.dlInfoListUntxed, r.2.2.2.2))
      = .ok ([true, true, false, false], 2, [exampleNack 2], 4) ∧
    (dlRetxPlace 4 (exampleNack 2)
        { DlDciListElement_s.empty with m_rnti := 2, m_rbBitmap := 6 }
        { freshDlLocals 4 with rbgMap := [true, true, false, false] }).map
        (fun r => (decodeRbgBitmap r.1.m_rbBitmap, r.2.rbgMap, r.2.dlInfoListUntxed))
      = .ok ([1, 2], [true, true, false, false], [exampleNack 2]) ∧
    (DoSchedDlTriggerReq exampleEnv movedRetxState [exampleNack 3, exampleNack 2]).map
        (fun r => r.1.m_dlInfoListBuffered) = .ok [exampleNack 2] :=
  ⟨rfl, rfl, rfl, rfl, rfl⟩

/-! ## A grant smaller than the RLC overhead -/

/-- C35, the code at the failing input: a grant of size 0 or 1 to a channel
that holds 1000 bytes of new data empties its queue, because `size -
rlcOverhead` wraps in `uint32_t`; in `smallGrantState` the pass grants 1 byte
to each of the two channels of user 1 and both queues, 1000 bytes each, are 0
afterwards. -/
theorem dl_grant_below_overhead_empties_queue :
    pendingBytes (exampleQueues 1 3 1000 0 0) = 1000 ∧
    pendingBytes (updateDlRlcQueues 3 0 (exampleQueues 1 3 1000 0 0)) = 0 ∧
    pendingBytes (updateDlRlcQueues 3 1 (exampleQueues 1 3 1000 0 0)) = 0 ∧
    smallGrantState.m_rlcBufferReq.map (fun kv => (kv.1.m_lcId, pendingBytes kv.2))
      = [(3, 1000), (4, 1000)] ∧
    (handle exampleEnv smallGrantState (Request.SchedDlTriggerReq [])).map
        (fun r => ((dataListOf r.2).map (fun el => (el.m_dci.m_tbsSize, el.m_rlcPduList)),
          r.1.m_rlcBufferReq.map (fun kv => (kv.1.m_lcId, pendingBytes kv.2))))
      = .ok ([([2], [[{ m_logicalChannelIdentity := 3, m_size := 1 }],
                     [{ m_logicalChannelIdentity := 4, m_size := 1 }]])],
             [(3, 0), (4, 0)]) :=
  ⟨rfl, rfl, rfl, rfl, rfl⟩

/-! ## A mapped CQI of 0 in the uplink descriptor loop -/

/-- C31, the code at the failing input: in `lowSinrState` the selection, which
looks at block 0 only, maps the sample 20 of user 1 to CQI 5 and selects user 1;
the descriptor loop takes the worst sample over the blocks `[0, 6)`, which is 5,
and maps it to CQI 0. The branch of CQI 0 starts with `it++` on the iterator
that the counting loop over `m_ceBsrRxed` left at `end()`: the pass does not
go on to the flow of user 2, whose descriptor the loop body builds without
fault. -/
theorem ul_cqi_zero_in_descriptor_loop_is_not_skipped :
    lowSinrState.m_ueCqi.find 1 = some [20, 20, 20, 5, 20, 20] ∧
    (ulPassSelect lowSinrEnv lowSinrState []).map (fun r => r.2.2) = .ok (some 1) ∧
    (ulDescEntry lowSinrEnv 1 6 0 lowSinrState).map (fun r => r.2)
      = .error Fault.undefinedBehaviour ∧
    (ulDescEntry lowSinrEnv 2 0 6 lowSinrState).map (fun r => r.2)
      = .ok { m_rnti := 2, m_rbStart := 5, m_rbLen := 0, m_tbSize := 0, m_mcs := 0,
              m_ndi := 1 } ∧
    (handle lowSinrEnv lowSinrState (Request.SchedUlTriggerReq [])).map (fun r => r.2)
      = .error Fault.undefinedBehaviour :=
  ⟨rfl, rfl, rfl, rfl, rfl⟩

/-! ## The round trip of the RBG bitmap -/

/-- The encoding loop adds the powers of two of the indices to the mask, in
`uint32_t`. -/
theorem encodeRbgMask_sum :
    ∀ (t : List Nat) (mask : Nat), mask < 2 ^ 32 →
      encodeRbgMask t mask = (mask + (t.map (fun r => 2 ^ r)).sum) % 2 ^ 32 := by
  intro t
  induction t with
  | nil =>
    intro mask h
    simp only [encodeRbgMask, List.map_nil, List.sum_nil, Nat.add_zero]
    exact (Nat.mod_eq_of_lt h).symm
  | cons r rest ih =>
    intro mask _
    simp only [encodeRbgMask, List.map_cons, List.sum_cons]
    rw [ih _ (Nat.mod_lt _ (by decide)), Nat.mod_add_mod, Nat.add_assoc]

/-- The mask does not depend on the order of the indices. -/
theorem encodeRbgMask_perm (t t1 : List Nat) (h : t.Perm t1) :
    encodeRbgMask t 0 = encodeRbgMask t1 0 := by
  rw [encodeRbgMask_sum t 0 (by decide), encodeRbgMask_sum t1 0 (by decide),
    (h.map (fun r => 2 ^ r)).sum_eq]

/-- C38: for every list of pairwise distinct RBG indices below 32, in any
order, the mask built by the encoding loop decodes to exactly those indices in
ascending order, and encoding the decoded list gives the same mask again; and a
retransmission whose previous RBGs are all free keeps its DCI, bitmap included,
so that it names the RBG set of the original grant. -/
theorem rbg_bitmap_round_trip (t : List Nat) (hd : t.Nodup) (hlt : ∀ y, y ∈ t → y < 32) :
    decodeRbgBitmap (encodeRbgMask t 0) = (List.range 32).filter (fun j => decide (j ∈ t)) ∧
    (decodeRbgBitmap (encodeRbgMask t 0)).Perm t ∧
    (decodeRbgBitmap (encodeRbgMask t 0)).Pairwise (fun a b => a < b) ∧
    encodeRbgMask (decodeRbgBitmap (encodeRbgMask t 0)) 0 = encodeRbgMask t 0 ∧
    ∀ (rbgNum : Nat) (e : DlInfoListElement_s) (dci dci1 : DlDciListElement_s)
      (l l1 : DlLocals),
      rbgsFree l.rbgMap (decodeRbgBitmap dci.m_rbBitmap) = .ok true →
      dlRetxPlace rbgNum e dci l = .ok (dci1, l1) →
      dci1 = dci ∧ decodeRbgBitmap dci1.m_rbBitmap = decodeRbgBitmap dci.m_rbBitmap := by
  have hperm : ((List.range 32).filter (fun j => decide (j ∈ t))).Perm t := by
    rw [List.perm_ext_iff_of_nodup ((List.nodup_range 32).filter _) hd]
    intro a
    simp only [List.mem_filter, List.mem_range, decide_eq_true_eq]
    exact ⟨fun h => h.2, fun h => ⟨hlt a h, h⟩⟩
  have henc : encodeRbgMask t 0 =
      encodeRbgMask ((List.range 32).filter (fun j => decide (j ∈ t))) 0 :=
    encodeRbgMask_perm _ _ hperm.symm
  have hdec : decodeRbgBitmap (encodeRbgMask t 0) =
      (List.range 32).filter (fun j => decide (j ∈ t)) := by
    rw [henc]
    exact decode_encode _ 32 (le_refl _)
  refine ⟨hdec, ?_, ?_, ?_, ?_⟩
  · rw [hdec]; exact hperm
  · rw [hdec]; exact List.Pairwise.filter _ (List.pairwise_lt_range 32)
  · rw [hdec]; exact henc.symm
  · intro rbgNum e dci dci1 l l1 hfree h
    simp only [dlRetxPlace, hfree, if_true] at h
    split at h
    · cases h
    · simp only [Except.ok.injEq, Prod.mk.injEq] at h
      obtain ⟨rfl, _⟩ := h
      exact ⟨rfl, rfl⟩

/-- Witness of C38: the indices 3 and 0, in the order in which a search that
wraps around finds them, give the mask 9, which decodes to 0 and 3. -/
theorem rbg_bitmap_round_trip_witness :
    encodeRbgMask [3, 0] 0 = 9 ∧ decodeRbgBitmap 9 = [0, 3] ∧
    (decodeRbgBitmap (encodeRbgMask [3, 0] 0)
        = (List.range 32).filter (fun j => decide (j ∈ [3, 0])) ∧
     (decodeRbgBitmap (encodeRbgMask [3, 0] 0)).Perm [3, 0] ∧
     (decodeRbgBitmap (encodeRbgMask [3, 0] 0)).Pairwise (fun a b => a < b) ∧
     encodeRbgMask (decodeRbgBitmap (encodeRbgMask [3, 0] 0)) 0 = encodeRbgMask [3, 0] 0 ∧
     ∀ (rbgNum : Nat) (e : DlInfoListElement_s) (dci dci1 : DlDciListElement_s)
       (l l1 : DlLocals),
       rbgsFree l.rbgMap (decodeRbgBitmap dci.m_rbBitmap) = .ok true →
       dlRetxPlace rbgNum e dci l = .ok (dci1, l1) →
       dci1 = dci ∧ decodeRbgBitmap dci1.m_rbBitmap = decodeRbgBitmap dci.m_rbBitmap) :=
  ⟨rfl, rfl, rbg_bitmap_round_trip [3, 0] (by decide) (by decide)⟩

/-! ## Successive reservations of downlink HARQ processes -/

/-- Without free slot `UpdateHarqProcessId` stops with the fatal error. -/
theorem updateHarqProcessId_none_free (s : SchedState) (rnti cur : Nat) (stat : List Nat)
    (hon : s.m_harqOn = true)
    (hc : s.m_dlHarqCurrentProcessId.find rnti = some cur)
    (hs : s.m_dlHarqProcessesStatus.find rnti = some stat)
    (hlen : stat.length = 8) (hcur : cur < 8)
    (hno : ¬ ∃ i, i < 8 ∧ stat[i]? = some 0) :
    UpdateHarqProcessId s rnti = .error Fault.fatal := by
  obtain ⟨k, hk1, hk2, hk3, hk4, hk5⟩ :=
    harqProbe_spec stat cur hlen hcur 8 0 (by omega) (by omega) (by intro j h1 h2; omega)
  have hcur0 : (cur + 0) % 8 = cur := by omega
  rw [hcur0] at hk3
  have hlt : (cur + k) % 8 < stat.length := by omega
  have hon' : ¬ (s.m_harqOn = false) := by rw [hon]; decide
  have hst : stat[(cur + k) % 8] ≠ 0 := by
    intro h0
    exact hno ⟨(cur + k) % 8, by omega, by rw [List.getElem?_eq_getElem hlt, h0]⟩
  simp only [UpdateHarqProcessId, if_neg hon', hc, hs, harqProbeFuel, HARQ_PROC_NUM, hk3,
    vecAt_of_lt _ _ hlt, if_neg hst]

theorem mem_freeSlots (stat : List Nat) (i : Nat) :
    i ∈ freeSlots stat ↔ i < 8 ∧ stat[i]? = some 0 := by
  simp [freeSlots]

/-- Reserving the free slot `p` takes it, and nothing else, out of the free
slots. -/
theorem freeSlots_reserve (stat stat1 : List Nat) (p : Nat) (hp : p < 8)
    (h0 : stat[p]? = some 0) (h1 : stat1[p]? = some 1)
    (hother : ∀ i, i ≠ p → stat1[i]? = stat[i]?) :
    (freeSlots stat1).length + 1 = (freeSlots stat).length ∧
    ∀ i, i ∈ freeSlots stat1 → i ∈ freeSlots stat ∧ i ≠ p := by
  have hnd : (freeSlots stat).Nodup := (List.nodup_range 8).filter _
  have hmem : p ∈ freeSlots stat := (mem_freeSlots stat p).mpr ⟨hp, h0⟩
  have heq : freeSlots stat1 = (freeSlots stat).erase p := by
    rw [hnd.erase_eq_filter]
    simp only [freeSlots, List.filter_filter]
    apply List.filter_congr
    intro i _
    by_cases hip : i = p
    · subst hip
      simp [h1]
    · simp [hother i hip, hip]
  constructor
  · rw [heq, List.length_erase_of_mem hmem]
    have : 0 < (freeSlots stat).length := List.length_pos_of_mem hmem
    omega
  · intro i hi
    rw [heq] at hi
    exact ⟨List.mem_of_mem_erase hi, fun e => by
      subst e
      exact (List.Nodup.not_mem_erase hnd) hi⟩

/-- As many successive calls of `UpdateHarqProcessId` succeed as the user has
free slots; they return distinct slots that were free and leave none free. -/
theorem updateHarqTimes_spec (rnti : Nat) :
    ∀ (f : Nat) (s : SchedState) (cur : Nat) (stat : List Nat),
      s.m_harqOn = true →
      s.m_dlHarqCurrentProcessId.find rnti = some cur →
      s.m_dlHarqProcessesStatus.find rnti = some stat →
      stat.length = 8 → cur < 8 → (freeSlots stat).length = f →
      ∃ ids s1, updateHarqTimes rnti f s = .ok (ids, s1) ∧
        ids.length = f ∧ ids.Nodup ∧ (∀ i, i ∈ ids → i < 8 ∧ stat[i]? = some 0) ∧
        HarqProcessAvailability s1 rnti = .ok false ∧
        UpdateHarqProcessId s1 rnti = .error Fault.fatal := by
  intro f
  induction f with
  | zero =>
    intro s cur stat hon hc hs hlen hcur hf
    have hno : ¬ ∃ i, i < 8 ∧ stat[i]? = some 0 := by
      rintro ⟨i, hi⟩
      have := List.length_pos_of_mem ((mem_freeSlots stat i).mpr hi)
      omega
    refine ⟨[], s, rfl, rfl, List.nodup_nil, (fun i hi => by cases hi), ?_,
      updateHarqProcessId_none_free s rnti cur stat hon hc hs hlen hcur hno⟩
    rw [harqProcessAvailability_iff_free_slot s rnti cur stat hc hs hlen hcur]
    simp [hno]
  | succ f ih =>
    intro s cur stat hon hc hs hlen hcur hf
    have hfree : ∃ i, i < 8 ∧ stat[i]? = some 0 := by
      have hne : freeSlots stat ≠ [] := by
        intro e
        rw [e] at hf
        cases hf
      obtain ⟨i, hi⟩ := List.exists_mem_of_ne_nil _ hne
      exact ⟨i, (mem_freeSlots stat i).mp hi⟩
    obtain ⟨k, s1, stat1, hk1, hk2, hup, h0, _, hc1, hs1, hlen1, h1, hother, _⟩ :=
      updateHarqProcessId_first_free s rnti cur stat hon hc hs hlen hcur hfree
    have hp : (cur + k) % 8 < 8 := Nat.mod_lt _ (by decide)
    obtain ⟨hcount, hsub⟩ := freeSlots_reserve stat stat1 ((cur + k) % 8) hp h0 h1 hother
    have hon1 : s1.m_harqOn = true := by
      obtain ⟨c, st, tm, dc, ar, ledger, rfl⟩ := updateHarqProcessId_frame _ _ _ _ hup
      exact hon
    obtain ⟨ids, s2, hrun, hl, hnd, hall, hav, hfat⟩ :=
      ih s1 ((cur + k) % 8) stat1 hon1 hc1 hs1 hlen1 hp (by omega)
    refine ⟨(cur + k) % 8 :: ids, s2, ?_, by simp [hl], ?_, ?_, hav, hfat⟩
    · simp only [updateHarqTimes, hup, hrun]
    · refine List.nodup_cons.mpr ⟨fun hmem => ?_, hnd⟩
      have := (mem_freeSlots stat1 _).mpr (hall _ hmem)
      exact (hsub _ this).2 rfl
    · intro i hi
      rcases List.mem_cons.mp hi with rfl | hi
      · exact ⟨hp, h0⟩
      · exact (mem_freeSlots stat i).mp (hsub i ((mem_freeSlots stat1 i).mpr (hall i hi))).1

/-- One call of `UpdateHarqProcessId` for a user whose probing loop leaves at the
free slot `i`. -/
theorem updateHarqProcessId_eval (s : SchedState) (rnti cur i : Nat) (stat : List Nat)
    (hon : s.m_harqOn = true)
    (hc : s.m_dlHarqCurrentProcessId.find rnti = some cur)
    (hs : s.m_dlHarqProcessesStatus.find rnti = some stat)
    (hprobe : harqProbe stat cur harqProbeFuel cur = .ok i)
    (hi : i < stat.length) (h0 : stat[i]? = some 0) :
    ∃ s1, UpdateHarqProcessId s rnti = .ok (i, s1) ∧ s1.m_harqOn = true ∧
      s1.m_dlHarqCurrentProcessId.find rnti = some i ∧
      s1.m_dlHarqProcessesStatus.find rnti = some (stat.set i 1) := by
  have hon' : ¬ (s.m_harqOn = false) := by rw [hon]; decide
  have hv : vecAt stat i = .ok 0 := (vecAt_eq_ok _ _ _).mpr h0
  refine ⟨{ s with
      m_dlHarqCurrentProcessId := s.m_dlHarqCurrentProcessId.assign rnti i,
      m_dlHarqProcessesStatus := s.m_dlHarqProcessesStatus.assign rnti (stat.set i 1) },
    ?_, hon, RMap.find_assign_self _ _ _ _ hc, RMap.find_assign_self _ _ _ _ hs⟩
  simp only [UpdateHarqProcessId, if_neg hon', hc, hs, hprobe, hv, vecSet_of_lt _ _ _ hi,
    if_true]

/-- The ids of 8 successive calls for a user with 8 free slots and last-used
slot 0. -/
theorem updateHarqTimes_fresh (s : SchedState) (rnti : Nat)
    (hon : s.m_harqOn = true)
    (hc : s.m_dlHarqCurrentProcessId.find rnti = some 0)
    (hs : s.m_dlHarqProcessesStatus.find rnti = some [0, 0, 0, 0, 0, 0, 0, 0]) :
    (updateHarqTimes rnti 8 s).map (fun r => r.1) = .ok [1, 2, 3, 4, 5, 6, 7, 0] := by
  obtain ⟨s1, e1, on1, c1, t1⟩ := updateHarqProcessId_eval s rnti 0 1 _ hon hc hs rfl
    (by decide) rfl
  obtain ⟨s2, e2, on2, c2, t2⟩ := updateHarqProcessId_eval s1 rnti 1 2 _ on1 c1 t1 rfl
    (by decide) rfl
  obtain ⟨s3, e3, on3, c3, t3⟩ := updateHarqProcessId_eval s2 rnti 2 3 _ on2 c2 t2 rfl
    (by decide) rfl
  obtain ⟨s4, e4, on4, c4, t4⟩ := updateHarqProcessId_eval s3 rnti 3 4 _ on3 c3 t3 rfl
    (by decide) rfl
  obtain ⟨s5, e5, on5, c5, t5⟩ := updateHarqProcessId_eval s4 rnti 4 5 _ on4 c4 t4 rfl
    (by decide) rfl
  obtain ⟨s6, e6, on6, c6, t6⟩ := updateHarqProcessId_eval s5 rnti 5 6 _ on5 c5 t5 rfl
    (by decide) rfl
  obtain ⟨s7, e7, on7, c7, t7⟩ := updateHarqProcessId_eval s6 rnti 6 7 _ on6 c6 t6 rfl
    (by decide) rfl
  obtain ⟨s8, e8, _, _, _⟩ := updateHarqProcessId_eval s7 rnti 7 0 _ on7 c7 t7 rfl
    (by decide) rfl
  simp only [updateHarqTimes, e1, e2, e3, e4, e5, e6, e7, e8]
  rfl

/-- C33: with HARQ enabled, for a user whose status table has 8 slots, `f` of
them free, and whose last-used slot is below 8, `f` successive calls of
`UpdateHarqProcessId` succeed and return `f` pairwise distinct slots that were
free; after them `HarqProcessAvailability` returns false and a further call of
`UpdateHarqProcessId` stops with the fatal error, which leaves no changed
scheduler behind. For a user with all 8 slots free and last-used slot 0 the ids
are 1, 2, 3, 4, 5, 6, 7, 0 in that order. -/
theorem update_harq_process_id_succeeds_once_per_free_slot (rnti f : Nat) (s : SchedState)
    (cur : Nat) (stat : List Nat)
    (hon : s.m_harqOn = true)
    (hc : s.m_dlHarqCurrentProcessId.find rnti = some cur)
    (hs : s.m_dlHarqProcessesStatus.find rnti = some stat)
    (hlen : stat.length = 8) (hcur : cur < 8) (hf : (freeSlots stat).length = f) :
    ∃ ids s1, updateHarqTimes rnti f s = .ok (ids, s1) ∧
      ids.length = f ∧ ids.Nodup ∧ (∀ i, i ∈ ids → i < 8 ∧ stat[i]? = some 0) ∧
      HarqProcessAvailability s1 rnti = .ok false ∧
      UpdateHarqProcessId s1 rnti = .error Fault.fatal ∧
      (cur = 0 → stat = [0, 0, 0, 0, 0, 0, 0, 0] → ids = [1, 2, 3, 4, 5, 6, 7, 0]) := by
  obtain ⟨ids, s1, hrun, hl, hnd, hall, hav, hfat⟩ :=
    updateHarqTimes_spec rnti f s cur stat hon hc hs hlen hcur hf
  refine ⟨ids, s1, hrun, hl, hnd, hall, hav, hfat, fun h0 hst => ?_⟩
  subst h0
  subst hst
  have hf8 : f = 8 := by rw [← hf]; rfl
  subst hf8
  have := updateHarqTimes_fresh s rnti hon hc hs
  rw [hrun] at this
  simpa [Except.map] using this

/-- Witness of C33: a freshly configured user has 8 free slots and last-used
slot 0; the ids of 8 successive calls are 1, 2, 3, 4, 5, 6, 7, 0. -/
theorem update_harq_process_id_succeeds_once_per_free_slot_witness :
    freshUserState.m_dlHarqCurrentProcessId.find 1 = some 0 ∧
    freshUserState.m_dlHarqProcessesStatus.find 1 = some [0, 0, 0, 0, 0, 0, 0, 0] ∧
    (updateHarqTimes 1 8 freshUserState).map (fun r => r.1) = .ok [1, 2, 3, 4, 5, 6, 7, 0] ∧
    ∃ ids s1, updateHarqTimes 1 8 freshUserState = .ok (ids, s1) ∧
      ids.length = 8 ∧ ids.Nodup ∧
      (∀ i, i ∈ ids → i < 8 ∧ [0, 0, 0, 0, 0, 0, 0, 0][i]? = some 0) ∧
      HarqProcessAvailability s1 1 = .ok false ∧
      UpdateHarqProcessId s1 1 = .error Fault.fatal ∧
      (0 = 0 → [0, 0, 0, 0, 0, 0, 0, 0] = [0, 0, 0, 0, 0, 0, 0, 0] →
        ids = [1, 2, 3, 4, 5, 6, 7, 0]) :=
  ⟨rfl, rfl, rfl,
   update_harq_process_id_succeeds_once_per_free_slot 1 8 freshUserState 0
     [0, 0, 0, 0, 0, 0, 0, 0] rfl rfl rfl rfl (by decide) rfl⟩

/-! ## One data descriptor per user in a downlink pass -/

/-- The emission appends one descriptor, addressed to the user of the feedback
entry, and records that user as served. -/
theorem dlRetxEmit_list (e : DlInfoListElement_s) (retx : List Bool)
    (dcis : List DlDciListElement_s) (dci : DlDciListElement_s) (s s1 : SchedState)
    (l l1 : DlLocals) (h : dlRetxEmit e retx dcis dci s l = .ok (s1, l1)) :
    ∃ newEl, newEl.m_rnti = e.m_rnti ∧ l1.buildDataList = l.buildDataList ++ [newEl] ∧
      l1.rntiAllocated = setInsert l.rntiAllocated e.m_rnti := by
  simp only [dlRetxEmit] at h
  split at h
  · cases h
  · split at h
    · cases h
    · split at h
      · cases h
      · split at h
        · cases h
        · split at h
          · cases h
          · split at h
            · cases h
            · split at h
              · cases h
              · split at h
                · cases h
                · split at h
                  · cases h
                  · simp only [Except.ok.injEq, Prod.mk.injEq] at h
                    obtain ⟨_, rfl⟩ := h
                    exact ⟨_, rfl, rfl, rfl⟩

theorem dlHarqFeedbackEntry_served (rbgNum : Nat) (e : DlInfoListElement_s)
    (s s1 : SchedState) (l l1 : DlLocals)
    (h : dlHarqFeedbackEntry rbgNum e s l = .ok (s1, l1)) (hl : DlServedOnce l) :
    DlServedOnce l1 := by
  simp only [dlHarqFeedbackEntry] at h
  split at h
  · simp only [Except.ok.injEq, Prod.mk.injEq] at h
    obtain ⟨_, rfl⟩ := h
    exact hl
  · rename_i hnot
    split at h
    · cases h
    · split at h
      · simp only [dlHarqRetx] at h
        split at h
        · cases h
        · split at h
          · cases h
          · split at h
            · cases h
            · split at h
              · split at h
                · cases h
                · simp only [Except.ok.injEq, Prod.mk.injEq] at h
                  obtain ⟨_, rfl⟩ := h
                  exact hl
              · split at h
                · cases h
                · rename_i dci1 l2 hplace
                  obtain ⟨_, _, _, _, hlist, halloc⟩ := dlRetxPlace_frame _ _ _ _ _ _ hplace
                  obtain ⟨newEl, hr, hb, ha⟩ := dlRetxEmit_list _ _ _ _ _ _ _ _ h
                  rw [hlist] at hb
                  rw [halloc] at ha
                  refine ⟨?_, fun el hel => ?_⟩
                  · rw [hb, List.map_append, List.map_singleton, hr]
                    refine List.Nodup.append hl.1 (List.nodup_singleton _) ?_
                    intro x hx hx2
                    simp only [List.mem_singleton] at hx2
                    subst hx2
                    obtain ⟨el, hel, hrn⟩ := List.mem_map.mp hx
                    exact hnot (hrn ▸ hl.2 el hel)
                  · rw [hb] at hel
                    rw [ha, mem_setInsert]
                    rcases List.mem_append.mp hel with hel | hel
                    · exact Or.inl (hl.2 el hel)
                    · simp only [List.mem_singleton] at hel
                      subst hel
                      exact Or.inr hr
      · split at h
        · cases h
        · simp only [Except.ok.injEq, Prod.mk.injEq] at h
          obtain ⟨_, rfl⟩ := h
          exact hl

theorem dlHarqFeedbackLoop_served (rbgNum : Nat) :
    ∀ (es : List DlInfoListElement_s) (s s1 : SchedState) (l l1 : DlLocals),
      dlHarqFeedbackLoop rbgNum es s l = .ok (s1, l1) → DlServedOnce l → DlServedOnce l1 := by
  intro es
  induction es with
  | nil =>
    intro s s1 l l1 h hl
    simp only [dlHarqFeedbackLoop, Except.ok.injEq, Prod.mk.injEq] at h
    obtain ⟨_, rfl⟩ := h
    exact hl
  | cons e rest ih =>
    intro s s1 l l1 h hl
    simp only [dlHarqFeedbackLoop] at h
    split at h
    · cases h
    · rename_i s2 l2 hentry
      exact ih _ _ _ _ h (dlHarqFeedbackEntry_served _ _ _ _ _ _ hentry hl)

/-- C39: in the batch of every downlink pass the data descriptors are addressed
to pairwise distinct users: the feedback loop emits at most one retransmission
descriptor per user, whatever the number of feedback entries of the user in
the merged list, and the new-data descriptor goes to a user that no
retransmission descriptor of the pass is addressed to. -/
theorem dl_pass_one_data_descriptor_per_user (env : Env) (s s2 : SchedState)
    (dlInfoList : List DlInfoListElement_s) (ind : SchedDlConfigIndParameters)
    (h : DoSchedDlTriggerReq env s dlInfoList = .ok (s2, some ind)) :
    (ind.m_buildDataList.map (fun el => el.m_rnti)).Nodup := by
  obtain ⟨s1, l, rar, rbgSize, rbgNum, hfb, hrest⟩ := doSchedDlTriggerReq_parts _ _ _ _ _ h
  obtain ⟨s0, sr, sh, sf, _, _, _, _, _, _, hloop, _⟩ := dlPassFeedback_parts _ _ _ _ _ _ _ _ hfb
  have hl : DlServedOnce l :=
    dlHarqFeedbackLoop_served _ _ _ _ _ _ hloop
      ⟨List.nodup_nil, fun el hel => by cases hel⟩
  rcases hrest with ⟨_, _, hout⟩ | ⟨_, dataList, hnew, hout⟩
  · rcases hout with ⟨hnone, _⟩ | hsome
    · cases hnone
    · simp only [Option.some.injEq] at hsome
      subst hsome
      exact hl.1
  · simp only [Option.some.injEq] at hout
    subst hout
    show (dataList.map (fun el => el.m_rnti)).Nodup
    rcases dlPassNewData_shape _ _ _ _ _ _ _ hnew with ⟨_, hd⟩ | ⟨u, _, tempMap, el, hsel, _, _, hgrant, hd⟩
    · rw [hd]; exact hl.1
    · rw [hd, List.map_append, List.map_singleton, (newDataGrant_rnti _ _ _ _ _ _ _ hgrant).1]
      have hu : u ∉ l.rntiAllocated := (dlSelect_spec _ _ _ _ _ hsel).1.2.1
      refine List.Nodup.append hl.1 (List.nodup_singleton _) ?_
      intro x hx hx2
      simp only [List.mem_singleton] at hx2
      subst hx2
      obtain ⟨el1, hel, hrn⟩ := List.mem_map.mp hx
      exact hu (hrn ▸ hl.2 el1 hel)

/-- Witness of C39: the pass of `twoGrantsState` that receives two NACKs of
user 1 and one of user 2 hands over one descriptor for each of them. -/
theorem dl_pass_one_data_descriptor_per_user_witness :
    DoSchedDlTriggerReq exampleEnv twoGrantsState [exampleNack 1, exampleNack 1, exampleNack 2]
      = .ok (repeatedNackOutcome.1, some repeatedNackBatch) ∧
    repeatedNackBatch.m_buildDataList.map (fun el => el.m_rnti) = [1, 2] ∧
    (repeatedNackBatch.m_buildDataList.map (fun el => el.m_rnti)).Nodup :=
  ⟨rfl, rfl,
   dl_pass_one_data_descriptor_per_user exampleEnv twoGrantsState repeatedNackOutcome.1
     [exampleNack 1, exampleNack 1, exampleNack 2] repeatedNackBatch rfl⟩

/-! ## What the passes and the reports write -/

/-- A property kept by every request is kept by every run. -/
theorem run_invariant (env : Env) (I : SchedState → Prop)
    (hstep : ∀ s r s1 ind, I s → handle env s r = .ok (s1, ind) → I s1) :
    ∀ (reqs : List Request) (s s1 : SchedState) (inds : List Indication),
      I s → run env reqs s = .ok (s1, inds) → I s1 := by
  intro reqs
  induction reqs with
  | nil =>
    intro s s1 inds hI h
    simp only [run, Except.ok.injEq, Prod.mk.injEq] at h
    obtain ⟨rfl, _⟩ := h
    exact hI
  | cons r rest ih =>
    intro s s1 inds hI h
    simp only [run] at h
    split at h
    · cases h
    · rename_i s2 ind hh
      split at h
      · cases h
      · rename_i s3 inds3 hr
        simp only [Except.ok.injEq, Prod.mk.injEq] at h
        obtain ⟨rfl, _⟩ := h
        exact ih _ _ _ (hstep _ _ _ _ hI hh) hr

theorem ulPassFrame_refl (s : SchedState) : UlPassFrame s s :=
  ⟨_, _, _, _, _, _, rfl⟩

theorem ulPassFrame_trans {s s1 s2 : SchedState} (h1 : UlPassFrame s s1)
    (h2 : UlPassFrame s1 s2) : UlPassFrame s s2 := by
  obtain ⟨a1, b1, c1, d1, e1, f1, rfl⟩ := h1
  obtain ⟨a2, b2, c2, d2, e2, f2, rfl⟩ := h2
  exact ⟨_, _, _, _, _, _, rfl⟩

theorem ulPassFrame_of_cqi {s s1 : SchedState} (h : UlCqiFrame s s1) : UlPassFrame s s1 := by
  obtain ⟨cqi, rfl⟩ := h
  exact ⟨_, _, _, _, _, _, rfl⟩

theorem ulHarqFeedbackEntry_frame (env : Env) (e : UlInfoListElement_s) (s s1 : SchedState)
    (l l1 : UlLocals) (h : ulHarqFeedbackEntry env e s l = .ok (s1, l1)) :
    UlPassFrame s s1 := by
  simp only [ulHarqFeedbackEntry] at h
  split at h
  · split at h
    · cases h
    · split at h
      · simp only [Except.ok.injEq, Prod.mk.injEq] at h
        obtain ⟨rfl, _⟩ := h
        exact ulPassFrame_refl _
      · split at h
        · cases h
        · split at h
          · cases h
          · split at h
            · cases h
            · split at h
              · simp only [Except.ok.injEq, Prod.mk.injEq] at h
                obtain ⟨rfl, _⟩ := h
                exact ulPassFrame_refl _
              · split at h
                · cases h
                · split at h
                  · split at h
                    · cases h
                    · split at h
                      · cases h
                      · split at h
                        · cases h
                        · split at h
                          · cases h
                          · simp only [Except.ok.injEq, Prod.mk.injEq] at h
                            obtain ⟨rfl, _⟩ := h
                            exact ⟨_, _, _, _, _, _, rfl⟩
                  · simp only [Except.ok.injEq, Prod.mk.injEq] at h
                    obtain ⟨rfl, _⟩ := h
                    exact ulPassFrame_refl _
  · simp only [Except.ok.injEq, Prod.mk.injEq] at h
    obtain ⟨rfl, _⟩ := h
    exact ulPassFrame_refl _

theorem ulHarqFeedbackLoop_frame (env : Env) :
    ∀ (es : List UlInfoListElement_s) (s s1 : SchedState) (l l1 : UlLocals),
      ulHarqFeedbackLoop env es s l = .ok (s1, l1) → UlPassFrame s s1 := by
  intro es
  induction es with
  | nil =>
    intro s s1 l l1 h
    simp only [ulHarqFeedbackLoop, Except.ok.injEq, Prod.mk.injEq] at h
    obtain ⟨rfl, _⟩ := h
    exact ulPassFrame_refl _
  | cons e rest ih =>
    intro s s1 l l1 h
    simp only [ulHarqFeedbackLoop] at h
    split at h
    · cases h
    · rename_i s2 l2 hentry
      exact ulPassFrame_trans (ulHarqFeedbackEntry_frame _ _ _ _ _ _ hentry) (ih _ _ _ _ h)

theorem ulDescEntry_frame (env : Env) (rnti rbPerFlow rbAllocated : Nat) (s s1 : SchedState)
    (uldci : UlDciListElement_s)
    (h : ulDescEntry env rnti rbPerFlow rbAllocated s = .ok (s1, uldci)) :
    UlPassFrame s s1 := by
  simp only [ulDescEntry] at h
  split at h
  · cases h
  · split at h
    · cases h
    · cases h
    · rename_i s2 mcs tb hlay
      obtain ⟨⟨cqi, rfl⟩, _, _⟩ := ulDescLayers_spec _ _ _ _ _ _ _ _ _ _ _
        (fun m t he => by cases he) hlay
      split at h
      · cases h
      · rename_i s3 hst
        simp only [Except.ok.injEq, Prod.mk.injEq] at h
        obtain ⟨rfl, _⟩ := h
        split at hst
        · obtain ⟨dcis, stat, rfl⟩ := ulStoreDci_frame _ _ _ hst
          simp only [UpdateUlRlcBufferInfo]
          split <;> exact ⟨_, _, _, _, _, _, rfl⟩
        · simp only [Except.ok.injEq] at hst
          subst hst
          simp only [UpdateUlRlcBufferInfo]
          split <;> exact ⟨_, _, _, _, _, _, rfl⟩

theorem ulDescLoop_frame (env : Env) :
    ∀ (entries : List (Nat × Nat)) (rbAllocated : Nat) (s s1 : SchedState)
      (dciList out : List UlDciListElement_s),
      ulDescLoop env entries rbAllocated s dciList = .ok (s1, out) → UlPassFrame s s1 := by
  intro entries
  induction entries with
  | nil =>
    intro rbAllocated s s1 dciList out h
    simp only [ulDescLoop, Except.ok.injEq, Prod.mk.injEq] at h
    obtain ⟨rfl, _⟩ := h
    exact ulPassFrame_refl _
  | cons entry rest ih =>
    intro rbAllocated s s1 dciList out h
    obtain ⟨rnti, n⟩ := entry
    simp only [ulDescLoop] at h
    split at h
    · cases h
    · rename_i s2 uldci hent
      exact ulPassFrame_trans (ulDescEntry_frame _ _ _ _ _ _ _ hent) (ih _ _ _ _ _ h)

/-- The first part of an uplink pass, step by step. -/
theorem ulPassSelect_parts (env : Env) (s s1 : SchedState)
    (ulInfoList : List UlInfoListElement_s) (l : UlLocals) (itMax : Option Nat)
    (h : ulPassSelect env s ulInfoList = .ok (s1, l, itMax)) :
    ∃ s0 rbMap sf lf M,
      RefreshUlCqiMaps s = .ok s0 ∧
      ulRachMark s0.m_rachAllocationMap s0.m_ulBandwidth 0
        (List.replicate s0.m_ulBandwidth false) = .ok rbMap ∧
      (if s0.m_harqOn then
          ulHarqFeedbackLoop env ulInfoList
            { s0 with m_rachAllocationMap := List.replicate s0.m_ulBandwidth 0 }
            { rbMap := rbMap, rbgAllocationMap := s0.m_rachAllocationMap, rntiAllocated := [],
              dciList := [] }
        else .ok ({ s0 with m_rachAllocationMap := List.replicate s0.m_ulBandwidth 0 },
              { rbMap := rbMap, rbgAllocationMap := s0.m_rachAllocationMap,
                rntiAllocated := [], dciList := [] })) = .ok (sf, lf) ∧
      ulSelectLoop env lf.rntiAllocated sf.m_flowStatsUl sf none 0 = .ok (s1, itMax, M) ∧
      l = { lf with rbgAllocationMap := vecResize lf.rbgAllocationMap s1.m_ulBandwidth 0 } := by
  simp only [ulPassSelect] at h
  split at h
  · cases h
  · rename_i s0 hcqi
    split at h
    · cases h
    · rename_i rbMap hmark
      split at h
      · cases h
      · rename_i sf lf hfb
        split at h
        · cases h
        · rename_i sc it M hsel
          simp only [Except.ok.injEq, Prod.mk.injEq] at h
          obtain ⟨rfl, rfl, rfl⟩ := h
          exact ⟨s0, rbMap, sf, lf, M, hcqi, hmark, hfb, hsel, rfl⟩

theorem refreshUlCqiMaps_frame (s s1 : SchedState) (h : RefreshUlCqiMaps s = .ok s1) :
    UlPassFrame s s1 := by
  simp only [RefreshUlCqiMaps] at h
  split at h
  · cases h
  · simp only [Except.ok.injEq] at h
    subst h
    exact ⟨_, _, _, _, _, _, rfl⟩

theorem ulPassSelect_frame (env : Env) (s s1 : SchedState)
    (ulInfoList : List UlInfoListElement_s) (l : UlLocals) (itMax : Option Nat)
    (h : ulPassSelect env s ulInfoList = .ok (s1, l, itMax)) : UlPassFrame s s1 := by
  obtain ⟨s0, rbMap, sf, lf, M, h0, _, hfb, hsel, _⟩ := ulPassSelect_parts _ _ _ _ _ _ h
  have f0 := refreshUlCqiMaps_frame _ _ h0
  have f1 : UlPassFrame s0 sf := by
    split at hfb
    · exact ulPassFrame_trans ⟨_, _, _, _, _, _, rfl⟩ (ulHarqFeedbackLoop_frame _ _ _ _ _ _ hfb)
    · simp only [Except.ok.injEq, Prod.mk.injEq] at hfb
      obtain ⟨rfl, _⟩ := hfb
      exact ⟨_, _, _, _, _, _, rfl⟩
  have f2 := ulPassFrame_of_cqi (ulSelectLoop_frame _ _ _ _ _ _ _ _ _ hsel).1
  exact ulPassFrame_trans (ulPassFrame_trans f0 f1) f2

/-- An uplink pass writes the uplink samples and their age counters, the RACH
allocation map, the uplink HARQ tables and the buffer status only. -/
theorem doSchedUlTriggerReq_frame (env : Env) (s s1 : SchedState)
    (ulInfoList : List UlInfoListElement_s) (out : Option (List UlDciListElement_s))
    (h : DoSchedUlTriggerReq env s ulInfoList = .ok (s1, out)) : UlPassFrame s s1 := by
  simp only [DoSchedUlTriggerReq] at h
  split at h
  · cases h
  · rename_i sa la hsel
    simp only [Except.ok.injEq, Prod.mk.injEq] at h
    obtain ⟨rfl, _⟩ := h
    exact ulPassSelect_frame _ _ _ _ _ _ hsel
  · rename_i sa la rntiMax hsel
    have ca := ulPassSelect_frame _ _ _ _ _ _ hsel
    split at h
    · cases h
    · split at h
      · cases h
      · rename_i sb dl hloop
        simp only [Except.ok.injEq, Prod.mk.injEq] at h
        obtain ⟨rfl, _⟩ := h
        exact ulPassFrame_trans ca (ulDescLoop_frame _ _ _ _ _ _ _ hloop)

/-- A downlink pass that completes starts with a CQI refresh that succeeds, and
writes, on top of it, what `DlTriggerFrame` lists. -/
theorem doSchedDlTriggerReq_frame (env : Env) (s s2 : SchedState)
    (dlInfoList : List DlInfoListElement_s) (out : Option SchedDlConfigIndParameters)
    (h : DoSchedDlTriggerReq env s dlInfoList = .ok (s2, out)) :
    ∃ s0, RefreshDlCqiMaps s = .ok s0 ∧ DlTriggerFrame s0 s2 := by
  obtain ⟨s1, l, rar, rbgSize, rbgNum, hfb, hrest⟩ := doSchedDlTriggerReq_parts _ _ _ _ _ h
  obtain ⟨s0, sr, sh, sf, hcqi, _, _, _, hrach, hharq, hloop, hs1⟩ :=
    dlPassFeedback_parts _ _ _ _ _ _ _ _ hfb
  refine ⟨s0, hcqi, ?_⟩
  obtain ⟨t10, r10, t30, r30, rfl⟩ := refreshDlCqiMaps_eq _ _ hcqi
  obtain ⟨map, dcis, rfl⟩ := rachLoop_writes _ _ _ _ _ _ _ hrach
  obtain ⟨c1, st1, tm1, dc1, ar1, lg1, rfl⟩ := refreshHarqProcesses_frame _ _ _ hharq
  obtain ⟨c2, st2, tm2, dc2, ar2, lg2, rfl⟩ := dlHarqFeedbackLoop_frame _ _ _ _ _ _ hloop
  subst hs1
  rcases hrest with ⟨_, rfl, _⟩ | ⟨_, dataList, hnew, _⟩
  · exact ⟨_, _, _, _, _, _, _, _, _, rfl⟩
  · obtain ⟨c3, st3, tm3, dc3, ar3, lg3, rfl⟩ := dlPassNewData_frame _ _ _ _ _ _ _ hnew
    exact ⟨_, _, _, _, _, _, _, _, _, rfl⟩

/-! ## The allocation-map store -/

theorem configFrame_refl (s : SchedState) : ConfigFrame s s :=
  ⟨_, _, _, _, _, _, _, _, _, _, _, _, _, _, _, _, _, _, rfl⟩

/-- The requests that `handle` answers without indication and without a loop
write what `ConfigFrame` lists. -/
theorem config_requests_frame (s : SchedState) :
    (∀ dl ul, ConfigFrame s (DoCschedCellConfigReq s dl ul)) ∧
    (∀ rnti txMode, ConfigFrame s (DoCschedUeConfigReq s rnti txMode)) ∧
    (∀ rnti nLc, ConfigFrame s (DoCschedLcConfigReq s rnti nLc)) ∧
    (∀ rnti lcIds, ConfigFrame s (DoCschedLcReleaseReq s rnti lcIds)) ∧
    (∀ rnti, ConfigFrame s (DoCschedUeReleaseReq s rnti)) ∧
    (∀ params, ConfigFrame s (DoSchedDlRlcBufferReq s params)) ∧
    (∀ rachList, ConfigFrame s (DoSchedDlRachInfoReq s rachList)) := by
  refine ⟨fun dl ul => ⟨_, _, _, _, _, _, _, _, _, _, _, _, _, _, _, _, _, _, rfl⟩,
    fun rnti txMode => ?_, fun rnti nLc => ?_,
    fun rnti lcIds => ⟨_, _, _, _, _, _, _, _, _, _, _, _, _, _, _, _, _, _, rfl⟩,
    fun rnti => ⟨_, _, _, _, _, _, _, _, _, _, _, _, _, _, _, _, _, _, rfl⟩,
    fun params => ?_,
    fun rachList => ?_⟩
  · simp only [DoCschedUeConfigReq]
    split <;> exact ⟨_, _, _, _, _, _, _, _, _, _, _, _, _, _, _, _, _, _, rfl⟩
  · simp only [DoCschedLcConfigReq]
    split
    · exact configFrame_refl _
    · split
      · exact configFrame_refl _
      · exact ⟨_, _, _, _, _, _, _, _, _, _, _, _, _, _, _, _, _, _, rfl⟩
  · unfold DoSchedDlRlcBufferReq
    exact ⟨_, _, _, _, _, _, _, _, _, _, _, _, _, _, _, _, _, _, rfl⟩
  · unfold DoSchedDlRachInfoReq
    exact ⟨_, _, _, _, _, _, _, _, _, _, _, _, _, _, _, _, _, _, rfl⟩

/-- `DoSchedDlCqiInfoReq` writes the wideband and subband stores only. -/
theorem doSchedDlCqiInfoReq_frame :
    ∀ (cqiList : List CqiListElement_s) (s s1 : SchedState),
      DoSchedDlCqiInfoReq s cqiList = .ok s1 →
      ∃ r10 t10 r30 t30, s1 = { s with m_p10CqiRxed := r10, m_p10CqiTimers := t10,
                                       m_a30CqiRxed := r30, m_a30CqiTimers := t30 } := by
  intro cqiList
  induction cqiList with
  | nil =>
    intro s s1 h
    simp only [DoSchedDlCqiInfoReq, Except.ok.injEq] at h
    subst h
    exact ⟨_, _, _, _, rfl⟩
  | cons c rest ih =>
    intro s s1 h
    simp only [DoSchedDlCqiInfoReq] at h
    split at h
    · cases h
    · rename_i s2 he
      have c1 : ∃ r10 t10 r30 t30, s2 =
          { s with m_p10CqiRxed := r10, m_p10CqiTimers := t10,
                   m_a30CqiRxed := r30, m_a30CqiTimers := t30 } := by
        simp only [dlCqiInfoEntry] at he
        split at he
        · split at he
          · cases he
          · split at he
            · cases he
            · simp only [Except.ok.injEq] at he
              subst he
              exact ⟨_, _, _, _, rfl⟩
        · split at he
          · split at he
            · cases he
            · simp only [Except.ok.injEq] at he
              subst he
              exact ⟨_, _, _, _, rfl⟩
          · simp only [Except.ok.injEq] at he
            subst he
            exact ⟨_, _, _, _, rfl⟩
      obtain ⟨a, b, c, d, rfl⟩ := c1
      obtain ⟨a2, b2, c2, d2, rfl⟩ := ih _ _ h
      exact ⟨_, _, _, _, rfl⟩

/-- `DoSchedUlMacCtrlInfoReq` writes the buffer status only. -/
theorem doSchedUlMacCtrlInfoReq_frame (env : Env) :
    ∀ (macCeList : List MacCeListElement_s) (s s1 : SchedState),
      DoSchedUlMacCtrlInfoReq env s macCeList = .ok s1 →
      ∃ bsr, s1 = { s with m_ceBsrRxed := bsr } := by
  intro macCeList
  induction macCeList with
  | nil =>
    intro s s1 h
    simp only [DoSchedUlMacCtrlInfoReq, Except.ok.injEq] at h
    subst h
    exact ⟨_, rfl⟩
  | cons c rest ih =>
    intro s s1 h
    simp only [DoSchedUlMacCtrlInfoReq] at h
    split at h
    · split at h
      · cases h
      · obtain ⟨b, rfl⟩ := ih _ _ h
        exact ⟨_, rfl⟩
    · exact ih _ _ h

/-- With an empty allocation-map store `DoSchedUlCqiInfoReq` returns the
scheduler as it is, unless the report is an SRS report that passes the filter,
in which case it is the SRS case that runs. -/
theorem doSchedUlCqiInfoReq_cases (env : Env) (s s1 : SchedState)
    (params : SchedUlCqiInfoReqParameters) (hmap : s.m_allocationMaps = [])
    (h : DoSchedUlCqiInfoReq env s params = .ok s1) :
    s1 = s ∨ (params.m_type = UlCqiType_e.SRS ∧ ulCqiSrs env s params = .ok s1) := by
  simp only [DoSchedUlCqiInfoReq] at h
  split at h
  · cases h
  · simp only [Except.ok.injEq] at h
    exact Or.inl h.symm
  · split at h
    · simp only [ulCqiPusch, hmap, RMap.find, Except.ok.injEq] at h
      exact Or.inl h.symm
    · rename_i hty
      exact Or.inr ⟨hty, h⟩
    · cases h
    · cases h
    · cases h

/-- The SRS case writes the uplink samples and their age counters only. -/
theorem ulCqiSrs_frame (env : Env) (s s1 : SchedState) (params : SchedUlCqiInfoReqParameters)
    (h : ulCqiSrs env s params = .ok s1) :
    ∃ cqi tm, s1 = { s with m_ueCqi := cqi, m_ueCqiTimers := tm } := by
  simp only [ulCqiSrs] at h
  split at h
  · split at h
    · split at h
      · cases h
      · simp only [Except.ok.injEq] at h
        subst h
        exact ⟨_, _, rfl⟩
    · split at h
      · cases h
      · split at h
        · cases h
        · simp only [Except.ok.injEq] at h
          subst h
          exact ⟨_, _, rfl⟩
  · cases h

/-- What a request that `handle` answers does to the scheduler. -/
theorem handle_step_cases (env : Env) (s : SchedState) (r : Request) (s1 : SchedState)
    (ind : Indication) (h : handle env s r = .ok (s1, ind)) :
    s1 = s ∨
    (∃ dl ul, s1 = DoCschedCellConfigReq s dl ul) ∨
    (∃ rnti txMode, s1 = DoCschedUeConfigReq s rnti txMode) ∨
    (∃ rnti nLc, s1 = DoCschedLcConfigReq s rnti nLc) ∨
    (∃ rnti lcIds, s1 = DoCschedLcReleaseReq s rnti lcIds) ∨
    (∃ rnti, s1 = DoCschedUeReleaseReq s rnti) ∨
    (∃ params, s1 = DoSchedDlRlcBufferReq s params) ∨
    (∃ rachList, s1 = DoSchedDlRachInfoReq s rachList) ∨
    (∃ cqiList, DoSchedDlCqiInfoReq s cqiList = .ok s1) ∨
    (∃ dlInfoList out, DoSchedDlTriggerReq env s dlInfoList = .ok (s1, out)) ∨
    (∃ ulInfoList out, DoSchedUlTriggerReq env s ulInfoList = .ok (s1, out)) ∨
    (∃ macCeList, DoSchedUlMacCtrlInfoReq env s macCeList = .ok s1) ∨
    (∃ params, DoSchedUlCqiInfoReq env s params = .ok s1) := by
  cases r with
  | CschedCellConfigReq dl ul =>
    simp only [handle, Except.ok.injEq, Prod.mk.injEq] at h
    exact Or.inr (Or.inl ⟨dl, ul, h.1.symm⟩)
  | CschedUeConfigReq rnti txMode =>
    simp only [handle, Except.ok.injEq, Prod.mk.injEq] at h
    exact Or.inr (Or.inr (Or.inl ⟨rnti, txMode, h.1.symm⟩))
  | CschedLcConfigReq rnti nLc =>
    simp only [handle, Except.ok.injEq, Prod.mk.injEq] at h
    exact Or.inr (Or.inr (Or.inr (Or.inl ⟨rnti, nLc, h.1.symm⟩)))
  | CschedLcReleaseReq rnti lcIds =>
    simp only [handle, Except.ok.injEq, Prod.mk.injEq] at h
    exact Or.inr (Or.inr (Or.inr (Or.inr (Or.inl ⟨rnti, lcIds, h.1.symm⟩))))
  | CschedUeReleaseReq rnti =>
    simp only [handle, Except.ok.injEq, Prod.mk.injEq] at h
    exact Or.inr (Or.inr (Or.inr (Or.inr (Or.inr (Or.inl ⟨rnti, h.1.symm⟩)))))
  | SchedDlRlcBufferReq params =>
    simp only [handle, Except.ok.injEq, Prod.mk.injEq] at h
    exact Or.inr (Or.inr (Or.inr (Or.inr (Or.inr (Or.inr (Or.inl ⟨params, h.1.symm⟩))))))
  | SchedDlPagingBufferReq => simp only [handle] at h; cases h
  | SchedDlMacBufferReq => simp only [handle] at h; cases h
  | SchedDlRachInfoReq rachList =>
    simp only [handle, Except.ok.injEq, Prod.mk.injEq] at h
    exact Or.inr (Or.inr (Or.inr (Or.inr (Or.inr (Or.inr (Or.inr
      (Or.inl ⟨rachList, h.1.symm⟩)))))))
  | SchedDlCqiInfoReq cqiList =>
    simp only [handle] at h
    split at h
    · cases h
    · rename_i s2 hreq
      simp only [Except.ok.injEq, Prod.mk.injEq] at h
      obtain ⟨rfl, _⟩ := h
      exact Or.inr (Or.inr (Or.inr (Or.inr (Or.inr (Or.inr (Or.inr (Or.inr
        (Or.inl ⟨cqiList, hreq⟩))))))))
  | SchedDlTriggerReq dlInfoList =>
    simp only [handle] at h
    split at h
    · cases h
    · rename_i s2 out hreq
      simp only [Except.ok.injEq, Prod.mk.injEq] at h
      obtain ⟨rfl, _⟩ := h
      exact Or.inr (Or.inr (Or.inr (Or.inr (Or.inr (Or.inr (Or.inr (Or.inr (Or.inr
        (Or.inl ⟨dlInfoList, _, hreq⟩)))))))))
    · rename_i s2 hreq
      simp only [Except.ok.injEq, Prod.mk.injEq] at h
      obtain ⟨rfl, _⟩ := h
      exact Or.inr (Or.inr (Or.inr (Or.inr (Or.inr (Or.inr (Or.inr (Or.inr (Or.inr
        (Or.inl ⟨dlInfoList, _, hreq⟩)))))))))
  | SchedUlTriggerReq ulInfoList =>
    simp only [handle] at h
    split at h
    · cases h
    · rename_i s2 out hreq
      simp only [Except.ok.injEq, Prod.mk.injEq] at h
      obtain ⟨rfl, _⟩ := h
      exact Or.inr (Or.inr (Or.inr (Or.inr (Or.inr (Or.inr (Or.inr (Or.inr (Or.inr (Or.inr
        (Or.inl ⟨ulInfoList, _, hreq⟩))))))))))
    · rename_i s2 hreq
      simp only [Except.ok.injEq, Prod.mk.injEq] at h
      obtain ⟨rfl, _⟩ := h
      exact Or.inr (Or.inr (Or.inr (Or.inr (Or.inr (Or.inr (Or.inr (Or.inr (Or.inr (Or.inr
        (Or.inl ⟨ulInfoList, _, hreq⟩))))))))))
  | SchedUlMacCtrlInfoReq macCeList =>
    simp only [handle] at h
    split at h
    · cases h
    · rename_i s2 hreq
      simp only [Except.ok.injEq, Prod.mk.injEq] at h
      obtain ⟨rfl, _⟩ := h
      exact Or.inr (Or.inr (Or.inr (Or.inr (Or.inr (Or.inr (Or.inr (Or.inr (Or.inr (Or.inr
        (Or.inr (Or.inl ⟨macCeList, hreq⟩)))))))))))
  | SchedUlCqiInfoReq params =>
    simp only [handle] at h
    split at h
    · cases h
    · rename_i s2 hreq
      simp only [Except.ok.injEq, Prod.mk.injEq] at h
      obtain ⟨rfl, _⟩ := h
      exact Or.inr (Or.inr (Or.inr (Or.inr (Or.inr (Or.inr (Or.inr (Or.inr (Or.inr (Or.inr
        (Or.inr (Or.inr ⟨params, hreq⟩)))))))))))
  | SchedUlNoiseInterferenceReq =>
    simp only [handle, Except.ok.injEq, Prod.mk.injEq] at h
    exact Or.inl h.1.symm
  | SchedUlSrInfoReq =>
    simp only [handle, Except.ok.injEq, Prod.mk.injEq] at h
    exact Or.inl h.1.symm

/-- A relation between schedulers that holds across the configuration requests,
the reports and the passes holds across every request. -/
theorem handle_step_frame (env : Env) (R : SchedState → SchedState → Prop)
    (hrefl : ∀ s, R s s)
    (hcfg : ∀ s s1, ConfigFrame s s1 → R s s1)
    (hdlcqi : ∀ s s1 cqiList, DoSchedDlCqiInfoReq s cqiList = .ok s1 → R s s1)
    (hdl : ∀ s s1 dlInfoList out, DoSchedDlTriggerReq env s dlInfoList = .ok (s1, out) → R s s1)
    (hul : ∀ s s1 ulInfoList out, DoSchedUlTriggerReq env s ulInfoList = .ok (s1, out) → R s s1)
    (hmac : ∀ s s1 macCeList, DoSchedUlMacCtrlInfoReq env s macCeList = .ok s1 → R s s1)
    (hulcqi : ∀ s s1 params, DoSchedUlCqiInfoReq env s params = .ok s1 → R s s1)
    (s : SchedState) (r : Request) (s1 : SchedState) (ind : Indication)
    (h : handle env s r = .ok (s1, ind)) : R s s1 := by
  obtain ⟨c1, c2, c3, c4, c5, c6, c7⟩ := config_requests_frame s
  rcases handle_step_cases env s r s1 ind h with rfl | ⟨_, _, rfl⟩ | ⟨_, _, rfl⟩ |
    ⟨_, _, rfl⟩ | ⟨_, _, rfl⟩ | ⟨_, rfl⟩ | ⟨_, rfl⟩ | ⟨_, rfl⟩ | ⟨_, hq⟩ | ⟨_, _, hq⟩ |
    ⟨_, _, hq⟩ | ⟨_, hq⟩ | ⟨_, hq⟩
  · exact hrefl _
  · exact hcfg _ _ (c1 _ _)
  · exact hcfg _ _ (c2 _ _)
  · exact hcfg _ _ (c3 _ _)
  · exact hcfg _ _ (c4 _ _)
  · exact hcfg _ _ (c5 _)
  · exact hcfg _ _ (c6 _)
  · exact hcfg _ _ (c7 _)
  · exact hdlcqi _ _ _ hq
  · exact hdl _ _ _ _ hq
  · exact hul _ _ _ _ hq
  · exact hmac _ _ _ hq
  · exact hulcqi _ _ _ hq

/-- Every request keeps the allocation-map store empty. -/
theorem handle_allocationMaps (env : Env) (s : SchedState) (r : Request) (s1 : SchedState)
    (ind : Indication) (hI : s.m_allocationMaps = [])
    (h : handle env s r = .ok (s1, ind)) : s1.m_allocationMaps = [] := by
  refine handle_step_frame env
    (fun s s1 => s.m_allocationMaps = [] → s1.m_allocationMaps = [])
    (fun _ h => h) ?_ ?_ ?_ ?_ ?_ ?_ s r s1 ind h hI
  · rintro s s1 ⟨_, _, _, _, _, _, _, _, _, _, _, _, _, _, _, _, _, _, rfl⟩ hI
    exact hI
  · intro s s1 cqiList hq hI
    obtain ⟨_, _, _, _, rfl⟩ := doSchedDlCqiInfoReq_frame _ _ _ hq
    exact hI
  · intro s s1 dlInfoList out hq hI
    obtain ⟨s0, h0, _, _, _, _, _, _, _, _, _, rfl⟩ := doSchedDlTriggerReq_frame _ _ _ _ _ hq
    obtain ⟨_, _, _, _, rfl⟩ := refreshDlCqiMaps_eq _ _ h0
    exact hI
  · intro s s1 ulInfoList out hq hI
    obtain ⟨_, _, _, _, _, _, rfl⟩ := doSchedUlTriggerReq_frame _ _ _ _ _ hq
    exact hI
  · intro s s1 macCeList hq hI
    obtain ⟨_, rfl⟩ := doSchedUlMacCtrlInfoReq_frame _ _ _ _ hq
    exact hI
  · intro s s1 params hq hI
    rcases doSchedUlCqiInfoReq_cases _ _ _ _ hI hq with rfl | ⟨_, hsrs⟩
    · exact hI
    · obtain ⟨_, _, rfl⟩ := ulCqiSrs_frame _ _ _ _ hsrs
      exact hI

/-- C40: in every state reached from the scheduler right after construction by
requests that return, the allocation-map store is empty; hence a PUSCH report
finds no stored allocation whatever the filter, and `DoSchedUlCqiInfoReq`
returns the scheduler as it is, uplink samples and age counters included (with
the filter set to SRS or PUSCH it does return); and in every state a report
whose type does not match the filter returns the scheduler unchanged. -/
theorem allocation_maps_stay_empty (env : Env) (harqOn : Bool)
    (cqiTimersThreshold ulGrantMcs : Nat) (filter : UlCqiFilter_t) (reqs : List Request)
    (s : SchedState) (inds : List Indication)
    (hrun : run env reqs (SchedState.init harqOn cqiTimersThreshold ulGrantMcs filter)
      = .ok (s, inds)) :
    s.m_allocationMaps = [] ∧
    (∀ params s1, params.m_type = UlCqiType_e.PUSCH →
      DoSchedUlCqiInfoReq env s params = .ok s1 → s1 = s) ∧
    (∀ params, params.m_type = UlCqiType_e.PUSCH →
      s.m_ulCqiFilter ≠ UlCqiFilter_t.other → DoSchedUlCqiInfoReq env s params = .ok s) ∧
    (∀ (s2 : SchedState) params,
      (s2.m_ulCqiFilter = UlCqiFilter_t.SRS_UL_CQI ∧ params.m_type ≠ UlCqiType_e.SRS) ∨
      (s2.m_ulCqiFilter = UlCqiFilter_t.PUSCH_UL_CQI ∧ params.m_type ≠ UlCqiType_e.PUSCH) →
      DoSchedUlCqiInfoReq env s2 params = .ok s2) := by
  have hmap : s.m_allocationMaps = [] :=
    run_invariant env (fun s => s.m_allocationMaps = [])
      (fun s r s1 ind hI h => handle_allocationMaps env s r s1 ind hI h) reqs _ _ _ rfl hrun
  refine ⟨hmap, fun params s1 hty h => ?_, fun params hty hf => ?_, fun s2 params hmis => ?_⟩
  · rcases doSchedUlCqiInfoReq_cases _ _ _ _ hmap h with h1 | ⟨hsrs, _⟩
    · exact h1
    · rw [hty] at hsrs
      cases hsrs
  · simp only [DoSchedUlCqiInfoReq, ulCqiFilterPass, hty]
    cases hfil : s.m_ulCqiFilter with
    | SRS_UL_CQI => simp
    | PUSCH_UL_CQI => simp [ulCqiPusch, hmap, RMap.find]
    | other => exact absurd hfil hf
  · simp only [DoSchedUlCqiInfoReq, ulCqiFilterPass]
    rcases hmis with ⟨hf, hty⟩ | ⟨hf, hty⟩
    · simp [hf, hty]
    · simp [hf, hty]

/-- Witness of C40: after a run with a downlink and an uplink pass the store is
empty and a PUSCH report returns the scheduler of `ulGrantState` as it is. -/
theorem allocation_maps_stay_empty_witness :
    run exampleEnv ulGrantRequests exampleInit
      = .ok (ulGrantState, (Res.getD (run exampleEnv ulGrantRequests exampleInit)
          (exampleInit, [])).2) ∧
    DoSchedUlCqiInfoReq exampleEnv ulGrantState (exampleUlReport UlCqiType_e.PUSCH)
      = .ok ulGrantState ∧
    (ulGrantState.m_allocationMaps = [] ∧
     (∀ params s1, params.m_type = UlCqiType_e.PUSCH →
       DoSchedUlCqiInfoReq exampleEnv ulGrantState params = .ok s1 → s1 = ulGrantState) ∧
     (∀ params, params.m_type = UlCqiType_e.PUSCH →
       ulGrantState.m_ulCqiFilter ≠ UlCqiFilter_t.other →
       DoSchedUlCqiInfoReq exampleEnv ulGrantState params = .ok ulGrantState) ∧
     (∀ (s2 : SchedState) params,
       (s2.m_ulCqiFilter = UlCqiFilter_t.SRS_UL_CQI ∧ params.m_type ≠ UlCqiType_e.SRS) ∨
       (s2.m_ulCqiFilter = UlCqiFilter_t.PUSCH_UL_CQI ∧ params.m_type ≠ UlCqiType_e.PUSCH) →
       DoSchedUlCqiInfoReq exampleEnv s2 params = .ok s2)) :=
  ⟨rfl, rfl,
   allocation_maps_stay_empty exampleEnv true 1000 0 UlCqiFilter_t.SRS_UL_CQI ulGrantRequests
     ulGrantState (Res.getD (run exampleEnv ulGrantRequests exampleInit) (exampleInit, [])).2
     rfl⟩

/-! ## Entries and keys of the maps -/

theorem RMap.mem_of_find {α : Type} (m : RMap α) (k : Nat) (v : α)
    (h : m.find k = some v) : (k, v) ∈ m := by
  induction m with
  | nil => simp [RMap.find] at h
  | cons kv m ih =>
    obtain ⟨k1, v1⟩ := kv
    by_cases hk : k1 = k
    · simp only [RMap.find, hk, if_true, Option.some.injEq] at h
      simp [hk, h]
    · simp only [RMap.find, hk, if_false] at h
      exact List.mem_cons_of_mem _ (ih h)

theorem RMap.mem_assign {α : Type} (m : RMap α) (k : Nat) (x : α) (kv : Nat × α)
    (h : kv ∈ m.assign k x) : kv ∈ m ∨ kv.2 = x := by
  induction m with
  | nil => simp [RMap.assign] at h
  | cons kv1 m ih =>
    obtain ⟨k1, v1⟩ := kv1
    by_cases hk : k1 = k
    · simp only [RMap.assign, hk, if_true, List.mem_cons] at h
      rcases h with h | h
      · exact Or.inr (by rw [h])
      · exact Or.inl (List.mem_cons_of_mem _ h)
    · simp only [RMap.assign, hk, if_false, List.mem_cons] at h
      rcases h with h | h
      · exact Or.inl (by rw [h]; exact List.mem_cons_self _ _)
      · rcases ih h with h2 | h2
        · exact Or.inl (List.mem_cons_of_mem _ h2)
        · exact Or.inr h2

theorem RMap.mem_insertNew {α : Type} (m : RMap α) (k : Nat) (x : α) (kv : Nat × α)
    (h : kv ∈ m.insertNew k x) : kv ∈ m ∨ kv = (k, x) := by
  induction m with
  | nil =>
    simp only [RMap.insertNew, List.mem_singleton] at h
    exact Or.inr h
  | cons kv1 m ih =>
    obtain ⟨k1, v1⟩ := kv1
    by_cases hk : k < k1
    · simp only [RMap.insertNew, hk, if_true, List.mem_cons] at h
      rcases h with h | h | h
      · exact Or.inr h
      · exact Or.inl (by rw [h]; exact List.mem_cons_self _ _)
      · exact Or.inl (List.mem_cons_of_mem _ h)
    · simp only [RMap.insertNew, hk, if_false, List.mem_cons] at h
      rcases h with h | h
      · exact Or.inl (by rw [h]; exact List.mem_cons_self _ _)
      · rcases ih h with h2 | h2
        · exact Or.inl (List.mem_cons_of_mem _ h2)
        · exact Or.inr h2

theorem RMap.mem_insert {α : Type} (m : RMap α) (k : Nat) (x : α) (kv : Nat × α)
    (h : kv ∈ m.insert k x) : kv ∈ m ∨ kv = (k, x) := by
  unfold RMap.insert at h
  split at h
  · exact Or.inl h
  · exact RMap.mem_insertNew m k x kv h

theorem RMap.mem_erase {α : Type} (m : RMap α) (k : Nat) (kv : Nat × α)
    (h : kv ∈ m.erase k) : kv ∈ m := by
  induction m with
  | nil => simp [RMap.erase] at h
  | cons kv1 m ih =>
    obtain ⟨k1, v1⟩ := kv1
    by_cases hk : k1 = k
    · simp only [RMap.erase, hk, if_true] at h
      exact List.mem_cons_of_mem _ (ih h)
    · simp only [RMap.erase, hk, if_false, List.mem_cons] at h
      rcases h with h | h
      · rw [h]; exact List.mem_cons_self _ _
      · exact List.mem_cons_of_mem _ (ih h)

theorem RMap.keys_assign {α : Type} (m : RMap α) (k : Nat) (x : α) :
    (m.assign k x).map Prod.fst = m.map Prod.fst := by
  induction m with
  | nil => rfl
  | cons kv1 m ih =>
    obtain ⟨k1, v1⟩ := kv1
    by_cases hk : k1 = k
    · simp [RMap.assign, hk]
    · simp [RMap.assign, hk, ih]

theorem RMap.keys_insertNew {α : Type} (m : RMap α) (k : Nat) (x : α) :
    ((m.insertNew k x).map Prod.fst).Perm (k :: m.map Prod.fst) := by
  induction m with
  | nil => simp [RMap.insertNew]
  | cons kv1 m ih =>
    obtain ⟨k1, v1⟩ := kv1
    by_cases hk : k < k1
    · simp [RMap.insertNew, hk]
    · simp only [RMap.insertNew, hk, if_false, List.map_cons]
      exact (List.Perm.cons k1 ih).trans (List.Perm.swap k k1 _)

theorem RMap.nodup_insert {α : Type} (m : RMap α) (k : Nat) (x : α)
    (h : (m.map Prod.fst).Nodup) : ((m.insert k x).map Prod.fst).Nodup := by
  unfold RMap.insert
  cases hk : m.find k with
  | some _ => exact h
  | none =>
    simp only
    rw [(RMap.keys_insertNew m k x).nodup_iff, List.nodup_cons]
    refine ⟨fun hmem => ?_, h⟩
    have := RMap.find_isSome_of_mem_keys m k hmem
    rw [hk] at this
    cases this

theorem RMap.find_insert_of_none {α : Type} (m : RMap α) (k : Nat) (x : α) (k2 : Nat)
    (h : m.find k = none) :
    (m.insert k x).find k2 = if k2 = k then some x else m.find k2 := by
  unfold RMap.insert
  simp only [h]
  exact RMap.find_insertNew m k x k2 h

theorem RMap.find_assign_isSome {α : Type} (m : RMap α) (k : Nat) (x : α) (k2 : Nat) :
    ((m.assign k x).find k2).isSome = (m.find k2).isSome := by
  by_cases hk : k2 = k
  · subst hk
    cases hf : m.find k2 with
    | none =>
      have : (m.assign k2 x).find k2 = none := by
        apply RMap.find_eq_none_of_not_mem
        rw [RMap.keys_assign]
        intro hmem
        have := RMap.find_isSome_of_mem_keys m k2 hmem
        rw [hf] at this
        cases this
      rw [this]
    | some y => rw [RMap.find_assign_self m k2 x y hf]; rfl
  · rw [RMap.find_assign_ne m k k2 x hk]

/-! ## Properties kept by an uplink pass -/

/-- A property kept by the storing of an estimate is kept by a sample read
that may store one. -/
theorem ulSampleOrEstimate_keeps (env : Env) (P : SchedState → Prop)
    (hest : ∀ s s1 rnti rb x, P s → EstimateUlSinr env s rnti rb = .ok (x, s1) → P s1)
    (s s1 : SchedState) (rnti i : Nat) (who : Option Nat) (rb : Nat) (x : Int)
    (h : ulSampleOrEstimate env s rnti i who rb = .ok (x, s1)) (hP : P s) : P s1 := by
  simp only [ulSampleOrEstimate] at h
  split at h
  · cases h
  · split at h
    · cases h
    · split at h
      · split at h
        · cases h
        · exact hest _ _ _ _ _ hP h
      · simp only [Except.ok.injEq, Prod.mk.injEq] at h
        obtain ⟨_, rfl⟩ := h
        exact hP

theorem ulMinSinrLoop_keeps (env : Env) (P : SchedState → Prop)
    (hest : ∀ s s1 rnti rb x, P s → EstimateUlSinr env s rnti rb = .ok (x, s1) → P s1)
    (rnti : Nat) (who : Option Nat) :
    ∀ (n i : Nat) (s s1 : SchedState) (m x : Int),
      ulMinSinrLoop env rnti who n i s m = .ok (x, s1) → P s → P s1 := by
  intro n
  induction n with
  | zero =>
    intro i s s1 m x h hP
    simp only [ulMinSinrLoop, Except.ok.injEq, Prod.mk.injEq] at h
    obtain ⟨_, rfl⟩ := h
    exact hP
  | succ n ih =>
    intro i s s1 m x h hP
    simp only [ulMinSinrLoop] at h
    split at h
    · cases h
    · rename_i y s2 hs
      exact ih _ _ _ _ _ h (ulSampleOrEstimate_keeps env P hest _ _ _ _ _ _ _ hs hP)

theorem ulMcsFromSamples_keeps (env : Env) (P : SchedState → Prop)
    (hest : ∀ s s1 rnti rb x, P s → EstimateUlSinr env s rnti rb = .ok (x, s1) → P s1)
    (s s1 : SchedState) (rnti : Nat) (who : Option Nat) (rbStart rbLen mcs : Nat)
    (h : ulMcsFromSamples env s rnti who rbStart rbLen = .ok (mcs, s1)) (hP : P s) : P s1 := by
  simp only [ulMcsFromSamples] at h
  split at h
  · cases h
  · split at h
    · cases h
    · split at h
      · cases h
      · rename_i y s2 hs
        split at h
        · cases h
        · rename_i z s3 hl
          split at h
          · cases h
          · simp only [Except.ok.injEq, Prod.mk.injEq] at h
            obtain ⟨_, rfl⟩ := h
            exact ulMinSinrLoop_keeps env P hest _ _ _ _ _ _ _ _ hl
              (ulSampleOrEstimate_keeps env P hest _ _ _ _ _ _ _ hs hP)

theorem ulSelectLayers_keeps (env : Env) (P : SchedState → Prop)
    (hest : ∀ s s1 rnti rb x, P s → EstimateUlSinr env s rnti rb = .ok (x, s1) → P s1)
    (rnti : Nat) :
    ∀ (n : Nat) (s s1 : SchedState) (rate : Nat) (itMax it1 : Option Nat) (M M1 : Nat),
      ulSelectLayers env rnti n s rate itMax M = .ok (s1, it1, M1) → P s → P s1 := by
  intro n
  induction n with
  | zero =>
    intro s s1 rate itMax it1 M M1 h hP
    simp only [ulSelectLayers, Except.ok.injEq, Prod.mk.injEq] at h
    obtain ⟨rfl, _, _⟩ := h
    exact hP
  | succ n ih =>
    intro s s1 rate itMax it1 M M1 h hP
    simp only [ulSelectLayers] at h
    split at h
    · cases h
    · rename_i mcs s2 hm
      have h2 : P s2 := by
        split at hm
        · simp only [Except.ok.injEq, Prod.mk.injEq] at hm
          obtain ⟨_, rfl⟩ := hm
          exact hP
        · exact ulMcsFromSamples_keeps env P hest _ _ _ _ _ _ _ hm hP
      split at h
      · exact ih _ _ _ _ _ _ _ h h2
      · exact ih _ _ _ _ _ _ _ h h2

theorem ulSelectStep_keeps (env : Env) (P : SchedState → Prop)
    (hest : ∀ s s1 rnti rb x, P s → EstimateUlSinr env s rnti rb = .ok (x, s1) → P s1)
    (rntiAllocated : List Nat) (rnti : Nat)
    (s s1 : SchedState) (itMax it1 : Option Nat) (M M1 : Nat)
    (h : ulSelectStep env rntiAllocated rnti s itMax M = .ok (s1, it1, M1)) (hP : P s) :
    P s1 := by
  have hsame : ∀ {a : SchedState} {b : Option Nat} {c : Nat},
      (Except.ok (s, itMax, M) : Res (SchedState × Option Nat × Nat)) = .ok (a, b, c) →
      P a := by
    intro a b c he
    simp only [Except.ok.injEq, Prod.mk.injEq] at he
    obtain ⟨rfl, _, _⟩ := he
    exact hP
  simp only [ulSelectStep] at h
  split at h
  · split at h
    · cases h
    · exact hsame h
  · split at h
    · cases h
    · split at h
      · exact hsame h
      · split at h
        · cases h
        · split at h
          · cases h
          · split at h
            · exact ulSelectLayers_keeps env P hest _ _ _ _ _ _ _ _ _ h hP
            · exact hsame h

theorem ulSelectLoop_keeps (env : Env) (P : SchedState → Prop)
    (hest : ∀ s s1 rnti rb x, P s → EstimateUlSinr env s rnti rb = .ok (x, s1) → P s1)
    (rntiAllocated : List Nat) :
    ∀ (flows : List Nat) (s s1 : SchedState) (itMax it1 : Option Nat) (M M1 : Nat),
      ulSelectLoop env rntiAllocated flows s itMax M = .ok (s1, it1, M1) → P s → P s1 := by
  intro flows
  induction flows with
  | nil =>
    intro s s1 itMax it1 M M1 h hP
    simp only [ulSelectLoop, Except.ok.injEq, Prod.mk.injEq] at h
    obtain ⟨rfl, _, _⟩ := h
    exact hP
  | cons rnti rest ih =>
    intro s s1 itMax it1 M M1 h hP
    simp only [ulSelectLoop] at h
    split at h
    · cases h
    · rename_i s2 it2 M2 hstep
      exact ih _ _ _ _ _ _ h (ulSelectStep_keeps env P hest _ _ _ _ _ _ _ _ hstep hP)

theorem ulDescLayers_keeps (env : Env) (P : SchedState → Prop)
    (hest : ∀ s s1 rnti rb x, P s → EstimateUlSinr env s rnti rb = .ok (x, s1) → P s1)
    (rnti rbStart rbLen rbPerFlow : Nat) :
    ∀ (n : Nat) (s s1 : SchedState) (acc acc1 : Option (Nat × Nat)),
      ulDescLayers env rnti rbStart rbLen rbPerFlow n s acc = .ok (s1, acc1) → P s → P s1 := by
  intro n
  induction n with
  | zero =>
    intro s s1 acc acc1 h hP
    simp only [ulDescLayers, Except.ok.injEq, Prod.mk.injEq] at h
    obtain ⟨rfl, _⟩ := h
    exact hP
  | succ n ih =>
    intro s s1 acc acc1 h hP
    simp only [ulDescLayers] at h
    split at h
    · cases h
    · rename_i m s2 hm
      have h2 : P s2 := by
        split at hm
        · simp only [Except.ok.injEq, Prod.mk.injEq] at hm
          obtain ⟨_, rfl⟩ := hm
          exact hP
        · exact ulMcsFromSamples_keeps env P hest _ _ _ _ _ _ _ hm hP
      exact ih _ _ _ _ h h2

theorem ulDescEntry_keeps (env : Env) (P : SchedState → Prop)
    (hest : ∀ s s1 rnti rb x, P s → EstimateUlSinr env s rnti rb = .ok (x, s1) → P s1)
    (hbsr : ∀ s rnti size, P s → P (UpdateUlRlcBufferInfo s rnti size))
    (hstore : ∀ s s1 dci, P s → ulStoreDci s dci = .ok s1 → P s1)
    (rnti rbPerFlow rbAllocated : Nat) (s s1 : SchedState) (uldci : UlDciListElement_s)
    (h : ulDescEntry env rnti rbPerFlow rbAllocated s = .ok (s1, uldci)) (hP : P s) :
    P s1 := by
  simp only [ulDescEntry] at h
  split at h
  · cases h
  · split at h
    · cases h
    · cases h
    · rename_i s2 mcs tb hlay
      have h2 : P s2 := ulDescLayers_keeps env P hest _ _ _ _ _ _ _ _ _ hlay hP
      split at h
      · cases h
      · rename_i s3 hst
        simp only [Except.ok.injEq, Prod.mk.injEq] at h
        obtain ⟨rfl, _⟩ := h
        split at hst
        · exact hstore _ _ _ (hbsr _ _ _ h2) hst
        · simp only [Except.ok.injEq] at hst
          subst hst
          exact hbsr _ _ _ h2

theorem ulDescLoop_keeps (env : Env) (P : SchedState → Prop)
    (hest : ∀ s s1 rnti rb x, P s → EstimateUlSinr env s rnti rb = .ok (x, s1) → P s1)
    (hbsr : ∀ s rnti size, P s → P (UpdateUlRlcBufferInfo s rnti size))
    (hstore : ∀ s s1 dci, P s → ulStoreDci s dci = .ok s1 → P s1) :
    ∀ (entries : List (Nat × Nat)) (rbAllocated : Nat) (s s1 : SchedState)
      (dciList out : List UlDciListElement_s),
      ulDescLoop env entries rbAllocated s dciList = .ok (s1, out) → P s → P s1 := by
  intro entries
  induction entries with
  | nil =>
    intro rbAllocated s s1 dciList out h hP
    simp only [ulDescLoop, Except.ok.injEq, Prod.mk.injEq] at h
    obtain ⟨rfl, _⟩ := h
    exact hP
  | cons entry rest ih =>
    intro rbAllocated s s1 dciList out h hP
    obtain ⟨rnti, n⟩ := entry
    simp only [ulDescLoop] at h
    split at h
    · cases h
    · rename_i s2 uldci hent
      exact ih _ _ _ _ _ h (ulDescEntry_keeps env P hest hbsr hstore _ _ _ _ _ _ hent hP)

theorem ulHarqFeedbackLoop_keeps (env : Env) (P : SchedState → Prop)
    (hfb : ∀ e s s1 l l1, P s → ulHarqFeedbackEntry env e s l = .ok (s1, l1) → P s1) :
    ∀ (es : List UlInfoListElement_s) (s s1 : SchedState) (l l1 : UlLocals),
      ulHarqFeedbackLoop env es s l = .ok (s1, l1) → P s → P s1 := by
  intro es
  induction es with
  | nil =>
    intro s s1 l l1 h hP
    simp only [ulHarqFeedbackLoop, Except.ok.injEq, Prod.mk.injEq] at h
    obtain ⟨rfl, _⟩ := h
    exact hP
  | cons e rest ih =>
    intro s s1 l l1 h hP
    simp only [ulHarqFeedbackLoop] at h
    split at h
    · cases h
    · rename_i s2 l2 hentry
      exact ih _ _ _ _ h (hfb _ _ _ _ _ hP hentry)

/-- A property kept by every write of an uplink pass is kept by the pass. -/
theorem doSchedUlTriggerReq_keeps (env : Env) (P : SchedState → Prop)
    (hrefresh : ∀ s s1, P s → RefreshUlCqiMaps s = .ok s1 → P s1)
    (hrach : ∀ (s : SchedState) m, P s → P { s with m_rachAllocationMap := m })
    (hest : ∀ s s1 rnti rb x, P s → EstimateUlSinr env s rnti rb = .ok (x, s1) → P s1)
    (hfb : ∀ e s s1 l l1, P s → ulHarqFeedbackEntry env e s l = .ok (s1, l1) → P s1)
    (hbsr : ∀ s rnti size, P s → P (UpdateUlRlcBufferInfo s rnti size))
    (hstore : ∀ s s1 dci, P s → ulStoreDci s dci = .ok s1 → P s1)
    (s s1 : SchedState) (ulInfoList : List UlInfoListElement_s)
    (out : Option (List UlDciListElement_s))
    (h : DoSchedUlTriggerReq env s ulInfoList = .ok (s1, out)) (hP : P s) : P s1 := by
  have hsel : ∀ sa la it, ulPassSelect env s ulInfoList = .ok (sa, la, it) → P sa := by
    intro sa la it hs
    obtain ⟨s0, rbMap, sf, lf, M, h0, _, hfbl, hloop, _⟩ := ulPassSelect_parts _ _ _ _ _ _ hs
    have p0 : P s0 := hrefresh _ _ hP h0
    have p1 : P sf := by
      split at hfbl
      · exact ulHarqFeedbackLoop_keeps env P hfb _ _ _ _ _ hfbl (hrach _ _ p0)
      · simp only [Except.ok.injEq, Prod.mk.injEq] at hfbl
        obtain ⟨rfl, _⟩ := hfbl
        exact hrach _ _ p0
    exact ulSelectLoop_keeps env P hest _ _ _ _ _ _ _ _ hloop p1
  simp only [DoSchedUlTriggerReq] at h
  split at h
  · cases h
  · rename_i sa la hs
    simp only [Except.ok.injEq, Prod.mk.injEq] at h
    obtain ⟨rfl, _⟩ := h
    exact hsel _ _ _ hs
  · rename_i sa la rntiMax hs
    have pa := hsel _ _ _ hs
    split at h
    · cases h
    · split at h
      · cases h
      · rename_i sb dl hloop
        simp only [Except.ok.injEq, Prod.mk.injEq] at h
        obtain ⟨rfl, _⟩ := h
        exact ulDescLoop_keeps env P hest hbsr hstore _ _ _ _ _ _ hloop pa

/-! ## Consistency of the channel-quality stores -/

/-- Recording a sample in a consistent store returns: the unchecked timer lookup
finds its entry, and the store stays consistent. -/
theorem cqiRecord_consistent {α : Type} (threshold rnti : Nat) (sample : α) (rxed : RMap α)
    (timers : RMap Nat) (h : CqiMapsConsistent timers rxed) :
    ∃ r1 t1, cqiRecord threshold rnti sample rxed timers = .ok (r1, t1) ∧
      CqiMapsConsistent t1 r1 := by
  obtain ⟨hnd, hkeys⟩ := h
  unfold cqiRecord
  cases hr : rxed.find rnti with
  | none =>
    have ht : timers.find rnti = none := by
      have := hkeys rnti
      rw [hr] at this
      simpa using this
    refine ⟨_, _, rfl, RMap.nodup_insert _ _ _ hnd, fun k => ?_⟩
    rw [RMap.find_insert_of_none _ _ _ _ ht, RMap.find_insert_of_none _ _ _ _ hr]
    by_cases hk : k = rnti
    · simp [hk]
    · simp [hk, hkeys k]
  | some v =>
    have ht : (timers.find rnti).isSome = true := by
      rw [hkeys rnti, hr]; rfl
    obtain ⟨t, ht2⟩ := Option.isSome_iff_exists.mp ht
    simp only [ht2]
    refine ⟨_, _, rfl, ?_, fun k => ?_⟩
    · rw [RMap.keys_assign]; exact hnd
    · rw [RMap.find_assign_isSome, RMap.find_assign_isSome]
      exact hkeys k

/-- Writes outside the channel-quality stores and the allocation maps keep the
stores consistent. -/
theorem cqiStoresConsistent_congr (s s1 : SchedState) (h : CqiStoresConsistent s)
    (h0 : s1.m_allocationMaps = s.m_allocationMaps)
    (h1 : s1.m_p10CqiTimers = s.m_p10CqiTimers) (h2 : s1.m_p10CqiRxed = s.m_p10CqiRxed)
    (h3 : s1.m_a30CqiTimers = s.m_a30CqiTimers) (h4 : s1.m_a30CqiRxed = s.m_a30CqiRxed)
    (h5 : s1.m_ueCqiTimers = s.m_ueCqiTimers) (h6 : s1.m_ueCqi = s.m_ueCqi) :
    CqiStoresConsistent s1 := by
  unfold CqiStoresConsistent
  rw [h0, h1, h2, h3, h4, h5, h6]
  exact h

theorem dlCqiInfoEntry_consistent (s : SchedState) (c : CqiListElement_s)
    (h : CqiStoresConsistent s) :
    dlCqiInfoEntry s c ≠ .error .undefinedBehaviour ∧
    ∀ s1, dlCqiInfoEntry s c = .ok s1 → CqiStoresConsistent s1 := by
  obtain ⟨ha, h10, h30, hul⟩ := h
  unfold dlCqiInfoEntry
  split
  · cases hwb : vecAt c.m_wbCqi 0 with
    | error f =>
      simp only [vecAt] at hwb
      split at hwb
      · cases hwb
      · simp only [Except.error.injEq] at hwb
        subst hwb
        exact ⟨by simp, fun s1 he => by cases he⟩
    | ok wb =>
      obtain ⟨r1, t1, he, hc⟩ := cqiRecord_consistent s.m_cqiTimersThreshold c.m_rnti wb _ _ h10
      simp only [he]
      refine ⟨by simp, fun s1 he1 => ?_⟩
      simp only [Except.ok.injEq] at he1
      subst he1
      exact ⟨ha, hc, h30, hul⟩
  · split
    · obtain ⟨r1, t1, he, hc⟩ :=
        cqiRecord_consistent s.m_cqiTimersThreshold c.m_rnti c.m_sbMeasResult _ _ h30
      simp only [he]
      refine ⟨by simp, fun s1 he1 => ?_⟩
      simp only [Except.ok.injEq] at he1
      subst he1
      exact ⟨ha, h10, hc, hul⟩
    · refine ⟨by simp, fun s1 he1 => ?_⟩
      simp only [Except.ok.injEq] at he1
      subst he1
      exact ⟨ha, h10, h30, hul⟩

theorem doSchedDlCqiInfoReq_consistent :
    ∀ (cqiList : List CqiListElement_s) (s : SchedState), CqiStoresConsistent s →
      DoSchedDlCqiInfoReq s cqiList ≠ .error .undefinedBehaviour ∧
      ∀ s1, DoSchedDlCqiInfoReq s cqiList = .ok s1 → CqiStoresConsistent s1 := by
  intro cqiList
  induction cqiList with
  | nil =>
    intro s h
    refine ⟨by simp [DoSchedDlCqiInfoReq], fun s1 he => ?_⟩
    simp only [DoSchedDlCqiInfoReq, Except.ok.injEq] at he
    subst he
    exact h
  | cons c rest ih =>
    intro s h
    obtain ⟨hne, hok⟩ := dlCqiInfoEntry_consistent s c h
    simp only [DoSchedDlCqiInfoReq]
    cases he : dlCqiInfoEntry s c with
    | error f =>
      refine ⟨?_, fun s1 he1 => by cases he1⟩
      intro hf
      simp only [Except.error.injEq] at hf
      subst hf
      exact hne he
    | ok s2 => exact ih s2 (hok s2 he)

theorem vecAt_fault {α : Type} (v : List α) (i : Nat) (f : Fault)
    (h : vecAt v i = .error f) : f = Fault.outOfRange := by
  simp only [vecAt] at h
  split at h
  · cases h
  · simp only [Except.error.injEq] at h
    exact h.symm

theorem vecSet_fault {α : Type} (v : List α) (i : Nat) (x : α) (f : Fault)
    (h : vecSet v i x = .error f) : f = Fault.outOfRange := by
  simp only [vecSet] at h
  split at h
  · cases h
  · simp only [Except.error.injEq] at h
    exact h.symm

theorem srsSamples_fault (env : Env) (sinrs : List Nat) :
    ∀ (n j : Nat), srsSamples env sinrs n j ≠ .error .undefinedBehaviour := by
  intro n
  induction n with
  | zero => intro j; simp [srsSamples]
  | succ n ih =>
    intro j
    simp only [srsSamples]
    cases hv : vecAt sinrs j with
    | error f =>
      rw [vecAt_fault _ _ _ hv]
      simp
    | ok fp =>
      simp only
      cases hr : srsSamples env sinrs n (j + 1) with
      | error f =>
        intro he
        simp only [Except.error.injEq] at he
        subst he
        exact ih _ hr
      | ok rest => simp

theorem srsUpdate_fault (env : Env) (sinrs : List Nat) :
    ∀ (n j : Nat) (v : List Int), srsUpdate env sinrs n j v ≠ .error .undefinedBehaviour := by
  intro n
  induction n with
  | zero => intro j v; simp [srsUpdate]
  | succ n ih =>
    intro j v
    simp only [srsUpdate]
    cases hv : vecAt sinrs j with
    | error f =>
      rw [vecAt_fault _ _ _ hv]
      simp
    | ok fp =>
      simp only
      cases hs : vecSet v j (env.fpS11dot3toDouble fp) with
      | error f =>
        rw [vecSet_fault _ _ _ _ hs]
        simp
      | ok v1 => exact ih _ _

theorem ulCqiSrs_consistent (env : Env) (s : SchedState) (params : SchedUlCqiInfoReqParameters)
    (h : CqiStoresConsistent s) :
    ulCqiSrs env s params ≠ .error .undefinedBehaviour ∧
    ∀ s1, ulCqiSrs env s params = .ok s1 → CqiStoresConsistent s1 := by
  obtain ⟨ha, h10, h30, hnd, hkeys⟩ := h
  unfold ulCqiSrs
  split
  · simp only
    cases hr : s.m_ueCqi.find (srsRnti env params.m_vendorSpecificList 0) with
    | none =>
      have ht : s.m_ueCqiTimers.find (srsRnti env params.m_vendorSpecificList 0) = none := by
        have := hkeys (srsRnti env params.m_vendorSpecificList 0)
        rw [hr] at this
        simpa using this
      simp only
      cases hs : srsSamples env params.m_sinr s.m_ulBandwidth 0 with
      | error f =>
        refine ⟨?_, fun s1 he1 => by cases he1⟩
        intro hf
        simp only [Except.error.injEq] at hf
        subst hf
        exact srsSamples_fault env _ _ _ hs
      | ok newCqi =>
        refine ⟨by simp, fun s1 he1 => ?_⟩
        simp only [Except.ok.injEq] at he1
        subst he1
        refine ⟨ha, h10, h30, RMap.nodup_insert _ _ _ hnd, fun k => ?_⟩
        show ((s.m_ueCqiTimers.insert _ _).find k).isSome = ((s.m_ueCqi.insert _ _).find k).isSome
        rw [RMap.find_insert_of_none _ _ _ _ ht, RMap.find_insert_of_none _ _ _ _ hr]
        by_cases hk : k = srsRnti env params.m_vendorSpecificList 0
        · simp [hk]
        · simp [hk, hkeys k]
    | some v =>
      have ht : (s.m_ueCqiTimers.find (srsRnti env params.m_vendorSpecificList 0)).isSome
          = true := by
        rw [hkeys _, hr]; rfl
      obtain ⟨t, ht2⟩ := Option.isSome_iff_exists.mp ht
      simp only
      cases hs : srsUpdate env params.m_sinr s.m_ulBandwidth 0 v with
      | error f =>
        refine ⟨?_, fun s1 he1 => by cases he1⟩
        intro hf
        simp only [Except.error.injEq] at hf
        subst hf
        exact srsUpdate_fault env _ _ _ _ hs
      | ok v1 =>
        simp only [ht2]
        refine ⟨by simp, fun s1 he1 => ?_⟩
        simp only [Except.ok.injEq] at he1
        subst he1
        refine ⟨ha, h10, h30, ?_, fun k => ?_⟩
        · show ((s.m_ueCqiTimers.assign _ _).map Prod.fst).Nodup
          rw [RMap.keys_assign]; exact hnd
        · show ((s.m_ueCqiTimers.assign _ _).find k).isSome
            = ((s.m_ueCqi.assign _ _).find k).isSome
          rw [RMap.find_assign_isSome, RMap.find_assign_isSome]
          exact hkeys k
  · exact ⟨by simp, fun s1 he1 => by cases he1⟩

theorem doSchedUlCqiInfoReq_consistent (env : Env) (s : SchedState)
    (params : SchedUlCqiInfoReqParameters) (h : CqiStoresConsistent s) :
    DoSchedUlCqiInfoReq env s params ≠ .error .undefinedBehaviour ∧
    ∀ s1, DoSchedUlCqiInfoReq env s params = .ok s1 → CqiStoresConsistent s1 := by
  have hsrs := ulCqiSrs_consistent env s params h
  have ha := h.1
  unfold DoSchedUlCqiInfoReq ulCqiFilterPass
  cases s.m_ulCqiFilter with
  | other => exact ⟨by simp, fun s1 he1 => by cases he1⟩
  | SRS_UL_CQI =>
    cases hty : params.m_type <;>
      simp only [reduceCtorEq, decide_False, decide_True, Except.ok.injEq, ne_eq,
        not_false_eq_true, true_and] <;>
      first
        | exact hsrs
        | (intro s1 he; subst he; exact h)
  | PUSCH_UL_CQI =>
    cases hty : params.m_type <;>
      simp only [reduceCtorEq, decide_False, decide_True, Except.ok.injEq, ne_eq,
        not_false_eq_true, true_and, ulCqiPusch, ha, RMap.find] <;>
      (intro s1 he; subst he; exact h)

/-- A HARQ feedback entry of an uplink pass either leaves the scheduler as it is
or, for a NACK of a process with count `cnt < 3` whose stored range is free,
writes `cnt + 1` at the current process and 0 at the addressed one in the count
table of the user, and the descriptor buffer. -/
theorem ulHarqFeedbackEntry_writes (env : Env) (e : UlInfoListElement_s) (s s1 : SchedState)
    (l l1 : UlLocals) (h : ulHarqFeedbackEntry env e s l = .ok (s1, l1)) :
    s1 = s ∨
    ∃ procId stat cnt dcis,
      s.m_ulHarqCurrentProcessId.find e.m_rnti = some procId ∧
      s.m_ulHarqProcessesStatus.find e.m_rnti = some stat ∧
      stat[ulHarqId env procId]? = some cnt ∧ cnt < 3 ∧ procId < stat.length ∧
      s1 = { s with
        m_ulHarqProcessesStatus := s.m_ulHarqProcessesStatus.assign e.m_rnti
          ((stat.set procId ((cnt + 1) % 256)).set (ulHarqId env procId) 0),
        m_ulHarqProcessesDciBuffer := dcis } := by
  simp only [ulHarqFeedbackEntry] at h
  split at h
  · split at h
    · cases h
    · rename_i procId hproc
      split at h
      · simp only [Except.ok.injEq, Prod.mk.injEq] at h
        exact Or.inl h.1.symm
      · split at h
        · cases h
        · split at h
          · cases h
          · rename_i stat hstat
            split at h
            · cases h
            · rename_i cnt hcnt
              split at h
              · simp only [Except.ok.injEq, Prod.mk.injEq] at h
                exact Or.inl h.1.symm
              · rename_i hlt
                split at h
                · cases h
                · split at h
                  · split at h
                    · cases h
                    · split at h
                      · cases h
                      · rename_i stat1 hs1
                        split at h
                        · cases h
                        · rename_i stat2 hs2
                          split at h
                          · cases h
                          · simp only [Except.ok.injEq, Prod.mk.injEq] at h
                            obtain ⟨rfl, _⟩ := h
                            rw [vecSet_eq_ok] at hs1 hs2
                            obtain ⟨hl1, rfl⟩ := hs1
                            obtain ⟨_, rfl⟩ := hs2
                            rw [vecAt_eq_ok] at hcnt
                            exact Or.inr ⟨procId, stat, cnt, _, hproc, hstat, hcnt, by omega,
                              hl1, rfl⟩
                  · simp only [Except.ok.injEq, Prod.mk.injEq] at h
                    exact Or.inl h.1.symm
  · simp only [Except.ok.injEq, Prod.mk.injEq] at h
    exact Or.inl h.1.symm

theorem doSchedUlTriggerReq_consistent (env : Env) (s s1 : SchedState)
    (ulInfoList : List UlInfoListElement_s) (out : Option (List UlDciListElement_s))
    (h : DoSchedUlTriggerReq env s ulInfoList = .ok (s1, out)) (hI : CqiStoresConsistent s) :
    CqiStoresConsistent s1 := by
  refine doSchedUlTriggerReq_keeps env CqiStoresConsistent ?_ ?_ ?_ ?_ ?_ ?_ s s1 ulInfoList
    out h hI
  · intro s s1 hP h
    obtain ⟨ha, h10, h30, hul⟩ := hP
    obtain ⟨t, r, e, c, _, _⟩ := refreshCqiLoop_consistent _ _ hul
    simp only [RefreshUlCqiMaps, e, Except.ok.injEq] at h
    subst h
    exact ⟨ha, h10, h30, c⟩
  · intro s m hP
    exact hP
  · intro s s1 rnti rb x hP h
    obtain ⟨ha, h10, h30, hnd, hkeys⟩ := hP
    simp only [EstimateUlSinr] at h
    split at h
    · simp only [Except.ok.injEq, Prod.mk.injEq] at h
      obtain ⟨_, rfl⟩ := h
      exact ⟨ha, h10, h30, hnd, hkeys⟩
    · split at h
      · cases h
      · split at h
        · cases h
        · simp only [Except.ok.injEq, Prod.mk.injEq] at h
          obtain ⟨_, rfl⟩ := h
          refine ⟨ha, h10, h30, hnd, fun k => ?_⟩
          show (s.m_ueCqiTimers.find k).isSome = ((s.m_ueCqi.assign _ _).find k).isSome
          rw [RMap.find_assign_isSome]
          exact hkeys k
  · intro e s s1 l l1 hP h
    rcases ulHarqFeedbackEntry_writes env e s s1 l l1 h with rfl | ⟨_, _, _, _, _, _, _, _, _, rfl⟩
    · exact hP
    · exact hP
  · intro s rnti size hP
    simp only [UpdateUlRlcBufferInfo]
    split
    · exact hP
    · exact hP
  · intro s s1 dci hP h
    obtain ⟨_, _, rfl⟩ := ulStoreDci_frame _ _ _ h
    exact hP

/-- Every request keeps the channel-quality stores consistent. -/
theorem handle_consistent (env : Env) (s : SchedState) (r : Request) (s1 : SchedState)
    (ind : Indication) (hI : CqiStoresConsistent s)
    (h : handle env s r = .ok (s1, ind)) : CqiStoresConsistent s1 := by
  refine handle_step_frame env (fun s s1 => CqiStoresConsistent s → CqiStoresConsistent s1)
    (fun _ h => h) ?_ ?_ ?_ ?_ ?_ ?_ s r s1 ind h hI
  · rintro s s1 ⟨_, _, _, _, _, _, _, _, _, _, _, _, _, _, _, _, _, _, rfl⟩ hI
    exact hI
  · intro s s1 cqiList hq hI
    exact (doSchedDlCqiInfoReq_consistent cqiList s hI).2 s1 hq
  · intro s s1 dlInfoList out hq hI
    obtain ⟨s0, h0, _, _, _, _, _, _, _, _, _, rfl⟩ := doSchedDlTriggerReq_frame _ _ _ _ _ hq
    obtain ⟨ha, h10, h30, hul⟩ := hI
    obtain ⟨s0b, e, c, _, _⟩ := refreshDlCqiMaps_step s ⟨h10, h30⟩
    rw [h0] at e
    simp only [Except.ok.injEq] at e
    subst e
    obtain ⟨_, _, _, _, heq⟩ := refreshDlCqiMaps_eq _ _ h0
    have hul0 : CqiMapsConsistent s0.m_ueCqiTimers s0.m_ueCqi := by rw [heq]; exact hul
    have ha0 : s0.m_allocationMaps = [] := by rw [heq]; exact ha
    exact ⟨ha0, c.1, c.2, hul0⟩
  · intro s s1 ulInfoList out hq hI
    exact doSchedUlTriggerReq_consistent env s s1 ulInfoList out hq hI
  · intro s s1 macCeList hq hI
    obtain ⟨_, rfl⟩ := doSchedUlMacCtrlInfoReq_frame _ _ _ _ hq
    exact hI
  · intro s s1 params hq hI
    exact (doSchedUlCqiInfoReq_consistent env s params hI).2 s1 hq

theorem cqiMapsConsistent_keys {α : Type} (timers : RMap Nat) (rxed : RMap α)
    (h : CqiMapsConsistent timers rxed) (k : Nat) :
    k ∈ rxed.map Prod.fst ↔ k ∈ timers.map Prod.fst := by
  constructor
  · intro hk
    have h1 := RMap.find_isSome_of_mem_keys rxed k hk
    rw [← h.2 k] at h1
    obtain ⟨v, hv⟩ := Option.isSome_iff_exists.mp h1
    exact RMap.mem_keys_of_find timers k v hv
  · intro hk
    have h1 := RMap.find_isSome_of_mem_keys timers k hk
    rw [h.2 k] at h1
    obtain ⟨v, hv⟩ := Option.isSome_iff_exists.mp h1
    exact RMap.mem_keys_of_find rxed k v hv

/-- C36: in every state reached from the scheduler right after construction by
requests that return, each channel-quality sample map (wideband, subband,
uplink SINR) has the same key set as its age-counter map; therefore
`RefreshDlCqiMaps` and `RefreshUlCqiMaps` return (their assertion on a missing
sample does not fail), and neither a downlink CQI report nor an uplink CQI
report takes the unchecked timer lookup of an update to a missing entry. -/
theorem cqi_sample_and_timer_maps_share_keys (env : Env) (harqOn : Bool)
    (cqiTimersThreshold ulGrantMcs : Nat) (filter : UlCqiFilter_t) (reqs : List Request)
    (s : SchedState) (inds : List Indication)
    (hrun : run env reqs (SchedState.init harqOn cqiTimersThreshold ulGrantMcs filter)
      = .ok (s, inds)) :
    (∀ k, k ∈ s.m_p10CqiRxed.map Prod.fst ↔ k ∈ s.m_p10CqiTimers.map Prod.fst) ∧
    (∀ k, k ∈ s.m_a30CqiRxed.map Prod.fst ↔ k ∈ s.m_a30CqiTimers.map Prod.fst) ∧
    (∀ k, k ∈ s.m_ueCqi.map Prod.fst ↔ k ∈ s.m_ueCqiTimers.map Prod.fst) ∧
    (∃ s1, RefreshDlCqiMaps s = .ok s1) ∧
    (∃ s1, RefreshUlCqiMaps s = .ok s1) ∧
    (∀ cqiList, DoSchedDlCqiInfoReq s cqiList ≠ .error .undefinedBehaviour) ∧
    (∀ params, DoSchedUlCqiInfoReq env s params ≠ .error .undefinedBehaviour) := by
  have hI : CqiStoresConsistent s :=
    run_invariant env CqiStoresConsistent
      (fun s r s1 ind hI h => handle_consistent env s r s1 ind hI h) reqs _ _ _
      ⟨rfl, cqiMapsConsistent_nil, cqiMapsConsistent_nil, cqiMapsConsistent_nil⟩ hrun
  obtain ⟨sd, hd, _⟩ := refreshDlCqiMaps_step s ⟨hI.2.1, hI.2.2.1⟩
  obtain ⟨su, hu, _⟩ := refreshUlCqiMaps_step s hI.2.2.2
  exact ⟨cqiMapsConsistent_keys _ _ hI.2.1, cqiMapsConsistent_keys _ _ hI.2.2.1,
    cqiMapsConsistent_keys _ _ hI.2.2.2, ⟨sd, hd⟩, ⟨su, hu⟩,
    fun cqiList => (doSchedDlCqiInfoReq_consistent cqiList s hI).1,
    fun params => (doSchedUlCqiInfoReq_consistent env s params hI).1⟩

/-- Witness of C36 at the scheduler after `mixedCqiRequests`, whose wideband
store holds users 1 and 2 and whose uplink store holds user 1. -/
theorem cqi_sample_and_timer_maps_share_keys_witness :
    run exampleEnv mixedCqiRequests exampleInit
      = .ok (mixedCqiState, (Res.getD (run exampleEnv mixedCqiRequests exampleInit)
          (exampleInit, [])).2) ∧
    mixedCqiState.m_p10CqiRxed = [(1, 0), (2, 10)] ∧
    mixedCqiState.m_p10CqiTimers = [(1, 999), (2, 999)] ∧
    mixedCqiState.m_ueCqi = [(1, [3, 3, 3, 3, 3, 3])] ∧
    mixedCqiState.m_ueCqiTimers = [(1, 999)] ∧
    ((∀ k, k ∈ mixedCqiState.m_p10CqiRxed.map Prod.fst ↔
        k ∈ mixedCqiState.m_p10CqiTimers.map Prod.fst) ∧
     (∀ k, k ∈ mixedCqiState.m_a30CqiRxed.map Prod.fst ↔
        k ∈ mixedCqiState.m_a30CqiTimers.map Prod.fst) ∧
     (∀ k, k ∈ mixedCqiState.m_ueCqi.map Prod.fst ↔
        k ∈ mixedCqiState.m_ueCqiTimers.map Prod.fst) ∧
     (∃ s1, RefreshDlCqiMaps mixedCqiState = .ok s1) ∧
     (∃ s1, RefreshUlCqiMaps mixedCqiState = .ok s1) ∧
     (∀ cqiList, DoSchedDlCqiInfoReq mixedCqiState cqiList ≠ .error .undefinedBehaviour) ∧
     (∀ params,
        DoSchedUlCqiInfoReq exampleEnv mixedCqiState params ≠ .error .undefinedBehaviour)) :=
  ⟨rfl, rfl, rfl, rfl, rfl,
   cqi_sample_and_timer_maps_share_keys exampleEnv true 1000 0 UlCqiFilter_t.SRS_UL_CQI
     mixedCqiRequests mixedCqiState
     (Res.getD (run exampleEnv mixedCqiRequests exampleInit) (exampleInit, [])).2 rfl⟩

/-! ## Range of the uplink HARQ tables -/

theorem ulStoreDci_writes (s s1 : SchedState) (uldci : UlDciListElement_s)
    (h : ulStoreDci s uldci = .ok s1) :
    ∃ harqId stat dcis,
      s.m_ulHarqCurrentProcessId.find uldci.m_rnti = some harqId ∧
      s.m_ulHarqProcessesStatus.find uldci.m_rnti = some stat ∧ harqId < stat.length ∧
      s1 = { s with
        m_ulHarqProcessesDciBuffer := dcis,
        m_ulHarqProcessesStatus :=
          s.m_ulHarqProcessesStatus.assign uldci.m_rnti (stat.set harqId 0) } := by
  simp only [ulStoreDci] at h
  split at h
  · cases h
  · rename_i harqId hid
    split at h
    · cases h
    · split at h
      · cases h
      · split at h
        · cases h
        · rename_i stat hstat
          split at h
          · cases h
          · rename_i stat1 hs1
            simp only [Except.ok.injEq] at h
            subst h
            rw [vecSet_eq_ok] at hs1
            obtain ⟨hl, rfl⟩ := hs1
            exact ⟨harqId, stat, _, hid, hstat, hl, rfl⟩

theorem find_advanceUlHarqProcessIds (m : RMap Nat) (u : Nat) :
    (advanceUlHarqProcessIds m).find u = (m.find u).map (fun c => (c + 1) % HARQ_PROC_NUM) := by
  induction m with
  | nil => rfl
  | cons kv m ih =>
    obtain ⟨k, v⟩ := kv
    simp only [advanceUlHarqProcessIds, List.map_cons, RMap.find] at ih ⊢
    split
    · rfl
    · exact ih

/-- A downlink pass advances every current uplink process id by one modulo
`HARQ_PROC_NUM`. -/
theorem doSchedDlTriggerReq_ulProcessIds (env : Env) (s s1 : SchedState)
    (dlInfoList : List DlInfoListElement_s) (out : Option SchedDlConfigIndParameters)
    (h : DoSchedDlTriggerReq env s dlInfoList = .ok (s1, out)) :
    s1.m_ulHarqCurrentProcessId = advanceUlHarqProcessIds s.m_ulHarqCurrentProcessId ∧
    s1.m_ulHarqProcessesStatus = s.m_ulHarqProcessesStatus := by
  obtain ⟨s0, h0, _, _, _, _, _, _, _, _, _, rfl⟩ := doSchedDlTriggerReq_frame _ _ _ _ _ h
  obtain ⟨_, _, _, _, rfl⟩ := refreshDlCqiMaps_eq _ _ h0
  exact ⟨rfl, rfl⟩

theorem ulCqiPuschLoop_frame (env : Env) (sinrs alloc : List Nat) :
    ∀ (n i : Nat) (s s1 : SchedState), ulCqiPuschLoop env sinrs alloc n i s = .ok s1 →
      ∃ cqi tm, s1 = { s with m_ueCqi := cqi, m_ueCqiTimers := tm } := by
  intro n
  induction n with
  | zero =>
    intro i s s1 h
    simp only [ulCqiPuschLoop, Except.ok.injEq] at h
    subst h
    exact ⟨_, _, rfl⟩
  | succ n ih =>
    intro i s s1 h
    simp only [ulCqiPuschLoop] at h
    split at h
    · cases h
    · split at h
      · cases h
      · split at h
        · obtain ⟨_, _, rfl⟩ := ih _ _ _ h
          exact ⟨_, _, rfl⟩
        · split at h
          · cases h
          · split at h
            · cases h
            · obtain ⟨_, _, rfl⟩ := ih _ _ _ h
              exact ⟨_, _, rfl⟩

/-- `DoSchedUlCqiInfoReq` writes the uplink samples, their age counters and the
allocation-map store only. -/
theorem doSchedUlCqiInfoReq_frame (env : Env) (s s1 : SchedState)
    (params : SchedUlCqiInfoReqParameters)
    (h : DoSchedUlCqiInfoReq env s params = .ok s1) :
    ∃ cqi tm maps, s1 = { s with m_ueCqi := cqi, m_ueCqiTimers := tm,
                                 m_allocationMaps := maps } := by
  simp only [DoSchedUlCqiInfoReq] at h
  split at h
  · cases h
  · simp only [Except.ok.injEq] at h
    subst h
    exact ⟨_, _, _, rfl⟩
  · split at h
    · simp only [ulCqiPusch] at h
      split at h
      · simp only [Except.ok.injEq] at h
        subst h
        exact ⟨_, _, _, rfl⟩
      · split at h
        · cases h
        · rename_i s2 hl
          simp only [Except.ok.injEq] at h
          subst h
          obtain ⟨_, _, rfl⟩ := ulCqiPuschLoop_frame _ _ _ _ _ _ _ hl
          exact ⟨_, _, _, rfl⟩
    · obtain ⟨_, _, rfl⟩ := ulCqiSrs_frame _ _ _ _ h
      exact ⟨_, _, _, rfl⟩
    · cases h
    · cases h
    · cases h

theorem ulHarqTablesOk_assign (m : RMap (List Nat)) (k : Nat) (stat : List Nat)
    (hm : ∀ kv, kv ∈ m → kv.2.length = HARQ_PROC_NUM ∧ ∀ x, x ∈ kv.2 → x ≤ 3)
    (hs : stat.length = HARQ_PROC_NUM ∧ ∀ x, x ∈ stat → x ≤ 3) :
    ∀ kv, kv ∈ m.assign k stat → kv.2.length = HARQ_PROC_NUM ∧ ∀ x, x ∈ kv.2 → x ≤ 3 := by
  intro kv hkv
  rcases RMap.mem_assign m k stat kv hkv with h | h
  · exact hm kv h
  · rw [h]; exact hs

theorem doSchedUlTriggerReq_ulHarqTablesOk (env : Env) (s s1 : SchedState)
    (ulInfoList : List UlInfoListElement_s) (out : Option (List UlDciListElement_s))
    (h : DoSchedUlTriggerReq env s ulInfoList = .ok (s1, out)) (hI : UlHarqTablesOk s) :
    UlHarqTablesOk s1 := by
  refine doSchedUlTriggerReq_keeps env UlHarqTablesOk ?_ ?_ ?_ ?_ ?_ ?_ s s1 ulInfoList
    out h hI
  · intro s s1 hP h
    simp only [RefreshUlCqiMaps] at h
    split at h
    · cases h
    · simp only [Except.ok.injEq] at h
      subst h
      exact hP
  · intro s m hP
    exact hP
  · intro s s1 rnti rb x hP h
    obtain ⟨_, rfl⟩ := estimateUlSinr_frame _ _ _ _ _ _ h
    exact hP
  · intro e s s1 l l1 hP h
    rcases ulHarqFeedbackEntry_writes env e s s1 l l1 h with
      rfl | ⟨procId, stat, cnt, dcis, _, hstat, hcnt, hlt, _, rfl⟩
    · exact hP
    · refine ⟨ulHarqTablesOk_assign _ _ _ hP.1 ?_, hP.2⟩
      have hs := hP.1 _ (RMap.mem_of_find _ _ _ hstat)
      refine ⟨by simp only [List.length_set]; exact hs.1, fun x hx => ?_⟩
      rcases List.mem_or_eq_of_mem_set hx with hx | hx
      · rcases List.mem_or_eq_of_mem_set hx with hx | hx
        · exact hs.2 x hx
        · rw [hx]; omega
      · rw [hx]; omega
  · intro s rnti size hP
    simp only [UpdateUlRlcBufferInfo]
    split
    · exact hP
    · exact hP
  · intro s s1 dci hP h
    obtain ⟨harqId, stat, dcis, _, hstat, _, rfl⟩ := ulStoreDci_writes _ _ _ h
    refine ⟨ulHarqTablesOk_assign _ _ _ hP.1 ?_, hP.2⟩
    have hs := hP.1 _ (RMap.mem_of_find _ _ _ hstat)
    refine ⟨by simp only [List.length_set]; exact hs.1, fun x hx => ?_⟩
    rcases List.mem_or_eq_of_mem_set hx with hx | hx
    · exact hs.2 x hx
    · rw [hx]; omega

/-- Every request keeps the uplink HARQ tables in range. -/
theorem handle_ulHarqTablesOk (env : Env) (s : SchedState) (r : Request) (s1 : SchedState)
    (ind : Indication) (hI : UlHarqTablesOk s)
    (h : handle env s r = .ok (s1, ind)) : UlHarqTablesOk s1 := by
  rcases handle_step_cases env s r s1 ind h with rfl | ⟨_, _, rfl⟩ | ⟨rnti, _, rfl⟩ |
    ⟨_, _, rfl⟩ | ⟨_, _, rfl⟩ | ⟨rnti, rfl⟩ | ⟨_, rfl⟩ | ⟨_, rfl⟩ | ⟨_, hq⟩ | ⟨_, _, hq⟩ |
    ⟨_, _, hq⟩ | ⟨_, hq⟩ | ⟨_, hq⟩
  · exact hI
  · exact hI
  · simp only [DoCschedUeConfigReq]
    split
    · refine ⟨fun kv hkv => ?_, fun kv hkv => ?_⟩
      · rcases RMap.mem_insert _ _ _ _ hkv with h1 | h1
        · exact hI.1 kv h1
        · rw [h1]
          exact ⟨rfl, fun x hx => by
            simp only [List.mem_replicate] at hx
            omega⟩
      · rcases RMap.mem_insert _ _ _ _ hkv with h1 | h1
        · exact hI.2 kv h1
        · rw [h1]; exact (by decide : (0 : Nat) < HARQ_PROC_NUM)
    · exact hI
  · simp only [DoCschedLcConfigReq]
    split
    · exact hI
    · split
      · exact hI
      · exact hI
  · exact hI
  · exact ⟨fun kv hkv => hI.1 kv (RMap.mem_erase _ _ _ hkv),
      fun kv hkv => hI.2 kv (RMap.mem_erase _ _ _ hkv)⟩
  · exact hI
  · exact hI
  · obtain ⟨_, _, _, _, rfl⟩ := doSchedDlCqiInfoReq_frame _ _ _ hq
    exact hI
  · obtain ⟨hc, hs⟩ := doSchedDlTriggerReq_ulProcessIds _ _ _ _ _ hq
    refine ⟨by rw [hs]; exact hI.1, fun kv hkv => ?_⟩
    rw [hc] at hkv
    simp only [advanceUlHarqProcessIds, List.mem_map] at hkv
    obtain ⟨kv0, _, rfl⟩ := hkv
    exact Nat.mod_lt _ (by decide)
  · exact doSchedUlTriggerReq_ulHarqTablesOk env _ _ _ _ hq hI
  · obtain ⟨_, rfl⟩ := doSchedUlMacCtrlInfoReq_frame _ _ _ _ hq
    exact hI
  · obtain ⟨_, _, _, rfl⟩ := doSchedUlCqiInfoReq_frame env _ _ _ hq
    exact hI

/-- After `n` downlink passes every current uplink process id has advanced by
`n` modulo `HARQ_PROC_NUM`. -/
theorem run_dl_passes_ulProcessIds (env : Env) :
    ∀ (passes : List (List DlInfoListElement_s)) (s sN : SchedState) (inds : List Indication),
      (∀ kv, kv ∈ s.m_ulHarqCurrentProcessId → kv.2 < HARQ_PROC_NUM) →
      run env (passes.map Request.SchedDlTriggerReq) s = .ok (sN, inds) →
      sN.m_ulHarqCurrentProcessId = s.m_ulHarqCurrentProcessId.map
        (fun kv => (kv.1, (kv.2 + passes.length) % HARQ_PROC_NUM)) := by
  intro passes
  induction passes with
  | nil =>
    intro s sN inds hlt h
    simp only [List.map_nil, run, Except.ok.injEq, Prod.mk.injEq] at h
    obtain ⟨rfl, _⟩ := h
    symm
    conv_rhs => rw [← List.map_id s.m_ulHarqCurrentProcessId]
    apply List.map_congr_left
    intro kv hkv
    have := hlt kv hkv
    simp only [List.length_nil, Nat.add_zero, id]
    rw [Nat.mod_eq_of_lt this]
  | cons dl rest ih =>
    intro s sN inds hlt h
    simp only [List.map_cons, run] at h
    split at h
    · cases h
    · rename_i s2 ind hh
      split at h
      · cases h
      · rename_i s3 inds3 hr
        simp only [Except.ok.injEq, Prod.mk.injEq] at h
        obtain ⟨rfl, _⟩ := h
        have hpass : ∃ out, DoSchedDlTriggerReq env s dl = .ok (s2, out) := by
          simp only [handle] at hh
          split at hh
          · cases hh
          · rename_i sx o hq
            simp only [Except.ok.injEq, Prod.mk.injEq] at hh
            obtain ⟨rfl, _⟩ := hh
            exact ⟨_, hq⟩
          · rename_i sx hq
            simp only [Except.ok.injEq, Prod.mk.injEq] at hh
            obtain ⟨rfl, _⟩ := hh
            exact ⟨_, hq⟩
        obtain ⟨out, hq⟩ := hpass
        obtain ⟨hc, _⟩ := doSchedDlTriggerReq_ulProcessIds _ _ _ _ _ hq
        have hlt2 : ∀ kv, kv ∈ s2.m_ulHarqCurrentProcessId → kv.2 < HARQ_PROC_NUM := by
          intro kv hkv
          rw [hc] at hkv
          simp only [advanceUlHarqProcessIds, List.mem_map] at hkv
          obtain ⟨kv0, _, rfl⟩ := hkv
          exact Nat.mod_lt _ (by decide)
        rw [ih s2 s3 inds3 hlt2 hr, hc]
        simp only [advanceUlHarqProcessIds, List.map_map]
        apply List.map_congr_left
        intro kv _
        simp only [Function.comp, List.length_cons, HARQ_PROC_NUM, Prod.mk.injEq, true_and]
        omega

/-- C34: in every state reached from the scheduler right after construction by
requests that return (user configuration, downlink and uplink passes and every
other request), every uplink retransmission-count table has exactly
`HARQ_PROC_NUM` = 8 entries, each between 0 and 3, and every current uplink
process id is below 8; a downlink pass advances the id of every user by one
modulo 8, and after 8 downlink passes every id is back at its value. -/
theorem ul_harq_counts_and_process_ids_in_range (env : Env) (harqOn : Bool)
    (cqiTimersThreshold ulGrantMcs : Nat) (filter : UlCqiFilter_t) (reqs : List Request)
    (s : SchedState) (inds : List Indication)
    (hrun : run env reqs (SchedState.init harqOn cqiTimersThreshold ulGrantMcs filter)
      = .ok (s, inds)) :
    (∀ u stat, s.m_ulHarqProcessesStatus.find u = some stat →
      stat.length = HARQ_PROC_NUM ∧ ∀ x, x ∈ stat → 0 ≤ x ∧ x ≤ 3) ∧
    (∀ u c, s.m_ulHarqCurrentProcessId.find u = some c → c < HARQ_PROC_NUM) ∧
    (∀ dlInfoList s1 out, DoSchedDlTriggerReq env s dlInfoList = .ok (s1, out) →
      ∀ u, s1.m_ulHarqCurrentProcessId.find u =
        (s.m_ulHarqCurrentProcessId.find u).map (fun c => (c + 1) % HARQ_PROC_NUM)) ∧
    (∀ (passes : List (List DlInfoListElement_s)) (s8 : SchedState) (inds8 : List Indication),
      passes.length = HARQ_PROC_NUM →
      run env (passes.map Request.SchedDlTriggerReq) s = .ok (s8, inds8) →
      s8.m_ulHarqCurrentProcessId = s.m_ulHarqCurrentProcessId) := by
  have hI : UlHarqTablesOk s :=
    run_invariant env UlHarqTablesOk
      (fun s r s1 ind hI h => handle_ulHarqTablesOk env s r s1 ind hI h) reqs _ _ _
      ⟨fun kv hkv => (by cases hkv), fun kv hkv => (by cases hkv)⟩ hrun
  refine ⟨fun u stat hf => ?_, fun u c hf => ?_, fun dlInfoList s1 out hq u => ?_,
    fun passes s8 inds8 hlen hr => ?_⟩
  · have := hI.1 _ (RMap.mem_of_find _ _ _ hf)
    exact ⟨this.1, fun x hx => ⟨Nat.zero_le x, this.2 x hx⟩⟩
  · exact hI.2 _ (RMap.mem_of_find _ _ _ hf)
  · rw [(doSchedDlTriggerReq_ulProcessIds _ _ _ _ _ hq).1]
    exact find_advanceUlHarqProcessIds _ u
  · rw [run_dl_passes_ulProcessIds env passes s s8 inds8 hI.2 hr]
    conv_rhs => rw [← List.map_id s.m_ulHarqCurrentProcessId]
    apply List.map_congr_left
    intro kv hkv
    have := hI.2 kv hkv
    simp only [hlen, HARQ_PROC_NUM, id] at this ⊢
    have h2 : (kv.2 + 8) % 8 = kv.2 := by omega
    rw [h2]

/-- Witness of C34 at the scheduler after `ulNackRequests`: the count table of
user 1 holds a 1 in slot 7 and its current uplink process id is 7. -/
theorem ul_harq_counts_and_process_ids_in_range_witness :
    run exampleEnv ulNackRequests exampleInit
      = .ok (ulNackState, (Res.getD (run exampleEnv ulNackRequests exampleInit)
          (exampleInit, [])).2) ∧
    ulNackState.m_ulHarqProcessesStatus = [(1, [0, 0, 0, 0, 0, 0, 0, 1])] ∧
    ulNackState.m_ulHarqCurrentProcessId = [(1, 7)] ∧
    ((∀ u stat, ulNackState.m_ulHarqProcessesStatus.find u = some stat →
       stat.length = HARQ_PROC_NUM ∧ ∀ x, x ∈ stat → 0 ≤ x ∧ x ≤ 3) ∧
     (∀ u c, ulNackState.m_ulHarqCurrentProcessId.find u = some c → c < HARQ_PROC_NUM) ∧
     (∀ dlInfoList s1 out,
       DoSchedDlTriggerReq exampleEnv ulNackState dlInfoList = .ok (s1, out) →
       ∀ u, s1.m_ulHarqCurrentProcessId.find u =
         (ulNackState.m_ulHarqCurrentProcessId.find u).map
           (fun c => (c + 1) % HARQ_PROC_NUM)) ∧
     (∀ (passes : List (List DlInfoListElement_s)) (s8 : SchedState)
        (inds8 : List Indication),
       passes.length = HARQ_PROC_NUM →
       run exampleEnv (passes.map Request.SchedDlTriggerReq) ulNackState = .ok (s8, inds8) →
       s8.m_ulHarqCurrentProcessId = ulNackState.m_ulHarqCurrentProcessId)) :=
  ⟨rfl, rfl, rfl,
   ul_harq_counts_and_process_ids_in_range exampleEnv true 1000 0 UlCqiFilter_t.SRS_UL_CQI
     ulNackRequests ulNackState
     (Res.getD (run exampleEnv ulNackRequests exampleInit) (exampleInit, [])).2 rfl⟩

/-! ## Properties kept by a downlink pass -/

theorem dlAuxFrame_refl (s : SchedState) : DlAuxFrame s s :=
  ⟨_, _, _, _, _, _, _, _, _, _, _, _, _, rfl⟩

theorem dlHarqRelease_keeps (P : SchedState → Prop)
    (haux : ∀ s s1, DlAuxFrame s s1 → P s → P s1)
    (hstatus : ∀ (s : SchedState) rnti stat i v,
      s.m_dlHarqProcessesStatus.find rnti = some stat → i < stat.length → P s →
      P { s with m_dlHarqProcessesStatus :=
            s.m_dlHarqProcessesStatus.assign rnti (stat.set i v) })
    (missing : Fault) (s s1 : SchedState) (rnti harqId : Nat)
    (h : dlHarqRelease missing s rnti harqId = .ok s1) (hP : P s) : P s1 := by
  simp only [dlHarqRelease] at h
  split at h
  · cases h
  · rename_i stat hs
    split at h
    · cases h
    · rename_i stat1 hst
      split at h
      · cases h
      · split at h
        · cases h
        · simp only [Except.ok.injEq] at h
          subst h
          rw [vecSet_eq_ok] at hst
          obtain ⟨hil, rfl⟩ := hst
          exact haux _ _ ⟨_, _, _, _, _, _, _, _, _, _, _, _, _, rfl⟩
            (hstatus s rnti stat harqId 0 hs hil hP)

theorem dlRetxEmit_keeps (P : SchedState → Prop)
    (haux : ∀ s s1, DlAuxFrame s s1 → P s → P s1)
    (htimer : ∀ (s : SchedState) rnti tm i,
      s.m_dlHarqProcessesTimer.find rnti = some tm → i < tm.length → P s →
      P { s with m_dlHarqProcessesTimer :=
            s.m_dlHarqProcessesTimer.assign rnti (tm.set i 0) })
    (e : DlInfoListElement_s) (retx : List Bool)
    (dcis : List DlDciListElement_s) (dci : DlDciListElement_s) (s s1 : SchedState)
    (l l1 : DlLocals) (h : dlRetxEmit e retx dcis dci s l = .ok (s1, l1)) (hP : P s) :
    P s1 := by
  simp only [dlRetxEmit] at h
  split at h
  · cases h
  · split at h
    · cases h
    · split at h
      · cases h
      · split at h
        · cases h
        · split at h
          · cases h
          · split at h
            · cases h
            · split at h
              · cases h
              · split at h
                · cases h
                · rename_i tm htm
                  split at h
                  · cases h
                  · rename_i tm1 hset
                    simp only [Except.ok.injEq, Prod.mk.injEq] at h
                    obtain ⟨rfl, _⟩ := h
                    rw [vecSet_eq_ok] at hset
                    obtain ⟨hil, rfl⟩ := hset
                    exact haux _ _ ⟨_, _, _, _, _, _, _, _, _, _, _, _, _, rfl⟩
                      (htimer s e.m_rnti tm e.m_harqProcessId htm hil hP)

theorem dlHarqFeedbackEntry_keeps (P : SchedState → Prop)
    (haux : ∀ s s1, DlAuxFrame s s1 → P s → P s1)
    (hstatus : ∀ (s : SchedState) rnti stat i v,
      s.m_dlHarqProcessesStatus.find rnti = some stat → i < stat.length → P s →
      P { s with m_dlHarqProcessesStatus :=
            s.m_dlHarqProcessesStatus.assign rnti (stat.set i v) })
    (htimer : ∀ (s : SchedState) rnti tm i,
      s.m_dlHarqProcessesTimer.find rnti = some tm → i < tm.length → P s →
      P { s with m_dlHarqProcessesTimer :=
            s.m_dlHarqProcessesTimer.assign rnti (tm.set i 0) })
    (rbgNum : Nat) (e : DlInfoListElement_s)
    (s s1 : SchedState) (l l1 : DlLocals)
    (h : dlHarqFeedbackEntry rbgNum e s l = .ok (s1, l1)) (hP : P s) : P s1 := by
  simp only [dlHarqFeedbackEntry] at h
  split at h
  · simp only [Except.ok.injEq, Prod.mk.injEq] at h
    obtain ⟨rfl, _⟩ := h
    exact hP
  · split at h
    · cases h
    · split at h
      · simp only [dlHarqRetx] at h
        split at h
        · cases h
        · split at h
          · cases h
          · split at h
            · cases h
            · split at h
              · split at h
                · cases h
                · rename_i s2 hrel
                  simp only [Except.ok.injEq, Prod.mk.injEq] at h
                  obtain ⟨rfl, _⟩ := h
                  exact dlHarqRelease_keeps P haux hstatus _ _ _ _ _ hrel hP
              · split at h
                · cases h
                · exact dlRetxEmit_keeps P haux htimer _ _ _ _ _ _ _ _ h hP
      · split at h
        · cases h
        · rename_i s2 hrel
          simp only [Except.ok.injEq, Prod.mk.injEq] at h
          obtain ⟨rfl, _⟩ := h
          exact dlHarqRelease_keeps P haux hstatus _ _ _ _ _ hrel hP

theorem dlHarqFeedbackLoop_keeps (P : SchedState → Prop)
    (haux : ∀ s s1, DlAuxFrame s s1 → P s → P s1)
    (hstatus : ∀ (s : SchedState) rnti stat i v,
      s.m_dlHarqProcessesStatus.find rnti = some stat → i < stat.length → P s →
      P { s with m_dlHarqProcessesStatus :=
            s.m_dlHarqProcessesStatus.assign rnti (stat.set i v) })
    (htimer : ∀ (s : SchedState) rnti tm i,
      s.m_dlHarqProcessesTimer.find rnti = some tm → i < tm.length → P s →
      P { s with m_dlHarqProcessesTimer :=
            s.m_dlHarqProcessesTimer.assign rnti (tm.set i 0) })
    (rbgNum : Nat) :
    ∀ (es : List DlInfoListElement_s) (s s1 : SchedState) (l l1 : DlLocals),
      dlHarqFeedbackLoop rbgNum es s l = .ok (s1, l1) → P s → P s1 := by
  intro es
  induction es with
  | nil =>
    intro s s1 l l1 h hP
    simp only [dlHarqFeedbackLoop, Except.ok.injEq, Prod.mk.injEq] at h
    obtain ⟨rfl, _⟩ := h
    exact hP
  | cons e rest ih =>
    intro s s1 l l1 h hP
    simp only [dlHarqFeedbackLoop] at h
    split at h
    · cases h
    · rename_i s2 l2 hentry
      exact ih _ _ _ _ h
        (dlHarqFeedbackEntry_keeps P haux hstatus htimer _ _ _ _ _ _ hentry hP)

theorem updateHarqProcessId_keeps (P : SchedState → Prop)
    (haux : ∀ s s1, DlAuxFrame s s1 → P s → P s1)
    (hstatus : ∀ (s : SchedState) rnti stat i v,
      s.m_dlHarqProcessesStatus.find rnti = some stat → i < stat.length → P s →
      P { s with m_dlHarqProcessesStatus :=
            s.m_dlHarqProcessesStatus.assign rnti (stat.set i v) })
    (s s1 : SchedState) (rnti i : Nat)
    (h : UpdateHarqProcessId s rnti = .ok (i, s1)) (hP : P s) : P s1 := by
  simp only [UpdateHarqProcessId] at h
  split at h
  · simp only [Except.ok.injEq, Prod.mk.injEq] at h
    obtain ⟨_, rfl⟩ := h
    exact hP
  · split at h
    · cases h
    · split at h
      · cases h
      · rename_i stat hs
        split at h
        · cases h
        · split at h
          · cases h
          · split at h
            · split at h
              · cases h
              · rename_i stat1 hset
                simp only [Except.ok.injEq, Prod.mk.injEq] at h
                obtain ⟨rfl, rfl⟩ := h
                rw [vecSet_eq_ok] at hset
                obtain ⟨hil, rfl⟩ := hset
                exact haux _ _ ⟨_, _, _, _, _, _, _, _, _, _, _, _, _, rfl⟩
                  (hstatus s rnti stat _ 1 hs hil hP)
            · cases h

theorem newDataLcLayers_keeps (P : SchedState → Prop)
    (haux : ∀ s s1, DlAuxFrame s s1 → P s → P s1)
    (rnti lcid lcActives harqProcess : Nat) (tbs : List Nat) :
    ∀ (n j : Nat) (s s1 : SchedState) (acc acc1 : List RlcPduListElement_s),
      newDataLcLayers rnti lcid lcActives harqProcess tbs n j s acc = .ok (s1, acc1) →
      P s → P s1 := by
  intro n
  induction n with
  | zero =>
    intro j s s1 acc acc1 h hP
    simp only [newDataLcLayers, Except.ok.injEq, Prod.mk.injEq] at h
    obtain ⟨rfl, _⟩ := h
    exact hP
  | succ n ih =>
    intro j s s1 acc acc1 h hP
    simp only [newDataLcLayers] at h
    split at h
    · cases h
    · split at h
      · cases h
      · rename_i s2 hpush
        have h0 : ∀ size, P (UpdateDlRlcBufferInfo s rnti lcid size) :=
          fun size => haux _ _ ⟨_, _, _, _, _, _, _, _, _, _, _, _, _, rfl⟩ hP
        have h1 : P s2 := by
          split at hpush
          · simp only [archivePush] at hpush
            split at hpush
            · cases hpush
            · split at hpush
              · cases hpush
              · split at hpush
                · cases hpush
                · split at hpush
                  · cases hpush
                  · split at hpush
                    · cases hpush
                    · simp only [Except.ok.injEq] at hpush
                      subst hpush
                      exact haux _ _ ⟨_, _, _, _, _, _, _, _, _, _, _, _, _, rfl⟩ (h0 _)
          · simp only [Except.ok.injEq] at hpush
            subst hpush
            exact h0 _
        exact ih _ _ _ _ _ h h1

theorem newDataLedgerLoop_keeps (P : SchedState → Prop)
    (haux : ∀ s s1, DlAuxFrame s s1 → P s → P s1)
    (rnti lcActives harqProcess nLayer : Nat) (tbs : List Nat) :
    ∀ (fuel idx : Nat) (s s1 : SchedState) (acc acc1 : List (List RlcPduListElement_s)),
      newDataLedgerLoop rnti lcActives harqProcess nLayer tbs fuel idx s acc = .ok (s1, acc1) →
      P s → P s1 := by
  intro fuel
  induction fuel with
  | zero =>
    intro idx s s1 acc acc1 h hP
    simp only [newDataLedgerLoop, Except.ok.injEq, Prod.mk.injEq] at h
    obtain ⟨rfl, _⟩ := h
    exact hP
  | succ fuel ih =>
    intro idx s s1 acc acc1 h hP
    simp only [newDataLedgerLoop] at h
    split at h
    · simp only [Except.ok.injEq, Prod.mk.injEq] at h
      obtain ⟨rfl, _⟩ := h
      exact hP
    · split at h
      · split at h
        · cases h
        · rename_i s2 pdus hlay
          have c := newDataLcLayers_keeps P haux _ _ _ _ _ _ _ _ _ _ _ hlay hP
          split at h
          · simp only [Except.ok.injEq, Prod.mk.injEq] at h
            obtain ⟨rfl, _⟩ := h
            exact c
          · exact ih _ _ _ _ _ h c
      · split at h
        · simp only [Except.ok.injEq, Prod.mk.injEq] at h
          obtain ⟨rfl, _⟩ := h
          exact hP
        · exact ih _ _ _ _ _ h hP

theorem newDataStoreDci_keeps (P : SchedState → Prop)
    (haux : ∀ s s1, DlAuxFrame s s1 → P s → P s1)
    (htimer : ∀ (s : SchedState) rnti tm i,
      s.m_dlHarqProcessesTimer.find rnti = some tm → i < tm.length → P s →
      P { s with m_dlHarqProcessesTimer :=
            s.m_dlHarqProcessesTimer.assign rnti (tm.set i 0) })
    (s s1 : SchedState) (newDci : DlDciListElement_s)
    (h : newDataStoreDci s newDci = .ok s1) (hP : P s) : P s1 := by
  simp only [newDataStoreDci] at h
  split at h
  · cases h
  · split at h
    · cases h
    · split at h
      · cases h
      · rename_i tm htm
        split at h
        · cases h
        · rename_i tm1 hset
          simp only [Except.ok.injEq] at h
          subst h
          rw [vecSet_eq_ok] at hset
          obtain ⟨hil, rfl⟩ := hset
          exact haux _ _ ⟨_, _, _, _, _, _, _, _, _, _, _, _, _, rfl⟩
            (htimer s newDci.m_rnti tm newDci.m_harqProcess htm hil hP)

theorem newDataGrant_keeps (P : SchedState → Prop)
    (haux : ∀ s s1, DlAuxFrame s s1 → P s → P s1)
    (hstatus : ∀ (s : SchedState) rnti stat i v,
      s.m_dlHarqProcessesStatus.find rnti = some stat → i < stat.length → P s →
      P { s with m_dlHarqProcessesStatus :=
            s.m_dlHarqProcessesStatus.assign rnti (stat.set i v) })
    (htimer : ∀ (s : SchedState) rnti tm i,
      s.m_dlHarqProcessesTimer.find rnti = some tm → i < tm.length → P s →
      P { s with m_dlHarqProcessesTimer :=
            s.m_dlHarqProcessesTimer.assign rnti (tm.set i 0) })
    (env : Env) (rbgSize rnti : Nat) (tempMap : List Nat)
    (s s1 : SchedState) (el : BuildDataListElement_s)
    (h : newDataGrant env rbgSize rnti tempMap s = .ok (s1, el)) (hP : P s) : P s1 := by
  simp only [newDataGrant] at h
  split at h
  · cases h
  · rename_i hp s2 hupd
    have h1 := updateHarqProcessId_keeps P haux hstatus s s2 rnti hp hupd hP
    split at h
    · cases h
    · split at h
      · cases h
      · rename_i s3 pdus hloop
        have h2 := newDataLedgerLoop_keeps P haux _ _ _ _ _ _ _ _ _ _ _ hloop h1
        split at h
        · cases h
        · rename_i s4 hstore
          simp only [Except.ok.injEq, Prod.mk.injEq] at h
          obtain ⟨rfl, _⟩ := h
          split at hstore
          · exact newDataStoreDci_keeps P haux htimer _ _ _ hstore h2
          · simp only [Except.ok.injEq] at hstore
            subst hstore
            exact h2

/-- A property kept by the HARQ refresh, by the write of one status slot, by
the reset of one timer slot and by the writes outside the status and timer
tables is kept by a downlink pass. -/
theorem doSchedDlTriggerReq_keeps (env : Env) (P : SchedState → Prop)
    (haux : ∀ s s1, DlAuxFrame s s1 → P s → P s1)
    (hrefresh : ∀ s s1, RefreshHarqProcesses env s = .ok s1 → P s → P s1)
    (hstatus : ∀ (s : SchedState) rnti stat i v,
      s.m_dlHarqProcessesStatus.find rnti = some stat → i < stat.length → P s →
      P { s with m_dlHarqProcessesStatus :=
            s.m_dlHarqProcessesStatus.assign rnti (stat.set i v) })
    (htimer : ∀ (s : SchedState) rnti tm i,
      s.m_dlHarqProcessesTimer.find rnti = some tm → i < tm.length → P s →
      P { s with m_dlHarqProcessesTimer :=
            s.m_dlHarqProcessesTimer.assign rnti (tm.set i 0) })
    (s s2 : SchedState) (dlInfoList : List DlInfoListElement_s)
    (out : Option SchedDlConfigIndParameters)
    (h : DoSchedDlTriggerReq env s dlInfoList = .ok (s2, out)) (hP : P s) : P s2 := by
  obtain ⟨s1, l, rar, rbgSize, rbgNum, hfb, hrest⟩ := doSchedDlTriggerReq_parts _ _ _ _ _ h
  obtain ⟨s0, sr, sh, sf, hcqi, _, _, _, hrach, hharq, hloop, hs1⟩ :=
    dlPassFeedback_parts _ _ _ _ _ _ _ _ hfb
  obtain ⟨t10, r10, t30, r30, rfl⟩ := refreshDlCqiMaps_eq _ _ hcqi
  obtain ⟨map, dcis, rfl⟩ := rachLoop_writes _ _ _ _ _ _ _ hrach
  have p1 : P sh := by
    refine hrefresh _ _ hharq (haux s _ ?_ hP)
    exact ⟨_, _, _, _, _, _, _, _, _, _, _, _, _, rfl⟩
  have p2 : P sf := by
    refine dlHarqFeedbackLoop_keeps P haux hstatus htimer _ _ _ _ _ _ hloop (haux sh _ ?_ p1)
    exact ⟨_, _, _, _, _, _, _, _, _, _, _, _, _, rfl⟩
  have p3 : P s1 := by
    rw [hs1]
    refine haux sf _ ?_ p2
    exact ⟨_, _, _, _, _, _, _, _, _, _, _, _, _, rfl⟩
  rcases hrest with ⟨_, rfl, _⟩ | ⟨_, dataList, hnew, _⟩
  · exact p3
  · rcases dlPassNewData_shape env s1 s2 l rbgSize rbgNum dataList hnew with
      ⟨rfl, _⟩ | ⟨u, _, tempMap, el, _, _, _, hgrant, _⟩
    · exact p3
    · exact newDataGrant_keeps P haux hstatus htimer _ _ _ _ _ _ _ hgrant p3

/-! ## The downlink HARQ timers -/

theorem tickHarqTimer_le (env : Env) (t : Nat) (h : t ≤ env.HARQ_DL_TIMEOUT) :
    tickHarqTimer env t ≤ env.HARQ_DL_TIMEOUT := by
  unfold tickHarqTimer
  split
  · exact Nat.zero_le _
  · have : (t + 1) % 256 ≤ t + 1 := Nat.mod_le _ _
    omega

/-- The slot loop of the HARQ refresh on tables that hold the slots
`i, ..., i + n - 1`: it returns, every timer of these slots is ticked, and the
status of those whose timer was at the timeout is set to 0. -/
theorem refreshHarqSlots_spec (env : Env) (rnti : Nat) :
    ∀ (n i : Nat) (tm : List Nat) (status : RMap (List Nat)) (stat : List Nat),
      status.find rnti = some stat → i + n ≤ tm.length → i + n ≤ stat.length →
      ∃ tm1 status1 stat1, refreshHarqSlots env rnti n i tm status = .ok (tm1, status1) ∧
        status1.find rnti = some stat1 ∧ (∀ u, u ≠ rnti → status1.find u = status.find u) ∧
        tm1.length = tm.length ∧ stat1.length = stat.length ∧
        (∀ j, tm1[j]? = if i ≤ j ∧ j < i + n then (tm[j]?).map (tickHarqTimer env)
                        else tm[j]?) ∧
        (∀ j, stat1[j]? = if i ≤ j ∧ j < i + n ∧ tm[j]? = some env.HARQ_DL_TIMEOUT
                          then some 0 else stat[j]?) := by
  intro n
  induction n with
  | zero =>
    intro i tm status stat hs _ _
    refine ⟨tm, status, stat, rfl, hs, fun u _ => rfl, rfl, rfl, fun j => ?_, fun j => ?_⟩
    · rw [if_neg (by omega)]
    · rw [if_neg (by omega)]
  | succ n ih =>
    intro i tm status stat hs htm hst
    have hi : i < tm.length := by omega
    have hget : tm[i]? = some tm[i] := List.getElem?_eq_getElem hi
    simp only [refreshHarqSlots, vecAt, hget]
    by_cases ht : tm[i] = env.HARQ_DL_TIMEOUT
    · have hsl : i < stat.length := by omega
      simp only [ht, if_true, hs, vecSet, hsl, hi]
      obtain ⟨tm1, status1, stat1, e, h1, h2, h3, h4, h5, h6⟩ :=
        ih (i + 1) (tm.set i 0) (status.assign rnti (stat.set i 0)) (stat.set i 0)
          (RMap.find_assign_self _ _ _ _ hs) (by simp only [List.length_set]; omega)
          (by simp only [List.length_set]; omega)
      refine ⟨tm1, status1, stat1, e, h1, fun u hu => ?_, ?_, ?_, fun j => ?_, fun j => ?_⟩
      · rw [h2 u hu, RMap.find_assign_ne _ _ _ _ hu]
      · rw [h3, List.length_set]
      · rw [h4, List.length_set]
      · rw [h5 j, List.getElem?_set]
        by_cases hj : i = j
        · subst hj
          rw [if_neg (by omega), if_pos rfl, if_pos hi, if_pos (by omega), hget]
          simp [tickHarqTimer, ht]
        · rw [if_neg hj]
          by_cases hr : i + 1 ≤ j ∧ j < i + 1 + n
          · rw [if_pos hr, if_pos (by omega)]
          · rw [if_neg hr, if_neg (by omega)]
      · rw [h6 j, List.getElem?_set, List.getElem?_set]
        by_cases hj : i = j
        · subst hj
          have hT : tm[i]? = some env.HARQ_DL_TIMEOUT := by rw [hget, ht]
          rw [if_neg (by omega), if_pos rfl, if_pos hsl, if_pos ⟨by omega, by omega, hT⟩]
        · simp only [if_neg hj]
          by_cases hr : i + 1 ≤ j ∧ j < i + 1 + n ∧ tm[j]? = some env.HARQ_DL_TIMEOUT
          · rw [if_pos hr, if_pos ⟨by omega, by omega, hr.2.2⟩]
          · rw [if_neg hr, if_neg]
            intro hc
            exact hr ⟨by omega, by omega, hc.2.2⟩
    · simp only [ht, if_false, vecSet, hi, if_true]
      obtain ⟨tm1, status1, stat1, e, h1, h2, h3, h4, h5, h6⟩ :=
        ih (i + 1) (tm.set i ((tm[i] + 1) % 256)) status stat hs
          (by simp only [List.length_set]; omega) (by omega)
      refine ⟨tm1, status1, stat1, e, h1, h2, ?_, h4, fun j => ?_, fun j => ?_⟩
      · rw [h3, List.length_set]
      · rw [h5 j, List.getElem?_set]
        by_cases hj : i = j
        · subst hj
          rw [if_neg (by omega), if_pos rfl, if_pos hi, if_pos (by omega), hget]
          simp [tickHarqTimer, ht]
        · rw [if_neg hj]
          by_cases hr : i + 1 ≤ j ∧ j < i + 1 + n
          · rw [if_pos hr, if_pos (by omega)]
          · rw [if_neg hr, if_neg (by omega)]
      · rw [h6 j, List.getElem?_set]
        by_cases hj : i = j
        · subst hj
          rw [if_neg (by omega), if_neg]
          intro hc
          rw [hget] at hc
          simp only [Option.some.injEq] at hc
          exact ht hc.2.2
        · simp only [if_neg hj]
          by_cases hr : i + 1 ≤ j ∧ j < i + 1 + n ∧ tm[j]? = some env.HARQ_DL_TIMEOUT
          · rw [if_pos hr, if_pos ⟨by omega, by omega, hr.2.2⟩]
          · rw [if_neg hr, if_neg]
            intro hc
            exact hr ⟨by omega, by omega, hc.2.2⟩

theorem statusSlot_cons (k : Nat) (v : List Nat) (m : RMap (List Nat)) (u j : Nat) :
    statusSlot ((k, v) :: m) u j = if k = u then v[j]? else statusSlot m u j := by
  unfold statusSlot
  simp only [RMap.find]
  split <;> rfl

/-- The user loop of the HARQ refresh on well-formed tables: it returns, every
timer is ticked, and the status of the processes whose timer was at the timeout
is set to 0. -/
theorem refreshHarqUsers_spec (env : Env) :
    ∀ (timers status : RMap (List Nat)),
      (timers.map Prod.fst).Nodup →
      (∀ kv, kv ∈ timers → kv.2.length = HARQ_PROC_NUM ∧
        (∀ x, x ∈ kv.2 → x ≤ env.HARQ_DL_TIMEOUT) ∧ (status.find kv.1).isSome = true) →
      (∀ u stat, status.find u = some stat → stat.length = HARQ_PROC_NUM) →
      ∃ timers1 status1, refreshHarqUsers env timers status = .ok (timers1, status1) ∧
        timers1.map Prod.fst = timers.map Prod.fst ∧
        (∀ kv, kv ∈ timers1 → kv.2.length = HARQ_PROC_NUM ∧
          ∀ x, x ∈ kv.2 → x ≤ env.HARQ_DL_TIMEOUT) ∧
        (∀ u, (status1.find u).isSome = (status.find u).isSome) ∧
        (∀ u stat, status1.find u = some stat → stat.length = HARQ_PROC_NUM) ∧
        (∀ u j, statusSlot timers1 u j = (statusSlot timers u j).map (tickHarqTimer env)) ∧
        (∀ u j, statusSlot status1 u j =
          if statusSlot timers u j = some env.HARQ_DL_TIMEOUT then some 0
          else statusSlot status u j) := by
  intro timers
  induction timers with
  | nil =>
    intro status _ _ hlen
    refine ⟨[], status, rfl, rfl, fun kv hkv => (by cases hkv), fun u => rfl, hlen,
      fun u j => rfl, fun u j => ?_⟩
    have : statusSlot ([] : RMap (List Nat)) u j = none := rfl
    rw [this, if_neg (by simp)]
  | cons kv rest ih =>
    obtain ⟨rnti, tm⟩ := kv
    intro status hnd hent hlen
    simp only [List.map_cons, List.nodup_cons] at hnd
    obtain ⟨hnot, hndr⟩ := hnd
    obtain ⟨htl, htb, hsome⟩ := hent (rnti, tm) (List.mem_cons_self _ _)
    obtain ⟨stat, hstat⟩ := Option.isSome_iff_exists.mp hsome
    simp only at hstat
    have hsl := hlen rnti stat hstat
    simp only at htl htb
    obtain ⟨tm1, status2, stat1, eA, a1, a2, a3, a4, a5, a6⟩ :=
      refreshHarqSlots_spec env rnti HARQ_PROC_NUM 0 tm status stat hstat
        (by omega) (by omega)
    have hne : ∀ kv, kv ∈ rest → kv.1 ≠ rnti := by
      intro kv hkv he
      apply hnot
      rw [← he]
      exact List.mem_map_of_mem _ hkv
    obtain ⟨rest1, status3, eB, b1, b2, b3, b4, b5, b6⟩ := ih status2 hndr
      (fun kv hkv => by
        obtain ⟨c1, c2, c3⟩ := hent kv (List.mem_cons_of_mem _ hkv)
        refine ⟨c1, c2, ?_⟩
        rw [a2 _ (hne kv hkv)]
        exact c3)
      (fun u st hu => by
        by_cases hur : u = rnti
        · subst hur
          rw [a1] at hu
          simp only [Option.some.injEq] at hu
          subst hu
          rw [a4]; exact hsl
        · rw [a2 u hur] at hu
          exact hlen u st hu)
    refine ⟨(rnti, tm1) :: rest1, status3, ?_, ?_, ?_, ?_, b4, ?_, ?_⟩
    · simp only [refreshHarqUsers, eA, eB]
    · simp only [List.map_cons, b1]
    · intro kv hkv
      simp only [List.mem_cons] at hkv
      rcases hkv with rfl | hkv
      · refine ⟨by simp only; rw [a3]; exact htl, fun x hx => ?_⟩
        simp only at hx
        obtain ⟨j, hj⟩ := List.mem_iff_getElem?.mp hx
        rw [a5 j] at hj
        split at hj
        · cases htj : tm[j]? with
          | none => rw [htj] at hj; cases hj
          | some t =>
            rw [htj] at hj
            simp only [Option.map_some', Option.some.injEq] at hj
            subst hj
            exact tickHarqTimer_le env t (htb t (List.mem_iff_getElem?.mpr ⟨j, htj⟩))
        · exact htb x (List.mem_iff_getElem?.mpr ⟨j, hj⟩)
      · exact b2 kv hkv
    · intro u
      rw [b3 u]
      by_cases hur : u = rnti
      · subst hur
        rw [a1, hstat]
        rfl
      · rw [a2 u hur]
    · intro u j
      rw [statusSlot_cons, statusSlot_cons]
      by_cases hur : rnti = u
      · simp only [hur, if_true]
        rw [a5 j]
        by_cases hj : j < HARQ_PROC_NUM
        · rw [if_pos ⟨Nat.zero_le _, by omega⟩]
        · rw [if_neg (by omega), List.getElem?_eq_none (by omega)]
          rfl
      · simp only [hur, if_false]
        exact b5 u j
    · intro u j
      rw [b6 u j, statusSlot_cons]
      by_cases hur : rnti = u
      · subst hur
        have hrn : statusSlot rest rnti j = none := by
          unfold statusSlot
          rw [RMap.find_eq_none_of_not_mem rest rnti hnot]
          rfl
        rw [hrn, if_neg (by simp), if_pos rfl]
        have h2 : statusSlot status2 rnti j = stat1[j]? := by
          unfold statusSlot; rw [a1]; rfl
        have h0 : statusSlot status rnti j = stat[j]? := by
          unfold statusSlot; rw [hstat]; rfl
        rw [h2, h0, a6 j]
        by_cases hT : tm[j]? = some env.HARQ_DL_TIMEOUT
        · have hj : j < tm.length := by
            by_contra hc
            rw [List.getElem?_eq_none (by omega)] at hT
            cases hT
          rw [if_pos ⟨Nat.zero_le _, by omega, hT⟩, if_pos hT]
        · rw [if_neg (fun hc => hT hc.2.2), if_neg hT]
      · rw [if_neg hur]
        have h2 : statusSlot status2 u j = statusSlot status u j := by
          unfold statusSlot
          rw [a2 u (fun e => hur e.symm)]
        rw [h2]

theorem RMap.mem_assign_key {α : Type} (m : RMap α) (k : Nat) (x : α) (kv : Nat × α)
    (h : kv ∈ m.assign k x) : kv ∈ m ∨ kv = (k, x) := by
  induction m with
  | nil => simp [RMap.assign] at h
  | cons kv1 m ih =>
    obtain ⟨k1, v1⟩ := kv1
    by_cases hk : k1 = k
    · simp only [RMap.assign, hk, if_true, List.mem_cons] at h
      rcases h with h | h
      · exact Or.inr h
      · exact Or.inl (List.mem_cons_of_mem _ h)
    · simp only [RMap.assign, hk, if_false, List.mem_cons] at h
      rcases h with h | h
      · exact Or.inl (by rw [h]; exact List.mem_cons_self _ _)
      · rcases ih h with h2 | h2
        · exact Or.inl (List.mem_cons_of_mem _ h2)
        · exact Or.inr h2

theorem RMap.mem_erase_key {α : Type} (m : RMap α) (k : Nat) (kv : Nat × α)
    (h : kv ∈ m.erase k) : kv ∈ m ∧ kv.1 ≠ k := by
  induction m with
  | nil => simp [RMap.erase] at h
  | cons kv1 m ih =>
    obtain ⟨k1, v1⟩ := kv1
    by_cases hk : k1 = k
    · simp only [RMap.erase, hk, if_true] at h
      exact ⟨List.mem_cons_of_mem _ (ih h).1, (ih h).2⟩
    · simp only [RMap.erase, hk, if_false, List.mem_cons] at h
      rcases h with h | h
      · rw [h]; exact ⟨List.mem_cons_self _ _, hk⟩
      · exact ⟨List.mem_cons_of_mem _ (ih h).1, (ih h).2⟩

theorem RMap.keys_erase {α : Type} (m : RMap α) (k : Nat) :
    ((m.erase k).map Prod.fst).Sublist (m.map Prod.fst) := by
  induction m with
  | nil => exact List.Sublist.refl _
  | cons kv1 m ih =>
    obtain ⟨k1, v1⟩ := kv1
    by_cases hk : k1 = k
    · simp only [RMap.erase, hk, if_true, List.map_cons]
      exact List.Sublist.cons _ ih
    · simp only [RMap.erase, hk, if_false, List.map_cons]
      exact List.Sublist.cons₂ _ ih

/-- On a well-formed timer table `RefreshHarqProcesses` returns, keeps the table
well formed, ticks every timer and frees the processes whose timer was at
`HARQ_DL_TIMEOUT`, and no other. -/
theorem refreshHarqProcesses_step (env : Env) (s : SchedState) (h : DlHarqTimersOk env s) :
    ∃ s1, RefreshHarqProcesses env s = .ok s1 ∧ DlHarqTimersOk env s1 ∧
      (∀ u j, dlTimerSlot s1 u j = (dlTimerSlot s u j).map (tickHarqTimer env)) ∧
      (∀ u j, dlSlot s1 u j =
        if dlTimerSlot s u j = some env.HARQ_DL_TIMEOUT then some 0 else dlSlot s u j) := by
  obtain ⟨hnd, hent, hlen⟩ := h
  obtain ⟨timers1, status1, e, b1, b2, b3, b4, b5, b6⟩ :=
    refreshHarqUsers_spec env _ _ hnd hent hlen
  refine ⟨{ s with m_dlHarqProcessesTimer := timers1, m_dlHarqProcessesStatus := status1 },
    ?_, ⟨?_, ?_, b4⟩, b5, b6⟩
  · simp only [RefreshHarqProcesses, e]
  · show (timers1.map Prod.fst).Nodup
    rw [b1]; exact hnd
  · intro kv hkv
    refine ⟨(b2 kv hkv).1, (b2 kv hkv).2, ?_⟩
    show (status1.find kv.1).isSome = true
    rw [b3]
    have hk : kv.1 ∈ s.m_dlHarqProcessesTimer.map Prod.fst := by
      rw [← b1]; exact List.mem_map_of_mem _ hkv
    obtain ⟨kv0, hkv0, he⟩ := List.mem_map.mp hk
    rw [← he]
    exact (hent kv0 hkv0).2.2

theorem dlHarqTimersOk_status (env : Env) (s : SchedState) (rnti : Nat) (stat : List Nat)
    (i v : Nat) (hs : s.m_dlHarqProcessesStatus.find rnti = some stat)
    (h : DlHarqTimersOk env s) :
    DlHarqTimersOk env { s with m_dlHarqProcessesStatus :=
      s.m_dlHarqProcessesStatus.assign rnti (stat.set i v) } := by
  obtain ⟨hnd, hent, hlen⟩ := h
  refine ⟨hnd, fun kv hkv => ⟨(hent kv hkv).1, (hent kv hkv).2.1, ?_⟩, fun u st hu => ?_⟩
  · show ((s.m_dlHarqProcessesStatus.assign _ _).find kv.1).isSome = true
    rw [RMap.find_assign_isSome]
    exact (hent kv hkv).2.2
  · have hu2 : (s.m_dlHarqProcessesStatus.assign rnti (stat.set i v)).find u = some st := hu
    by_cases hur : u = rnti
    · subst hur
      rw [RMap.find_assign_self _ _ _ _ hs] at hu2
      simp only [Option.some.injEq] at hu2
      subst hu2
      rw [List.length_set]
      exact hlen u stat hs
    · rw [RMap.find_assign_ne _ _ _ _ hur] at hu2
      exact hlen u st hu2

theorem dlHarqTimersOk_timer (env : Env) (s : SchedState) (rnti : Nat) (tm : List Nat)
    (i : Nat) (hs : s.m_dlHarqProcessesTimer.find rnti = some tm)
    (h : DlHarqTimersOk env s) :
    DlHarqTimersOk env { s with m_dlHarqProcessesTimer :=
      s.m_dlHarqProcessesTimer.assign rnti (tm.set i 0) } := by
  obtain ⟨hnd, hent, hlen⟩ := h
  refine ⟨?_, fun kv hkv => ?_, hlen⟩
  · show ((s.m_dlHarqProcessesTimer.assign _ _).map Prod.fst).Nodup
    rw [RMap.keys_assign]; exact hnd
  · rcases RMap.mem_assign_key _ _ _ _ hkv with h1 | h1
    · exact hent kv h1
    · have h0 := hent _ (RMap.mem_of_find _ _ _ hs)
      rw [h1]
      refine ⟨by simp only [List.length_set]; exact h0.1, fun x hx => ?_, h0.2.2⟩
      rcases List.mem_or_eq_of_mem_set hx with hx | hx
      · exact h0.2.1 x hx
      · rw [hx]; exact Nat.zero_le _

/-- Every request keeps the timer table of the downlink HARQ processes well
formed. -/
theorem handle_dlHarqTimersOk (env : Env) (s : SchedState) (r : Request) (s1 : SchedState)
    (ind : Indication) (hI : DlHarqTimersOk env s)
    (h : handle env s r = .ok (s1, ind)) : DlHarqTimersOk env s1 := by
  rcases handle_step_cases env s r s1 ind h with rfl | ⟨_, _, rfl⟩ | ⟨rnti, _, rfl⟩ |
    ⟨_, _, rfl⟩ | ⟨_, _, rfl⟩ | ⟨rnti, rfl⟩ | ⟨_, rfl⟩ | ⟨_, rfl⟩ | ⟨_, hq⟩ | ⟨_, _, hq⟩ |
    ⟨_, _, hq⟩ | ⟨_, hq⟩ | ⟨_, hq⟩
  · exact hI
  · exact hI
  · obtain ⟨hnd, hent, hlen⟩ := hI
    simp only [DoCschedUeConfigReq]
    split
    · have hstat : ∀ u st, (s.m_dlHarqProcessesStatus.insert rnti (List.replicate 8 0)).find u
          = some st → st.length = HARQ_PROC_NUM := by
        intro u st hu
        cases hf : s.m_dlHarqProcessesStatus.find rnti with
        | some st0 =>
          have : s.m_dlHarqProcessesStatus.insert rnti (List.replicate 8 0)
              = s.m_dlHarqProcessesStatus := by
            unfold RMap.insert; rw [hf]
          rw [this] at hu
          exact hlen u st hu
        | none =>
          rw [RMap.find_insert_of_none _ _ _ _ hf] at hu
          split at hu
          · simp only [Option.some.injEq] at hu
            subst hu
            rfl
          · exact hlen u st hu
      have hsome : ((s.m_dlHarqProcessesStatus.insert rnti (List.replicate 8 0)).find
          rnti).isSome = true := by
        cases hf : s.m_dlHarqProcessesStatus.find rnti with
        | some st0 => rw [RMap.find_insert_of_some _ _ _ _ _ hf]; rfl
        | none => rw [RMap.find_insert_of_none _ _ _ _ hf, if_pos rfl]; rfl
      refine ⟨RMap.nodup_insert _ _ _ hnd, fun kv hkv => ?_, hstat⟩
      rcases RMap.mem_insert _ _ _ _ hkv with h1 | h1
      · refine ⟨(hent kv h1).1, (hent kv h1).2.1, ?_⟩
        obtain ⟨st, hst⟩ := Option.isSome_iff_exists.mp (hent kv h1).2.2
        show ((s.m_dlHarqProcessesStatus.insert _ _).find kv.1).isSome = true
        rw [RMap.find_insert_of_some _ _ _ _ _ hst]; rfl
      · rw [h1]
        refine ⟨rfl, fun x hx => ?_, hsome⟩
        simp only [List.mem_replicate] at hx
        omega
    · exact ⟨hnd, hent, hlen⟩
  · simp only [DoCschedLcConfigReq]
    split
    · exact hI
    · split
      · exact hI
      · exact hI
  · exact hI
  · obtain ⟨hnd, hent, hlen⟩ := hI
    refine ⟨(RMap.keys_erase _ _).nodup hnd, fun kv hkv => ?_, fun u st hu => ?_⟩
    · obtain ⟨h1, h2⟩ := RMap.mem_erase_key _ _ _ hkv
      refine ⟨(hent kv h1).1, (hent kv h1).2.1, ?_⟩
      show ((s.m_dlHarqProcessesStatus.erase rnti).find kv.1).isSome = true
      rw [RMap.find_erase_ne _ _ _ h2]
      exact (hent kv h1).2.2
    · have hu2 : (s.m_dlHarqProcessesStatus.erase rnti).find u = some st := hu
      by_cases hur : u = rnti
      · subst hur
        rw [RMap.find_erase_self] at hu2
        cases hu2
      · rw [RMap.find_erase_ne _ _ _ hur] at hu2
        exact hlen u st hu2
  · exact hI
  · exact hI
  · obtain ⟨_, _, _, _, rfl⟩ := doSchedDlCqiInfoReq_frame _ _ _ hq
    exact hI
  · refine doSchedDlTriggerReq_keeps env (DlHarqTimersOk env) ?_ ?_ ?_ ?_ _ _ _ _ hq hI
    · rintro s s1 ⟨_, _, _, _, _, _, _, _, _, _, _, _, _, rfl⟩ hP
      exact hP
    · intro s s1 hr hP
      obtain ⟨s2, e, hok, _, _⟩ := refreshHarqProcesses_step env s hP
      rw [hr] at e
      simp only [Except.ok.injEq] at e
      rw [e]; exact hok
    · intro s rnti stat i v hs _ hP
      exact dlHarqTimersOk_status env s rnti stat i v hs hP
    · intro s rnti tm i hs _ hP
      exact dlHarqTimersOk_timer env s rnti tm i hs hP
  · obtain ⟨_, _, _, _, _, _, rfl⟩ := doSchedUlTriggerReq_frame _ _ _ _ _ hq
    exact hI
  · obtain ⟨_, rfl⟩ := doSchedUlMacCtrlInfoReq_frame _ _ _ _ hq
    exact hI
  · obtain ⟨_, _, _, rfl⟩ := doSchedUlCqiInfoReq_frame env _ _ _ hq
    exact hI

/-- A process whose timer is at `t0` keeps its status through `k` refresh calls
when `t0 + k` does not exceed the timeout; its timer is then at `t0 + k`. -/
theorem harq_timer_counts_up (env : Env) (hT : env.HARQ_DL_TIMEOUT < 256) (u i st : Nat) :
    ∀ (k : Nat) (s : SchedState) (t0 : Nat), DlHarqTimersOk env s →
      dlTimerSlot s u i = some t0 → t0 + k ≤ env.HARQ_DL_TIMEOUT → dlSlot s u i = some st →
      ∃ sk, Res.iterate (RefreshHarqProcesses env) k s = .ok sk ∧ DlHarqTimersOk env sk ∧
        dlTimerSlot sk u i = some (t0 + k) ∧ dlSlot sk u i = some st := by
  intro k
  induction k with
  | zero =>
    intro s t0 hok ht _ hs
    exact ⟨s, rfl, hok, ht, hs⟩
  | succ k ih =>
    intro s t0 hok ht hle hs
    obtain ⟨s1, e, hok1, h1, h2⟩ := refreshHarqProcesses_step env s hok
    have hne : t0 ≠ env.HARQ_DL_TIMEOUT := by omega
    have ht1 : dlTimerSlot s1 u i = some (t0 + 1) := by
      rw [h1 u i, ht]
      simp only [Option.map_some', tickHarqTimer, hne, if_false, Option.some.injEq]
      exact Nat.mod_eq_of_lt (by omega)
    have hs1 : dlSlot s1 u i = some st := by
      rw [h2 u i, ht, if_neg]
      · exact hs
      · intro hc
        simp only [Option.some.injEq] at hc
        exact hne hc
    obtain ⟨sk, e2, hok2, h3, h4⟩ := ih s1 (t0 + 1) hok1 ht1 (by omega) hs1
    refine ⟨sk, ?_, hok2, ?_, h4⟩
    · simp only [Res.iterate, e]
      exact e2
    · rw [h3]
      congr 1
      omega

/-- A process whose timer is at `t0` is free, with its timer reset, after
`HARQ_DL_TIMEOUT - t0 + 1` refresh calls. -/
theorem harq_process_freed (env : Env) (hT : env.HARQ_DL_TIMEOUT < 256) (u i : Nat) :
    ∀ (k : Nat) (s : SchedState) (t0 : Nat), DlHarqTimersOk env s →
      dlTimerSlot s u i = some t0 → t0 + k = env.HARQ_DL_TIMEOUT →
      ∃ sT, Res.iterate (RefreshHarqProcesses env) (k + 1) s = .ok sT ∧
        dlSlot sT u i = some 0 ∧ dlTimerSlot sT u i = some 0 := by
  intro k
  induction k with
  | zero =>
    intro s t0 hok ht he
    obtain ⟨s1, e, hok1, h1, h2⟩ := refreshHarqProcesses_step env s hok
    have htT : dlTimerSlot s u i = some env.HARQ_DL_TIMEOUT := by
      rw [ht]; congr 1
    refine ⟨s1, ?_, ?_, ?_⟩
    · simp only [Res.iterate, e]
    · rw [h2 u i, if_pos htT]
    · rw [h1 u i, htT]
      simp [tickHarqTimer]
  | succ k ih =>
    intro s t0 hok ht he
    obtain ⟨s1, e, hok1, h1, h2⟩ := refreshHarqProcesses_step env s hok
    have hne : t0 ≠ env.HARQ_DL_TIMEOUT := by omega
    have ht1 : dlTimerSlot s1 u i = some (t0 + 1) := by
      rw [h1 u i, ht]
      simp only [Option.map_some', tickHarqTimer, hne, if_false, Option.some.injEq]
      exact Nat.mod_eq_of_lt (by omega)
    obtain ⟨sT, e2, h3, h4⟩ := ih s1 (t0 + 1) hok1 ht1 (by omega)
    refine ⟨sT, ?_, h3, h4⟩
    rw [Res.iterate]
    simp only [e]
    exact e2

theorem updateHarqProcessId_reserves (s s1 : SchedState) (rnti i : Nat)
    (hon : s.m_harqOn = true) (h : UpdateHarqProcessId s rnti = .ok (i, s1)) :
    dlSlot s1 rnti i = some 1 ∧ s1.m_harqOn = true ∧
    s1.m_dlHarqProcessesTimer = s.m_dlHarqProcessesTimer := by
  simp only [UpdateHarqProcessId] at h
  split at h
  · rename_i hc
    rw [hon] at hc
    cases hc
  · split at h
    · cases h
    · split at h
      · cases h
      · rename_i stat hs
        split at h
        · cases h
        · rename_i slot _
          split at h
          · cases h
          · split at h
            · split at h
              · cases h
              · rename_i stat1 hset
                simp only [Except.ok.injEq, Prod.mk.injEq] at h
                obtain ⟨rfl, rfl⟩ := h
                rw [vecSet_eq_ok] at hset
                obtain ⟨hil, rfl⟩ := hset
                refine ⟨?_, hon, rfl⟩
                have := statusSlot_assign_set s.m_dlHarqProcessesStatus rnti slot 1 stat hs hil
                  rnti slot
                simp only [dlSlot]
                rw [this, if_pos ⟨rfl, rfl⟩]
            · cases h

theorem newDataLcLayers_timer (rnti lcid lcActives harqProcess : Nat) (tbs : List Nat)
    (n j : Nat) (s s1 : SchedState) (acc acc1 : List RlcPduListElement_s)
    (h : newDataLcLayers rnti lcid lcActives harqProcess tbs n j s acc = .ok (s1, acc1)) :
    s1.m_dlHarqProcessesTimer = s.m_dlHarqProcessesTimer :=
  newDataLcLayers_keeps
    (fun x => x.m_dlHarqProcessesTimer = s.m_dlHarqProcessesTimer)
    (by
      rintro a b ⟨_, _, _, _, _, _, _, _, _, _, _, _, _, rfl⟩ hP
      exact hP) _ _ _ _ _ _ _ _ _ _ _ h rfl

theorem newDataLedgerLoop_timer (rnti lcActives harqProcess nLayer : Nat) (tbs : List Nat)
    (fuel idx : Nat) (s s1 : SchedState) (acc acc1 : List (List RlcPduListElement_s))
    (h : newDataLedgerLoop rnti lcActives harqProcess nLayer tbs fuel idx s acc
      = .ok (s1, acc1)) :
    s1.m_dlHarqProcessesTimer = s.m_dlHarqProcessesTimer :=
  newDataLedgerLoop_keeps
    (fun x => x.m_dlHarqProcessesTimer = s.m_dlHarqProcessesTimer)
    (by
      rintro a b ⟨_, _, _, _, _, _, _, _, _, _, _, _, _, rfl⟩ hP
      exact hP) _ _ _ _ _ _ _ _ _ _ _ h rfl

/-- With HARQ on, a new-data grant leaves the process it reserves busy (status
1) with its timer at 0. -/
theorem newDataGrant_reserves (env : Env) (rbgSize rnti : Nat) (tempMap : List Nat)
    (s s1 : SchedState) (el : BuildDataListElement_s) (hon : s.m_harqOn = true)
    (h : newDataGrant env rbgSize rnti tempMap s = .ok (s1, el)) :
    dlSlot s1 rnti el.m_dci.m_harqProcess = some 1 ∧
    dlTimerSlot s1 rnti el.m_dci.m_harqProcess = some 0 := by
  simp only [newDataGrant] at h
  split at h
  · cases h
  · rename_i hp s2 hupd
    obtain ⟨u1, u2, _⟩ := updateHarqProcessId_reserves s s2 rnti hp hon hupd
    split at h
    · cases h
    · split at h
      · cases h
      · rename_i s3 pdus hloop
        obtain ⟨l1, l2⟩ := newDataLedgerLoop_status _ _ _ _ _ _ _ _ _ _ _ hloop
        have hon3 : s3.m_harqOn = true := by rw [l2]; exact u2
        simp only [hon3, if_true] at h
        split at h
        · cases h
        · rename_i s4 hstore
          simp only [Except.ok.injEq, Prod.mk.injEq] at h
          obtain ⟨rfl, rfl⟩ := h
          have hst := newDataStoreDci_status _ _ _ hstore
          refine ⟨?_, ?_⟩
          · simp only [dlSlot] at u1 ⊢
            rw [hst, l1]
            exact u1
          · simp only [newDataStoreDci] at hstore
            split at hstore
            · cases hstore
            · split at hstore
              · cases hstore
              · split at hstore
                · cases hstore
                · rename_i tm htm
                  split at hstore
                  · cases hstore
                  · rename_i tm1 hset
                    simp only [Except.ok.injEq] at hstore
                    subst hstore
                    rw [vecSet_eq_ok] at hset
                    obtain ⟨hil, rfl⟩ := hset
                    have := statusSlot_assign_set s3.m_dlHarqProcessesTimer rnti hp 0 tm htm hil
                      rnti hp
                    simp only [dlTimerSlot]
                    rw [this, if_pos ⟨rfl, rfl⟩]

/-- C37: in every state reached from the scheduler right after construction by
requests that return, every downlink HARQ timer is between 0 and
`HARQ_DL_TIMEOUT`; with HARQ on, a new-data grant leaves the process it reserves
busy with its timer at 0; and a busy process with its timer at 0 that receives no
feedback (only `RefreshHarqProcesses` runs) is still busy, with its timer at
`k`, after each of the first `k ≤ HARQ_DL_TIMEOUT` calls and is free after call
number `HARQ_DL_TIMEOUT + 1`. The timers are `uint8_t`, so the timeout is
below 256. -/
theorem dl_harq_timers_stay_within_timeout (env : Env) (harqOn : Bool)
    (cqiTimersThreshold ulGrantMcs : Nat) (filter : UlCqiFilter_t) (reqs : List Request)
    (s : SchedState) (inds : List Indication) (hT : env.HARQ_DL_TIMEOUT < 256)
    (hrun : run env reqs (SchedState.init harqOn cqiTimersThreshold ulGrantMcs filter)
      = .ok (s, inds)) :
    (∀ u tm, s.m_dlHarqProcessesTimer.find u = some tm →
      ∀ x, x ∈ tm → 0 ≤ x ∧ x ≤ env.HARQ_DL_TIMEOUT) ∧
    (∀ rbgSize rnti tempMap s1 el, s.m_harqOn = true →
      newDataGrant env rbgSize rnti tempMap s = .ok (s1, el) →
      dlSlot s1 rnti el.m_dci.m_harqProcess = some 1 ∧
      dlTimerSlot s1 rnti el.m_dci.m_harqProcess = some 0) ∧
    (∀ u i st, dlTimerSlot s u i = some 0 → dlSlot s u i = some st → st ≠ 0 →
      (∀ k, k ≤ env.HARQ_DL_TIMEOUT →
        ∃ sk, Res.iterate (RefreshHarqProcesses env) k s = .ok sk ∧
          dlSlot sk u i = some st ∧ dlTimerSlot sk u i = some k) ∧
      (∃ sT, Res.iterate (RefreshHarqProcesses env) (env.HARQ_DL_TIMEOUT + 1) s = .ok sT ∧
        dlSlot sT u i = some 0)) := by
  have h0 : DlHarqTimersOk env
      (SchedState.init harqOn cqiTimersThreshold ulGrantMcs filter) :=
    ⟨List.nodup_nil, fun kv hkv => (by cases hkv), fun u stat hu => (by cases hu)⟩
  have hI : DlHarqTimersOk env s :=
    run_invariant env (DlHarqTimersOk env)
      (fun s r s1 ind hI h => handle_dlHarqTimersOk env s r s1 ind hI h) reqs _ _ _ h0 hrun
  refine ⟨fun u tm hf x hx => ?_, fun rbgSize rnti tempMap s1 el hon hg =>
    newDataGrant_reserves env rbgSize rnti tempMap s s1 el hon hg,
    fun u i st ht hs _ => ⟨fun k hk => ?_, ?_⟩⟩
  · exact ⟨Nat.zero_le x, (hI.2.1 _ (RMap.mem_of_find _ _ _ hf)).2.1 x hx⟩
  · obtain ⟨sk, e, _, h3, h4⟩ := harq_timer_counts_up env hT u i st k s 0 hI ht (by omega) hs
    refine ⟨sk, e, h4, ?_⟩
    rw [h3, Nat.zero_add]
  · obtain ⟨sT, e, h3, _⟩ :=
      harq_process_freed env hT u i env.HARQ_DL_TIMEOUT s 0 hI ht (by omega)
    exact ⟨sT, e, h3⟩

/-- Witness of C37 at the scheduler after `grantedRequests` (timeout 11):
process 1 of user 1 is busy with its timer at 0; after 11 refresh calls it is
still busy with its timer at 11, after 12 it is free. -/
theorem dl_harq_timers_stay_within_timeout_witness :
    run exampleEnv grantedRequests exampleInit
      = .ok (grantedState, (Res.getD (run exampleEnv grantedRequests exampleInit)
          (exampleInit, [])).2) ∧
    grantedState.m_dlHarqProcessesTimer = [(1, [1, 0, 1, 1, 1, 1, 1, 1])] ∧
    grantedState.m_dlHarqProcessesStatus = [(1, [0, 1, 0, 0, 0, 0, 0, 0])] ∧
    (Res.iterate (RefreshHarqProcesses exampleEnv) 11 grantedState).map
      (fun s => (dlSlot s 1 1, dlTimerSlot s 1 1)) = .ok (some 1, some 11) ∧
    (Res.iterate (RefreshHarqProcesses exampleEnv) 12 grantedState).map
      (fun s => (dlSlot s 1 1, dlTimerSlot s 1 1)) = .ok (some 0, some 0) ∧
    ((∀ u tm, grantedState.m_dlHarqProcessesTimer.find u = some tm →
       ∀ x, x ∈ tm → 0 ≤ x ∧ x ≤ exampleEnv.HARQ_DL_TIMEOUT) ∧
     (∀ rbgSize rnti tempMap s1 el, grantedState.m_harqOn = true →
       newDataGrant exampleEnv rbgSize rnti tempMap grantedState = .ok (s1, el) →
       dlSlot s1 rnti el.m_dci.m_harqProcess = some 1 ∧
       dlTimerSlot s1 rnti el.m_dci.m_harqProcess = some 0) ∧
     (∀ u i st, dlTimerSlot grantedState u i = some 0 → dlSlot grantedState u i = some st →
       st ≠ 0 →
       (∀ k, k ≤ exampleEnv.HARQ_DL_TIMEOUT →
         ∃ sk, Res.iterate (RefreshHarqProcesses exampleEnv) k grantedState = .ok sk ∧
           dlSlot sk u i = some st ∧ dlTimerSlot sk u i = some k) ∧
       (∃ sT, Res.iterate (RefreshHarqProcesses exampleEnv)
           (exampleEnv.HARQ_DL_TIMEOUT + 1) grantedState = .ok sT ∧
         dlSlot sT u i = some 0))) :=
  ⟨rfl, rfl, rfl, rfl, rfl,
   dl_harq_timers_stay_within_timeout exampleEnv true 1000 0 UlCqiFilter_t.SRS_UL_CQI
     grantedRequests grantedState
     (Res.getD (run exampleEnv grantedRequests exampleInit) (exampleInit, [])).2
     (by decide) rfl⟩

/-! ## What an uplink pass writes for which user -/

theorem ulUserEntriesEq_refl (u : Nat) (s : SchedState) : UlUserEntriesEq u s s :=
  ⟨rfl, rfl, rfl⟩

theorem ulUserEntriesEq_trans {u : Nat} {s s1 s2 : SchedState}
    (h1 : UlUserEntriesEq u s s1) (h2 : UlUserEntriesEq u s1 s2) : UlUserEntriesEq u s s2 :=
  ⟨h2.1.trans h1.1, h2.2.1.trans h1.2.1, h2.2.2.trans h1.2.2⟩

/-- A feedback entry either leaves the scheduler and the locals as they are or
places a retransmission: it pushes one descriptor and writes the count table
and the descriptor buffer of the reporting user. -/
theorem ulHarqFeedbackEntry_user (env : Env) (e : UlInfoListElement_s) (s s1 : SchedState)
    (l l1 : UlLocals) (h : ulHarqFeedbackEntry env e s l = .ok (s1, l1)) :
    (s1 = s ∧ l1 = l) ∨
    (l1.dciList.length = l.dciList.length + 1 ∧
      ∃ stat dcis, s1 = { s with
        m_ulHarqProcessesStatus := s.m_ulHarqProcessesStatus.assign e.m_rnti stat,
        m_ulHarqProcessesDciBuffer := s.m_ulHarqProcessesDciBuffer.assign e.m_rnti dcis }) := by
  have hsame : ∀ {a : SchedState} {b : UlLocals},
      (Except.ok (s, l) : Res (SchedState × UlLocals)) = .ok (a, b) →
      (a = s ∧ b = l) ∨
      (b.dciList.length = l.dciList.length + 1 ∧
        ∃ stat dcis, a = { s with
          m_ulHarqProcessesStatus := s.m_ulHarqProcessesStatus.assign e.m_rnti stat,
          m_ulHarqProcessesDciBuffer :=
            s.m_ulHarqProcessesDciBuffer.assign e.m_rnti dcis }) := by
    intro a b he
    simp only [Except.ok.injEq, Prod.mk.injEq] at he
    exact Or.inl ⟨he.1.symm, he.2.symm⟩
  simp only [ulHarqFeedbackEntry] at h
  split at h
  · split at h
    · cases h
    · split at h
      · exact hsame h
      · split at h
        · cases h
        · split at h
          · cases h
          · split at h
            · cases h
            · split at h
              · exact hsame h
              · split at h
                · cases h
                · split at h
                  · split at h
                    · cases h
                    · split at h
                      · cases h
                      · split at h
                        · cases h
                        · split at h
                          · cases h
                          · simp only [Except.ok.injEq, Prod.mk.injEq] at h
                            obtain ⟨rfl, rfl⟩ := h
                            refine Or.inr ⟨?_, _, _, rfl⟩
                            simp
                  · exact hsame h
  · exact hsame h

theorem ulHarqFeedbackLoop_user (env : Env) (u : Nat) :
    ∀ (es : List UlInfoListElement_s) (s s1 : SchedState) (l l1 : UlLocals),
      ulHarqFeedbackLoop env es s l = .ok (s1, l1) → u ∉ ulRetxUsers env es s l →
      UlUserEntriesEq u s s1 := by
  intro es
  induction es with
  | nil =>
    intro s s1 l l1 h _
    simp only [ulHarqFeedbackLoop, Except.ok.injEq, Prod.mk.injEq] at h
    obtain ⟨rfl, _⟩ := h
    exact ulUserEntriesEq_refl _ _
  | cons e rest ih =>
    intro s s1 l l1 h hu
    simp only [ulHarqFeedbackLoop] at h
    split at h
    · cases h
    · rename_i s2 l2 hentry
      simp only [ulRetxUsers, hentry, List.mem_append, not_or] at hu
      have h2 := ih _ _ _ _ h hu.2
      refine ulUserEntriesEq_trans ?_ h2
      rcases ulHarqFeedbackEntry_user env e s s2 l l2 hentry with
        ⟨rfl, _⟩ | ⟨hlen, stat, dcis, rfl⟩
      · exact ulUserEntriesEq_refl _ _
      · have hne : u ≠ e.m_rnti := by
          intro he
          apply hu.1
          rw [if_pos (by omega), he]
          exact List.mem_singleton_self _
        exact ⟨rfl, RMap.find_assign_ne _ _ _ _ hne, RMap.find_assign_ne _ _ _ _ hne⟩

theorem ulStoreDci_exact (s s1 : SchedState) (uldci : UlDciListElement_s)
    (h : ulStoreDci s uldci = .ok s1) :
    ∃ cur stat dcis,
      s.m_ulHarqCurrentProcessId.find uldci.m_rnti = some cur ∧
      s.m_ulHarqProcessesStatus.find uldci.m_rnti = some stat ∧
      s.m_ulHarqProcessesDciBuffer.find uldci.m_rnti = some dcis ∧
      s1 = { s with
        m_ulHarqProcessesDciBuffer :=
          s.m_ulHarqProcessesDciBuffer.assign uldci.m_rnti (dcis.set cur uldci),
        m_ulHarqProcessesStatus :=
          s.m_ulHarqProcessesStatus.assign uldci.m_rnti (stat.set cur 0) } := by
  simp only [ulStoreDci] at h
  split at h
  · cases h
  · rename_i cur hid
    split at h
    · cases h
    · rename_i dcis hd
      split at h
      · cases h
      · rename_i dcis1 hd1
        split at h
        · cases h
        · rename_i stat hstat
          split at h
          · cases h
          · rename_i stat1 hs1
            simp only [Except.ok.injEq] at h
            subst h
            rw [vecSet_eq_ok] at hs1 hd1
            obtain ⟨_, rfl⟩ := hs1
            obtain ⟨_, rfl⟩ := hd1
            exact ⟨cur, stat, dcis, hid, hstat, hd, rfl⟩

theorem updateUlRlcBufferInfo_user (s : SchedState) (rnti size u : Nat) (hu : u ≠ rnti) :
    UlUserEntriesEq u s (UpdateUlRlcBufferInfo s rnti size) := by
  simp only [UpdateUlRlcBufferInfo]
  split
  · exact ⟨RMap.find_assign_ne _ _ _ _ hu, rfl, rfl⟩
  · exact ulUserEntriesEq_refl _ _

theorem updateUlRlcBufferInfo_harq (s : SchedState) (rnti size : Nat) :
    (UpdateUlRlcBufferInfo s rnti size).m_ulHarqProcessesStatus = s.m_ulHarqProcessesStatus ∧
    (UpdateUlRlcBufferInfo s rnti size).m_ulHarqProcessesDciBuffer
      = s.m_ulHarqProcessesDciBuffer ∧
    (UpdateUlRlcBufferInfo s rnti size).m_ulHarqCurrentProcessId
      = s.m_ulHarqCurrentProcessId ∧
    (UpdateUlRlcBufferInfo s rnti size).m_harqOn = s.m_harqOn := by
  simp only [UpdateUlRlcBufferInfo]
  split <;> exact ⟨rfl, rfl, rfl, rfl⟩

/-- The body of the descriptor loop for the flow `rnti` leaves the entries of
every other user as they are; with HARQ on it stores the descriptor in the slot
of the current uplink process of the flow and resets the count of that slot. -/
theorem ulDescEntry_user (env : Env) (rnti rbPerFlow rbAllocated : Nat) (s s1 : SchedState)
    (uldci : UlDciListElement_s)
    (h : ulDescEntry env rnti rbPerFlow rbAllocated s = .ok (s1, uldci)) :
    (∀ u, u ≠ rnti → UlUserEntriesEq u s s1) ∧
    (s.m_harqOn = true → ∃ cur stat dcis,
      s.m_ulHarqCurrentProcessId.find rnti = some cur ∧
      s.m_ulHarqProcessesStatus.find rnti = some stat ∧
      s.m_ulHarqProcessesDciBuffer.find rnti = some dcis ∧
      s1.m_ulHarqProcessesStatus.find rnti = some (stat.set cur 0) ∧
      s1.m_ulHarqProcessesDciBuffer.find rnti = some (dcis.set cur uldci)) := by
  have hr := (ulDescEntry_spec _ _ _ _ _ _ _ h).1
  simp only [ulDescEntry] at h
  split at h
  · cases h
  · split at h
    · cases h
    · cases h
    · rename_i s2 mcs tb hlay
      obtain ⟨⟨cqi, rfl⟩, _, _⟩ := ulDescLayers_spec _ _ _ _ _ _ _ _ _ _ _
        (fun m t he => by cases he) hlay
      split at h
      · cases h
      · rename_i s3 hst
        simp only [Except.ok.injEq, Prod.mk.injEq] at h
        obtain ⟨rfl, rfl⟩ := h
        obtain ⟨g1, g2, g3, g4⟩ := updateUlRlcBufferInfo_harq
          { s with m_ueCqi := cqi } rnti tb
        split at hst
        · obtain ⟨cur, stat, dcis, c1, c2, c3, rfl⟩ := ulStoreDci_exact _ _ _ hst
          simp only at c1 c2 c3
          rw [g3] at c1
          rw [g1] at c2
          rw [g2] at c3
          refine ⟨fun u hu => ?_, fun _ => ⟨cur, stat, dcis, c1, c2, c3, ?_, ?_⟩⟩
          · have hb := updateUlRlcBufferInfo_user { s with m_ueCqi := cqi } rnti tb u hu
            refine ⟨hb.1, ?_, ?_⟩
            · show (RMap.assign _ _ _).find u = _
              rw [RMap.find_assign_ne _ _ _ _ hu]
              exact hb.2.1
            · show (RMap.assign _ _ _).find u = _
              rw [RMap.find_assign_ne _ _ _ _ hu]
              exact hb.2.2
          · show (RMap.assign _ _ _).find rnti = _
            rw [g1]
            exact RMap.find_assign_self _ _ _ _ c2
          · show (RMap.assign _ _ _).find rnti = _
            rw [g2]
            exact RMap.find_assign_self _ _ _ _ c3
        · rename_i hoff
          simp only [Except.ok.injEq] at hst
          subst hst
          refine ⟨fun u hu =>
            updateUlRlcBufferInfo_user { s with m_ueCqi := cqi } rnti tb u hu, fun hon => ?_⟩
          rw [g4] at hoff
          exact absurd hon hoff

/-- The descriptor loop over entries of distinct flows leaves the entries of
the users outside them as they are; with HARQ on, each flow gets the descriptor
built for it stored in the slot of its current uplink process, with the count of
that slot reset. -/
theorem ulDescLoop_user (env : Env) :
    ∀ (entries : List (Nat × Nat)) (rbAllocated : Nat) (s s1 : SchedState)
      (dciList out : List UlDciListElement_s),
      (entries.map Prod.fst).Nodup →
      ulDescLoop env entries rbAllocated s dciList = .ok (s1, out) →
      (∀ u, u ∉ entries.map Prod.fst → UlUserEntriesEq u s s1) ∧
      (s.m_harqOn = true → ∀ v, v ∈ entries.map Prod.fst → ∃ cur stat dcis d,
        s.m_ulHarqCurrentProcessId.find v = some cur ∧
        s.m_ulHarqProcessesStatus.find v = some stat ∧
        s.m_ulHarqProcessesDciBuffer.find v = some dcis ∧
        d ∈ out ∧ d.m_rnti = v ∧ d.m_ndi = 1 ∧
        s1.m_ulHarqProcessesStatus.find v = some (stat.set cur 0) ∧
        s1.m_ulHarqProcessesDciBuffer.find v = some (dcis.set cur d)) := by
  intro entries
  induction entries with
  | nil =>
    intro rbAllocated s s1 dciList out _ h
    simp only [ulDescLoop, Except.ok.injEq, Prod.mk.injEq] at h
    obtain ⟨rfl, _⟩ := h
    exact ⟨fun u _ => ulUserEntriesEq_refl _ _, fun _ v hv => by cases hv⟩
  | cons entry rest ih =>
    intro rbAllocated s s1 dciList out hnd h
    obtain ⟨rnti, n⟩ := entry
    simp only [List.map_cons, List.nodup_cons] at hnd
    obtain ⟨hnot, hndr⟩ := hnd
    simp only [ulDescLoop] at h
    split at h
    · cases h
    · rename_i s2 uldci hent
      obtain ⟨e1, e2⟩ := ulDescEntry_user _ _ _ _ _ _ _ hent
      obtain ⟨hr, hndi, _⟩ := ulDescEntry_spec _ _ _ _ _ _ _ hent
      obtain ⟨_, _, _, _, _, _, hfr⟩ := ulDescEntry_frame _ _ _ _ _ _ _ hent
      have hcur : s2.m_ulHarqCurrentProcessId = s.m_ulHarqCurrentProcessId := by rw [hfr]
      have hon2 : s2.m_harqOn = s.m_harqOn := by rw [hfr]
      obtain ⟨i1, i2⟩ := ih _ _ _ _ _ hndr h
      obtain ⟨news, hout, _, _⟩ := ulDescLoop_spec _ _ _ _ _ _ _ h
      refine ⟨fun u hu => ?_, fun hon v hv => ?_⟩
      · simp only [List.map_cons, List.mem_cons, not_or] at hu
        exact ulUserEntriesEq_trans (e1 u hu.1) (i1 u hu.2)
      · simp only [List.map_cons, List.mem_cons] at hv
        rcases hv with rfl | hv
        · obtain ⟨cur, stat, dcis, c1, c2, c3, c4, c5⟩ := e2 hon
          have hsame := i1 v hnot
          refine ⟨cur, stat, dcis, uldci, c1, c2, c3, ?_, hr, hndi, ?_, ?_⟩
          · rw [hout]; simp
          · rw [hsame.2.1]; exact c4
          · rw [hsame.2.2]; exact c5
        · have hne : v ≠ rnti := by
            intro he
            rw [he] at hv
            exact hnot hv
          obtain ⟨cur, stat, dcis, d, c1, c2, c3, c4, c5, c6, c7, c8⟩ :=
            i2 (by rw [hon2]; exact hon) v hv
          have hsame := e1 v hne
          refine ⟨cur, stat, dcis, d, ?_, ?_, ?_, c4, c5, c6, c7, c8⟩
          · rw [← hcur]; exact c1
          · rw [← hsame.2.1]; exact c2
          · rw [← hsame.2.2]; exact c3

theorem ulAllocationMap_keys (flows : List Nat) (rbgAllocationMap : List Nat) :
    (ulAllocationMap flows rbgAllocationMap).map Prod.fst = flows := by
  simp only [ulAllocationMap, List.map_map]
  conv_rhs => rw [← List.map_id flows]
  apply List.map_congr_left
  intro a _
  rfl

/-- The first part of an uplink pass leaves the entries of every user without
a placed retransmission as they are. -/
theorem ulPassSelect_user (env : Env) (s s1 : SchedState)
    (ulInfoList : List UlInfoListElement_s) (l : UlLocals) (itMax : Option Nat)
    (h : ulPassSelect env s ulInfoList = .ok (s1, l, itMax)) (u : Nat)
    (hu : u ∉ ulPassRetxUsers env s ulInfoList) : UlUserEntriesEq u s s1 := by
  obtain ⟨s0, rbMap, sf, lf, M, h0, hmark, hfb, hsel, _⟩ := ulPassSelect_parts _ _ _ _ _ _ h
  simp only [ulPassRetxUsers, h0, hmark] at hu
  have f0 : UlUserEntriesEq u s s0 := by
    simp only [RefreshUlCqiMaps] at h0
    split at h0
    · cases h0
    · simp only [Except.ok.injEq] at h0
      subst h0
      exact ulUserEntriesEq_refl _ _
  have f1 : UlUserEntriesEq u s0 sf := by
    split at hfb
    · rename_i hon
      rw [if_pos hon] at hu
      have hl := ulHarqFeedbackLoop_user env u _ _ _ _ _ hfb hu
      exact ⟨hl.1, hl.2.1, hl.2.2⟩
    · simp only [Except.ok.injEq, Prod.mk.injEq] at hfb
      obtain ⟨rfl, _⟩ := hfb
      exact ⟨rfl, rfl, rfl⟩
  have f2 : UlUserEntriesEq u sf s1 := by
    obtain ⟨cqi, rfl⟩ := (ulSelectLoop_frame _ _ _ _ _ _ _ _ _ hsel).1
    exact ⟨rfl, rfl, rfl⟩
  exact ulUserEntriesEq_trans (ulUserEntriesEq_trans f0 f1) f2

/-- C32, as the code has it: an uplink pass that completes, from a scheduler
whose flow set has no repeated user, leaves the buffer-status entry, the
retransmission counts and the stored descriptors of a user as they are when no
retransmission was placed for the user and the user is outside the uplink flow
set, or the pass selects no user. When the pass selects a user and HARQ is on,
every user of the flow set for which no retransmission was placed, selected or
not, gets the descriptor built for it in this pass (NDI 1) stored in the slot of
its current uplink process and the count of that slot reset to 0; its other
slots keep their counts and descriptors. -/
theorem ul_pass_writes_harq_tables_of_every_flow (env : Env) (s s1 : SchedState)
    (ulInfoList : List UlInfoListElement_s) (out : Option (List UlDciListElement_s))
    (hnd : s.m_flowStatsUl.Nodup)
    (h : DoSchedUlTriggerReq env s ulInfoList = .ok (s1, out)) :
    (∀ u, u ∉ ulPassRetxUsers env s ulInfoList → u ∉ s.m_flowStatsUl ∨ out = none →
      s1.m_ceBsrRxed.find u = s.m_ceBsrRxed.find u ∧
      s1.m_ulHarqProcessesStatus.find u = s.m_ulHarqProcessesStatus.find u ∧
      s1.m_ulHarqProcessesDciBuffer.find u = s.m_ulHarqProcessesDciBuffer.find u) ∧
    (s.m_harqOn = true → ∀ dciList, out = some dciList →
      ∀ v, v ∈ s.m_flowStatsUl → v ∉ ulPassRetxUsers env s ulInfoList →
      ∃ cur stat dcis d,
        s.m_ulHarqCurrentProcessId.find v = some cur ∧
        s.m_ulHarqProcessesStatus.find v = some stat ∧
        s.m_ulHarqProcessesDciBuffer.find v = some dcis ∧
        d ∈ dciList ∧ d.m_rnti = v ∧ d.m_ndi = 1 ∧
        s1.m_ulHarqProcessesStatus.find v = some (stat.set cur 0) ∧
        s1.m_ulHarqProcessesDciBuffer.find v = some (dcis.set cur d)) := by
  simp only [DoSchedUlTriggerReq] at h
  split at h
  · cases h
  · rename_i sa la hsel
    simp only [Except.ok.injEq, Prod.mk.injEq] at h
    obtain ⟨rfl, rfl⟩ := h
    exact ⟨fun u hu _ => ulPassSelect_user env s _ ulInfoList la none hsel u hu,
      fun _ dciList hd => by cases hd⟩
  · rename_i sa la rntiMax hsel
    obtain ⟨_, _, _, _, _, _, hfr⟩ := ulPassSelect_frame _ _ _ _ _ _ hsel
    have hflows : sa.m_flowStatsUl = s.m_flowStatsUl := by rw [hfr]
    have hcur : sa.m_ulHarqCurrentProcessId = s.m_ulHarqCurrentProcessId := by rw [hfr]
    have hon : sa.m_harqOn = s.m_harqOn := by rw [hfr]
    split at h
    · cases h
    · rename_i l1 _
      split at h
      · cases h
      · rename_i sb dl hloop
        simp only [Except.ok.injEq, Prod.mk.injEq] at h
        obtain ⟨rfl, rfl⟩ := h
        have hkeys := ulAllocationMap_keys sa.m_flowStatsUl l1.rbgAllocationMap
        obtain ⟨d1, d2⟩ := ulDescLoop_user env _ _ _ _ _ _
          (by rw [hkeys, hflows]; exact hnd) hloop
        rw [hkeys, hflows] at d1 d2
        refine ⟨fun u hu hc => ?_, fun hs dciList hd v hv hu => ?_⟩
        · rcases hc with hc | hc
          · exact ulUserEntriesEq_trans (ulPassSelect_user env s sa ulInfoList la _ hsel u hu)
              (d1 u hc)
          · cases hc
        · simp only [Option.some.injEq] at hd
          subst hd
          obtain ⟨cur, stat, dcis, d, c1, c2, c3, c4, c5, c6, c7, c8⟩ :=
            d2 (by rw [hon]; exact hs) v hv
          have hsame := ulPassSelect_user env s sa ulInfoList la _ hsel v hu
          refine ⟨cur, stat, dcis, d, ?_, ?_, ?_, c4, c5, c6, c7, c8⟩
          · rw [← hcur]; exact c1
          · rw [← hsame.2.1]; exact c2
          · rw [← hsame.2.2]; exact c3

/-- C32, the claim fails on the code: in `twoUlBsrState` (flows 1 and 2, buffer
status 100 of user 2, no reception report) the pass selects user 1 and places
no retransmission, yet the buffer-status entry of user 2 goes from 100 to 0 and
slot 0 of its descriptor buffer, empty before, holds the zero-length descriptor
built for it. -/
theorem ul_pass_writes_entries_of_unselected_user :
    (ulPassSelect exampleEnv twoUlBsrState []).map (fun r => r.2.2) = .ok (some 1) ∧
    ulPassRetxUsers exampleEnv twoUlBsrState [] = [] ∧
    DoSchedUlTriggerReq exampleEnv twoUlBsrState [] = .ok twoUlBsrOutcome ∧
    twoUlBsrState.m_ceBsrRxed.find 2 = some 100 ∧
    twoUlBsrOutcome.1.m_ceBsrRxed.find 2 = some 0 ∧
    (twoUlBsrState.m_ulHarqProcessesDciBuffer.find 2).bind (fun dcis => dcis[0]?)
      = some UlDciListElement_s.empty ∧
    (twoUlBsrOutcome.1.m_ulHarqProcessesDciBuffer.find 2).bind (fun dcis => dcis[0]?)
      = some { m_rnti := 2, m_rbStart := 5, m_rbLen := 0, m_tbSize := 0, m_mcs := 0,
               m_ndi := 1 } :=
  ⟨rfl, rfl, rfl, rfl, rfl, rfl, rfl⟩

/-- Witness of C32 (as amended): the uplink pass without reception reports in
`twoUlBsrState`, whose flow set is `[1, 2]`. -/
theorem ul_pass_writes_harq_tables_of_every_flow_witness :
    twoUlBsrState.m_flowStatsUl = [1, 2] ∧
    DoSchedUlTriggerReq exampleEnv twoUlBsrState [] = .ok twoUlBsrOutcome ∧
    ((∀ u, u ∉ ulPassRetxUsers exampleEnv twoUlBsrState [] →
       u ∉ twoUlBsrState.m_flowStatsUl ∨ twoUlBsrOutcome.2 = none →
       twoUlBsrOutcome.1.m_ceBsrRxed.find u = twoUlBsrState.m_ceBsrRxed.find u ∧
       twoUlBsrOutcome.1.m_ulHarqProcessesStatus.find u
         = twoUlBsrState.m_ulHarqProcessesStatus.find u ∧
       twoUlBsrOutcome.1.m_ulHarqProcessesDciBuffer.find u
         = twoUlBsrState.m_ulHarqProcessesDciBuffer.find u) ∧
     (twoUlBsrState.m_harqOn = true → ∀ dciList, twoUlBsrOutcome.2 = some dciList →
       ∀ v, v ∈ twoUlBsrState.m_flowStatsUl → v ∉ ulPassRetxUsers exampleEnv twoUlBsrState [] →
       ∃ cur stat dcis d,
         twoUlBsrState.m_ulHarqCurrentProcessId.find v = some cur ∧
         twoUlBsrState.m_ulHarqProcessesStatus.find v = some stat ∧
         twoUlBsrState.m_ulHarqProcessesDciBuffer.find v = some dcis ∧
         d ∈ dciList ∧ d.m_rnti = v ∧ d.m_ndi = 1 ∧
         twoUlBsrOutcome.1.m_ulHarqProcessesStatus.find v = some (stat.set cur 0) ∧
         twoUlBsrOutcome.1.m_ulHarqProcessesDciBuffer.find v = some (dcis.set cur d))) :=
  ⟨rfl, rfl,
   ul_pass_writes_harq_tables_of_every_flow exampleEnv twoUlBsrState twoUlBsrOutcome.1 []
     twoUlBsrOutcome.2 (by decide) rfl⟩

/-! ## A stored wideband CQI of 0 and the age of the sample -/

/-- C11, the claim fails on the code: in `expiredCqiState` the stored wideband
CQI of user 1 is 0 and that of user 2 is 10, both users have pending data and a
free HARQ process, and both age counters are 0. The CQI refresh at the start of
the next pass erases both samples, the selection treats both users with the
default CQI 1 and picks user 1, the first of the two: the one new-data
descriptor of the pass is addressed to user 1, on all 6 RBGs with MCS 0. -/
theorem dl_cqi_zero_user_with_expired_sample_gets_grant :
    expiredCqiState.m_p10CqiRxed = [(1, 0), (2, 10)] ∧
    expiredCqiState.m_p10CqiTimers = [(1, 0), (2, 0)] ∧
    expiredCqiState.m_rlcBufferReq.map (fun kv => (kv.1.m_rnti, kv.2.m_rlcTransmissionQueueSize))
      = [(1, 10), (2, 750)] ∧
    (HarqProcessAvailability expiredCqiState 1, HarqProcessAvailability expiredCqiState 2)
      = (.ok true, .ok true) ∧
    (DoSchedDlTriggerReq exampleEnv expiredCqiState []).map
        (fun r => r.2.map (fun ind => ind.m_buildDataList.map
          (fun el => (el.m_rnti, decodeRbgBitmap el.m_dci.m_rbBitmap, el.m_dci.m_mcs,
            el.m_dci.m_ndi))))
      = .ok (some [(1, [0, 1, 2, 3, 4, 5], [0], [1])]) :=
  ⟨rfl, rfl, rfl, rfl, rfl⟩

/-- C11: in every downlink pass of a running scheduler that hands over a batch,
the data descriptors are those of the feedback part of the pass
(retransmissions), followed by at most one new-data descriptor; the new-data
descriptor is never addressed to a user whose stored wideband CQI is 0 when the
pass is called, provided the sample has not expired: its age counter is not 0,
so the CQI refresh at the start of the pass keeps the sample. -/
theorem dl_unexpired_cqi_zero_user_gets_no_new_data (env : Env) (harqOn : Bool)
    (cqiTimersThreshold ulGrantMcs : Nat) (filter : UlCqiFilter_t) (reqs : List Request)
    (s s2 : SchedState) (inds : List Indication)
    (dlInfoList : List DlInfoListElement_s) (ind : SchedDlConfigIndParameters) (u : Nat)
    (hrun : run env reqs (SchedState.init harqOn cqiTimersThreshold ulGrantMcs filter)
      = .ok (s, inds))
    (hcqi : s.m_p10CqiRxed.find u = some 0)
    (hage : s.m_p10CqiTimers.find u ≠ some 0)
    (h : DoSchedDlTriggerReq env s dlInfoList = .ok (s2, some ind)) :
    ∃ s1 l rar rbgSize rbgNum,
      dlPassFeedback env s dlInfoList = .ok (s1, l, rar, rbgSize, rbgNum) ∧
      (ind.m_buildDataList = l.buildDataList ∨
       ∃ el, ind.m_buildDataList = l.buildDataList ++ [el] ∧ el.m_rnti ≠ u) := by
  have hI : CqiStoresConsistent s :=
    run_invariant env CqiStoresConsistent
      (fun s r s1 ind hI h => handle_consistent env s r s1 ind hI h) reqs _ _ _
      ⟨rfl, cqiMapsConsistent_nil, cqiMapsConsistent_nil, cqiMapsConsistent_nil⟩ hrun
  obtain ⟨s0, hr, _, ⟨_, hrx⟩, _⟩ := refreshDlCqiMaps_step s ⟨hI.2.1, hI.2.2.1⟩
  have hcqi0 : s0.m_p10CqiRxed.find u = some 0 := by
    rw [hrx u, if_neg hage, hcqi]
  exact dlPass_refreshed_cqi_zero_not_granted env s s0 s2 dlInfoList ind u hr hcqi0 h

/-- Witness of C11: in `cqiZeroState` user 1 (CQI 0) and user 2 (CQI 10) both
have pending data and a free HARQ process and both age counters are 1000; the
pass without feedback hands over one data descriptor, addressed to user 2. -/
theorem dl_unexpired_cqi_zero_user_gets_no_new_data_witness :
    cqiZeroState.m_p10CqiRxed = [(1, 0), (2, 10)] ∧
    cqiZeroState.m_p10CqiTimers = [(1, 1000), (2, 1000)] ∧
    cqiZeroOutcome.2.map (fun ind => ind.m_buildDataList.map (fun el => el.m_rnti)) = some [2] ∧
    ∃ s1 l rar rbgSize rbgNum,
      dlPassFeedback exampleEnv cqiZeroState [] = .ok (s1, l, rar, rbgSize, rbgNum) ∧
      ((cqiZeroOutcome.2.getD ⟨[], []⟩).m_buildDataList = l.buildDataList ∨
       ∃ el, (cqiZeroOutcome.2.getD ⟨[], []⟩).m_buildDataList = l.buildDataList ++ [el] ∧
         el.m_rnti ≠ 1) :=
  ⟨rfl, rfl, rfl,
   dl_unexpired_cqi_zero_user_gets_no_new_data exampleEnv true 1000 0 UlCqiFilter_t.SRS_UL_CQI
     cqiZeroRequests cqiZeroState cqiZeroOutcome.1
     (Res.getD (run exampleEnv cqiZeroRequests exampleInit) (exampleInit, [])).2
     [] (cqiZeroOutcome.2.getD ⟨[], []⟩) 1 rfl rfl (by decide) rfl⟩

/-! ## The descriptors of an uplink pass for the flows without retransmission -/

/-- The body of the uplink selection loop selects its flow only when the flow
was not served by a retransmission. -/
theorem ulSelectStep_unserved (env : Env) (rntiAllocated : List Nat) (rnti : Nat)
    (s s1 : SchedState) (itMax it1 : Option Nat) (M M1 : Nat)
    (h : ulSelectStep env rntiAllocated rnti s itMax M = .ok (s1, it1, M1)) :
    it1 = itMax ∨ (it1 = some rnti ∧ rnti ∉ rntiAllocated) := by
  by_cases hm : rnti ∈ rntiAllocated
  · simp only [ulSelectStep, hm, if_true] at h
    split at h
    · cases h
    · simp only [Except.ok.injEq, Prod.mk.injEq] at h
      exact Or.inl h.2.1.symm
  · rcases (ulSelectStep_frame _ _ _ _ _ _ _ _ _ h).2 with h1 | h1
    · exact Or.inl h1
    · exact Or.inr ⟨h1, hm⟩

theorem ulSelectLoop_unserved (env : Env) (rntiAllocated : List Nat) :
    ∀ (flows : List Nat) (s s1 : SchedState) (itMax it1 : Option Nat) (M M1 : Nat),
      ulSelectLoop env rntiAllocated flows s itMax M = .ok (s1, it1, M1) →
      it1 = itMax ∨ ∃ r, r ∈ flows ∧ r ∉ rntiAllocated ∧ it1 = some r := by
  intro flows
  induction flows with
  | nil =>
    intro s s1 itMax it1 M M1 h
    simp only [ulSelectLoop, Except.ok.injEq, Prod.mk.injEq] at h
    exact Or.inl h.2.1.symm
  | cons rnti rest ih =>
    intro s s1 itMax it1 M M1 h
    simp only [ulSelectLoop] at h
    split at h
    · cases h
    · rename_i s2 it2 M2 hstep
      rcases ih _ _ _ _ _ _ h with h4 | ⟨r, hr, hn, h4⟩
      · rcases ulSelectStep_unserved _ _ _ _ _ _ _ _ _ hstep with h5 | ⟨h5, hn⟩
        · exact Or.inl (h4.trans h5)
        · exact Or.inr ⟨rnti, List.mem_cons_self _ _, hn, h4.trans h5⟩
      · exact Or.inr ⟨r, List.mem_cons_of_mem _ hr, hn, h4⟩

/-- The user selected by the first part of the uplink pass was not served by a
retransmission in the pass. -/
theorem ulPassSelect_unserved (env : Env) (s s1 : SchedState)
    (ulInfoList : List UlInfoListElement_s) (l : UlLocals) (rntiMax : Nat)
    (h : ulPassSelect env s ulInfoList = .ok (s1, l, some rntiMax)) :
    rntiMax ∉ l.rntiAllocated := by
  simp only [ulPassSelect] at h
  split at h
  · cases h
  · split at h
    · cases h
    · split at h
      · cases h
      · rename_i sb lb hfb
        split at h
        · cases h
        · rename_i sc it M hsel
          simp only [Except.ok.injEq, Prod.mk.injEq] at h
          obtain ⟨rfl, rfl, rfl⟩ := h
          rcases ulSelectLoop_unserved _ _ _ _ _ _ _ _ _ hsel with h1 | ⟨r, _, hn, h1⟩
          · cases h1
          · simp only [Option.some.injEq] at h1
            subst h1
            exact hn

/-- C22, as far as the code follows its design: in every uplink pass in which a
new-data user is selected and which completes, the selected user is a flow of
`m_flowStatsUl` that was not served by a retransmission in the pass, the
descriptors of the retransmissions are followed by the descriptors `news` of
the descriptor loop, and among the users not served by a retransmission the
loop emits one descriptor for every flow of `m_flowStatsUl`, in the order of
the set, each with NDI 1; the descriptor of such a flow that was not selected
and holds no block of the allocation map when the selection ends has length 0
and transport-block size 0. Nothing is stated about the length of the
descriptor of the selected user, nor about the descriptors the loop emits for
users served by a retransmission. -/
theorem ul_pass_emits_descriptor_for_every_unserved_flow (env : Env) (s s1 s2 : SchedState)
    (ulInfoList : List UlInfoListElement_s) (l : UlLocals) (rntiMax : Nat)
    (out : Option (List UlDciListElement_s))
    (hsel : ulPassSelect env s ulInfoList = .ok (s1, l, some rntiMax))
    (hpass : DoSchedUlTriggerReq env s ulInfoList = .ok (s2, out)) :
    rntiMax ∈ s1.m_flowStatsUl ∧ rntiMax ∉ l.rntiAllocated ∧
    ∃ news, out = some (l.dciList ++ news) ∧
      (news.map (fun d => d.m_rnti)).filter (fun r => decide (r ∉ l.rntiAllocated)) =
        s1.m_flowStatsUl.filter (fun r => decide (r ∉ l.rntiAllocated)) ∧
      ∀ d, d ∈ news → d.m_rnti ∉ l.rntiAllocated →
        d.m_ndi = 1 ∧
        (d.m_rnti ≠ rntiMax → d.m_rnti ∉ l.rbgAllocationMap →
          d.m_rbLen = 0 ∧ d.m_tbSize = 0) := by
  obtain ⟨hflow, news, hout, hk, hall⟩ :=
    ulPass_descriptors_of_selection env s s1 s2 ulInfoList l rntiMax out hsel hpass
  refine ⟨hflow, ulPassSelect_unserved env s s1 ulInfoList l rntiMax hsel, news, hout, ?_,
    fun d hd _ => ?_⟩
  · rw [hk]
  · obtain ⟨g1, g2, g3⟩ := hall d hd
    refine ⟨g1, fun hne _ => ⟨?_, g3 hne⟩⟩
    rw [g2, if_neg hne]

/-- Witness of C22: the uplink pass in `twoUlFlowsState`, which selects user 1
among the flows 1 and 2; no user is served by a retransmission. -/
theorem ul_pass_emits_descriptor_for_every_unserved_flow_witness :
    ulPassSelect exampleEnv twoUlFlowsState [] = .ok twoUlFlowsSelect ∧
    twoUlFlowsSelect.2.2 = some 1 ∧
    twoUlFlowsSelect.2.1.rntiAllocated = [] ∧
    DoSchedUlTriggerReq exampleEnv twoUlFlowsState [] = .ok twoUlFlowsOutcome ∧
    (1 ∈ twoUlFlowsSelect.1.m_flowStatsUl ∧ 1 ∉ twoUlFlowsSelect.2.1.rntiAllocated ∧
     ∃ news, twoUlFlowsOutcome.2 = some (twoUlFlowsSelect.2.1.dciList ++ news) ∧
      (news.map (fun d => d.m_rnti)).filter
          (fun r => decide (r ∉ twoUlFlowsSelect.2.1.rntiAllocated)) =
        twoUlFlowsSelect.1.m_flowStatsUl.filter
          (fun r => decide (r ∉ twoUlFlowsSelect.2.1.rntiAllocated)) ∧
      ∀ d, d ∈ news → d.m_rnti ∉ twoUlFlowsSelect.2.1.rntiAllocated →
        d.m_ndi = 1 ∧
        (d.m_rnti ≠ 1 → d.m_rnti ∉ twoUlFlowsSelect.2.1.rbgAllocationMap →
          d.m_rbLen = 0 ∧ d.m_tbSize = 0)) :=
  ⟨rfl, rfl, rfl, rfl,
   ul_pass_emits_descriptor_for_every_unserved_flow exampleEnv twoUlFlowsState
     twoUlFlowsSelect.1 twoUlFlowsOutcome.1 [] twoUlFlowsSelect.2.1 1 twoUlFlowsOutcome.2
     rfl rfl⟩

/-! ## Retransmissions in a cell that is configured once -/

theorem freeRbgs_all_free (N : Nat) : freeRbgs (List.replicate N false) = N := by
  simp [freeRbgs, List.filter_replicate]

/-- The first part of a downlink pass is its start followed by the feedback
loop over the merged feedback, from fresh locals. -/
theorem dlPassFeedback_eq_loop (env : Env) (s : SchedState)
    (dlInfoList : List DlInfoListElement_s) :
    dlPassFeedback env s dlInfoList =
      match dlPassLoopStart env s dlInfoList with
      | .error f => .error f
      | .ok (sh, rar, rbgSize, rbgNum) =>
        match dlHarqFeedbackLoop rbgNum sh.m_dlInfoListBuffered sh (freshDlLocals rbgNum) with
        | .error f => .error f
        | .ok (sf, l) =>
          .ok ({ sf with m_dlInfoListBuffered := l.dlInfoListUntxed }, l, rar, rbgSize,
               rbgNum) := by
  simp only [dlPassFeedback, dlPassLoopStart, freshDlLocals]
  split
  · rfl
  · rename_i s1 hq
    by_cases hneg : GetRbgSize (s1.m_dlBandwidth : Int) < 0
    · simp only [hneg, if_true]
    · simp only [hneg, if_false]
      split
      · rfl
      · split
        · rfl
        · rfl

end TdMt
